import Mathlib

/-!
# VirtualC64: disk media, CIA, processor port and interrupt lines

A shallow embedding of the parts of the emulator that the properties below
talk about.  Machine integers are natural numbers; where the source relies on
a fixed width the reduction modulo `2 ^ w` is written out.
-/

namespace VirtualC64

/-! ## Disk media (`Disk.cpp`, `Disk525.h`, `Disk_types.h`) -/

/-- The table `gcr[16]` of `Disk525.h`: maps 4 data bits to 5 GCR bits. -/
def gcr : List Nat :=
  [0x0a, 0x0b, 0x12, 0x13,
   0x0e, 0x0f, 0x16, 0x17,
   0x09, 0x19, 0x1a, 0x1b,
   0x0d, 0x1d, 0x1e, 0x15]

/-- `bin2gcr`: converts a 4 bit binary value to a 5 bit GCR codeword. -/
def bin2gcr (value : Nat) : Nat := gcr.getD value 0

/-- Modelled from the spec: `invgcr[32]` is declared in `Disk525.h` but filled in
a constructor that is not among the sources.  It is the inverse of `gcr`: entry
`c` holds the position of `c` in `gcr`, and 255 where `c` is no codeword.  The
theorems below take the table as a parameter; this instance shows that such a
table exists. -/
def invgcrTable (c : Nat) : Nat :=
  if c ∈ gcr then gcr.indexOf c else 255

/-- `isHalftrackNumber` of `Disk_types.h`. -/
def isHalftrackNumber (nr : Nat) : Bool := 1 ≤ nr && nr ≤ 84

/-- `isTrackNumber` of `Disk_types.h`. -/
def isTrackNumber (nr : Nat) : Bool := 1 ≤ nr && nr ≤ 42

/-- The two unions `data` and `length` of the disk, as flat memory.
`data` is indexed by byte offset into the union (`halftrack[ht][i]` lives at
`7928 + ht * 7928 + i`, `track[t][i]` at `t * 15856 + i`), `length` by
`uint16_t` index (`halftrack[ht]` at `1 + ht`, `track[t][k]` at `2 * t + k`). -/
structure Disk where
  data : Nat → Nat
  length : Nat → Nat

/-- The byte `data.halftrack[ht][i]`. -/
def Disk.halftrackByte (d : Disk) (ht i : Nat) : Nat := d.data (7928 + ht * 7928 + i)

/-- The byte `data.track[t][i]`. -/
def Disk.trackByte (d : Disk) (t i : Nat) : Nat := d.data (t * 15856 + i)

/-- The word `length.halftrack[ht]`. -/
def Disk.lengthOfHalftrack (d : Disk) (ht : Nat) : Nat := d.length (1 + ht)

/-- The word `length.track[t][0]`. -/
def Disk.lengthOfTrack (d : Disk) (t : Nat) : Nat := d.length (2 * t)

/-- `readBitFromTrack(t, offset)`. -/
def readBitFromTrack (d : Disk) (t offset : Nat) : Nat :=
  let offset := offset % d.lengthOfTrack t
  if d.trackByte t (offset / 8) &&& (0x80 >>> (offset % 8)) ≠ 0 then 1 else 0

/-- `writeBitToTrack(t, offset, bit)`. The complement `~(0x80 >> k)` is taken
on the 8 bits of the byte it is stored into. -/
def writeBitToTrack (d : Disk) (t offset : Nat) (bit : Bool) : Disk :=
  let offset := offset % d.lengthOfTrack t
  let idx := t * 15856 + offset / 8
  if bit then
    { d with data := Function.update d.data idx (d.data idx ||| (0x80 >>> (offset % 8))) }
  else
    { d with data := Function.update d.data idx (d.data idx &&& (0xFF ^^^ (0x80 >>> (offset % 8)))) }

/-- `encodeGcr(value, t, offset)`: ten calls of `writeBitToTrack`;
`value` is a `uint8_t`. -/
def encodeGcr (d : Disk) (value t offset : Nat) : Disk :=
  let value := value % 256
  let nibble1 := bin2gcr (value >>> 4)
  let nibble2 := bin2gcr (value &&& 0xF)
  let d := writeBitToTrack d t offset (nibble1 &&& 0x10 != 0)
  let d := writeBitToTrack d t (offset + 1) (nibble1 &&& 0x08 != 0)
  let d := writeBitToTrack d t (offset + 2) (nibble1 &&& 0x04 != 0)
  let d := writeBitToTrack d t (offset + 3) (nibble1 &&& 0x02 != 0)
  let d := writeBitToTrack d t (offset + 4) (nibble1 &&& 0x01 != 0)
  let d := writeBitToTrack d t (offset + 5) (nibble2 &&& 0x10 != 0)
  let d := writeBitToTrack d t (offset + 6) (nibble2 &&& 0x08 != 0)
  let d := writeBitToTrack d t (offset + 7) (nibble2 &&& 0x04 != 0)
  let d := writeBitToTrack d t (offset + 8) (nibble2 &&& 0x02 != 0)
  writeBitToTrack d t (offset + 9) (nibble2 &&& 0x01 != 0)

/-- `decodeGcrNibble(gcr)`: the argument is the array behind the pointer; the
codeword is a `uint5_t`, stored in 8 bits. -/
def decodeGcrNibble (invgcr : Nat → Nat) (g : Nat → Nat) : Nat :=
  let codeword := ((g 0 <<< 4) ||| (g 1 <<< 3) ||| (g 2 <<< 2) ||| (g 3 <<< 1) ||| g 4) % 256
  invgcr codeword

/-- `decodeGcr(gcr)`. -/
def decodeGcr (invgcr : Nat → Nat) (g : Nat → Nat) : Nat :=
  let nibble1 := decodeGcrNibble invgcr g
  let nibble2 := decodeGcrNibble invgcr (fun i => g (i + 5))
  ((nibble1 <<< 4) ||| nibble2) % 256

/-- `clearHalftrack(ht)`: fills the 7928 bytes of the halftrack with 0x55 and
sets its length to `7928 * 8` bits. -/
def clearHalftrack (d : Disk) (ht : Nat) : Disk :=
  { data := fun j => if 7928 + ht * 7928 ≤ j ∧ j < 7928 + ht * 7928 + 7928 then 0x55 else d.data j
    length := Function.update d.length (1 + ht) (7928 * 8) }

/-- `clearDisk()`: clears the halftracks 1 to 84 (the two flags
`writeProtected` and `modified` are not part of this model). -/
def clearDisk (d : Disk) : Disk :=
  (List.range 84).foldl (fun d i => clearHalftrack d (i + 1)) d

/-- The columns `sectors` and `speedZone` of the table `Disk::trackDefaults[43]`
(entry 0 is padding). -/
def trackDefaults : List (Nat × Nat) :=
  [(0, 0)] ++ List.replicate 17 (21, 3) ++ List.replicate 7 (19, 2) ++
    List.replicate 6 (18, 1) ++ List.replicate 12 (17, 0)

/-- The field `trackDefaults[t].sectors`. -/
def numberOfSectorsInTrack (t : Nat) : Nat := (trackDefaults.getD t (0, 0)).1

/-- Modelled from the spec: `isValidTrackSectorPair` is declared in a header that
is not among the sources; a pair is valid when `t` is a track number and `s` is
one of the sectors that `trackDefaults` gives the track. -/
def isValidTrackSectorPair (t s : Nat) : Bool :=
  isTrackNumber t && decide (s < numberOfSectorsInTrack t)

/-- Modelled from the spec: the class `D64File` is not among the sources. A D64
image has a number of tracks, two disk id bytes, an error code (a byte) per
sector, and 256 data bytes per sector; `readTrack t s i` is the value returned by
the `i`-th call of `readTrack()` after `selectTrackAndSector(t, s)`. -/
structure D64File where
  numberOfTracks : Nat
  diskId1 : Nat
  diskId2 : Nat
  errorCode : Nat → Nat → Nat
  readTrack : Nat → Nat → Nat → Nat

/-- Modelled from the spec: the overload `writeBitToTrack(t, offset, bit, count)`
is declared in `Disk.h`, which is not among the sources; it writes `bit` to
`count` consecutive offsets, the way `writeSyncBitsToTrack` of `Disk525.h` does
for a 1 bit. -/
def writeBitToTrackN (d : Disk) (t offset : Nat) (bit : Bool) (count : Nat) : Disk :=
  (List.range count).foldl (fun d i => writeBitToTrack d t (offset + i) bit) d

/-- `writeByteToTrack(t, offset, byte)` of `Disk525.h`; the mask runs from 0x80
down to 0x01. -/
def writeByteToTrack (d : Disk) (t offset byte : Nat) : Disk :=
  (List.range 8).foldl
    (fun d i => writeBitToTrack d t (offset + i) (byte &&& (0x80 >>> i) != 0)) d

/-- `writeGapToTrack(t, offset, length)` of `Disk525.h`. -/
def writeGapToTrack (d : Disk) (t offset length : Nat) : Disk :=
  (List.range length).foldl (fun d i => writeByteToTrack d t (offset + i * 8) 0x55) d

/-- `encodeSector(a, t, s, start, tailGap)`: returns the disk and the number of
encoded bits. The loop state of the data bytes is (disk, checksum, offset). -/
def encodeSector (d : Disk) (a : D64File) (t s start tailGap : Nat) : Disk × Nat :=
  let offset := start
  let errorCode := a.errorCode t s
  -- Get disk id and compute checksum
  let id1 := a.diskId1
  let id2 := a.diskId2
  let checksum := (id1 ^^^ id2 ^^^ t ^^^ s) % 256
  -- SYNC
  let d := if errorCode = 0x3 then writeBitToTrackN d t offset false 40
           else writeBitToTrackN d t offset true 40
  let offset := offset + 40
  -- Header ID
  let d := if errorCode = 0x2 then encodeGcr d 0x00 t offset else encodeGcr d 0x08 t offset
  let offset := offset + 10
  -- Checksum
  let d := if errorCode = 0x9 then encodeGcr d (checksum ^^^ 0xFF) t offset
           else encodeGcr d checksum t offset
  let offset := offset + 10
  -- Sector and track number
  let d := encodeGcr d s t offset
  let offset := offset + 10
  let d := encodeGcr d t t offset
  let offset := offset + 10
  -- Disk ID (two bytes)
  let d := if errorCode = 0xB then
             encodeGcr (encodeGcr d (id2 ^^^ 0xFF) t offset) (id1 ^^^ 0xFF) t (offset + 10)
           else encodeGcr (encodeGcr d id2 t offset) id1 t (offset + 10)
  let offset := offset + 10 + 10
  -- 0x0F, 0x0F
  let d := encodeGcr d 0x0F t offset
  let offset := offset + 10
  let d := encodeGcr d 0x0F t offset
  let offset := offset + 10
  -- Gap
  let d := writeGapToTrack d t offset 9
  let offset := offset + 9 * 8
  -- SYNC
  let d := if errorCode = 3 then writeBitToTrackN d t offset false 40
           else writeBitToTrackN d t offset true 40
  let offset := offset + 40
  -- Data ID
  let d := if errorCode = 0x4 then encodeGcr d 0x00 t offset else encodeGcr d 0x07 t offset
  let offset := offset + 10
  -- Data bytes
  let loop := (List.range 256).foldl
    (fun (st : Disk × Nat × Nat) i =>
      let byte := a.readTrack t s i % 256
      (encodeGcr st.1 byte t st.2.2, st.2.1 ^^^ byte, st.2.2 + 10))
    (d, 0, offset)
  let d := loop.1
  let checksum := loop.2.1
  let offset := loop.2.2
  -- Checksum
  let d := if errorCode = 0x5 then encodeGcr d (checksum ^^^ 0xFF) t offset
           else encodeGcr d checksum t offset
  let offset := offset + 10
  -- 0x00, 0x00
  let d := encodeGcr d 0x00 t offset
  let offset := offset + 10
  let d := encodeGcr d 0x00 t offset
  let offset := offset + 10
  -- Tail gap
  let d := writeGapToTrack d t offset tailGap
  let offset := offset + tailGap * 8
  (d, offset - start)

/-! ### Auxiliary notions for the disk proofs -/

/-- Writes a list of bits at consecutive offsets, first bit first. -/
def writeBits (d : Disk) (t offset : Nat) : List Bool → Disk
  | [] => d
  | b :: bs => writeBits (writeBitToTrack d t offset b) t (offset + 1) bs

/-- The five bits of a GCR codeword, most significant first. -/
def codewordBits (n : Nat) : List Bool :=
  [n &&& 0x10 != 0, n &&& 0x08 != 0, n &&& 0x04 != 0, n &&& 0x02 != 0, n &&& 0x01 != 0]

/-- The ten bits that encode a byte. -/
def gcrBits (value : Nat) : List Bool :=
  codewordBits (bin2gcr ((value % 256) >>> 4)) ++ codewordBits (bin2gcr ((value % 256) &&& 0xF))

/-- The bits of `n` gap bytes 0x55. -/
def gapBits (n : Nat) : List Bool :=
  (List.replicate n [false, true, false, true, false, true, false, true]).flatten

/-- The GCR codes of a list of bytes, one after the other. -/
def gcrBitsOfBytes (bytes : List Nat) : List Bool :=
  (bytes.map gcrBits).flatten

/-- The 256 data bytes of sector `(t, s)` of the image. -/
def sectorData (a : D64File) (t s : Nat) : List Nat :=
  (List.range 256).map (fun i => a.readTrack t s i % 256)

/-- The layout of a sector as the specification lists it: SYNC, header
(0x08, checksum, sector, track, id2, id1, 0x0F, 0x0F), nine gap bytes, SYNC,
data block (0x07, 256 data bytes, checksum, 0x00, 0x00), tail gap. -/
def sectorLayout (a : D64File) (t s tailGap : Nat) : List Bool :=
  List.replicate 40 true ++
  gcrBitsOfBytes [0x08, a.diskId1 ^^^ a.diskId2 ^^^ t ^^^ s, s, t,
    a.diskId2, a.diskId1, 0x0F, 0x0F] ++
  gapBits 9 ++
  List.replicate 40 true ++
  gcrBitsOfBytes ([0x07] ++ sectorData a t s ++
    [(sectorData a t s).foldl (fun c b => c ^^^ b) 0, 0x00, 0x00]) ++
  gapBits tailGap

/-! ## Interrupt lines of the CPU (`CPU.cpp`, `CPU.h`) -/

/-- The enumeration `IntSource` of `CPU.h`. -/
inductive IntSource where
  | INTSRC_CIA
  | INTSRC_VIC
  | INTSRC_VIA1
  | INTSRC_VIA2
  | INTSRC_EXPANSION
  | INTSRC_KEYBOARD
  deriving DecidableEq, Repr

/-- The value of an `IntSource`. -/
def IntSource.val : IntSource → Nat
  | .INTSRC_CIA => 0x01
  | .INTSRC_VIC => 0x02
  | .INTSRC_VIA1 => 0x04
  | .INTSRC_VIA2 => 0x08
  | .INTSRC_EXPANSION => 0x10
  | .INTSRC_KEYBOARD => 0x20

/-- The interrupt inputs of the CPU: the two 8-bit line masks and the value last
written to the edge detector (NMI) and to the level detector (IRQ). -/
structure CPULines where
  nmiLine : Nat
  irqLine : Nat
  edgeDetector : Nat
  levelDetector : Nat

/-- `CPU::pullDownNmiLine`. -/
def pullDownNmiLine (c : CPULines) (bit : IntSource) : CPULines :=
  let c := if c.nmiLine = 0 then { c with edgeDetector := 1 } else c
  { c with nmiLine := c.nmiLine ||| bit.val }

/-- `CPU::releaseNmiLine`; the complement is taken on 8 bits. -/
def releaseNmiLine (c : CPULines) (source : IntSource) : CPULines :=
  { c with nmiLine := c.nmiLine &&& (0xFF ^^^ source.val) }

/-- `CPU::pullDownIrqLine`. -/
def pullDownIrqLine (c : CPULines) (source : IntSource) : CPULines :=
  let c := { c with irqLine := c.irqLine ||| source.val }
  { c with levelDetector := c.irqLine }

/-- `CPU::releaseIrqLine`; the complement is taken on 8 bits. -/
def releaseIrqLine (c : CPULines) (source : IntSource) : CPULines :=
  let c := { c with irqLine := c.irqLine &&& (0xFF ^^^ source.val) }
  { c with levelDetector := c.irqLine }

/-- A call on an interrupt line: pull down or release, by a source. -/
inductive LineCall where
  | pullDown (s : IntSource)
  | release (s : IntSource)
  deriving DecidableEq

/-- Runs a sequence of calls on the IRQ line. -/
def runIrqCalls (c : CPULines) (calls : List LineCall) : CPULines :=
  calls.foldl (fun c call =>
    match call with
    | .pullDown s => pullDownIrqLine c s
    | .release s => releaseIrqLine c s) c

/-- Runs a sequence of calls on the NMI line. -/
def runNmiCalls (c : CPULines) (calls : List LineCall) : CPULines :=
  calls.foldl (fun c call =>
    match call with
    | .pullDown s => pullDownNmiLine c s
    | .release s => releaseNmiLine c s) c

/-- A source still asserts the line after a sequence of calls when it was pulled
down by some call and not released by any later call. -/
def stillAsserts (calls : List LineCall) (s : IntSource) : Prop :=
  ∃ pre post, calls = pre ++ LineCall.pullDown s :: post ∧ LineCall.release s ∉ post

/-- The bitwise OR of the sources selected by `f`. -/
def orOfSources (f : IntSource → Bool) : Nat :=
  (if f .INTSRC_CIA then IntSource.INTSRC_CIA.val else 0) |||
  (if f .INTSRC_VIC then IntSource.INTSRC_VIC.val else 0) |||
  (if f .INTSRC_VIA1 then IntSource.INTSRC_VIA1.val else 0) |||
  (if f .INTSRC_VIA2 then IntSource.INTSRC_VIA2.val else 0) |||
  (if f .INTSRC_EXPANSION then IntSource.INTSRC_EXPANSION.val else 0) |||
  (if f .INTSRC_KEYBOARD then IntSource.INTSRC_KEYBOARD.val else 0)

/-- Book-keeping of the asserting sources along a sequence of calls. -/
def assertedAfter (f : IntSource → Bool) (calls : List LineCall) : IntSource → Bool :=
  calls.foldl (fun f call =>
    match call with
    | .pullDown s => fun x => if x = s then true else f x
    | .release s => fun x => if x = s then false else f x) f

/-! ## Processor port (`ProcessorPort.cpp`, `ProcessorPort.h`) -/

/-- Modelled from the spec: the macro `GET_BIT(x, nr)` is defined in a header that
is not among the sources; it selects bit `nr` of `x`. -/
def GET_BIT (x nr : Nat) : Nat := x &&& (1 <<< nr)

/-- Modelled from the spec: the macro `FALLING_EDGE_BIT(old, new, nr)` is defined
in a header that is not among the sources; bit `nr` is set in `old` and clear in
`new`. -/
def FALLING_EDGE_BIT (old new nr : Nat) : Bool :=
  (old &&& (1 <<< nr) != 0) && !(new &&& (1 <<< nr) != 0)

/-- The value `UINT64_MAX`. -/
def UINT64_MAX : Nat := 2 ^ 64 - 1

/-- The fields of `ProcessorPort`. -/
structure ProcessorPort where
  port : Nat
  direction : Nat
  dischargeCycleBit3 : Nat
  dischargeCycleBit6 : Nat
  dischargeCycleBit7 : Nat

/-- `ProcessorPort::read()`; `cycle` is `c64->cpu.cycle` and `playKey` is
`c64->datasette.getPlayKey()`. -/
def ProcessorPort.read (p : ProcessorPort) (cycle : Nat) (playKey : Bool) : Nat :=
  let bit3 := if p.dischargeCycleBit3 > cycle then 0x08 else 0x00
  let bit6 := if p.dischargeCycleBit6 > cycle then 0x40 else 0x00
  let bit7 := if p.dischargeCycleBit7 > cycle then 0x80 else 0x00
  let bit4 := if playKey then 0x00 else 0x10
  let bits := bit7 ||| bit6 ||| bit4 ||| bit3 ||| 0x07
  (p.port &&& p.direction) ||| (bits &&& (0xFF ^^^ p.direction))

/-- `ProcessorPort::write(value)`, as far as the port itself goes (the datasette
motor, RAM cell 1 and the bank tables belong to other components). -/
def ProcessorPort.write (p : ProcessorPort) (value : Nat) : ProcessorPort :=
  { p with port := value }

/-- `ProcessorPort::writeDirection(value)`, as far as the port itself goes;
`cycle` is `c64->cpu.cycle`, a `uint64_t`. -/
def ProcessorPort.writeDirection (p : ProcessorPort) (value cycle : Nat) : ProcessorPort :=
  let dischargeCycles := 350000
  -- 1) If bits 3, 6, and 7 are configured as outputs, they are not floating
  let p := if GET_BIT value 3 ≠ 0 then { p with dischargeCycleBit3 := 0 } else p
  let p := if GET_BIT value 6 ≠ 0 then { p with dischargeCycleBit6 := 0 } else p
  let p := if GET_BIT value 7 ≠ 0 then { p with dischargeCycleBit7 := 0 } else p
  -- 2) If bits 3, 6, and 7 change from output to input, they become floating
  let p := if FALLING_EDGE_BIT p.direction value 3 ∧ GET_BIT p.port 3 ≠ 0 then
      { p with dischargeCycleBit3 := UINT64_MAX } else p
  let p := if FALLING_EDGE_BIT p.direction value 6 ∧ GET_BIT p.port 6 ≠ 0 then
      { p with dischargeCycleBit6 := (cycle + dischargeCycles) % 2 ^ 64 } else p
  let p := if FALLING_EDGE_BIT p.direction value 7 ∧ GET_BIT p.port 7 ≠ 0 then
      { p with dischargeCycleBit7 := (cycle + dischargeCycles) % 2 ^ 64 } else p
  { p with direction := value }

/-- A later access to the port: a write of the data register, or a write of the
direction register at some cycle. -/
inductive PortAccess where
  | write (value : Nat)
  | writeDirection (value cycle : Nat)

/-- The access leaves bit `nr` an input. -/
def PortAccess.keepsInput (nr : Nat) : PortAccess → Prop
  | .write _ => True
  | .writeDirection value _ => GET_BIT value nr = 0

/-- Runs a sequence of accesses. -/
def ProcessorPort.run (p : ProcessorPort) (accesses : List PortAccess) : ProcessorPort :=
  accesses.foldl (fun p a =>
    match a with
    | .write v => p.write v
    | .writeDirection v c => p.writeDirection v c) p

/-! ## CIA (`CIA.cpp`, `TOD.h`) -/

/-! Modelled from the spec: the bit fields of `delay` and `feed` are defined in
`CIA.h`, which is not among the sources. The spec names the bits and says that
`delay` is shifted left by one each cycle; stage `n + 1` of a signal is
therefore the bit above stage `n`. The positions below follow that rule, and
`DelayMask` clears the first stage of every signal and the bit above the last
one, so that first stages come from `feed` alone. -/

/-- Modelled from the spec: pipeline bit `CountA0` (decrements timer A). -/
def CIACountA0 : Nat := 1 <<< 0
/-- Modelled from the spec: pipeline bit `CountA1`. -/
def CIACountA1 : Nat := 1 <<< 1
/-- Modelled from the spec: pipeline bit `CountA2`. -/
def CIACountA2 : Nat := 1 <<< 2
/-- Modelled from the spec: pipeline bit `CountA3`. -/
def CIACountA3 : Nat := 1 <<< 3
/-- Modelled from the spec: pipeline bit `CountB0` (decrements timer B). -/
def CIACountB0 : Nat := 1 <<< 4
/-- Modelled from the spec: pipeline bit `CountB1`. -/
def CIACountB1 : Nat := 1 <<< 5
/-- Modelled from the spec: pipeline bit `CountB2`. -/
def CIACountB2 : Nat := 1 <<< 6
/-- Modelled from the spec: pipeline bit `CountB3`. -/
def CIACountB3 : Nat := 1 <<< 7
/-- Modelled from the spec: pipeline bit `LoadA0` (loads timer A). -/
def CIALoadA0 : Nat := 1 <<< 8
/-- Modelled from the spec: pipeline bit `LoadA1`. -/
def CIALoadA1 : Nat := 1 <<< 9
/-- Modelled from the spec: pipeline bit `LoadA2`. -/
def CIALoadA2 : Nat := 1 <<< 10
/-- Modelled from the spec: pipeline bit `LoadB0` (loads timer B). -/
def CIALoadB0 : Nat := 1 <<< 11
/-- Modelled from the spec: pipeline bit `LoadB1`. -/
def CIALoadB1 : Nat := 1 <<< 12
/-- Modelled from the spec: pipeline bit `LoadB2`. -/
def CIALoadB2 : Nat := 1 <<< 13
/-- Modelled from the spec: pipeline bit `PB6Low0` (sets pin PB6 low). -/
def CIAPB6Low0 : Nat := 1 <<< 14
/-- Modelled from the spec: pipeline bit `PB6Low1`. -/
def CIAPB6Low1 : Nat := 1 <<< 15
/-- Modelled from the spec: pipeline bit `PB7Low0` (sets pin PB7 low). -/
def CIAPB7Low0 : Nat := 1 <<< 16
/-- Modelled from the spec: pipeline bit `PB7Low1`. -/
def CIAPB7Low1 : Nat := 1 <<< 17
/-- Modelled from the spec: pipeline bit `SetInt0` (triggers an interrupt). -/
def CIASetInt0 : Nat := 1 <<< 18
/-- Modelled from the spec: pipeline bit `SetInt1`. -/
def CIASetInt1 : Nat := 1 <<< 19
/-- Modelled from the spec: pipeline bit `ClearInt0` (releases the interrupt line). -/
def CIAClearInt0 : Nat := 1 <<< 20
/-- Modelled from the spec: pipeline bit `OneShotA0`. -/
def CIAOneShotA0 : Nat := 1 <<< 21
/-- Modelled from the spec: pipeline bit `OneShotB0`. -/
def CIAOneShotB0 : Nat := 1 <<< 22
/-- Modelled from the spec: pipeline bit `ReadIcr0` (the ICR is being read). -/
def CIAReadIcr0 : Nat := 1 <<< 23
/-- Modelled from the spec: pipeline bit `ReadIcr1`. -/
def CIAReadIcr1 : Nat := 1 <<< 24
/-- Modelled from the spec: pipeline bit `ClearIcr0` (clears bit 7 of the ICR). -/
def CIAClearIcr0 : Nat := 1 <<< 25
/-- Modelled from the spec: pipeline bit `ClearIcr1`. -/
def CIAClearIcr1 : Nat := 1 <<< 26
/-- Modelled from the spec: pipeline bit `ClearIcr2`. -/
def CIAClearIcr2 : Nat := 1 <<< 27
/-- Modelled from the spec: pipeline bit `AckIcr0` (clears the acknowledged ICR bits). -/
def CIAAckIcr0 : Nat := 1 <<< 28
/-- Modelled from the spec: pipeline bit `AckIcr1`. -/
def CIAAckIcr1 : Nat := 1 <<< 29
/-- Modelled from the spec: pipeline bit `SetIcr0` (sets bit 7 of the ICR). -/
def CIASetIcr0 : Nat := 1 <<< 30
/-- Modelled from the spec: pipeline bit `SetIcr1`. -/
def CIASetIcr1 : Nat := 1 <<< 31
/-- Modelled from the spec: pipeline bit `TODInt0` (TOD interrupt). -/
def CIATODInt0 : Nat := 1 <<< 32
/-- Modelled from the spec: pipeline bit `SerInt0` (serial register interrupt). -/
def CIASerInt0 : Nat := 1 <<< 33
/-- Modelled from the spec: pipeline bit `SerInt1`. -/
def CIASerInt1 : Nat := 1 <<< 34
/-- Modelled from the spec: pipeline bit `SerInt2`. -/
def CIASerInt2 : Nat := 1 <<< 35
/-- Modelled from the spec: pipeline bit `SerLoad0` (loads the serial shift register). -/
def CIASerLoad0 : Nat := 1 <<< 36
/-- Modelled from the spec: pipeline bit `SerLoad1`. -/
def CIASerLoad1 : Nat := 1 <<< 37
/-- Modelled from the spec: pipeline bit `SerClk0` (clock of the serial register). -/
def CIASerClk0 : Nat := 1 <<< 38
/-- Modelled from the spec: pipeline bit `SerClk1`. -/
def CIASerClk1 : Nat := 1 <<< 39
/-- Modelled from the spec: pipeline bit `SerClk2`. -/
def CIASerClk2 : Nat := 1 <<< 40
/-- Modelled from the spec: pipeline bit `SerClk3`. -/
def CIASerClk3 : Nat := 1 <<< 41

/-- The complement `~x` of a `uint64_t`. -/
def not64 (x : Nat) : Nat := UINT64_MAX ^^^ x

/-- Modelled from the spec: `DelayMask` of `CIA.h` (not among the sources); it
clears the first stage of every signal and bit 42. -/
def DelayMask : Nat :=
  not64 ((1 <<< 42) ||| CIACountA0 ||| CIACountB0 ||| CIALoadA0 ||| CIALoadB0 ||| CIAPB6Low0 |||
    CIAPB7Low0 ||| CIASetInt0 ||| CIAClearInt0 ||| CIAOneShotA0 ||| CIAOneShotB0 |||
    CIAReadIcr0 ||| CIAClearIcr0 ||| CIAAckIcr0 ||| CIASetIcr0 ||| CIATODInt0 ||| CIASerInt0 |||
    CIASerLoad0 ||| CIASerClk0)

/-- The two CIA revisions (`CIAModel`). -/
inductive CIAModel where
  | MOS_6526
  | MOS_8521
  deriving DecidableEq, Repr

/-- The two chips of the C64; the dynamic type behind the virtual functions of
class `CIA`. -/
inductive CIAKind where
  | CIA1
  | CIA2
  deriving DecidableEq, Repr

/-- Modelled from the spec: the type `TimeOfDay` is declared in `TOD_types.h`,
which is not among the sources; it holds the four BCD fields of a time. -/
structure TimeOfDay where
  tenth : Nat
  seconds : Nat
  minutes : Nat
  hours : Nat
  deriving DecidableEq, Repr

/-- The fields of class `TOD`. -/
structure TOD where
  tod : TimeOfDay
  latch : TimeOfDay
  alarm : TimeOfDay
  frozen : Bool
  stopped : Bool
  matching : Bool
  hz : Nat
  frequencyCounter : Nat

/-- `TOD::freeze()`. -/
def TOD.freeze (t : TOD) : TOD :=
  if !t.frozen then { t with latch := t.tod, frozen := true } else t

/-- `TOD::defreeze()`. -/
def TOD.defreeze (t : TOD) : TOD := { t with frozen := false }

/-- `TOD::getTodHours()`. -/
def TOD.getTodHours (t : TOD) : Nat := (if t.frozen then t.latch.hours else t.tod.hours) &&& 0x9F

/-- `TOD::getTodMinutes()`. -/
def TOD.getTodMinutes (t : TOD) : Nat :=
  (if t.frozen then t.latch.minutes else t.tod.minutes) &&& 0x7F

/-- `TOD::getTodSeconds()`. -/
def TOD.getTodSeconds (t : TOD) : Nat :=
  (if t.frozen then t.latch.seconds else t.tod.seconds) &&& 0x7F

/-- `TOD::getTodTenth()`. -/
def TOD.getTodTenth (t : TOD) : Nat := (if t.frozen then t.latch.tenth else t.tod.tenth) &&& 0x0F

/-- `TOD::setHz(value)`. -/
def TOD.setHz (t : TOD) (value : Nat) : TOD := { t with hz := value }

/-- The fields of class `CIA` (the snapshot items of the constructor and the TOD
sub-component), the dynamic type `kind`, and the two pieces of the surrounding
machine that the CIA touches: the interrupt inputs `cpu` of the C64 CPU and its
cycle counter `cpuCycle`. -/
structure CIA where
  kind : CIAKind
  model : CIAModel
  emulateTimerBBug : Bool
  counterA : Nat
  latchA : Nat
  counterB : Nat
  latchB : Nat
  delay : Nat
  feed : Nat
  CRA : Nat
  CRB : Nat
  icr : Nat
  icrAck : Nat
  imr : Nat
  PB67TimerMode : Nat
  PB67TimerOut : Nat
  PB67Toggle : Nat
  PRA : Nat
  PRB : Nat
  DDRA : Nat
  DDRB : Nat
  PA : Nat
  PB : Nat
  SDR : Nat
  serClk : Bool
  serCounter : Nat
  CNT : Bool
  INT : Nat
  tiredness : Nat
  wakeUpCycle : Nat
  idleCounter : Nat
  tod : TOD
  cpu : CPULines
  cpuCycle : Nat

/-- The inputs of the CIA ports that come from other components: the bit masks
of the two control ports, the keyboard matrix, and the IEC bus lines. -/
structure PortEnv where
  port1Bitmask : Nat
  port2Bitmask : Nat
  getColumnValues : Nat → Nat
  getRowValues : Nat → Nat
  clockLine : Bool
  dataLine : Bool

/-- Modelled from the spec: the macro `COPY_BIT(x, y, nr)` is defined in a header
that is not among the sources; it copies bit `nr` of `x` into `y`. -/
def COPY_BIT (x y nr : Nat) : Nat := (y &&& (0xFF ^^^ (1 <<< nr))) ||| (x &&& (1 <<< nr))

/-- `CIA1::pullDownInterruptLine` and `CIA2::pullDownInterruptLine`. -/
def CIA.pullDownInterruptLine (c : CIA) : CIA :=
  match c.kind with
  | .CIA1 => { c with cpu := pullDownIrqLine c.cpu .INTSRC_CIA }
  | .CIA2 => { c with cpu := pullDownNmiLine c.cpu .INTSRC_CIA }

/-- `CIA1::releaseInterruptLine` and `CIA2::releaseInterruptLine`. -/
def CIA.releaseInterruptLine (c : CIA) : CIA :=
  match c.kind with
  | .CIA1 => { c with cpu := releaseIrqLine c.cpu .INTSRC_CIA }
  | .CIA2 => { c with cpu := releaseNmiLine c.cpu .INTSRC_CIA }

/-- `CIA1::updatePA` and `CIA2::updatePA`, as far as the CIA itself goes (the
mouse strobes and the IEC dirty flag belong to other components). -/
def CIA.updatePA (env : PortEnv) (c : CIA) : CIA :=
  match c.kind with
  | .CIA1 =>
    let PA := (c.PRA &&& c.DDRA) ||| (0xFF &&& (0xFF ^^^ c.DDRA))
    let rowMask := (0xFF ^^^ c.PRB) &&& c.DDRB &&& env.port1Bitmask
    let PA := PA &&& env.getColumnValues rowMask
    let PA := PA &&& env.port2Bitmask
    { c with PA := PA }
  | .CIA2 =>
    let ext := 0x3F ||| (if env.clockLine then 0x40 else 0x00) |||
      (if env.dataLine then 0x80 else 0x00)
    { c with PA := (c.PRA &&& c.DDRA) ||| (ext &&& (0xFF ^^^ c.DDRA)) }

/-- `CIA1::updatePB` and `CIA2::updatePB`, as far as the CIA itself goes (the
light pen input of the VIC and the mouse strobes belong to other components). -/
def CIA.updatePB (env : PortEnv) (c : CIA) : CIA :=
  match c.kind with
  | .CIA1 =>
    let PB := (c.PRB &&& c.DDRB) ||| (0xFF &&& (0xFF ^^^ c.DDRB))
    let columnMask := (0xFF ^^^ c.PRA) &&& c.DDRA &&& env.port2Bitmask
    let PB := PB &&& env.getRowValues columnMask
    let PB := if GET_BIT c.PB67TimerMode 6 ≠ 0 then COPY_BIT c.PB67TimerOut PB 6 else PB
    let PB := if GET_BIT c.PB67TimerMode 7 ≠ 0 then COPY_BIT c.PB67TimerOut PB 7 else PB
    let PB := PB &&& env.port1Bitmask
    { c with PB := PB }
  | .CIA2 =>
    let result := c.PRB
    let result := if GET_BIT c.PB67TimerMode 6 ≠ 0 then COPY_BIT c.PB67TimerOut result 6
      else result
    let result := if GET_BIT c.PB67TimerMode 7 ≠ 0 then COPY_BIT c.PB67TimerOut result 7
      else result
    { c with PB := (result &&& c.DDRB) ||| (0xFF &&& (0xFF ^^^ c.DDRB)) }

/-- `CIA::triggerTimerIrq()`. -/
def CIA.triggerTimerIrq (c : CIA) : CIA :=
  match c.model with
  | .MOS_6526 =>
    let c := { c with delay := c.delay ||| CIASetInt0 }
    { c with delay := c.delay ||| CIASetIcr0 }
  | .MOS_8521 =>
    let c := { c with delay := c.delay |||
      (if c.delay &&& CIAReadIcr0 ≠ 0 then CIASetInt0 else CIASetInt1) }
    { c with delay := c.delay |||
      (if c.delay &&& CIAReadIcr0 ≠ 0 then CIASetIcr0 else CIASetIcr1) }

/-- `CIA::triggerTodIrq()`. -/
def CIA.triggerTodIrq (c : CIA) : CIA :=
  { c with delay := c.delay ||| CIASetInt0 ||| CIASetIcr0 }

/-- `CIA::triggerSerialIrq()`. -/
def CIA.triggerSerialIrq (c : CIA) : CIA :=
  { c with delay := c.delay ||| CIASetInt0 ||| CIASetIcr0 }

/-- `CIA::wakeUp()`; `counterA -= idleCounter` is computed on 64 bits and stored
into 16. -/
def CIA.wakeUp (c : CIA) : CIA :=
  let c := if c.idleCounter ≠ 0 then
      let c := if c.feed &&& CIACountA0 ≠ 0 then
          { c with counterA := (c.counterA + 2 ^ 64 - c.idleCounter % 2 ^ 64) % 2 ^ 16 } else c
      let c := if c.feed &&& CIACountB0 ≠ 0 then
          { c with counterB := (c.counterB + 2 ^ 64 - c.idleCounter % 2 ^ 64) % 2 ^ 16 } else c
      { c with idleCounter := 0 }
    else c
  { c with wakeUpCycle := 0 }

/-- `CIA::sleep()`. -/
def CIA.sleep (c : CIA) : CIA :=
  let cycle := c.cpuCycle
  let sleepA := if c.counterA > 2 then (cycle + c.counterA - 1) % 2 ^ 64 else 0
  let sleepB := if c.counterB > 2 then (cycle + c.counterB - 1) % 2 ^ 64 else 0
  let sleepA := if ¬ (c.feed &&& CIACountA0 ≠ 0) then UINT64_MAX else sleepA
  let sleepB := if ¬ (c.feed &&& CIACountB0 ≠ 0) then UINT64_MAX else sleepB
  { c with wakeUpCycle := min sleepA sleepB }

/-- Modelled from the spec: `reloadTimerA()` is declared in `CIA.h`, which is not
among the sources. The spec says that an underflow triggers an internal `LoadA1`
that reloads from the latch; the timer diagram in `CIA::executeOneCycle` shows
that the load (4) also clears `CountA2`, so that the counter pauses one cycle. -/
def CIA.reloadTimerA (c : CIA) : CIA :=
  { c with counterA := c.latchA, delay := c.delay &&& not64 CIACountA2 }

/-- Modelled from the spec: `reloadTimerB()`, the counterpart of `reloadTimerA()`
for timer B. -/
def CIA.reloadTimerB (c : CIA) : CIA :=
  { c with counterB := c.latchB, delay := c.delay &&& not64 CIACountB2 }

/-- `CIA::executeOneCycle()`, section "Timer A": decrement, underflow check,
load. Returns the state and the local `timerAOutput`. -/
def CIA.timerA (c : CIA) : CIA × Bool :=
  -- Decrement counter
  let c := if c.delay &&& CIACountA3 ≠ 0 then
      { c with counterA := (c.counterA + 0xFFFF) % 2 ^ 16 } else c
  -- Check underflow condition
  let timerAOutput : Bool := decide (c.counterA = 0) && decide (c.delay &&& CIACountA2 ≠ 0)
  let c := if timerAOutput then
      let c := { c with icrAck := c.icrAck &&& 0xFE }
      -- Stop timer in one shot mode
      let c := if (c.delay ||| c.feed) &&& CIAOneShotA0 ≠ 0 then
          { c with CRA := c.CRA &&& 0xFE
                   delay := c.delay &&& not64 (CIACountA2 ||| CIACountA1 ||| CIACountA0)
                   feed := c.feed &&& not64 CIACountA0 }
        else c
      -- Timer A output to timer B in cascade mode
      let c := if (c.CRB &&& 0x61) = 0x41 ∨ ((c.CRB &&& 0x61) = 0x61 ∧ c.CNT = true) then
          { c with delay := c.delay ||| CIACountB1 } else c
      -- Reload counter immediately
      { c with delay := c.delay ||| CIALoadA1 }
    else c
  -- Load counter
  let c := if c.delay &&& CIALoadA1 ≠ 0 then c.reloadTimerA else c
  (c, timerAOutput)

/-- `CIA::executeOneCycle()`, section "Timer B". Returns the state and the local
`timerBOutput`. -/
def CIA.timerB (c : CIA) : CIA × Bool :=
  -- Decrement counter
  let c := if c.delay &&& CIACountB3 ≠ 0 then
      { c with counterB := (c.counterB + 0xFFFF) % 2 ^ 16 } else c
  -- Check underflow condition
  let timerBOutput : Bool := decide (c.counterB = 0) && decide (c.delay &&& CIACountB2 ≠ 0)
  let c := if timerBOutput then
      let c := { c with icrAck := c.icrAck &&& 0xFD }
      -- Stop timer in one shot mode
      let c := if (c.delay ||| c.feed) &&& CIAOneShotB0 ≠ 0 then
          { c with CRB := c.CRB &&& 0xFE
                   delay := c.delay &&& not64 (CIACountB2 ||| CIACountB1 ||| CIACountB0)
                   feed := c.feed &&& not64 CIACountB0 }
        else c
      { c with delay := c.delay ||| CIALoadB1 }
    else c
  -- Load counter
  let c := if c.delay &&& CIALoadB1 ≠ 0 then c.reloadTimerB else c
  (c, timerBOutput)

/-- `CIA::executeOneCycle()`, section "Serial register". -/
def CIA.serialRegister (c : CIA) (timerAOutput : Bool) : CIA :=
  -- Generate clock signal
  let c := if timerAOutput = true ∧ c.CRA &&& 0x40 ≠ 0 then
      if c.serCounter ≠ 0 then
        -- Toggle serial clock signal
        { c with feed := c.feed ^^^ CIASerClk0 }
      else if c.delay &&& CIASerLoad1 ≠ 0 then
        -- Load shift register
        let c := { c with delay := c.delay &&& not64 (CIASerLoad1 ||| CIASerLoad0) }
        let c := { c with feed := c.feed &&& not64 CIASerLoad0 }
        let c := { c with serCounter := 8 }
        { c with feed := c.feed ^^^ CIASerClk0 }
      else c
    else c
  -- Run shift register with generated clock signal
  if c.serCounter ≠ 0 then
    if c.delay &&& (CIASerClk2 ||| CIASerClk1) = CIASerClk1 then
      -- Positive edge
      if c.serCounter = 1 then { c with delay := c.delay ||| CIASerInt0 } else c
    else if c.delay &&& (CIASerClk2 ||| CIASerClk1) = CIASerClk2 then
      -- Negative edge
      { c with serCounter := (c.serCounter + 0xFF) % 2 ^ 8 }
    else c
  else c

/-- `CIA::executeOneCycle()`, section "Timer output to PB6 (timer A) and PB7
(timer B)". -/
def CIA.timerOutput (c : CIA) (timerAOutput timerBOutput : Bool) : CIA :=
  -- Timer A output to PB6
  let c := if timerAOutput then
      let c := { c with PB67Toggle := c.PB67Toggle ^^^ 0x40 }
      if c.CRA &&& 0x02 ≠ 0 then
        if c.CRA &&& 0x04 = 0 then
          { c with PB67TimerOut := c.PB67TimerOut ||| 0x40
                   delay := (c.delay ||| CIAPB6Low0) &&& not64 CIAPB6Low1 }
        else
          { c with PB67TimerOut := c.PB67TimerOut ^^^ 0x40 }
      else c
    else c
  -- Timer B output to PB7
  let c := if timerBOutput then
      let c := { c with PB67Toggle := c.PB67Toggle ^^^ 0x80 }
      if c.CRB &&& 0x02 ≠ 0 then
        if c.CRB &&& 0x04 = 0 then
          { c with PB67TimerOut := c.PB67TimerOut ||| 0x80
                   delay := (c.delay ||| CIAPB7Low0) &&& not64 CIAPB7Low1 }
        else
          { c with PB67TimerOut := c.PB67TimerOut ^^^ 0x80 }
      else c
    else c
  -- Set PB67 back to low
  let c := if c.delay &&& CIAPB6Low1 ≠ 0 then
      { c with PB67TimerOut := c.PB67TimerOut &&& 0xBF } else c
  if c.delay &&& CIAPB7Low1 ≠ 0 then
    { c with PB67TimerOut := c.PB67TimerOut &&& 0x7F } else c

/-- `CIA::executeOneCycle()`, section "Interrupt logic", steps (9) and (10): the
timer bits of the ICR. -/
def CIA.setTimerIcrBits (c : CIA) (timerAOutput timerBOutput : Bool) : CIA :=
  let c := if timerAOutput then { c with icr := c.icr ||| 0x01 } else c
  if timerBOutput then
    if c.delay &&& CIAReadIcr0 ≠ 0 ∧ c.emulateTimerBBug = true then
      -- the "timer B bug": the bit won't show up
      c
    else
      { c with icr := c.icr ||| 0x02 }
  else c

/-- `CIA::executeOneCycle()`, section "Interrupt logic", step (11): check for
timer interrupt. -/
def CIA.checkTimerIrq (c : CIA) (timerAOutput timerBOutput : Bool) : CIA :=
  if (timerAOutput = true ∧ c.imr &&& 0x01 ≠ 0) ∨ (timerBOutput = true ∧ c.imr &&& 0x02 ≠ 0)
  then c.triggerTimerIrq else c

/-- `CIA::executeOneCycle()`, section "Interrupt logic": check for TOD
interrupt. -/
def CIA.checkTodIrq (c : CIA) : CIA :=
  if c.delay &&& CIATODInt0 ≠ 0 then
    let c : CIA := { c with icr := c.icr ||| 0x04 }
    if c.imr &&& 0x04 ≠ 0 then c.triggerTodIrq else c
  else c

/-- `CIA::executeOneCycle()`, section "Interrupt logic": check for serial
interrupt. -/
def CIA.checkSerialIrq (c : CIA) : CIA :=
  if c.delay &&& CIASerInt2 ≠ 0 then
    let c : CIA := { c with icr := c.icr ||| 0x08 }
    if c.imr &&& 0x08 ≠ 0 then c.triggerSerialIrq else c
  else c

/-- `CIA::executeOneCycle()`, section "Interrupt logic", steps (12) to (14): the
delayed changes of the ICR and of the interrupt line. -/
def CIA.updateIcrAndLine (c : CIA) : CIA :=
  if c.delay &&& (CIAClearIcr1 ||| CIAAckIcr1 ||| CIASetIcr1 ||| CIASetInt1 ||| CIAClearInt0) ≠ 0
  then
    let c := if c.delay &&& CIAClearIcr1 ≠ 0 then { c with icr := c.icr &&& 0x7F } else c
    let c := if c.delay &&& CIAAckIcr1 ≠ 0 then
        { c with icr := c.icr &&& (0xFF ^^^ c.icrAck) } else c
    let c := if c.delay &&& CIASetIcr1 ≠ 0 then { c with icr := c.icr ||| 0x80 } else c
    let c := if c.delay &&& CIASetInt1 ≠ 0 then
        CIA.pullDownInterruptLine { c with INT := 0 } else c
    if c.delay &&& CIAClearInt0 ≠ 0 then
      CIA.releaseInterruptLine { c with INT := 1 } else c
  else c

/-- `CIA::executeOneCycle()`, section "Interrupt logic": the five steps above in
their order. -/
def CIA.interruptLogic (c : CIA) (timerAOutput timerBOutput : Bool) : CIA :=
  let c := c.setTimerIcrBits timerAOutput timerBOutput
  let c := c.checkTimerIrq timerAOutput timerBOutput
  let c := c.checkTodIrq
  let c := c.checkSerialIrq
  c.updateIcrAndLine

/-- `CIA::executeOneCycle()`: the sections above in their order, then the shift
of the delay flags and the idle-state logic. -/
def CIA.executeOneCycle (c : CIA) : CIA :=
  let c := c.wakeUp
  let oldDelay := c.delay
  let oldFeed := c.feed
  let a := c.timerA
  let b := a.1.timerB
  let c := b.1.serialRegister a.2
  let c := c.timerOutput a.2 b.2
  let c := c.interruptLogic a.2 b.2
  -- Move delay flags left and feed in new bits
  let c := { c with delay := (((c.delay <<< 1) % 2 ^ 64) &&& DelayMask) ||| c.feed }
  -- Go into idle state if possible
  if oldDelay = c.delay ∧ oldFeed = c.feed then
    let c := { c with tiredness := (c.tiredness + 1) % 2 ^ 8 }
    if c.tiredness > 8 then { c.sleep with tiredness := 0 } else c
  else
    { c with tiredness := 0 }

/-- `CIA::peek(addr)`: returns the value read and the state after the read. -/
def CIA.peek (env : PortEnv) (c : CIA) (addr : Nat) : Nat × CIA :=
  let c := c.wakeUp
  match addr with
  | 0x00 => let c := c.updatePA env; (c.PA, c)
  | 0x01 => let c := c.updatePB env; (c.PB, c)
  | 0x02 => (c.DDRA, c)
  | 0x03 => (c.DDRB, c)
  | 0x04 => (c.counterA % 256, c)
  | 0x05 => ((c.counterA >>> 8) % 256, c)
  | 0x06 => (c.counterB % 256, c)
  | 0x07 => ((c.counterB >>> 8) % 256, c)
  | 0x08 => (c.tod.getTodTenth, { c with tod := c.tod.defreeze })
  | 0x09 => (c.tod.getTodSeconds, c)
  | 0x0A => (c.tod.getTodMinutes, c)
  | 0x0B => let c := { c with tod := c.tod.freeze }; (c.tod.getTodHours, c)
  | 0x0C => (c.SDR, c)
  | 0x0D =>
    -- For new CIAs, set upper bit if an IRQ is being triggered
    let c := if c.delay &&& CIASetInt1 ≠ 0 ∧ c.icr &&& 0x1F ≠ 0 ∧ c.model = .MOS_8521 then
        { c with icr := c.icr ||| 0x80 } else c
    -- Remember result
    let result := c.icr
    -- Release interrupt request
    let c := if c.INT = 0 then { c with delay := c.delay ||| CIAClearInt0 } else c
    -- Discard pending interrupts
    let c := { c with delay := c.delay &&& not64 (CIASetInt0 ||| CIASetInt1) }
    -- Schedule the ICR bits to be cleared
    let c := if c.model = .MOS_8521 then
        { c with delay := c.delay ||| CIAClearIcr0 ||| CIAAckIcr0, icrAck := 0xFF }
      else
        { c with delay := c.delay ||| CIAClearIcr0, icr := c.icr &&& 0x80 }
    -- Remember the read access
    (result, { c with delay := c.delay ||| CIAReadIcr0 })
  | 0x0E => (c.CRA &&& 0xEF, c)
  | 0x0F => (c.CRB &&& 0xEF, c)
  | _ => (0, c)

/-- `CIA::poke(addr, value)`, case 0x0E (`CIA_CONTROL_REG_A`). -/
def CIA.pokeControlRegA (env : PortEnv) (c : CIA) (value : Nat) : CIA :=
  let c := c.wakeUp
  -- -------0 : Stop timer, -------1 : Start timer
  let c := if value &&& 0x01 ≠ 0 then
      let c := { c with delay := c.delay ||| CIACountA1 ||| CIACountA0
                        feed := c.feed ||| CIACountA0 }
      if ¬ (c.CRA &&& 0x01 ≠ 0) then { c with PB67Toggle := c.PB67Toggle ||| 0x40 } else c
    else
      { c with delay := c.delay &&& not64 (CIACountA1 ||| CIACountA0)
               feed := c.feed &&& not64 CIACountA0 }
  -- ------1- : Indicate timer underflow on port B bit 6
  let c := if value &&& 0x02 ≠ 0 then
      let c := { c with PB67TimerMode := c.PB67TimerMode ||| 0x40 }
      if ¬ (value &&& 0x04 ≠ 0) then
        if c.delay &&& CIAPB7Low1 = 0 then
          { c with PB67TimerOut := c.PB67TimerOut &&& 0xBF }
        else
          { c with PB67TimerOut := c.PB67TimerOut ||| 0x40 }
      else
        { c with PB67TimerOut := (c.PB67TimerOut &&& 0xBF) ||| (c.PB67Toggle &&& 0x40) }
    else
      { c with PB67TimerMode := c.PB67TimerMode &&& 0xBF }
  -- ----1--- : Timer stops upon underflow (One shot mode)
  let c := if value &&& 0x08 ≠ 0 then { c with feed := c.feed ||| CIAOneShotA0 }
    else { c with feed := c.feed &&& not64 CIAOneShotA0 }
  -- ---1---- : Load start value into timer
  let c := if value &&& 0x10 ≠ 0 then { c with delay := c.delay ||| CIALoadA0 } else c
  -- --1----- : Timer counts positive edges on CNT pin
  let c := if value &&& 0x20 ≠ 0 then
      { c with delay := c.delay &&& not64 (CIACountA1 ||| CIACountA0)
               feed := c.feed &&& not64 CIACountA0 }
    else c
  -- -1------ : Serial shift register in output mode (write)
  let c := if (value ^^^ c.CRA) &&& 0x40 ≠ 0 then
      let c := { c with delay := c.delay &&& not64 (CIASerLoad0 ||| CIASerLoad1)
                        feed := c.feed &&& not64 CIASerLoad0
                        serCounter := 0 }
      { c with delay := c.delay &&& not64 (CIASerClk0 ||| CIASerClk1 ||| CIASerClk2)
               feed := c.feed &&& not64 CIASerClk0 }
    else c
  -- 1------- : TOD speed = 50 Hz
  let c := { c with tod := c.tod.setHz (if value &&& 0x80 ≠ 0 then 5 else 6) }
  let c := c.updatePB env
  { c with CRA := value }

/-- The running clock moves on: the live TOD value changes, everything else
(latch, alarm, flags) stays. -/
def CIA.setClock (c : CIA) (v : TimeOfDay) : CIA := { c with tod := { c.tod with tod := v } }

/-- The state of a CIA 1 after `CIA::reset()`: the items marked `CLEAR_ON_RESET`
are zero, then `CNT = true`, `INT = 1` and both latches are 0xFFFF; the items
marked `KEEP_ON_RESET`, the TOD sub-component and the CPU are parameters. -/
def resetCIA1 (model : CIAModel) (emulateTimerBBug : Bool) (tod : TOD) (cpu : CPULines)
    (cpuCycle : Nat) : CIA :=
  { kind := .CIA1, model := model, emulateTimerBBug := emulateTimerBBug
    counterA := 0, latchA := 0xFFFF, counterB := 0, latchB := 0xFFFF
    delay := 0, feed := 0, CRA := 0, CRB := 0, icr := 0, icrAck := 0, imr := 0
    PB67TimerMode := 0, PB67TimerOut := 0, PB67Toggle := 0
    PRA := 0, PRB := 0, DDRA := 0, DDRB := 0, PA := 0, PB := 0, SDR := 0
    serClk := false, serCounter := 0, CNT := true, INT := 1
    tiredness := 0, wakeUpCycle := 0, idleCounter := 0
    tod := tod, cpu := cpu, cpuCycle := cpuCycle }

/-- Port inputs with no key pressed and nothing attached to the control ports. -/
def idleEnv : PortEnv :=
  { port1Bitmask := 0xFF, port2Bitmask := 0xFF, getColumnValues := fun _ => 0xFF
    getRowValues := fun _ => 0xFF, clockLine := true, dataLine := true }

/-- A TOD that shows 11:30:45.3 and is not frozen. -/
def runningTOD : TOD :=
  { tod := ⟨0x03, 0x45, 0x30, 0x11⟩, latch := ⟨0, 0, 0, 0⟩, alarm := ⟨0, 0, 0, 0⟩
    frozen := false, stopped := false, matching := false, hz := 6, frequencyCounter := 0 }

/-- A TOD that shows 11:30:45.3 behind a latch frozen at 00:00:00.0. -/
def frozenTOD : TOD := { runningTOD with frozen := true }

/-- The local `timerAOutput` of the next `executeOneCycle()`: timer A underflows. -/
def CIA.timerAUnderflows (c : CIA) : Bool := c.wakeUp.timerA.2

/-- The local `timerBOutput` of the next `executeOneCycle()`: timer B underflows. -/
def CIA.timerBUnderflows (c : CIA) : Bool := (c.wakeUp.timerA.1.timerB).2

/-- Step (12) of the interrupt logic, taken alone. -/
def CIA.stepClearIcr (c : CIA) : CIA :=
  if c.delay &&& CIAClearIcr1 ≠ 0 then { c with icr := c.icr &&& 0x7F } else c

/-- The acknowledge step of the interrupt logic, taken alone. -/
def CIA.stepAckIcr (c : CIA) : CIA :=
  if c.delay &&& CIAAckIcr1 ≠ 0 then { c with icr := c.icr &&& (0xFF ^^^ c.icrAck) } else c

/-- Step (13) of the interrupt logic, taken alone. -/
def CIA.stepSetIcr (c : CIA) : CIA :=
  if c.delay &&& CIASetIcr1 ≠ 0 then { c with icr := c.icr ||| 0x80 } else c

/-- Step (14) of the interrupt logic, taken alone: pull the line down. -/
def CIA.stepSetInt (c : CIA) : CIA :=
  if c.delay &&& CIASetInt1 ≠ 0 then CIA.pullDownInterruptLine { c with INT := 0 } else c

/-- Step (14) of the interrupt logic, taken alone: release the line. -/
def CIA.stepClearInt (c : CIA) : CIA :=
  if c.delay &&& CIAClearInt0 ≠ 0 then CIA.releaseInterruptLine { c with INT := 1 } else c

/-- A CIA 1 whose timer B runs in continuous mode and is about to underflow
(counter 1), right after the ICR was read. -/
def timerBRace (model : CIAModel) (emulateTimerBBug : Bool) : CIA :=
  (CIA.peek idleEnv
    { resetCIA1 model emulateTimerBBug runningTOD ⟨0, 0, 0, 0⟩ 0 with
      delay := CIACountB0 ||| CIACountB1 ||| CIACountB2 ||| CIACountB3
      feed := CIACountB0
      counterB := 1
      CRB := 0x01 } 0x0D).2

/-- A CIA 1 that holds its interrupt line low for a timer A interrupt. -/
def icrPending (model : CIAModel) : CIA :=
  { resetCIA1 model false runningTOD ⟨0, 0x01, 0, 0⟩ 0 with icr := 0x81, imr := 0x01, INT := 0 }

/-- The state at the end of the logic of `executeOneCycle()`, right before the
delay flags are moved left. -/
def CIA.beforeShift (c : CIA) : CIA :=
  let c := c.wakeUp
  let a := c.timerA
  let b := a.1.timerB
  let c := b.1.serialRegister a.2
  let c := c.timerOutput a.2 b.2
  c.interruptLogic a.2 b.2

/-- The state of `executeOneCycle()` right before steps (12) to (14) of its
interrupt logic. -/
def CIA.beforeUpdate (c : CIA) : CIA :=
  let c := c.wakeUp
  let a := c.timerA
  let b := a.1.timerB
  let c := b.1.serialRegister a.2
  let c := c.timerOutput a.2 b.2
  let c := c.setTimerIcrBits a.2 b.2
  let c := c.checkTimerIrq a.2 b.2
  let c := c.checkTodIrq
  c.checkSerialIrq

/-- A CIA 1 whose timer A runs in continuous mode with latch 5 and counter `n`. -/
def timerARunning (n : Nat) : CIA :=
  { resetCIA1 .MOS_6526 true runningTOD ⟨0, 0, 0, 0⟩ 0 with
    delay := CIACountA0 ||| CIACountA1 ||| CIACountA2 ||| CIACountA3
    feed := CIACountA0
    counterA := n
    latchA := 5
    CRA := 0x01 }

/-- `n` calls of `CIA::executeOneCycle()` in a row. -/
def CIA.run (c : CIA) : Nat → CIA
  | 0 => c
  | n + 1 => (c.run n).executeOneCycle

/-- The last two sections of `CIA::executeOneCycle()`, taken alone: the delay
flags move left, then the idle logic compares with the values from the start of
the cycle. -/
def CIA.shiftAndIdle (c : CIA) (oldDelay oldFeed : Nat) : CIA :=
  let c := { c with delay := (((c.delay <<< 1) % 2 ^ 64) &&& DelayMask) ||| c.feed }
  if oldDelay = c.delay ∧ oldFeed = c.feed then
    let c := { c with tiredness := (c.tiredness + 1) % 2 ^ 8 }
    if c.tiredness > 8 then { c.sleep with tiredness := 0 } else c
  else
    { c with tiredness := 0 }

/-- The delay flags that make timer B, the port B outputs or the interrupt logic
act in the current cycle. -/
def idleMask : Nat :=
  CIACountB2 ||| CIACountB3 ||| CIALoadB1 ||| CIAPB6Low1 ||| CIAPB7Low1 ||| CIATODInt0 |||
    CIASerInt2 ||| CIAClearIcr1 ||| CIAAckIcr1 ||| CIASetIcr1 ||| CIASetInt1 ||| CIAClearInt0

/-- A reset CIA 1 (timer A stopped) whose timer A latch and counter hold `N` and
whose interrupt mask is `imr`, after `poke(0x0E, 0b00011001)`. -/
def oneShotStarted (model : CIAModel) (bug : Bool) (tod : TOD) (cpu : CPULines) (cycle : Nat)
    (env : PortEnv) (imr N : Nat) : CIA :=
  CIA.pokeControlRegA env
    { resetCIA1 model bug tod cpu cycle with latchA := N, counterA := N, imr := imr } 0x19

/-- The state while timer A counts down after the start `s`: all four count flags
are in the pipeline and the counter holds `j`. -/
def CIA.counting (s : CIA) (j t w : Nat) : CIA :=
  { s with delay := 0x20000F, counterA := j, tiredness := t, wakeUpCycle := w }

/-! ## VIC-II: registers and memory interface (`VIC_memory.cpp`) -/

/-- The memory sources that `VIC_memory.cpp` uses (enumerators of `MemoryType`). -/
inductive MemoryType where
  | M_RAM
  | M_CHAR
  | M_CRTHI
  deriving DecidableEq, Repr

/-- The glue logic variants (`GlueLogic` of `C64Types.h`). -/
inductive GlueLogic where
  | GLUE_DISCRETE
  | GLUE_CUSTOM_IC
  deriving DecidableEq, Repr

/-- The registers that exist twice, as `reg.current` and as `reg.delayed`. The
structure is declared in a header that is not among the sources; the fields are
the ones `VIC_memory.cpp` accesses (`sprX` holds 9 bits, the others 8, `colors`
has 15 entries). -/
structure VICRegisters where
  sprX : Nat → Nat
  sprY : Nat → Nat
  ctrl1 : Nat
  sprEnable : Nat
  ctrl2 : Nat
  sprExpandY : Nat
  sprPriority : Nat
  sprMC : Nat
  sprExpandX : Nat
  colors : Nat → Nat

/-- The pair `reg`. -/
structure VICRegisterPair where
  current : VICRegisters
  delayed : VICRegisters

/-- The bits of the VIC delay pipeline that `VIC_memory.cpp` sets. Their values
are declared in a header that is not among the sources and are parameters
here. -/
structure VICDelayFlags where
  VICUpdateIrqLine : Nat
  VICUpdateBankAddr : Nat
  VICUpdateRegisters : Nat
  VICSetDisplayState : Nat
  VICClrSprSprCollReg : Nat
  VICClrSprBgCollReg : Nat

/-- The messages that `VIC_memory.cpp` puts into the message queue of the C64. -/
inductive VICMessage where
  | MSG_CHARSET
  deriving DecidableEq, Repr

/-- The part of the VIC state that `VIC_memory.cpp` reads and writes; `messages`
collects the calls of `c64->putMessage`. -/
structure VIC where
  reg : VICRegisterPair
  delay : Nat
  dataBusPhi2 : Nat
  irr : Nat
  imr : Nat
  memSelect : Nat
  yCounter : Nat
  rasterIrqLine : Nat
  latchedLightPenX : Nat
  latchedLightPenY : Nat
  spriteSpriteCollision : Nat
  spriteBackgroundColllision : Nat
  ultimax : Bool
  memSrc : Nat → MemoryType
  bankAddr : Nat
  glueLogic : GlueLogic
  emulateGrayDotBug : Bool
  DENwasSetInRasterline30 : Bool
  badLine : Bool
  upperComparisonVal : Nat
  lowerComparisonVal : Nat
  leftComparisonVal : Nat
  rightComparisonVal : Nat
  cleared_bits_in_d017 : Nat
  expansionFF : Nat
  messages : List VICMessage

/-- What `VIC_memory.cpp` takes from outside: the raster line of the C64, port A
of CIA 2, and the member functions of the VIC that are declared in a header that
is not among the sources. -/
structure VICEnv where
  rasterLine : Nat
  cia2PA : Nat
  badLineCondition : VIC → Bool
  upperComparisonValue : VIC → Nat
  lowerComparisonValue : VIC → Nat
  leftComparisonValue : VIC → Nat
  rightComparisonValue : VIC → Nat

/-- A sequence of assignments `memSrc[i] = x`, in their order. -/
def assignMemSrc (m : Nat → MemoryType) (l : List (Nat × MemoryType)) : Nat → MemoryType :=
  l.foldl (fun m p => Function.update m p.1 p.2) m

/-- `VIC::setUltimax(value)`. -/
def VIC.setUltimax (v : VIC) (value : Bool) : VIC :=
  let v := { v with ultimax := value }
  if value then
    { v with
      memSrc := assignMemSrc v.memSrc
        [(0x0, .M_RAM), (0x1, .M_RAM), (0x2, .M_RAM), (0x3, .M_CRTHI),
         (0x4, .M_RAM), (0x5, .M_RAM), (0x6, .M_RAM), (0x7, .M_CRTHI),
         (0x8, .M_RAM), (0x9, .M_RAM), (0xA, .M_RAM), (0xB, .M_CRTHI),
         (0xC, .M_RAM), (0xD, .M_RAM), (0xE, .M_RAM), (0xF, .M_CRTHI)] }
  else
    { v with
      memSrc := assignMemSrc v.memSrc
        [(0x0, .M_RAM), (0x1, .M_CHAR), (0x2, .M_RAM), (0x3, .M_RAM),
         (0x4, .M_RAM), (0x5, .M_RAM), (0x6, .M_RAM), (0x7, .M_RAM),
         (0x8, .M_RAM), (0x9, .M_CHAR), (0xA, .M_RAM), (0xB, .M_RAM),
         (0xC, .M_RAM), (0xD, .M_RAM), (0xE, .M_RAM), (0xF, .M_RAM)] }

/-- The complement `~x` of an `int` (32 bits, two's complement). -/
def not32 (x : Nat) : Nat := 0xFFFFFFFF ^^^ x

/-- Modelled from the spec: `updateBankAddr(bank)` is declared in a header that is
not among the sources; the memory-bank address is the 16 KB bank number shifted
into bits 14 and 15. -/
def VIC.updateBankAddrTo (v : VIC) (bank : Nat) : VIC := { v with bankAddr := (bank <<< 14) % 2 ^ 16 }

/-- `VIC::updateBankAddr()`. -/
def VIC.updateBankAddr (env : VICEnv) (v : VIC) : VIC :=
  v.updateBankAddrTo (not32 env.cia2PA &&& 0x03)

/-- The table `switchTablePA` of `VIC::switchBank`. -/
def switchTablePA : List (List Nat) :=
  [[0, 1, 2, 3],  -- From bank 0
   [0, 1, 3, 3],  -- From bank 1
   [0, 3, 2, 3],  -- From bank 2
   [0, 1, 2, 3]]  -- From bank 3

/-- The table `switchTableDDRA` of `VIC::switchBank`. -/
def switchTableDDRA : List (List Nat) :=
  [[0, 1, 2, 3],  -- From bank 0
   [1, 1, 3, 3],  -- From bank 1
   [2, 3, 2, 3],  -- From bank 2
   [0, 3, 3, 3]]  -- From bank 3

/-- `VIC::switchBank(addr)`; the `assert(false)` of the default case does nothing
in a release build. -/
def VIC.switchBank (k : VICDelayFlags) (env : VICEnv) (v : VIC) (addr : Nat) : VIC :=
  if v.glueLogic = .GLUE_DISCRETE then
    -- Switch immediately
    v.updateBankAddr env
  else
    -- Determine old and new video bank
    let fromBank := (v.bankAddr >>> 14) % 256
    let toBank := (not32 env.cia2PA &&& 0x03) % 256
    -- Switch to the bank given by the switch table
    let v :=
      if addr = 0xDD00 then
        -- Change was triggered by writing into CIA2::PA
        v.updateBankAddrTo ((switchTablePA.getD fromBank []).getD toBank 0)
      else if addr = 0xDD02 then
        -- Change was triggered by writing into CIA2::DDRA
        v.updateBankAddrTo ((switchTableDDRA.getD fromBank []).getD toBank 0)
      else v
    -- Switch to final bank one cycle later
    { v with delay := v.delay ||| k.VICUpdateBankAddr }

/-! ## Expansion port (`ExpansionPort.cpp`) -/

/-- `CartridgeMode`. -/
inductive CartridgeMode where
  | CRT_16K
  | CRT_8K
  | CRT_ULTIMAX
  | CRT_OFF
  deriving DecidableEq, Repr

/-- The game and exrom lines of the expansion port, together with the VIC that
`setUltimax` is called on (`c64->vic`). -/
structure ExpansionPort where
  gameLine : Bool
  exromLine : Bool
  vic : VIC

/-- `ExpansionPort::setGameLine(value)`; `updatePeekPokeLookupTables` works on the
memory of the C64, which is not part of this model. -/
def ExpansionPort.setGameLine (p : ExpansionPort) (value : Bool) : ExpansionPort :=
  let p := { p with gameLine := value }
  { p with vic := p.vic.setUltimax (!p.gameLine && p.exromLine) }

/-- `ExpansionPort::setExromLine(value)`. -/
def ExpansionPort.setExromLine (p : ExpansionPort) (value : Bool) : ExpansionPort :=
  let p := { p with exromLine := value }
  { p with vic := p.vic.setUltimax (!p.gameLine && p.exromLine) }

/-- `ExpansionPort::setGameAndExrom(game, exrom)`. -/
def ExpansionPort.setGameAndExrom (p : ExpansionPort) (game exrom : Bool) : ExpansionPort :=
  let p := { p with gameLine := game }
  let p := { p with exromLine := exrom }
  { p with vic := p.vic.setUltimax (!p.gameLine && p.exromLine) }

/-- `ExpansionPort::getCartridgeMode()`. -/
def ExpansionPort.getCartridgeMode (p : ExpansionPort) : CartridgeMode :=
  match (if p.exromLine then 0b10 else 0) ||| (if p.gameLine then 0b01 else 0) with
  | 0b00 => .CRT_16K
  | 0b01 => .CRT_8K
  | 0b10 => .CRT_ULTIMAX
  | _ => .CRT_OFF

/-- Modelled from the spec: the indices `COLREG_BORDER` ... `COLREG_SPR0` of the
color registers are declared in a header that is not among the sources; they
number the color registers in the order of their addresses 0x20 to 0x2E. -/
def COLREG_BORDER : Nat := 0

/-- Index of background color 0, see `COLREG_BORDER`. -/
def COLREG_BG0 : Nat := 1

/-- Index of background color 1, see `COLREG_BORDER`. -/
def COLREG_BG1 : Nat := 2

/-- Index of background color 2, see `COLREG_BORDER`. -/
def COLREG_BG2 : Nat := 3

/-- Index of background color 3, see `COLREG_BORDER`. -/
def COLREG_BG3 : Nat := 4

/-- Index of sprite extra color 1, see `COLREG_BORDER`. -/
def COLREG_SPR_EX1 : Nat := 5

/-- Index of sprite extra color 2, see `COLREG_BORDER`. -/
def COLREG_SPR_EX2 : Nat := 6

/-- Index of the color of sprite 0, see `COLREG_BORDER`. -/
def COLREG_SPR0 : Nat := 7

/-- `VIC::peek(addr)`: returns the value read and the state after the read. The
result is a `uint8_t`. -/
def VIC.peek (k : VICDelayFlags) (v : VIC) (addr : Nat) : Nat × VIC :=
  let r : Nat × VIC :=
    match addr with
    | 0x00 | 0x02 | 0x04 | 0x06 | 0x08 | 0x0A | 0x0C | 0x0E =>
      -- Sprite X (lower 8 bits)
      (v.reg.current.sprX (addr >>> 1) % 256, v)
    | 0x01 | 0x03 | 0x05 | 0x07 | 0x09 | 0x0B | 0x0D | 0x0F =>
      -- Sprite Y
      (v.reg.current.sprY (addr >>> 1) % 256, v)
    | 0x10 =>
      -- Sprite X (upper bits)
      (((if v.reg.current.sprX 0 &&& 0x100 ≠ 0 then 0b00000001 else 0) |||
        (if v.reg.current.sprX 1 &&& 0x100 ≠ 0 then 0b00000010 else 0) |||
        (if v.reg.current.sprX 2 &&& 0x100 ≠ 0 then 0b00000100 else 0) |||
        (if v.reg.current.sprX 3 &&& 0x100 ≠ 0 then 0b00001000 else 0) |||
        (if v.reg.current.sprX 4 &&& 0x100 ≠ 0 then 0b00010000 else 0) |||
        (if v.reg.current.sprX 5 &&& 0x100 ≠ 0 then 0b00100000 else 0) |||
        (if v.reg.current.sprX 6 &&& 0x100 ≠ 0 then 0b01000000 else 0) |||
        (if v.reg.current.sprX 7 &&& 0x100 ≠ 0 then 0b10000000 else 0)) % 256, v)
    | 0x11 =>
      -- SCREEN CONTROL REGISTER #1
      (((v.reg.current.ctrl1 &&& 0x7f) ||| (if v.yCounter > 0xFF then 0x80 else 0)) % 256, v)
    | 0x12 => ((v.yCounter &&& 0xff) % 256, v)
    | 0x13 => (v.latchedLightPenX % 256, v)
    | 0x14 => (v.latchedLightPenY % 256, v)
    | 0x15 => (v.reg.current.sprEnable % 256, v)
    | 0x16 =>
      -- The two upper bits always read back as '1'
      (((v.reg.current.ctrl2 &&& 0xFF) ||| 0xC0) % 256, v)
    | 0x17 => (v.reg.current.sprExpandY % 256, v)
    | 0x18 => ((v.memSelect ||| 0x01) % 256, v)
    | 0x19 =>
      -- Interrupt Request Register (IRR)
      ((if v.irr &&& v.imr ≠ 0 then v.irr ||| 0xF0 else v.irr ||| 0x70) % 256, v)
    | 0x1A =>
      -- Interrupt Mask Register (IMR)
      ((v.imr ||| 0xF0) % 256, v)
    | 0x1B => (v.reg.current.sprPriority % 256, v)
    | 0x1C => (v.reg.current.sprMC % 256, v)
    | 0x1D => (v.reg.current.sprExpandX % 256, v)
    | 0x1E =>
      -- Sprite-to-sprite collision
      (v.spriteSpriteCollision % 256, { v with delay := v.delay ||| k.VICClrSprSprCollReg })
    | 0x1F =>
      -- Sprite-to-background collision
      (v.spriteBackgroundColllision % 256,
        { v with delay := v.delay ||| k.VICClrSprBgCollReg })
    | 0x20 => ((v.reg.current.colors COLREG_BORDER ||| 0xF0) % 256, v)
    | 0x21 => ((v.reg.current.colors COLREG_BG0 ||| 0xF0) % 256, v)
    | 0x22 => ((v.reg.current.colors COLREG_BG1 ||| 0xF0) % 256, v)
    | 0x23 => ((v.reg.current.colors COLREG_BG2 ||| 0xF0) % 256, v)
    | 0x24 => ((v.reg.current.colors COLREG_BG3 ||| 0xF0) % 256, v)
    | 0x25 => ((v.reg.current.colors COLREG_SPR_EX1 ||| 0xF0) % 256, v)
    | 0x26 => ((v.reg.current.colors COLREG_SPR_EX2 ||| 0xF0) % 256, v)
    | 0x27 | 0x28 | 0x29 | 0x2A | 0x2B | 0x2C | 0x2D | 0x2E =>
      -- Sprite colors 1 to 8
      ((v.reg.current.colors (COLREG_SPR0 + addr - 0x27) ||| 0xF0) % 256, v)
    | _ => (0xFF, v)
  (r.1, { r.2 with dataBusPhi2 := r.1 })

/-- `VIC::spypeek(addr)`: returns the value and the state, to which the function
assigns nothing. -/
def VIC.spypeek (v : VIC) (addr : Nat) : Nat × VIC :=
  match addr with
  | 0x00 | 0x02 | 0x04 | 0x06 | 0x08 | 0x0A | 0x0C | 0x0E =>
    (v.reg.current.sprX (addr >>> 1) % 256, v)
  | 0x01 | 0x03 | 0x05 | 0x07 | 0x09 | 0x0B | 0x0D | 0x0F =>
    (v.reg.current.sprY (addr >>> 1) % 256, v)
  | 0x10 =>
    (((if v.reg.current.sprX 0 &&& 0x100 ≠ 0 then 0b00000001 else 0) |||
      (if v.reg.current.sprX 1 &&& 0x100 ≠ 0 then 0b00000010 else 0) |||
      (if v.reg.current.sprX 2 &&& 0x100 ≠ 0 then 0b00000100 else 0) |||
      (if v.reg.current.sprX 3 &&& 0x100 ≠ 0 then 0b00001000 else 0) |||
      (if v.reg.current.sprX 4 &&& 0x100 ≠ 0 then 0b00010000 else 0) |||
      (if v.reg.current.sprX 5 &&& 0x100 ≠ 0 then 0b00100000 else 0) |||
      (if v.reg.current.sprX 6 &&& 0x100 ≠ 0 then 0b01000000 else 0) |||
      (if v.reg.current.sprX 7 &&& 0x100 ≠ 0 then 0b10000000 else 0)) % 256, v)
  | 0x11 =>
    (((v.reg.current.ctrl1 &&& 0x7f) ||| (if v.yCounter > 0xFF then 0x80 else 0)) % 256, v)
  | 0x12 => ((v.yCounter &&& 0xff) % 256, v)
  | 0x13 => (v.latchedLightPenX % 256, v)
  | 0x14 => (v.latchedLightPenY % 256, v)
  | 0x15 => (v.reg.current.sprEnable % 256, v)
  | 0x16 => (((v.reg.current.ctrl2 &&& 0xFF) ||| 0xC0) % 256, v)
  | 0x17 => (v.reg.current.sprExpandY % 256, v)
  | 0x18 => ((v.memSelect ||| 0x01) % 256, v)
  | 0x19 => ((if v.irr &&& v.imr ≠ 0 then v.irr ||| 0xF0 else v.irr ||| 0x70) % 256, v)
  | 0x1A => ((v.imr ||| 0xF0) % 256, v)
  | 0x1B => (v.reg.current.sprPriority % 256, v)
  | 0x1C => (v.reg.current.sprMC % 256, v)
  | 0x1D => (v.reg.current.sprExpandX % 256, v)
  | 0x1E => (v.spriteSpriteCollision % 256, v)
  | 0x1F => (v.spriteBackgroundColllision % 256, v)
  | 0x20 => ((v.reg.current.colors COLREG_BORDER ||| 0xF0) % 256, v)
  | 0x21 => ((v.reg.current.colors COLREG_BG0 ||| 0xF0) % 256, v)
  | 0x22 => ((v.reg.current.colors COLREG_BG1 ||| 0xF0) % 256, v)
  | 0x23 => ((v.reg.current.colors COLREG_BG2 ||| 0xF0) % 256, v)
  | 0x24 => ((v.reg.current.colors COLREG_BG3 ||| 0xF0) % 256, v)
  | 0x25 => ((v.reg.current.colors COLREG_SPR_EX1 ||| 0xF0) % 256, v)
  | 0x26 => ((v.reg.current.colors COLREG_SPR_EX2 ||| 0xF0) % 256, v)
  | 0x27 | 0x28 | 0x29 | 0x2A | 0x2B | 0x2C | 0x2D | 0x2E =>
    ((v.reg.current.colors (COLREG_SPR0 + addr - 0x27) ||| 0xF0) % 256, v)
  | _ => (0xFF, v)

/-- Replaces `reg.current`. -/
def VIC.setCurrent (v : VIC) (r : VICRegisters) : VIC := { v with reg := { v.reg with current := r } }

/-- The statement `delay |= VICUpdateRegisters` at the end of `VIC::poke`. -/
def VIC.updateRegisters (k : VICDelayFlags) (v : VIC) : VIC :=
  { v with delay := v.delay ||| k.VICUpdateRegisters }

/-- `VIC::poke(addr, value)`; `value` is a `uint8_t`. A case that ends in `break`
goes on to `delay |= VICUpdateRegisters`, a case that ends in `return` does
not. -/
def VIC.poke (k : VICDelayFlags) (env : VICEnv) (v : VIC) (addr value : Nat) : VIC :=
  let value := value % 256
  let v := { v with dataBusPhi2 := value }
  match addr with
  | 0x00 | 0x02 | 0x04 | 0x06 | 0x08 | 0x0A | 0x0C | 0x0E =>
    -- Sprite X (lower 8 bits)
    let x := v.reg.current.sprX (addr >>> 1) &&& 0x100
    (v.setCurrent { v.reg.current with
      sprX := Function.update v.reg.current.sprX (addr >>> 1) (x ||| value) }).updateRegisters k
  | 0x01 | 0x03 | 0x05 | 0x07 | 0x09 | 0x0B | 0x0D | 0x0F =>
    -- Sprite Y
    (v.setCurrent { v.reg.current with
      sprY := Function.update v.reg.current.sprY (addr >>> 1) value }).updateRegisters k
  | 0x10 =>
    -- Sprite X (upper bit)
    (v.setCurrent { v.reg.current with
      sprX := (List.range 8).foldl
        (fun f i => Function.update f i
          ((f i &&& 0xFF) ||| (if GET_BIT value i ≠ 0 then 0x100 else 0)))
        v.reg.current.sprX }).updateRegisters k
  | 0x11 =>
    -- Control register 1
    let v := v.setCurrent { v.reg.current with ctrl1 := value }
    let v := if env.rasterLine = 0x30 ∧ value &&& 0x10 ≠ 0 then
        { v with DENwasSetInRasterline30 := true } else v
    let v := { v with badLine := env.badLineCondition v }
    let v := if v.badLine then { v with delay := v.delay ||| k.VICSetDisplayState } else v
    let v := { v with upperComparisonVal := env.upperComparisonValue v }
    let v := { v with lowerComparisonVal := env.lowerComparisonValue v }
    v.updateRegisters k
  | 0x12 => { v with rasterIrqLine := value }
  | 0x13 | 0x14 => v
  | 0x15 => (v.setCurrent { v.reg.current with sprEnable := value }).updateRegisters k
  | 0x16 =>
    let v := v.setCurrent { v.reg.current with ctrl2 := value }
    let v := { v with leftComparisonVal := env.leftComparisonValue v }
    let v := { v with rightComparisonVal := env.rightComparisonValue v }
    v.updateRegisters k
  | 0x17 =>
    let v := v.setCurrent { v.reg.current with sprExpandY := value }
    let v := { v with cleared_bits_in_d017 := (not32 value &&& not32 v.expansionFF) % 256 }
    let v := { v with expansionFF := (v.expansionFF ||| not32 value) % 256 }
    v.updateRegisters k
  | 0x18 =>
    -- Memory address pointers
    if value &&& 0x02 ≠ v.memSelect &&& 0x02 then
      { v with memSelect := value, messages := v.messages ++ [.MSG_CHARSET] }
    else
      { v with memSelect := value }
  | 0x19 =>
    -- Bits are cleared by writing '1'
    let v := { v with irr := (v.irr &&& (not32 value &&& 0x0F)) % 256 }
    { v with delay := v.delay ||| k.VICUpdateIrqLine }
  | 0x1A =>
    let v := { v with imr := value &&& 0x0F }
    { v with delay := v.delay ||| k.VICUpdateIrqLine }
  | 0x1B => (v.setCurrent { v.reg.current with sprPriority := value }).updateRegisters k
  | 0x1C => (v.setCurrent { v.reg.current with sprMC := value }).updateRegisters k
  | 0x1D => (v.setCurrent { v.reg.current with sprExpandX := value }).updateRegisters k
  | 0x1E | 0x1F =>
    -- Writing has no effect
    v
  | 0x20 | 0x21 | 0x22 | 0x23 | 0x24 | 0x25 | 0x26 | 0x27 | 0x28 | 0x29 | 0x2A | 0x2B | 0x2C
  | 0x2D | 0x2E =>
    -- Color registers
    let v := v.setCurrent { v.reg.current with
      colors := Function.update v.reg.current.colors (addr - 0x20) (value &&& 0xF) }
    -- If enabled, emulate the gray dot bug
    let v := if v.emulateGrayDotBug then
        { v with reg := { v.reg with delayed := { v.reg.delayed with
            colors := Function.update v.reg.delayed.colors (addr - 0x20) 0xF } } }
      else v
    v.updateRegisters k
  | _ => v.updateRegisters k

/-- A VIC with all registers cleared, bank 0, standard memory map and discrete
glue logic. -/
def clearedVIC : VIC :=
  { reg := ⟨⟨fun _ => 0, fun _ => 0, 0, 0, 0, 0, 0, 0, 0, fun _ => 0⟩,
            ⟨fun _ => 0, fun _ => 0, 0, 0, 0, 0, 0, 0, 0, fun _ => 0⟩⟩
    delay := 0, dataBusPhi2 := 0, irr := 0, imr := 0, memSelect := 0, yCounter := 0
    rasterIrqLine := 0, latchedLightPenX := 0, latchedLightPenY := 0
    spriteSpriteCollision := 0, spriteBackgroundColllision := 0
    ultimax := false, memSrc := fun _ => .M_RAM, bankAddr := 0
    glueLogic := .GLUE_DISCRETE, emulateGrayDotBug := false
    DENwasSetInRasterline30 := false, badLine := false
    upperComparisonVal := 0, lowerComparisonVal := 0, leftComparisonVal := 0
    rightComparisonVal := 0, cleared_bits_in_d017 := 0, expansionFF := 0, messages := [] }

/-- Sample values for the bits of the VIC delay pipeline. -/
def sampleVICDelayFlags : VICDelayFlags := ⟨1 <<< 0, 1 <<< 2, 1 <<< 4, 1 <<< 6, 1 <<< 8, 1 <<< 10⟩

/-- Surroundings in which the raster line is 0, port A of CIA 2 reads `pa`, and
the comparison values are all 0 and there is no bad line. -/
def sampleVICEnv (pa : Nat) : VICEnv :=
  ⟨0, pa, fun _ => false, fun _ => 0, fun _ => 0, fun _ => 0, fun _ => 0⟩

/-- The addresses of the registers that are kept in `reg.current` (the shadow
registers): sprite coordinates, control registers 1 and 2, the sprite enable,
expansion, priority and multicolor registers, and the color registers. -/
def shadowRegisterAddresses : List Nat :=
  List.range 0x12 ++ [0x15, 0x16, 0x17, 0x1B, 0x1C, 0x1D] ++ (List.range 15).map (0x20 + ·)

/-! ## CPU: status register, trace buffer and jam query -/

/-- Modelled from the spec: the enumeration `AddressingMode` is declared in a
header that is not among the sources; these are the enumerators that
`CPU::getLengthOfInstruction` names. -/
inductive AddressingMode where
  | ADDR_IMPLIED
  | ADDR_ACCUMULATOR
  | ADDR_IMMEDIATE
  | ADDR_ZERO_PAGE
  | ADDR_ZERO_PAGE_X
  | ADDR_ZERO_PAGE_Y
  | ADDR_INDIRECT_X
  | ADDR_INDIRECT_Y
  | ADDR_RELATIVE
  | ADDR_ABSOLUTE
  | ADDR_ABSOLUTE_X
  | ADDR_ABSOLUTE_Y
  | ADDR_DIRECT
  | ADDR_INDIRECT
  deriving DecidableEq, Repr

/-- Modelled from the spec: the record `RecordedInstruction` is declared in a
header that is not among the sources; these are the members that
`CPU::recordInstruction` fills in. -/
structure RecordedInstruction where
  cycle : Nat
  pc : Nat
  byte1 : Nat
  byte2 : Nat
  byte3 : Nat
  a : Nat
  x : Nat
  y : Nat
  sp : Nat
  flags : Nat
  deriving DecidableEq, Repr

/-- `CPU::traceBufferSize`. -/
def traceBufferSize : Nat := 1024

/-- The members of `CPU` that the status register accessors, the trace buffer
and the jam query use. `readPtr` and `writePtr` are of type `unsigned`, the
registers are of type `uint8_t`, `pc` is a `uint16_t`. `state` is the member
`CPUState state`, kept as the numeric value of its enumerator (the enumeration
is declared in a header that is not among the sources). -/
structure CPU where
  cycle : Nat
  addressingMode : Nat → AddressingMode
  regA : Nat
  regX : Nat
  regY : Nat
  regSP : Nat
  regP : Nat
  pc : Nat
  traceBuffer : Nat → RecordedInstruction
  readPtr : Nat
  writePtr : Nat
  state : Nat

/-- `CPU::getP()`: `regP | 0b00100000`, returned as a `uint8_t`. -/
def CPU.getP (c : CPU) : Nat := (c.regP ||| 0b00100000) % 256

/-- `CPU::getPWithClearedB()`: `getP() & 0b11101111`, returned as a `uint8_t`. -/
def CPU.getPWithClearedB (c : CPU) : Nat := (c.getP &&& 0b11101111) % 256

/-- `CPU::setP(p)`. -/
def CPU.setP (c : CPU) (p : Nat) : CPU := { c with regP := p % 256 }

/-- `CPU::setPWithoutB(p)`: `regP = (p & 0b11101111) | (regP & 0b00010000)`. -/
def CPU.setPWithoutB (c : CPU) (p : Nat) : CPU :=
  { c with regP := (((p % 256) &&& 0b11101111) ||| (c.regP &&& 0b00010000)) % 256 }

/-- `CPU::getLengthOfInstruction(opcode)`. -/
def CPU.getLengthOfInstruction (c : CPU) (opcode : Nat) : Nat :=
  match c.addressingMode opcode with
  | .ADDR_IMPLIED | .ADDR_ACCUMULATOR => 1
  | .ADDR_IMMEDIATE | .ADDR_ZERO_PAGE | .ADDR_ZERO_PAGE_X | .ADDR_ZERO_PAGE_Y
  | .ADDR_INDIRECT_X | .ADDR_INDIRECT_Y | .ADDR_RELATIVE => 2
  | .ADDR_ABSOLUTE | .ADDR_ABSOLUTE_X | .ADDR_ABSOLUTE_Y | .ADDR_DIRECT | .ADDR_INDIRECT => 3

/-- `CPU::clearTraceBuffer()`. -/
def CPU.clearTraceBuffer (c : CPU) : CPU := { c with readPtr := 0, writePtr := 0 }

/-- `CPU::recordedInstructions()`, in `unsigned` arithmetic. -/
def CPU.recordedInstructions (c : CPU) : Nat :=
  if c.writePtr ≥ c.readPtr then c.writePtr - c.readPtr
  else ((traceBufferSize + c.writePtr) % 2 ^ 32 + 2 ^ 32 - c.readPtr) % 2 ^ 32

/-- The local record `i` that `CPU::recordInstruction()` fills in; `spypeek` is
`mem->spypeek`. -/
def CPU.currentInstruction (spypeek : Nat → Nat) (c : CPU) : RecordedInstruction :=
  let opcode := spypeek c.pc % 256
  let length := c.getLengthOfInstruction opcode
  { cycle := c.cycle
    pc := c.pc
    byte1 := opcode
    byte2 := if length > 1 then spypeek ((c.pc + 1) % 65536) % 256 else 0
    byte3 := if length > 2 then spypeek ((c.pc + 2) % 65536) % 256 else 0
    a := c.regA
    x := c.regX
    y := c.regY
    sp := c.regSP
    flags := c.getP }

/-- `CPU::recordInstruction()`; `none` when `assert(writePtr < traceBufferSize)`
fails. -/
def CPU.recordInstruction (spypeek : Nat → Nat) (c : CPU) : Option CPU :=
  let i := c.currentInstruction spypeek
  if c.writePtr < traceBufferSize then
    let c := { c with traceBuffer := Function.update c.traceBuffer c.writePtr i }
    let c := { c with writePtr := ((c.writePtr + 1) % 2 ^ 32) % traceBufferSize }
    if c.writePtr = c.readPtr then
      some { c with readPtr := ((c.readPtr + 1) % 2 ^ 32) % traceBufferSize }
    else some c
  else none

/-- `CPU::readRecordedInstruction()`; `none` when one of its two assertions
fails. -/
def CPU.readRecordedInstruction (c : CPU) : Option (RecordedInstruction × CPU) :=
  if c.recordedInstructions ≠ 0 then
    if c.readPtr < traceBufferSize then
      let result := c.traceBuffer c.readPtr
      some (result, { c with readPtr := ((c.readPtr + 1) % 2 ^ 32) % traceBufferSize })
    else none
  else none

/-- `CPU::isJammed()`: the body is `return state = CPU_JAMMED;`, an assignment
whose value is converted to `bool`. `CPU_JAMMED` is the numeric value of the
enumerator of that name. The result is the returned value and the CPU after the
call. -/
def CPU.isJammed (CPU_JAMMED : Nat) (c : CPU) : Bool × CPU :=
  let c := { c with state := CPU_JAMMED }
  (decide (c.state ≠ 0), c)

/-- The machine at the time of a call of `recordInstruction`: the members of
the CPU other than the trace buffer, and the memory. -/
structure Machine where
  cpu : CPU
  spypeek : Nat → Nat

/-- Puts the members of `m` in place of those of `c`, the trace buffer and its
two pointers apart: what the emulator does to the CPU between two calls of
`recordInstruction` is arbitrary, except that it does not touch the trace
buffer. -/
def CPU.proceed (c : CPU) (m : CPU) : CPU :=
  { m with traceBuffer := c.traceBuffer, readPtr := c.readPtr, writePtr := c.writePtr }

/-- One call of `recordInstruction` for each machine of `ms`, in order, with no
read in between. -/
def CPU.recordCalls (c : CPU) (ms : List Machine) : Option CPU :=
  ms.foldl (fun oc m => oc.bind fun c => (c.proceed m.cpu).recordInstruction m.spypeek)
    (some c)

/-- The instructions that the calls of `recordCalls` record, in order. -/
def recordedBy (ms : List Machine) : List RecordedInstruction :=
  ms.map fun m => m.cpu.currentInstruction m.spypeek

/-- The results of `k` successive calls of `readRecordedInstruction()`, in
order, and the CPU after them. -/
def CPU.readCalls (c : CPU) : Nat → Option (List RecordedInstruction × CPU)
  | 0 => some ([], c)
  | k + 1 =>
    match c.readRecordedInstruction with
    | none => none
    | some (i, c) =>
      match c.readCalls k with
      | none => none
      | some (is, c) => some (i :: is, c)

/-- A CPU after power up with an empty trace buffer, for the sample
evaluations. -/
def sampleCPU : CPU :=
  { cycle := 0
    addressingMode := fun _ => .ADDR_IMPLIED
    regA := 0
    regX := 0
    regY := 0
    regSP := 0xFF
    regP := 0x04
    pc := 0xFCE2
    traceBuffer := fun _ => ⟨0, 0, 0, 0, 0, 0, 0, 0, 0, 0⟩
    readPtr := 0
    writePtr := 0
    state := 0 }

/-- The sample CPU with a memory that holds 0xEA everywhere. -/
def sampleMachine : Machine := ⟨sampleCPU, fun _ => 0xEA⟩

/-- A sample 35-track image without sector errors (error code 1). -/
def sampleD64 : D64File :=
  { numberOfTracks := 35
    diskId1 := 0x41
    diskId2 := 0x42
    errorCode := fun _ _ => 1
    readTrack := fun t s i => (t + 3 * s + 7 * i) % 256 }

/-- A cleared disk. -/
def blankDisk : Disk := clearDisk ⟨fun _ => 0, fun _ => 0⟩

/-! ## Disk: halftrack access and bit delay (`Disk525.h`, `Disk.cpp`) -/

/-- `maxBitsOnTrack` of `Disk_types.h`. -/
def maxBitsOnTrack : Nat := 7928 * 8

/-- `readBitFromHalftrack(ht, offset)`. -/
def readBitFromHalftrack (d : Disk) (ht offset : Nat) : Nat :=
  let offset := offset % d.lengthOfHalftrack ht
  if d.halftrackByte ht (offset / 8) &&& (0x80 >>> (offset % 8)) ≠ 0 then 1 else 0

/-- `writeBitToHalftrack(ht, offset, bit)`. The complement `~(0x80 >> k)` is
taken on the 8 bits of the byte it is stored into. -/
def writeBitToHalftrack (d : Disk) (ht offset : Nat) (bit : Bool) : Disk :=
  let offset := offset % d.lengthOfHalftrack ht
  let idx := 7928 + ht * 7928 + offset / 8
  if bit then
    { d with data := Function.update d.data idx (d.data idx ||| (0x80 >>> (offset % 8))) }
  else
    { d with data := Function.update d.data idx (d.data idx &&& (0xFF ^^^ (0x80 >>> (offset % 8)))) }

/-- Bit `p` of halftrack `ht`, counted from the start of the halftrack: bit
`7 - p % 8` of the byte `data.halftrack[ht][p / 8]`. -/
def Disk.halftrackBit (d : Disk) (ht p : Nat) : Bool :=
  (d.halftrackByte ht (p / 8)).testBit (7 - p % 8)

/-- The field `trackDefaults[t].speedZone`. -/
def speedZoneOfTrackDefaults (t : Nat) : Nat := (trackDefaults.getD t (0, 0)).2

/-- The track that holds halftrack `ht`: `Track t = (ht + 1) / 2`, as in
`Disk::analyzeHalftrack`. -/
def trackOfHalftrack (ht : Nat) : Nat := (ht + 1) / 2

/-- `VC1541::delayBetweenTwoCarryPulses[4]` of `Drive.h`, indexed by the density
bits. -/
def delayBetweenTwoCarryPulses : List Nat := [10000, 9375, 8750, 8125]

/-- `Disk::_bitDelay(ht, pos)`. -/
def Disk._bitDelay (ht _pos : Nat) : Nat :=
  if ht ≤ 33 then 4 * 10000
  else if ht ≤ 47 then 4 * 9375
  else if ht ≤ 59 then 4 * 8750
  else 4 * 8125

/-! ## Drive (`Drive.h`) -/

/-- Modelled from the spec: the enumeration `DiskInsertionStatus` is declared in
a header that is not among the sources; `PARTIALLY_INSERTED` and
`FULLY_INSERTED` are the enumerators that `Drive.h` names, and `NOT_INSERTED`
stands for every other status. -/
inductive DiskInsertionStatus where
  | NOT_INSERTED
  | PARTIALLY_INSERTED
  | FULLY_INSERTED
  deriving DecidableEq, Repr

/-- The members of `VC1541` that the head functions use: the cycle counter of
the drive CPU, the insertion status, the head position, the zone (a `uint8_t`),
the disk, and the flag `writeProtected` of the disk. -/
structure VC1541 where
  cpuCycle : Nat
  insertionStatus : DiskInsertionStatus
  halftrack : Nat
  offset : Nat
  zone : Nat
  disk : Disk
  writeProtected : Bool

/-- `VC1541::hasPartiallyInsertedDisk()`. -/
def VC1541.hasPartiallyInsertedDisk (v : VC1541) : Bool :=
  v.insertionStatus == .PARTIALLY_INSERTED

/-- `VC1541::hasDisk()`. -/
def VC1541.hasDisk (v : VC1541) : Bool := v.insertionStatus == .FULLY_INSERTED

/-- `VC1541::getLightBarrier()`; `disk.isWriteProtected()` returns the flag. -/
def VC1541.getLightBarrier (v : VC1541) : Bool :=
  decide (v.cpuCycle < 1500000) || v.hasPartiallyInsertedDisk || v.writeProtected

/-- `VC1541::getZone()`: the return type is `bool`, so that the `uint8_t` zone is
converted to `zone != 0`. -/
def VC1541.getZone (v : VC1541) : Bool := decide (v.zone ≠ 0)

/-- `VC1541::readBitFromHead()`. -/
def VC1541.readBitFromHead (v : VC1541) : Nat := readBitFromHalftrack v.disk v.halftrack v.offset

/-- `VC1541::writeBitToHead(bit)`; the `uint8_t` argument is converted to
`bool` for `writeBitToHalftrack`. -/
def VC1541.writeBitToHead (v : VC1541) (bit : Nat) : VC1541 :=
  { v with disk := writeBitToHalftrack v.disk v.halftrack v.offset (decide (bit % 256 ≠ 0)) }

/-- `VC1541::rotateDisk()`: `if (++offset >= disk.lengthOfHalftrack(halftrack))
offset = 0;`. -/
def VC1541.rotateDisk (v : VC1541) : VC1541 :=
  let v := { v with offset := v.offset + 1 }
  if v.offset ≥ v.disk.lengthOfHalftrack v.halftrack then { v with offset := 0 } else v

/-- Calls `rotateDisk()` `n` times. -/
def VC1541.rotateDiskN (v : VC1541) : Nat → VC1541
  | 0 => v
  | n + 1 => v.rotateDisk.rotateDiskN n

/-! ## Drive memory (`DriveMemory.cpp`) -/

/-- The two VIA chips of the drive are not among the sources: their state is a
type `V`, and their register accesses are these three functions (`peek` returns
the value and the state after the read). -/
structure VIAAccess (V : Type) where
  peek : V → Nat → Nat × V
  spypeek : V → Nat → Nat
  poke : V → Nat → Nat → V

/-- The members of `VC1541Memory`: 2 KB of RAM, 16 KB of ROM, and the two VIAs
of the drive it belongs to. -/
structure VC1541Memory (V : Type) where
  ram : Nat → Nat
  rom : Nat → Nat
  via1 : V
  via2 : V

/-- `VC1541Memory::peek(addr)`; `addr` is a `uint16_t`, the result a
`uint8_t`. -/
def VC1541Memory.peek {V : Type} (io : VIAAccess V) (m : VC1541Memory V) (addr : Nat) :
    Nat × VC1541Memory V :=
  let addr := addr % 65536
  if addr ≥ 0x8000 then
    (m.rom (addr &&& 0x3FFF), m)
  else
    -- Map to range 0x0000 - 0x1FFF
    let addr := addr &&& 0x1FFF
    if addr < 0x0800 then (m.ram addr, m)
    else if addr < 0x1800 then ((addr >>> 8) % 256, m)
    else if addr < 0x1C00 then
      let r := io.peek m.via1 (addr &&& 0xF)
      (r.1 % 256, { m with via1 := r.2 })
    else
      let r := io.peek m.via2 (addr &&& 0xF)
      (r.1 % 256, { m with via2 := r.2 })

/-- `VC1541Memory::poke(addr, value)`; `addr` is a `uint16_t`, `value` a
`uint8_t`. -/
def VC1541Memory.poke {V : Type} (io : VIAAccess V) (m : VC1541Memory V) (addr value : Nat) :
    VC1541Memory V :=
  let addr := addr % 65536
  let value := value % 256
  if addr ≥ 0x8000 then m
  else
    -- Map to range 0x0000 - 0x1FFF
    let addr := addr &&& 0x1FFF
    if addr < 0x0800 then { m with ram := Function.update m.ram addr value }
    else if addr ≥ 0x1C00 then { m with via2 := io.poke m.via2 (addr &&& 0xF) value }
    else if addr ≥ 0x1800 then { m with via1 := io.poke m.via1 (addr &&& 0xF) value }
    else m

/-- A drive with a write protected, cleared disk; the head is at the start of
halftrack 35 (track 18). -/
def sampleDrive : VC1541 :=
  { cpuCycle := 2000000, insertionStatus := .FULLY_INSERTED, halftrack := 35, offset := 0
    zone := 2, disk := blankDisk, writeProtected := true }

/-- A drive memory with cleared RAM and ROM; the VIAs hold no state and read
0. -/
def sampleDriveMemory : VC1541Memory Unit := ⟨fun _ => 0, fun _ => 0, (), ()⟩

/-- VIA accesses that read 0 and ignore writes. -/
def sampleVIAAccess : VIAAccess Unit := ⟨fun _ _ => (0, ()), fun _ _ => 0, fun _ _ _ => ()⟩

/-! ## Disk analysis (`Disk.cpp`) -/

/-- Entry `i` of the working buffer `trackInfo.bit` that `analyzeHalftrack(ht)`
sets up in a zeroed `trackInfo`: the 7928 bytes of the halftrack expanded by
`bitExpansion` to one bit per entry, most significant bit first, then a copy of
the first `len` entries at offset `len`. -/
def trackInfoBit (d : Disk) (ht i : Nat) : Nat :=
  let len := d.lengthOfHalftrack ht
  let expanded := fun j =>
    if j < 7928 * 8 then
      (if d.halftrackByte ht (j / 8) &&& (0x80 >>> (j % 8)) ≠ 0 then 1 else 0)
    else 0
  if len ≤ i ∧ i < 2 * len then expanded (i - len) else expanded i

/-- `Disk::analyzeSectorHeaderBlock(offset)` on the buffer `bit`: the
`(begin, length)` arguments of its calls of `log`, in order; `none` when the
assertion on the block ID fails. -/
def analyzeSectorHeaderBlock (invgcr : Nat → Nat) (bit : Nat → Nat) (offset : Nat) :
    Option (List (Nat × Nat)) :=
  -- The first byte must be 0x08 (indicating a header block)
  if decodeGcr invgcr (fun i => bit (offset + i)) = 0x08 then
    let offset := offset + 10
    let s := decodeGcr invgcr (fun i => bit (offset + 10 + i))
    let t := decodeGcr invgcr (fun i => bit (offset + 20 + i))
    let id2 := decodeGcr invgcr (fun i => bit (offset + 30 + i))
    let id1 := decodeGcr invgcr (fun i => bit (offset + 40 + i))
    let checksum := (id1 ^^^ id2 ^^^ t ^^^ s) % 256
    if checksum ≠ decodeGcr invgcr (fun i => bit (offset + i)) then some [(offset, 10)]
    else some []
  else none

/-- `Disk::analyzeSectorDataBlock(offset)` on the buffer `bit`: the
`(begin, length)` arguments of its calls of `log`, in order; `none` when the
assertion on the block ID fails. The loop state is (checksum, offset). -/
def analyzeSectorDataBlock (invgcr : Nat → Nat) (bit : Nat → Nat) (offset : Nat) :
    Option (List (Nat × Nat)) :=
  -- The first byte must be 0x07
  if decodeGcr invgcr (fun i => bit (offset + i)) = 0x07 then
    let offset := offset + 10
    let loop := (List.range 256).foldl
      (fun (st : Nat × Nat) _ =>
        ((st.1 ^^^ decodeGcr invgcr (fun i => bit (st.2 + i))) % 256, st.2 + 10))
      (0, offset)
    let checksum := loop.1
    let offset := loop.2
    if checksum ≠ decodeGcr invgcr (fun i => bit (offset + i)) then some [(offset, 10)]
    else some []
  else none

/-- The bytes of the header block that `encodeSector` writes for the error code
of the sector. -/
def headerBytes (a : D64File) (t s : Nat) : List Nat :=
  let e := a.errorCode t s
  let checksum := (a.diskId1 ^^^ a.diskId2 ^^^ t ^^^ s) % 256
  [if e = 0x2 then 0x00 else 0x08,
   if e = 0x9 then checksum ^^^ 0xFF else checksum,
   s, t,
   if e = 0xB then a.diskId2 ^^^ 0xFF else a.diskId2,
   if e = 0xB then a.diskId1 ^^^ 0xFF else a.diskId1,
   0x0F, 0x0F]

/-- The bytes of the data block that `encodeSector` writes for the error code
of the sector. -/
def dataBytes (a : D64File) (t s : Nat) : List Nat :=
  let e := a.errorCode t s
  let checksum := (sectorData a t s).foldl (fun c b => c ^^^ b) 0
  [if e = 0x4 then 0x00 else 0x07] ++ sectorData a t s ++
    [if e = 0x5 then checksum ^^^ 0xFF else checksum, 0x00, 0x00]

/-- The bits that `encodeSector` writes for a sector with any error code: SYNC
(40 zero bits for error code 3), header block, nine gap bytes, SYNC, data
block, tail gap. -/
def sectorLayoutWithErrors (a : D64File) (t s tailGap : Nat) : List Bool :=
  List.replicate 40 (decide (a.errorCode t s ≠ 0x3)) ++
  gcrBitsOfBytes (headerBytes a t s) ++
  gapBits 9 ++
  List.replicate 40 (decide (a.errorCode t s ≠ 0x3)) ++
  gcrBitsOfBytes (dataBytes a t s) ++
  gapBits tailGap

/-- The sample image with the error code `e` on every sector. -/
def sampleD64WithError (e : Nat) : D64File := { sampleD64 with errorCode := fun _ _ => e }

/-! ## CIA: register writes (`CIA::poke`) and reachable states -/

/-- `CIA::todInterrupt()`. -/
def CIA.todInterrupt (c : CIA) : CIA := { c with delay := c.delay ||| CIATODInt0 }

/-- Modelled from the spec: `TOD::checkForInterrupt()` is declared in `TOD.h` and
defined in a file that is not among the sources. It updates `matching`; on a
positive edge (the time of day reaches the alarm time) it requests an interrupt
from the connected CIA through `todInterrupt()`. -/
def CIA.checkForInterrupt (c : CIA) : CIA :=
  let c := if !c.tod.matching && decide (c.tod.tod = c.tod.alarm) then c.todInterrupt else c
  { c with tod := { c.tod with matching := decide (c.tod.tod = c.tod.alarm) } }

/-- `TOD::setTodHours(value)`, with the interrupt request of the CIA. -/
def CIA.setTodHours (c : CIA) (value : Nat) : CIA :=
  CIA.checkForInterrupt
    { c with tod := { c.tod with tod := { c.tod.tod with hours := value &&& 0x9F } } }

/-- `TOD::setTodMinutes(value)`. -/
def CIA.setTodMinutes (c : CIA) (value : Nat) : CIA :=
  CIA.checkForInterrupt
    { c with tod := { c.tod with tod := { c.tod.tod with minutes := value &&& 0x7F } } }

/-- `TOD::setTodSeconds(value)`. -/
def CIA.setTodSeconds (c : CIA) (value : Nat) : CIA :=
  CIA.checkForInterrupt
    { c with tod := { c.tod with tod := { c.tod.tod with seconds := value &&& 0x7F } } }

/-- `TOD::setTodTenth(value)`. -/
def CIA.setTodTenth (c : CIA) (value : Nat) : CIA :=
  CIA.checkForInterrupt
    { c with tod := { c.tod with tod := { c.tod.tod with tenth := value &&& 0x0F } } }

/-- `TOD::setAlarmHours(value)`. -/
def CIA.setAlarmHours (c : CIA) (value : Nat) : CIA :=
  CIA.checkForInterrupt
    { c with tod := { c.tod with alarm := { c.tod.alarm with hours := value &&& 0x9F } } }

/-- `TOD::setAlarmMinutes(value)`. -/
def CIA.setAlarmMinutes (c : CIA) (value : Nat) : CIA :=
  CIA.checkForInterrupt
    { c with tod := { c.tod with alarm := { c.tod.alarm with minutes := value &&& 0x7F } } }

/-- `TOD::setAlarmSeconds(value)`. -/
def CIA.setAlarmSeconds (c : CIA) (value : Nat) : CIA :=
  CIA.checkForInterrupt
    { c with tod := { c.tod with alarm := { c.tod.alarm with seconds := value &&& 0x7F } } }

/-- `TOD::setAlarmTenth(value)`. -/
def CIA.setAlarmTenth (c : CIA) (value : Nat) : CIA :=
  CIA.checkForInterrupt
    { c with tod := { c.tod with alarm := { c.tod.alarm with tenth := value &&& 0x0F } } }

/-- `TOD::stop()`. -/
def TOD.stop (t : TOD) : TOD := { t with frequencyCounter := 0, stopped := true }

/-- `TOD::cont()`. -/
def TOD.cont (t : TOD) : TOD := { t with stopped := false }

/-- Modelled from the spec: `CIA::pokePA(value)` is declared in `CIA.h`, which is
not among the sources; the comment at its call in `CIA::poke` gives its body,
`PRA = value; updatePA();`. The bank switch of the VIC that `CIA2::pokePA` adds
belongs to another component. -/
def CIA.pokePA (env : PortEnv) (c : CIA) (value : Nat) : CIA :=
  CIA.updatePA env { c with PRA := value }

/-- Modelled from the spec: `CIA::pokeDDRA(value)`, see `pokePA`; its body is
`DDRA = value; updatePA();`. -/
def CIA.pokeDDRA (env : PortEnv) (c : CIA) (value : Nat) : CIA :=
  CIA.updatePA env { c with DDRA := value }

/-- `CIA::poke(addr, value)`, case 0x0F (`CIA_CONTROL_REG_B`), after
`wakeUp()`. -/
def CIA.pokeControlRegB (env : PortEnv) (c : CIA) (value : Nat) : CIA :=
  -- -------0 : Stop timer, -------1 : Start timer
  let c := if value &&& 0x01 ≠ 0 then
      let c := { c with delay := c.delay ||| CIACountB1 ||| CIACountB0
                        feed := c.feed ||| CIACountB0 }
      if ¬ (c.CRB &&& 0x01 ≠ 0) then { c with PB67Toggle := c.PB67Toggle ||| 0x80 } else c
    else
      { c with delay := c.delay &&& not64 (CIACountB1 ||| CIACountB0)
               feed := c.feed &&& not64 CIACountB0 }
  -- ------1- : Indicate timer underflow on port B bit 7
  let c := if value &&& 0x02 ≠ 0 then
      let c := { c with PB67TimerMode := c.PB67TimerMode ||| 0x80 }
      if value &&& 0x04 = 0 then
        if c.delay &&& CIAPB7Low1 = 0 then
          { c with PB67TimerOut := c.PB67TimerOut &&& 0x7F }
        else
          { c with PB67TimerOut := c.PB67TimerOut ||| 0x80 }
      else
        { c with PB67TimerOut := (c.PB67TimerOut &&& 0x7F) ||| (c.PB67Toggle &&& 0x80) }
    else
      { c with PB67TimerMode := c.PB67TimerMode &&& 0x7F }
  -- ----1--- : Timer stops upon underflow (One shot mode)
  let c := if value &&& 0x08 ≠ 0 then { c with feed := c.feed ||| CIAOneShotB0 }
    else { c with feed := c.feed &&& not64 CIAOneShotB0 }
  -- ---1---- : Load start value into timer
  let c := if value &&& 0x10 ≠ 0 then { c with delay := c.delay ||| CIALoadB0 } else c
  -- -xx----- : Timer does not count system cycles
  let c := if value &&& 0x60 ≠ 0 then
      { c with delay := c.delay &&& not64 (CIACountB1 ||| CIACountB0)
               feed := c.feed &&& not64 CIACountB0 }
    else c
  let c := c.updatePB env
  { c with CRB := value }

/-- `CIA::poke(addr, value)`, case 0x0D (`CIA_INTERRUPT_CONTROL`), after
`wakeUp()`. -/
def CIA.pokeInterruptControl (c : CIA) (value : Nat) : CIA :=
  -- Bit 7 means set (1) or clear (0) the other bits
  let c := if value &&& 0x80 ≠ 0 then { c with imr := (c.imr ||| (value &&& 0x1F)) % 256 }
    else { c with imr := (c.imr &&& not32 (value &&& 0x1F)) % 256 }
  -- Raise an interrupt in the next cycle if conditions match
  if c.imr &&& c.icr &&& 0x1F ≠ 0 ∧ c.INT ≠ 0 then
    if c.model = .MOS_8521 then
      if ¬ (c.delay &&& CIAReadIcr1 ≠ 0) then
        { c with delay := c.delay ||| (CIASetInt1 ||| CIASetIcr1) }
      else c
    else
      { c with delay := c.delay ||| (CIASetInt0 ||| CIASetIcr0) }
  -- Clear pending interrupt if a write has occurred in the previous cycle
  else if c.delay &&& CIAClearIcr2 ≠ 0 then
    if c.model = .MOS_6526 then
      { c with delay := c.delay &&& not64 (CIASetInt1 ||| CIASetIcr1) }
    else c
  else c

/-- `CIA::poke(addr, value)`; `value` is a `uint8_t`. The case 0x0E is
`pokeControlRegA`, which begins with `wakeUp()` itself. An unknown address ends
in `panic`, which only prints a message. -/
def CIA.poke (env : PortEnv) (c : CIA) (addr value : Nat) : CIA :=
  let value := value % 256
  if addr = 0x0E then c.pokeControlRegA env value
  else
    let c := c.wakeUp
    match addr with
    | 0x00 => c.pokePA env value
    | 0x01 => CIA.updatePB env { c with PRB := value }
    | 0x02 => c.pokeDDRA env value
    | 0x03 => CIA.updatePB env { c with DDRB := value }
    | 0x04 =>
      let c := { c with latchA := (c.latchA &&& 0xFF00) ||| value }
      if c.delay &&& CIALoadA2 ≠ 0 then
        { c with counterA := (c.counterA &&& 0xFF00) ||| value }
      else c
    | 0x05 =>
      let c := { c with latchA := (c.latchA &&& 0x00FF) ||| (value <<< 8) }
      let c := if c.delay &&& CIALoadA2 ≠ 0 then
          { c with counterA := (c.counterA &&& 0x00FF) ||| (value <<< 8) }
        else c
      -- Load counter if timer is stopped
      if ¬ (c.CRA &&& 0x01 ≠ 0) then { c with delay := c.delay ||| CIALoadA0 } else c
    | 0x06 =>
      let c := { c with latchB := (c.latchB &&& 0xFF00) ||| value }
      if c.delay &&& CIALoadB2 ≠ 0 then
        { c with counterB := (c.counterB &&& 0xFF00) ||| value }
      else c
    | 0x07 =>
      let c := { c with latchB := (c.latchB &&& 0x00FF) ||| (value <<< 8) }
      let c := if c.delay &&& CIALoadB2 ≠ 0 then
          { c with counterB := (c.counterB &&& 0x00FF) ||| (value <<< 8) }
        else c
      -- Load counter if timer is stopped
      if c.CRB &&& 0x01 = 0 then { c with delay := c.delay ||| CIALoadB0 } else c
    | 0x08 =>
      if c.CRB &&& 0x80 ≠ 0 then c.setAlarmTenth value
      else
        let c := c.setTodTenth value
        { c with tod := c.tod.cont }
    | 0x09 => if c.CRB &&& 0x80 ≠ 0 then c.setAlarmSeconds value else c.setTodSeconds value
    | 0x0A => if c.CRB &&& 0x80 ≠ 0 then c.setAlarmMinutes value else c.setTodMinutes value
    | 0x0B =>
      if c.CRB &&& 0x80 ≠ 0 then c.setAlarmHours value
      else
        -- Writing 12 pm into hour register turns to 12 am and vice versa.
        let value := if value &&& 0x1F = 0x12 then value ^^^ 0x80 else value
        let c := c.setTodHours value
        { c with tod := c.tod.stop }
    | 0x0C =>
      { c with SDR := value, delay := c.delay ||| CIASerLoad0, feed := c.feed ||| CIASerLoad0 }
    | 0x0D => c.pokeInterruptControl value
    | 0x0F => c.pokeControlRegB env value
    | _ => c

/-- The state of a CIA 2 after `CIA2::reset()`: as for CIA 1, then both counters
are 0xFFFF. -/
def resetCIA2 (model : CIAModel) (emulateTimerBBug : Bool) (tod : TOD) (cpu : CPULines)
    (cpuCycle : Nat) : CIA :=
  { resetCIA1 model emulateTimerBBug tod cpu cpuCycle with
    kind := .CIA2, counterA := 0xFFFF, counterB := 0xFFFF }

/-- The calls that move a CIA from one state to the next: a register write, a
register read, a cycle, and a change of the parts that other components own
(the interrupt lines and the cycle counter of the CPU, the running clock). -/
inductive CIACall where
  | poke (env : PortEnv) (addr value : Nat)
  | peek (env : PortEnv) (addr : Nat)
  | executeOneCycle
  | surroundings (cpu : CPULines) (cpuCycle : Nat) (tod : TOD)

/-- The state after one call. -/
def CIA.call (c : CIA) : CIACall → CIA
  | .poke env addr value => c.poke env addr value
  | .peek env addr => (c.peek env addr).2
  | .executeOneCycle => c.executeOneCycle
  | .surroundings cpu cpuCycle tod => { c with cpu := cpu, cpuCycle := cpuCycle, tod := tod }

/-- The state after a sequence of calls. -/
def CIA.calls (c : CIA) (l : List CIACall) : CIA := l.foldl CIA.call c

/-- The level bits of `feed`: `CountA0`, `CountB0`, `OneShotA0`, `OneShotB0`,
`SerLoad0` and `SerClk0`. -/
def feedBits : Nat :=
  CIACountA0 ||| CIACountB0 ||| CIAOneShotA0 ||| CIAOneShotB0 ||| CIASerLoad0 ||| CIASerClk0

/-! ## Emulator thread (`Thread.cpp`) -/

/-- Modelled from the spec: the enumeration `ExecutionState` is declared in a
header that is not among the sources; these are the four enumerators that
`Thread.cpp` names. -/
inductive ExecutionState where
  | EXEC_OFF
  | EXEC_PAUSED
  | EXEC_RUNNING
  | EXEC_HALTED
  deriving DecidableEq, Repr

/-- The calls `C64Component::powerOn()`, `run()`, `pause()`, `powerOff()` and
`halt()` that the state change of `Thread::main` makes. -/
inductive ComponentCall where
  | powerOn
  | run
  | pause
  | powerOff
  | halt
  deriving DecidableEq, Repr

/-- `Thread::SyncMode`. -/
inductive SyncMode where
  | Periodic
  | Pulsed
  deriving DecidableEq, Repr

/-- The outcome of the state-change step: the component calls made, in order,
the state afterwards, whether `main` returns, and whether `fatalError` was
reached. -/
structure StateChange where
  calls : List ComponentCall
  state : ExecutionState
  returns : Bool
  fatal : Bool
  deriving DecidableEq, Repr

/-- The step `while (newState != state) { ... }` of `Thread::main`, for the
values of `state` and `newState` at its entry; every path through the body ends
in `break` or `return`. -/
def Thread.stateChange (state newState : ExecutionState) : StateChange :=
  if newState ≠ state then
    if state = .EXEC_OFF ∧ newState = .EXEC_PAUSED then
      ⟨[.powerOn], newState, false, false⟩
    else if state = .EXEC_OFF ∧ newState = .EXEC_RUNNING then
      ⟨[.powerOn, .run], newState, false, false⟩
    else if state = .EXEC_PAUSED ∧ newState = .EXEC_OFF then
      ⟨[.powerOff], newState, false, false⟩
    else if state = .EXEC_PAUSED ∧ newState = .EXEC_RUNNING then
      ⟨[.run], newState, false, false⟩
    else if state = .EXEC_RUNNING ∧ newState = .EXEC_OFF then
      ⟨[.pause, .powerOff], newState, false, false⟩
    else if state = .EXEC_RUNNING ∧ newState = .EXEC_PAUSED then
      ⟨[.pause], newState, false, false⟩
    else if newState = .EXEC_HALTED then
      ⟨[.halt], newState, true, false⟩
    else
      -- Invalid state transition
      ⟨[], state, false, true⟩
  else ⟨[], state, false, false⟩

/-- `Thread::wakeUp()`: the body is `if (mode == SyncMode::Pulsed) wakeUp();`,
a call of `Thread::wakeUp()` itself. Every call uses one unit of `fuel`; the
result is `some ()` when the call returns and `none` when the fuel runs out. -/
def Thread.wakeUp (mode : SyncMode) : Nat → Option Unit
  | 0 => none
  | fuel + 1 => if mode = .Pulsed then Thread.wakeUp mode fuel else some ()

/-! ## Disk: encoding a track (`Disk.cpp`) -/

/-- The column `firstSectorNr` of the table `Disk::trackDefaults[43]` (entry 0
is padding). -/
def trackDefaultsFirstSectorNr : List Nat :=
  [0,
   0, 21, 42, 63, 84, 105, 126, 147, 168, 289, 210, 231, 252, 273, 294, 315, 336,
   357, 376, 395, 414, 433, 452, 471,
   490, 508, 526, 544, 562, 580,
   598, 615, 632, 649, 666,
   683, 700, 717, 734, 751, 768, 785]

/-- The field `trackDefaults[t].firstSectorNr`. -/
def firstSectorNr (t : Nat) : Nat := trackDefaultsFirstSectorNr.getD t 0

/-- Modelled from the spec: `speedZoneOfTrack` is declared in a header that is
not among the sources; it is the speed zone that `trackDefaults` gives the
track. -/
def speedZoneOfTrack (t : Nat) : Nat := speedZoneOfTrackDefaults t

/-- Modelled from the spec: `speedZoneOfHalftrack` is declared in a header that
is not among the sources; a halftrack has the speed zone of the track
`(ht + 1) / 2` it belongs to. -/
def speedZoneOfHalftrack (ht : Nat) : Nat := speedZoneOfTrack (trackOfHalftrack ht)

/-- The local table `tailGap[4]` of `encodeArchive(D64File *, bool)`. -/
def tailGapOfZone (zone : Nat) : Nat := [9, 12, 17, 8].getD zone 0

/-- The local table `trackLength[4]` of `encodeArchive(D64File *, bool)`. -/
def trackLengthOfZone (zone : Nat) : Nat :=
  [6250 * 8, 6667 * 8, 7143 * 8, 7693 * 8].getD zone 0

/-- The loop "Assign track length" of `encodeArchive(D64File *, bool)`:
`length.halftrack[ht] = trackLength[speedZoneOfHalftrack(ht)]` for the
halftracks 1 to 84. -/
def assignTrackLengths (d : Disk) : Disk :=
  (List.range 84).foldl
    (fun (d : Disk) i =>
      { d with length :=
          Function.update d.length (1 + (i + 1)) (trackLengthOfZone (speedZoneOfHalftrack (i + 1))) })
    d

/-- `encodeTrack(a, t, tailGap, start)`: returns the disk and the number of
encoded bits. The loop state is (disk, start, totalEncodedBits). `HeadPosition`
is declared in a header that is not among the sources; head positions are
natural numbers here. -/
def encodeTrack (d : Disk) (a : D64File) (t tailGap start : Nat) : Disk × Nat :=
  let r := (List.range (numberOfSectorsInTrack t)).foldl
    (fun (st : Disk × Nat × Nat) s =>
      let e := encodeSector st.1 a t s st.2.1 tailGap
      (e.1, st.2.1 + e.2, st.2.2 + e.2))
    (d, start, 0)
  (r.1, r.2.2)

/-- The bits of a whole track: the sectors 0, 1, ... one after the other. -/
def trackLayout (a : D64File) (t tailGap : Nat) : List Bool :=
  ((List.range (numberOfSectorsInTrack t)).map
    (fun s => sectorLayoutWithErrors a t s tailGap)).flatten

/-- `encodeGcr(values, length, t, offset)`: the bytes of the array one after the
other, ten bits each. -/
def encodeGcrBytes (d : Disk) (values : List Nat) (t offset : Nat) : Disk :=
  (values.foldl (fun (st : Disk × Nat) v => (encodeGcr st.1 v t st.2, st.2 + 10)) (d, offset)).1

/-! ## VIC-II: memory access (`VIC_memory.cpp`) and debugging (`VIC_debug.cpp`) -/

/-- What a memory access of the VIC reads: `c64->mem.ram[a]`, `c64->mem.rom[a]`,
or the expansion port at `a` (`expansionport.peek(a)` in `memAccess`,
`expansionport.spypeek(a)` in `memSpyAccess`). -/
inductive VICAccess where
  | ram (a : Nat)
  | rom (a : Nat)
  | expansionPort (a : Nat)
  deriving DecidableEq, Repr

/-- `VIC::memAccess(addr)`: the location read and the value left in the member
`addrBus` (16 bits). -/
def VIC.memAccess (v : VIC) (addr : Nat) : VICAccess × Nat :=
  let addrBus := (v.bankAddr ||| addr) % 2 ^ 16
  match v.memSrc (addrBus >>> 12) with
  | .M_RAM => (.ram addrBus, addrBus)
  | .M_CHAR => (.rom (0xC000 + addr), addrBus)
  | .M_CRTHI => (.expansionPort (addrBus ||| 0xF000), addrBus)

/-- `VIC::isCharRomAddr(addr)`. -/
def VIC.isCharRomAddr (v : VIC) (addr : Nat) : Bool :=
  let addr := ((addr ||| v.bankAddr) % 2 ^ 16) >>> 12
  addr = 1 || addr = 9

/-- `VIC::memSpyAccess(addr)`: the location read; `getUltimax()` returns the
flag `ultimax`. -/
def VIC.memSpyAccess (v : VIC) (addr : Nat) : VICAccess :=
  let addrBus := (v.bankAddr ||| addr) % 2 ^ 16
  if v.ultimax then
    if addrBus >>> 12 = 0xF ∨ addrBus >>> 12 = 0xB ∨ addrBus >>> 12 = 0x7 ∨ addrBus >>> 12 = 0x3
    then .expansionPort (addrBus ||| 0xF000)
    else .ram addrBus
  else
    if v.isCharRomAddr addr then .rom (0xC000 + addr) else .ram addrBus

/-- Modelled from the spec: the macro `WRITE_BIT(x, nr, value)` is defined in a
header that is not among the sources; it sets bit `nr` of `x` if `value` is
true and clears it otherwise. -/
def WRITE_BIT (x nr : Nat) (value : Bool) : Nat :=
  if value then x ||| (1 <<< nr) else x &&& (0xFF ^^^ (1 <<< nr))

/-- `VIC::setRasterInterruptEnable(b)`: `WRITE_BIT(imr, 1, b)`. -/
def VIC.setRasterInterruptEnable (v : VIC) (b : Bool) : VIC := { v with imr := WRITE_BIT v.imr 1 b }

/-- `VIC::setIrqOnSpriteBackgroundCollision(b)`: `WRITE_BIT(imr, 1, b)`. -/
def VIC.setIrqOnSpriteBackgroundCollision (v : VIC) (b : Bool) : VIC :=
  { v with imr := WRITE_BIT v.imr 1 b }

/-- The members of `VICInfo` that `VIC::getInfo()` derives from the interrupt
registers. -/
structure VICInfo where
  imr : Nat
  irr : Nat
  spriteCollisionIrqEnabled : Bool
  backgroundCollisionIrqEnabled : Bool
  rasterIrqEnabled : Bool
  irqLine : Bool
  deriving DecidableEq, Repr

/-- `VIC::getInfo()`, the members above. -/
def VIC.getInfo (v : VIC) : VICInfo :=
  { imr := v.imr
    irr := v.irr
    spriteCollisionIrqEnabled := decide (GET_BIT v.imr 2 ≠ 0)
    backgroundCollisionIrqEnabled := decide (GET_BIT v.imr 1 ≠ 0)
    rasterIrqEnabled := decide (GET_BIT v.imr 1 ≠ 0)
    irqLine := decide (v.imr &&& v.irr ≠ 0) }

/-! ## GeoRAM cartridge (`GeoRam.cpp`, `ExpansionPort.cpp`) -/

/-- The members of `GeoRAM` that `offset` uses: the two registers (`uint8_t`)
and the RAM capacity of the cartridge in bytes. -/
structure GeoRAM where
  bank : Nat
  page : Nat
  ramCapacity : Nat

/-- `GeoRAM::offset(addr)`; `addr` is a `uint8_t`, the arithmetic is `unsigned`
(32 bits). -/
def GeoRAM.offset (g : GeoRAM) (addr : Nat) : Nat :=
  let bankOffset := ((g.bank * 16384) % 2 ^ 32) % g.ramCapacity
  let pageOffset := (g.page &&& 0x3F) * 256
  (bankOffset + pageOffset + addr % 256) % 2 ^ 32

/-- `ExpansionPort::attachGeoRamCartridge(capacity)`: the RAM capacity in bytes
that the new cartridge gets, `none` when the capacity is refused. -/
def attachGeoRamCartridge (capacity : Nat) : Option Nat :=
  if capacity ∈ [64, 128, 256, 512, 1024, 2048, 4096] then some ((capacity * 1024) % 2 ^ 32)
  else none

/-- The state in which `CIA::wakeUp()` finds a CIA that went to sleep in state `c`
and skipped `k` cycles since. -/
def CIA.asleep (c : CIA) (k : Nat) : CIA := { c.sleep with idleCounter := k }

/-! ## Disk: encoding and decoding a D64 image (`Disk.cpp`) -/

/-- `Disk::encodeArchive(D64File *a, bool alignTracks)`. `stagger t` stands for
the value of `(HeadPosition)(length.track[t][0] * trackDefaults[t].stagger)`, a
floating point product; the final loop of assertions on the track lengths has no
effect. -/
def encodeArchive (d : Disk) (a : D64File) (alignTracks : Bool) (stagger : Nat → Nat) : Disk :=
  -- Wipe out track data
  let d := clearDisk d
  -- Assign track length
  let d := assignTrackLengths d
  -- Encode tracks
  (List.range a.numberOfTracks).foldl
    (fun (d : Disk) i =>
      let t := i + 1
      let zone := speedZoneOfTrack t
      let start := if alignTracks then stagger t else 0
      (encodeTrack d a t (tailGapOfZone zone) start).1)
    d

/-- `Disk::halftrackIsEmpty(ht)`: all 7928 bytes of the halftrack are 0x55. -/
def halftrackIsEmpty (d : Disk) (ht : Nat) : Bool :=
  (List.range 7928).all (fun i => d.halftrackByte ht i == 0x55)

/-- `Disk::trackIsEmpty(t)`. -/
def trackIsEmpty (d : Disk) (t : Nat) : Bool := halftrackIsEmpty d (2 * t - 1)

/-- `SectorInfo` of `Disk_types.h`. -/
structure SectorInfo where
  headerBegin : Nat
  headerEnd : Nat
  dataBegin : Nat
  dataEnd : Nat
  deriving DecidableEq, Repr

/-- Modelled from the spec: `isSectorNumber` is declared in a header that is not
among the sources; a track has at most 21 sectors, numbered from 0. -/
def isSectorNumber (nr : Nat) : Bool := nr ≤ 20

/-- The loop of `analyzeHalftrack` that scans for SYNC sequences: the state after
the iterations `0 .. n - 1`, that is the array `sync` and the counter
`noOfOnes`. -/
def scanSync (invgcr : Nat → Nat) (bit : Nat → Nat) : Nat → (Nat → Nat) × Nat
  | 0 => (fun _ => 0, 0)
  | i + 1 =>
    let st := scanSync invgcr bit i
    let sync := if bit i = 0 ∧ st.2 ≥ 10 then
        Function.update st.1 i (decodeGcr invgcr (fun j => bit (i + j)))
      else st.1
    (sync, if bit i ≠ 0 then st.2 + 1 else 0)

/-- The loop `for (startOffset = i; startOffset < i + fuel; startOffset++)` of
`analyzeHalftrack` that looks up the first sector header block: the value of
`startOffset` when the loop is left, by `break` at the first offset with
`sync[startOffset] == 0x08` or at the bound. -/
def lookupHeader (sync : Nat → Nat) : Nat → Nat → Nat
  | 0, i => i
  | fuel + 1, i => if sync i = 0x08 then i else lookupHeader sync fuel (i + 1)

/-- The loop of `analyzeHalftrack` that looks up the first sector header block:
the first `startOffset < len` with `sync[startOffset] == 0x08`, and `len` if
there is none. -/
def findStartOffset (sync : Nat → Nat) (len : Nat) : Nat := lookupHeader sync len 0

/-- The state of the loop of `analyzeHalftrack` that computes the offsets of all
sectors: the local `sector`, the array `trackInfo.sectorInfo`, and whether the
loop was left by `break`. -/
structure SectorLoop where
  sector : Nat
  info : Nat → SectorInfo
  done : Bool

/-- One iteration of the loop of `analyzeHalftrack` that computes the offsets of
all sectors. `headerBlockSize` and `dataBlockSize` are constants of `Disk.h`,
which is not among the sources; they are parameters. -/
def sectorStep (invgcr : Nat → Nat) (headerBlockSize dataBlockSize : Nat) (bit sync : Nat → Nat)
    (st : SectorLoop) (i : Nat) : SectorLoop :=
  if st.done then st
  else if sync i = 0x08 then
    let sector := decodeGcr invgcr (fun j => bit (i + 20 + j))
    if isSectorNumber sector then
      if (st.info sector).headerEnd ≠ 0 then
        -- We've seen this sector already, so we are done.
        { st with sector := sector, done := true }
      else
        { st with
          sector := sector
          info := Function.update st.info sector
            { st.info sector with headerBegin := i, headerEnd := i + headerBlockSize } }
    else { st with sector := sector }
  else if sync i = 0x07 then
    if isSectorNumber st.sector then
      { st with
        info := Function.update st.info st.sector
          { st.info st.sector with dataBegin := i, dataEnd := i + dataBlockSize } }
    else st
  else st

/-- The loop of `analyzeHalftrack` that checks the integrity of all sector
blocks, reduced to its assertions: `analyzeSectorHeaderBlock` and
`analyzeSectorDataBlock` are called for the blocks that were found, and each of
them asserts the block ID. -/
def checkSectorBlocks (invgcr : Nat → Nat) (bit : Nat → Nat) (info : Nat → SectorInfo)
    (t : Nat) : Bool :=
  (List.range (numberOfSectorsInTrack t)).all (fun s =>
    let hasHeader := decide ((info s).headerBegin ≠ (info s).headerEnd)
    let hasData := decide ((info s).dataBegin ≠ (info s).dataEnd)
    (!hasHeader || (analyzeSectorHeaderBlock invgcr bit (info s).headerBegin).isSome) &&
    (!hasData || (analyzeSectorDataBlock invgcr bit (info s).dataBegin).isSome))

/-- `Disk::analyzeHalftrack(ht)`: the array `trackInfo.sectorInfo` that it leaves
behind, `none` when an assertion fails. The working buffer `trackInfo.bit` is
`trackInfoBit d ht`; the error log, which the decoder does not read, is not part
of this model. The bound `2 * len - 10` of the SYNC scan is an `int` that is
compared with an `unsigned`. -/
def analyzeHalftrack (invgcr : Nat → Nat) (headerBlockSize dataBlockSize : Nat) (d : Disk)
    (ht : Nat) : Option (Nat → SectorInfo) :=
  let len := d.lengthOfHalftrack ht
  let bit := trackInfoBit d ht
  -- Scan for SYNC sequences and decode the byte that follows.
  let sync := (scanSync invgcr bit ((2 * len + 2 ^ 32 - 10) % 2 ^ 32)).1
  -- Lookup first sector header block
  let startOffset := findStartOffset sync len
  if startOffset = len then some (fun _ => ⟨0, 0, 0, 0⟩)
  else
    -- Compute offsets for all sectors
    let info := ((List.range len).foldl
      (fun st k => sectorStep invgcr headerBlockSize dataBlockSize bit sync st (startOffset + k))
      ⟨255, fun _ => ⟨0, 0, 0, 0⟩, false⟩).info
    -- Check integrity of all sector blocks
    if checkSectorBlocks invgcr bit info ((ht + 1) / 2) then some info else none

/-- Modelled from the spec: `analyzeTrack(t)` is declared in `Disk525.h` and
defined in a file that is not among the sources; it analyzes the halftrack
`2 * t - 1`, which holds track `t`. -/
def analyzeTrack (invgcr : Nat → Nat) (headerBlockSize dataBlockSize : Nat) (d : Disk) (t : Nat) :
    Option (Nat → SectorInfo) :=
  analyzeHalftrack invgcr headerBlockSize dataBlockSize d (2 * t - 1)

/-- `Disk::decodeSector(offset, dest)` with a destination: the 256 bytes written
to `dest`, `none` when the assertion on the block ID fails. It returns 256. -/
def decodeSector (invgcr : Nat → Nat) (bit : Nat → Nat) (offset : Nat) : Option (List Nat) :=
  -- The first byte must be 0x07 (indicating a data block)
  if decodeGcr invgcr (fun j => bit (offset + j)) = 0x07 then
    some ((List.range 256).map (fun i => decodeGcr invgcr (fun j => bit (offset + 10 + 10 * i + j))))
  else none

/-- One iteration of the loop over the sectors in `Disk::decodeTrack(t, dest)`:
`acc` holds `numBytes` and the bytes written to `dest` so far, `none` after a
failed assertion. -/
def decodeTrackStep (invgcr : Nat → Nat) (bit : Nat → Nat) (info : Nat → SectorInfo)
    (acc : Option (Nat × List Nat)) (s : Nat) : Option (Nat × List Nat) :=
  match acc with
  | none => none
  | some r =>
    if (info s).dataBegin ≠ (info s).dataEnd then
      match decodeSector invgcr bit (info s).dataBegin with
      | none => none
      | some bytes => some (r.1 + 256, r.2 ++ bytes)
    else some r

/-- `Disk::decodeTrack(t, dest)` with a destination: the number of bytes
returned and the bytes written to `dest`, in their order. -/
def decodeTrack (invgcr : Nat → Nat) (headerBlockSize dataBlockSize : Nat) (d : Disk) (t : Nat) :
    Option (Nat × List Nat) :=
  -- Gather sector information
  match analyzeTrack invgcr headerBlockSize dataBlockSize d t with
  | none => none
  | some info =>
    -- For each sector ...
    (List.range 21).foldl (decodeTrackStep invgcr (trackInfoBit d (2 * t - 1)) info) (some (0, []))

/-- The state of the loop of `decodeDisk(dest, numTracks)`: the number of bytes,
the bytes written to `dest`, and whether the loop was left by `break`. -/
structure DecodeLoop where
  numBytes : Nat
  bytes : List Nat
  done : Bool
  deriving DecidableEq, Repr

/-- One iteration of the loop over the tracks in `decodeDisk(dest, numTracks)`,
for the track `i + 1`. -/
def decodeDiskStep (invgcr : Nat → Nat) (headerBlockSize dataBlockSize : Nat) (d : Disk)
    (acc : Option DecodeLoop) (i : Nat) : Option DecodeLoop :=
  match acc with
  | none => none
  | some st =>
    if st.done then some st
    else if trackIsEmpty d (i + 1) then some { st with done := true }
    else
      match decodeTrack invgcr headerBlockSize dataBlockSize d (i + 1) with
      | none => none
      | some r => some { st with numBytes := st.numBytes + r.1, bytes := st.bytes ++ r.2 }

/-- `Disk::decodeDisk(dest, numTracks)` with a destination. -/
def decodeDiskTracks (invgcr : Nat → Nat) (headerBlockSize dataBlockSize : Nat) (d : Disk)
    (numTracks : Nat) : Option (Nat × List Nat) :=
  -- For each full track ...
  ((List.range numTracks).foldl (decodeDiskStep invgcr headerBlockSize dataBlockSize d)
    (some ⟨0, [], false⟩)).map (fun st => (st.numBytes, st.bytes))

/-- The loop `while (t > 0 && trackIsEmpty(t)) t--` of `decodeDisk(dest)`,
started at `t`: the highest track that is not empty, 0 if there is none. -/
def highestNonemptyTrack (d : Disk) : Nat → Nat
  | 0 => 0
  | t + 1 => if trackIsEmpty d (t + 1) then highestNonemptyTrack d t else t + 1

/-- `Disk::decodeDisk(dest)` with a destination. -/
def decodeDisk (invgcr : Nat → Nat) (headerBlockSize dataBlockSize : Nat) (d : Disk) :
    Option (Nat × List Nat) :=
  -- Determine highest non-empty track
  let t := highestNonemptyTrack d 42
  -- Decode disk
  if t ≤ 35 then decodeDiskTracks invgcr headerBlockSize dataBlockSize d 35
  else if t ≤ 40 then decodeDiskTracks invgcr headerBlockSize dataBlockSize d 40
  else decodeDiskTracks invgcr headerBlockSize dataBlockSize d 42

/-- The sector bytes of an image in track/sector order: for the tracks 1 to
`numberOfTracks`, the 256 bytes of each sector of the track. -/
def imageBytes (a : D64File) : List Nat :=
  ((List.range a.numberOfTracks).map (fun i =>
    ((List.range (numberOfSectorsInTrack (i + 1))).map (fun s => sectorData a (i + 1) s)).flatten)).flatten

/-- The number of sectors of an image. -/
def imageSectors (a : D64File) : Nat :=
  ((List.range a.numberOfTracks).map (fun i => numberOfSectorsInTrack (i + 1))).sum

/-- The start position of track `t` in `encodeArchive`. -/
def startOfTrack (alignTracks : Bool) (stagger : Nat → Nat) (t : Nat) : Nat :=
  if alignTracks then stagger t else 0

/-- Track `t` of the image encoded on a cleared disk with the assigned track
lengths. -/
def encodedTrack (d : Disk) (a : D64File) (alignTracks : Bool) (stagger : Nat → Nat) (t : Nat) :
    Disk :=
  writeBits (assignTrackLengths (clearDisk d)) t (startOfTrack alignTracks stagger t)
    (trackLayout a t (tailGapOfZone (speedZoneOfTrack t)))

/-- The iteration of the sector loop of `analyzeHalftrack` that meets the header
block of sector `s` of an encoded track, counted from the iteration that meets
the header block of sector `σ`: the sectors follow one another at the distance
`secLen`, and the sectors before `σ` are met after the end of the track. -/
def headerIteration (L secLen σ s : Nat) : Nat :=
  if σ ≤ s then s * secLen - σ * secLen else L - (σ * secLen - s * secLen)

/-- The state of the sector loop of `analyzeHalftrack` after `m` iterations, the
first of which looks at `sync[startOffset]`. -/
def sectorLoopState (invgcr : Nat → Nat) (headerBlockSize dataBlockSize : Nat)
    (bit sync : Nat → Nat) (startOffset m : Nat) : SectorLoop :=
  (List.range m).foldl
    (fun st k => sectorStep invgcr headerBlockSize dataBlockSize bit sync st (startOffset + k))
    ⟨255, fun _ => ⟨0, 0, 0, 0⟩, false⟩

/-- The length that `encodeArchive` assigns to track `t`, in bits. -/
def trackLen (t : Nat) : Nat := trackLengthOfZone (speedZoneOfTrack t)

/-- The number of bits that `encodeSector` writes for a sector of track `t` in
`encodeArchive`. -/
def sectorBits (t : Nat) : Nat := 2832 + 8 * tailGapOfZone (speedZoneOfTrack t)

/-- The position on a track of length `L`, counted from the position `start` of
the first encoded bit, of entry `i` of the analysis buffer. -/
def rotIndex (L start i : Nat) : Nat := (i + (L - start % L)) % L

/-- The working buffer `trackInfo.bit` of `analyzeTrack(t)` on the encoded
track `t`. -/
def trackBuffer (d : Disk) (a : D64File) (al : Bool) (stg : Nat → Nat) (t : Nat) : Nat → Nat :=
  trackInfoBit (encodedTrack d a al stg t) (2 * t - 1)

/-- The array `sync` of `analyzeTrack(t)` on the encoded track `t`, after the
scan. -/
def trackSync (invgcr : Nat → Nat) (d : Disk) (a : D64File) (al : Bool) (stg : Nat → Nat)
    (t : Nat) : Nat → Nat :=
  (scanSync invgcr (trackBuffer d a al stg t) (2 * trackLen t - 10)).1

/-- The value of `startOffset` in `analyzeTrack(t)` on the encoded track `t`. -/
def trackStartOffset (invgcr : Nat → Nat) (d : Disk) (a : D64File) (al : Bool)
    (stg : Nat → Nat) (t : Nat) : Nat :=
  findStartOffset (trackSync invgcr d a al stg t) (trackLen t)

/-- The sector whose header block `analyzeTrack(t)` finds first on the encoded
track `t`. -/
def firstSector (invgcr : Nat → Nat) (d : Disk) (a : D64File) (al : Bool)
    (stg : Nat → Nat) (t : Nat) : Nat :=
  (rotIndex (trackLen t) (startOfTrack al stg t) (trackStartOffset invgcr d a al stg t) - 40) /
    sectorBits t

/-- The value of `trackInfo.sectorInfo[s].dataBegin` after `analyzeTrack(t)` on
the encoded track `t`, for a sector `s` of the track. -/
def dataBeginOf (invgcr : Nat → Nat) (d : Disk) (a : D64File) (al : Bool) (stg : Nat → Nat)
    (t s : Nat) : Nat :=
  trackStartOffset invgcr d a al stg t +
    (headerIteration (trackLen t) (sectorBits t) (firstSector invgcr d a al stg t) s + 192)

/-- The bytes of the sectors `0 .. n - 1` of track `t` of an image. -/
def trackBytes (a : D64File) (t n : Nat) : List Nat :=
  ((List.range n).map (fun s => sectorData a t s)).flatten

/-! ## Theorems -/

theorem and_two_pow_ne_zero (x i : Nat) : (x &&& 2 ^ i ≠ 0) ↔ x.testBit i = true := by
  rw [Nat.and_two_pow]
  cases h : x.testBit i <;> simp

theorem shiftRight_0x80 (k : Nat) (hk : k < 8) : 0x80 >>> k = 2 ^ (7 - k) := by
  interval_cases k <;> rfl

theorem setBit_and (x k k' : Nat) (hk : k < 8) (hk' : k' < 8) :
    ((x ||| (0x80 >>> k)) &&& (0x80 >>> k') ≠ 0) ↔ (k = k' ∨ x &&& (0x80 >>> k') ≠ 0) := by
  rw [shiftRight_0x80 k hk, shiftRight_0x80 k' hk', and_two_pow_ne_zero, and_two_pow_ne_zero,
    Nat.testBit_lor, Nat.testBit_two_pow]
  simp
  constructor
  · rintro (h | h)
    · right; exact h
    · left; omega
  · rintro (h | h)
    · right; omega
    · left; exact h

theorem clearBit_and (x k k' : Nat) (hk : k < 8) (hk' : k' < 8) :
    ((x &&& (0xFF ^^^ (0x80 >>> k))) &&& (0x80 >>> k') ≠ 0) ↔
      (k ≠ k' ∧ x &&& (0x80 >>> k') ≠ 0) := by
  rw [shiftRight_0x80 k hk, shiftRight_0x80 k' hk', and_two_pow_ne_zero, and_two_pow_ne_zero,
    Nat.testBit_land, Nat.testBit_xor, Nat.testBit_two_pow]
  have h255 : (0xFF : Nat).testBit (7 - k') = true := by interval_cases k' <;> rfl
  rw [h255]
  simp
  constructor
  · rintro ⟨h1, h2⟩
    exact ⟨by omega, h1⟩
  · rintro ⟨h1, h2⟩
    exact ⟨h2, by omega⟩

@[simp] theorem writeBitToTrack_length (d : Disk) (t o : Nat) (b : Bool) :
    (writeBitToTrack d t o b).length = d.length := by
  unfold writeBitToTrack
  split <;> rfl

@[simp] theorem writeBitToTrack_lengthOfTrack (d : Disk) (t o : Nat) (b : Bool) (t' : Nat) :
    (writeBitToTrack d t o b).lengthOfTrack t' = d.lengthOfTrack t' := by
  simp [Disk.lengthOfTrack]

theorem trackByte_writeBit (d : Disk) (t o j : Nat) (b : Bool) :
    (writeBitToTrack d t o b).trackByte t j =
      if j = (o % d.lengthOfTrack t) / 8 then
        (if b then d.trackByte t j ||| (0x80 >>> ((o % d.lengthOfTrack t) % 8))
         else d.trackByte t j &&& (0xFF ^^^ (0x80 >>> ((o % d.lengthOfTrack t) % 8))))
      else d.trackByte t j := by
  by_cases hj : j = (o % d.lengthOfTrack t) / 8
  · subst hj
    cases b <;> simp [writeBitToTrack, Disk.trackByte]
  · have hidx : t * 15856 + j ≠ t * 15856 + (o % d.lengthOfTrack t) / 8 := by omega
    cases b <;> simp [writeBitToTrack, Disk.trackByte, Function.update_noteq hidx, hj]

/-- Reading a bit of the track that was just written: the written position
returns the written bit, every other position is unchanged. -/
theorem readBit_writeBit (d : Disk) (t o o' : Nat) (b : Bool) :
    readBitFromTrack (writeBitToTrack d t o b) t o' =
      if o % d.lengthOfTrack t = o' % d.lengthOfTrack t then b.toNat
      else readBitFromTrack d t o' := by
  simp only [readBitFromTrack, writeBitToTrack_lengthOfTrack, trackByte_writeBit]
  generalize o % d.lengthOfTrack t = p
  generalize o' % d.lengthOfTrack t = p'
  have hk : p % 8 < 8 := Nat.mod_lt _ (by norm_num)
  have hk' : p' % 8 < 8 := Nat.mod_lt _ (by norm_num)
  by_cases hbyte : p' / 8 = p / 8
  · rw [if_pos hbyte]
    by_cases hpos : p = p'
    · subst hpos
      cases b
      · have h := (clearBit_and (d.trackByte t (p / 8)) (p % 8) (p % 8) hk hk).not
        simp only [ne_eq, not_true_eq_false, false_and, not_false_eq_true, iff_true,
          not_not] at h
        simp [h]
      · have h := (setBit_and (d.trackByte t (p / 8)) (p % 8) (p % 8) hk hk).mpr (Or.inl rfl)
        simp [h]
    · have h8 : p % 8 ≠ p' % 8 := by omega
      rw [if_neg hpos]
      cases b
      · have h := clearBit_and (d.trackByte t (p' / 8)) (p % 8) (p' % 8) hk hk'
        simp only [ne_eq, h8, not_false_eq_true, true_and] at h
        simp only [Bool.false_eq_true, if_false]
        by_cases hz : d.trackByte t (p' / 8) &&& (0x80 >>> (p' % 8)) = 0
        · rw [if_neg (by simpa using (h.not.mpr (by simpa using hz))), if_neg (by simpa using hz)]
        · rw [if_pos (h.mpr hz), if_pos hz]
      · have h := setBit_and (d.trackByte t (p' / 8)) (p % 8) (p' % 8) hk hk'
        simp only [h8, false_or] at h
        simp only [if_true]
        by_cases hz : d.trackByte t (p' / 8) &&& (0x80 >>> (p' % 8)) = 0
        · rw [if_neg (by simpa using (h.not.mpr (by simpa using hz))), if_neg (by simpa using hz)]
        · rw [if_pos (h.mpr hz), if_pos hz]
  · have hne : p ≠ p' := fun h => hbyte (by rw [h])
    rw [if_neg hbyte, if_neg hne]

@[simp] theorem writeBits_length (d : Disk) (t o : Nat) (bs : List Bool) :
    (writeBits d t o bs).length = d.length := by
  induction bs generalizing d o with
  | nil => rfl
  | cons b bs ih => simp [writeBits, ih]

@[simp] theorem writeBits_lengthOfTrack (d : Disk) (t o : Nat) (bs : List Bool) (t' : Nat) :
    (writeBits d t o bs).lengthOfTrack t' = d.lengthOfTrack t' := by
  simp [Disk.lengthOfTrack]

theorem writeBits_append (d : Disk) (t o : Nat) (xs ys : List Bool) :
    writeBits d t o (xs ++ ys) = writeBits (writeBits d t o xs) t (o + xs.length) ys := by
  induction xs generalizing d o with
  | nil => simp [writeBits]
  | cons x xs ih =>
    show writeBits (writeBitToTrack d t o x) t (o + 1) (xs ++ ys) = _
    rw [ih]
    simp only [writeBits, List.length_cons]
    congr 1
    omega

theorem add_mod_ne (o k L : Nat) (hk : 0 < k) (hL : k < L) : (o + k) % L ≠ o % L := by
  intro h
  have h0 := Nat.sub_mod_eq_zero_of_mod_eq h
  rw [Nat.add_sub_cancel_left, Nat.mod_eq_of_lt hL] at h0
  omega

theorem add_mod_ne_add_mod (o i j L : Nat) (hij : i ≠ j) (hi : i < L) (hj : j < L) :
    (o + i) % L ≠ (o + j) % L := by
  rcases Nat.lt_or_gt_of_ne hij with h | h
  · have := add_mod_ne (o + i) (j - i) L (by omega) (by omega)
    rw [show o + i + (j - i) = o + j by omega] at this
    exact fun e => this e.symm
  · have := add_mod_ne (o + j) (i - j) L (by omega) (by omega)
    rw [show o + j + (i - j) = o + i by omega] at this
    exact this

/-- A position that none of the written offsets hits keeps its bit. -/
theorem readBit_writeBits_miss (d : Disk) (t o p : Nat) (bs : List Bool)
    (h : ∀ i, i < bs.length → (o + i) % d.lengthOfTrack t ≠ p % d.lengthOfTrack t) :
    readBitFromTrack (writeBits d t o bs) t p = readBitFromTrack d t p := by
  induction bs generalizing d o with
  | nil => rfl
  | cons b bs ih =>
    simp only [writeBits]
    rw [ih]
    · rw [readBit_writeBit, if_neg]
      simpa using h 0 (by simp)
    · intro i hi
      have := h (i + 1) (by simpa using hi)
      simpa [Nat.add_assoc, Nat.add_comm 1 i] using this

/-- A list of bits that fits on the track is read back bit by bit. -/
theorem readBit_writeBits_hit (d : Disk) (t o i : Nat) (bs : List Bool)
    (hlen : bs.length ≤ d.lengthOfTrack t) (hi : i < bs.length) :
    readBitFromTrack (writeBits d t o bs) t (o + i) = (bs.getD i false).toNat := by
  induction bs generalizing d o i with
  | nil => simp at hi
  | cons b bs ih =>
    simp only [writeBits]
    simp only [List.length_cons] at hlen hi
    cases i with
    | zero =>
      rw [readBit_writeBits_miss]
      · rw [readBit_writeBit]; simp
      · intro j hj
        simp only [writeBitToTrack_lengthOfTrack, Nat.add_zero]
        rw [Nat.add_assoc]
        exact add_mod_ne o (1 + j) _ (by omega) (by omega)
    | succ i =>
      have := ih (writeBitToTrack d t o b) (o + 1) i (by simpa using by omega) (by omega)
      rw [show o + (i + 1) = o + 1 + i by omega, this]
      simp

theorem encodeGcr_eq_writeBits (d : Disk) (value t o : Nat) :
    encodeGcr d value t o = writeBits d t o (gcrBits value) := rfl

theorem gcrBits_length (value : Nat) : (gcrBits value).length = 10 := rfl

theorem bin2gcr_lt (v : Nat) (hv : v < 16) : bin2gcr v < 32 := by
  interval_cases v <;> decide

theorem codeword_reassemble : ∀ n, n < 32 →
    ((((n &&& 0x10 != 0).toNat <<< 4) ||| ((n &&& 0x08 != 0).toNat <<< 3) |||
      ((n &&& 0x04 != 0).toNat <<< 2) ||| ((n &&& 0x02 != 0).toNat <<< 1) |||
      (n &&& 0x01 != 0).toNat) % 256) = n := by
  decide

set_option maxRecDepth 100000 in
theorem nibbles_reassemble : ∀ b, b < 256 → (((b >>> 4) <<< 4) ||| (b &&& 0xF)) % 256 = b := by
  decide

/-- C1 (GCR round trip). For every byte `b`, every track number `t` and every
bit offset, on a track that holds at least ten bits: after
`encodeGcr(b, t, offset)` the ten bits of track `t` starting at `offset`, taken
in write order as a 0/1 array, are decoded by `decodeGcr` to `b`, for every
table `invgcr` that inverts the 16 entries of `gcr`. -/
theorem encodeGcr_decodeGcr (invgcr : Nat → Nat)
    (hinv : ∀ v, v < 16 → invgcr (bin2gcr v) = v)
    (d : Disk) (b t offset : Nat) (hb : b < 256) (_ht : isTrackNumber t = true)
    (hlen : 10 ≤ d.lengthOfTrack t) :
    decodeGcr invgcr (fun i => readBitFromTrack (encodeGcr d b t offset) t (offset + i)) = b := by
  have hread : ∀ i, i < 10 → readBitFromTrack (encodeGcr d b t offset) t (offset + i) =
      ((gcrBits b).getD i false).toNat := by
    intro i hi
    rw [encodeGcr_eq_writeBits]
    exact readBit_writeBits_hit d t offset i (gcrBits b) (by rw [gcrBits_length]; exact hlen)
      (by rw [gcrBits_length]; exact hi)
  have hhi : (b % 256) >>> 4 < 16 := by
    rw [Nat.shiftRight_eq_div_pow]; omega
  have hlo : (b % 256) &&& 0xF < 16 := by
    have := @Nat.and_le_right (b % 256) 0xF
    omega
  simp only [decodeGcr, decodeGcrNibble]
  rw [show offset = offset + 0 from rfl] at *
  simp only [Nat.add_assoc, Nat.zero_add] at hread ⊢
  rw [hread 0 (by norm_num), hread 1 (by norm_num), hread 2 (by norm_num), hread 3 (by norm_num),
    hread 4 (by norm_num), hread 5 (by norm_num), hread 6 (by norm_num), hread 7 (by norm_num),
    hread 8 (by norm_num), hread 9 (by norm_num)]
  simp only [gcrBits, codewordBits, List.cons_append, List.nil_append, List.getD_cons_zero,
    List.getD_cons_succ]
  rw [codeword_reassemble _ (bin2gcr_lt _ hhi), codeword_reassemble _ (bin2gcr_lt _ hlo),
    hinv _ hhi, hinv _ hlo, Nat.mod_eq_of_lt hb]
  exact nibbles_reassemble b hb

/-- Witness for C1: the byte 0x8D written at offset 3 of track 18 of a cleared
disk, decoded with the inverse table. -/
theorem encodeGcr_decodeGcr_witness :
    decodeGcr invgcrTable
      (fun i => readBitFromTrack (encodeGcr blankDisk 0x8D 18 3) 18
        (3 + i)) = 0x8D :=
  encodeGcr_decodeGcr invgcrTable (by decide) blankDisk 0x8D 18 3
    (by decide) (by decide) (by decide)

theorem writeBits_writeBits (d : Disk) (t o o' : Nat) (xs ys : List Bool)
    (h : o' = o + xs.length) :
    writeBits (writeBits d t o xs) t o' ys = writeBits d t o (xs ++ ys) := by
  rw [h, writeBits_append]

theorem writeBitToTrackN_eq (d : Disk) (t o : Nat) (bit : Bool) (n : Nat) :
    writeBitToTrackN d t o bit n = writeBits d t o (List.replicate n bit) := by
  unfold writeBitToTrackN
  induction n with
  | zero => rfl
  | succ n ih =>
    rw [List.range_succ, List.foldl_append, ih, List.replicate_succ', writeBits_append]
    simp [writeBits]

theorem writeByteToTrack_0x55 (d : Disk) (t o : Nat) :
    writeByteToTrack d t o 0x55 =
      writeBits d t o [false, true, false, true, false, true, false, true] := rfl

theorem gapBits_succ (n : Nat) :
    gapBits (n + 1) = gapBits n ++ [false, true, false, true, false, true, false, true] := by
  simp [gapBits, List.replicate_succ']

@[simp] theorem gapBits_length (n : Nat) : (gapBits n).length = 8 * n := by
  induction n with
  | zero => rfl
  | succ n ih => rw [gapBits_succ, List.length_append, ih]; simp; omega

theorem writeGapToTrack_eq (d : Disk) (t o n : Nat) :
    writeGapToTrack d t o n = writeBits d t o (gapBits n) := by
  unfold writeGapToTrack
  induction n with
  | zero => rfl
  | succ n ih =>
    rw [List.range_succ, List.foldl_append, ih, gapBits_succ, writeBits_append]
    simp only [List.foldl_cons, List.foldl_nil, writeByteToTrack_0x55, gapBits_length]
    congr 1
    omega

@[simp] theorem gcrBitsOfBytes_length (bytes : List Nat) :
    (gcrBitsOfBytes bytes).length = 10 * bytes.length := by
  induction bytes with
  | nil => rfl
  | cons b bs ih =>
    simp only [gcrBitsOfBytes, List.map_cons, List.flatten_cons, List.length_append,
      List.length_cons] at ih ⊢
    rw [ih, gcrBits_length]
    omega

theorem gcrBitsOfBytes_nil : gcrBitsOfBytes [] = [] := rfl

theorem gcrBitsOfBytes_cons (b : Nat) (bs : List Nat) :
    gcrBitsOfBytes (b :: bs) = gcrBits b ++ gcrBitsOfBytes bs := rfl

theorem gcrBitsOfBytes_append (xs ys : List Nat) :
    gcrBitsOfBytes (xs ++ ys) = gcrBitsOfBytes xs ++ gcrBitsOfBytes ys := by
  simp [gcrBitsOfBytes]

/-- The loop over the data bytes writes their GCR codes one after the other and
accumulates the XOR of the bytes. -/
theorem encodeDataLoop (t : Nat) (g : Nat → Nat) (is : List Nat) (d : Disk) (c o : Nat) :
    is.foldl (fun (st : Disk × Nat × Nat) i =>
        (encodeGcr st.1 (g i) t st.2.2, st.2.1 ^^^ g i, st.2.2 + 10)) (d, c, o) =
      (writeBits d t o (gcrBitsOfBytes (is.map g)),
        (is.map g).foldl (fun c b => c ^^^ b) c, o + 10 * is.length) := by
  induction is generalizing d c o with
  | nil => rfl
  | cons i is ih =>
    simp only [List.foldl_cons, List.map_cons, List.length_cons]
    rw [ih, encodeGcr_eq_writeBits, gcrBitsOfBytes_cons,
      writeBits_writeBits _ _ _ _ _ _ (by rw [gcrBits_length])]
    congr 2
    omega

theorem gcrBits_mod (v : Nat) : gcrBits (v % 256) = gcrBits v := by
  simp [gcrBits]

theorem sectorLayout_length (a : D64File) (t s tailGap : Nat) :
    (sectorLayout a t s tailGap).length = 2832 + 8 * tailGap := by
  simp only [sectorLayout, sectorData, List.length_append, List.length_replicate,
    gcrBitsOfBytes_length, gapBits_length, List.length_cons, List.length_nil, List.length_map,
    List.length_range]

set_option maxRecDepth 10000 in
theorem encodeSector_eq (d : Disk) (a : D64File) (t s start tailGap : Nat)
    (herr : a.errorCode t s ∉ [2, 3, 4, 5, 9, 0xB]) :
    encodeSector d a t s start tailGap =
      (writeBits d t start (sectorLayout a t s tailGap), 2832 + 8 * tailGap) := by
  simp only [List.mem_cons, List.mem_singleton, not_or, List.mem_nil_iff, or_false] at herr
  obtain ⟨h2, h3, h4, h5, h9, hB⟩ := herr
  simp only [encodeSector, if_neg h2, if_neg h3, if_neg h4, if_neg h5, if_neg h9, if_neg hB]
  rw [encodeDataLoop t (fun i => a.readTrack t s i % 256)]
  simp only [encodeGcr_eq_writeBits, writeBitToTrackN_eq, writeGapToTrack_eq, -List.reduceReplicate]
  refine Prod.ext ?_ ?_
  · simp only
    repeat
      rw [writeBits_writeBits]
      rotate_left
      · simp only [List.length_append, List.length_replicate, gcrBitsOfBytes_length,
          gapBits_length, gcrBits_length, List.length_map, List.length_range]
        try omega
    congr 1
    simp only [sectorLayout, gcrBitsOfBytes_cons, gcrBitsOfBytes_append, gcrBitsOfBytes_nil,
      sectorData, gcrBits_mod, List.append_assoc, List.singleton_append, List.nil_append,
      List.cons_append]
  · simp only [List.length_map, List.length_range]
    omega

/-- C3 (sector layout). For a valid track/sector pair whose error code is none
of 2, 3, 4, 5, 9, 0xB, `encodeSector(a, t, s, start, tailGap)` writes, beginning
at bit `start` of track `t` and in this order, the bits of `sectorLayout` (SYNC,
header, nine gap bytes, SYNC, data block, tail gap), and returns
`2832 + 8 * tailGap`, which is the number of bits of the layout; when the track
holds that many bits, the bits are read back from `start` one by one. -/
theorem encodeSector_layout (d : Disk) (a : D64File) (t s start tailGap : Nat)
    (_hvalid : isValidTrackSectorPair t s = true)
    (herr : a.errorCode t s ∉ [2, 3, 4, 5, 9, 0xB]) :
    (encodeSector d a t s start tailGap).1 = writeBits d t start (sectorLayout a t s tailGap) ∧
    (encodeSector d a t s start tailGap).2 = 2832 + 8 * tailGap ∧
    (sectorLayout a t s tailGap).length = 2832 + 8 * tailGap ∧
    (2832 + 8 * tailGap ≤ d.lengthOfTrack t → ∀ i, i < 2832 + 8 * tailGap →
      readBitFromTrack (encodeSector d a t s start tailGap).1 t (start + i) =
        ((sectorLayout a t s tailGap).getD i false).toNat) := by
  have heq := encodeSector_eq d a t s start tailGap herr
  have h1 : (encodeSector d a t s start tailGap).1 =
      writeBits d t start (sectorLayout a t s tailGap) := by rw [heq]
  have h2 : (encodeSector d a t s start tailGap).2 = 2832 + 8 * tailGap := by rw [heq]
  refine ⟨h1, h2, sectorLayout_length a t s tailGap, ?_⟩
  intro hfit i hi
  rw [h1]
  exact readBit_writeBits_hit d t start i _ (by rw [sectorLayout_length]; exact hfit)
    (by rw [sectorLayout_length]; exact hi)

/-- Witness for C3: sector 0 of track 18 of the sample image, written at the
start of the track with the tail gap of speed zone 2. -/
theorem encodeSector_layout_witness :
    isValidTrackSectorPair 18 0 = true ∧ sampleD64.errorCode 18 0 ∉ [2, 3, 4, 5, 9, 0xB] ∧
    (encodeSector blankDisk sampleD64 18 0 0 17).1 =
      writeBits blankDisk 18 0 (sectorLayout sampleD64 18 0 17) ∧
    (encodeSector blankDisk sampleD64 18 0 0 17).2 = 2832 + 8 * 17 :=
  ⟨by decide, by decide,
    (encodeSector_layout blankDisk sampleD64 18 0 0 17 (by decide) (by decide)).1,
    (encodeSector_layout blankDisk sampleD64 18 0 0 17 (by decide) (by decide)).2.1⟩

/-! ### Interrupt lines -/

theorem orOfSources_pull (f : IntSource → Bool) (s : IntSource) :
    orOfSources f ||| s.val = orOfSources (fun x => if x = s then true else f x) := by
  unfold orOfSources
  cases s <;> simp only [↓reduceIte, reduceCtorEq] <;>
    generalize f .INTSRC_CIA = b0 <;>
    generalize f .INTSRC_VIC = b1 <;>
    generalize f .INTSRC_VIA1 = b2 <;>
    generalize f .INTSRC_VIA2 = b3 <;>
    generalize f .INTSRC_EXPANSION = b4 <;>
    generalize f .INTSRC_KEYBOARD = b5 <;>
    cases b0 <;> cases b1 <;> cases b2 <;> cases b3 <;> cases b4 <;> cases b5 <;> rfl

theorem orOfSources_release (f : IntSource → Bool) (s : IntSource) :
    orOfSources f &&& (0xFF ^^^ s.val) = orOfSources (fun x => if x = s then false else f x) := by
  unfold orOfSources
  cases s <;> simp only [↓reduceIte, reduceCtorEq] <;>
    generalize f .INTSRC_CIA = b0 <;>
    generalize f .INTSRC_VIC = b1 <;>
    generalize f .INTSRC_VIA1 = b2 <;>
    generalize f .INTSRC_VIA2 = b3 <;>
    generalize f .INTSRC_EXPANSION = b4 <;>
    generalize f .INTSRC_KEYBOARD = b5 <;>
    cases b0 <;> cases b1 <;> cases b2 <;> cases b3 <;> cases b4 <;> cases b5 <;> rfl

theorem orOfSources_ne_zero (f : IntSource → Bool) :
    orOfSources f ≠ 0 ↔ ∃ s, f s = true := by
  constructor
  · intro h
    by_contra hne
    simp only [not_exists, Bool.not_eq_true] at hne
    apply h
    simp [orOfSources, hne]
  · rintro ⟨s, hs⟩
    unfold orOfSources
    generalize h0 : f .INTSRC_CIA = b0
    generalize h1 : f .INTSRC_VIC = b1
    generalize h2 : f .INTSRC_VIA1 = b2
    generalize h3 : f .INTSRC_VIA2 = b3
    generalize h4 : f .INTSRC_EXPANSION = b4
    generalize h5 : f .INTSRC_KEYBOARD = b5
    cases s <;> simp_all <;>
      cases b0 <;> cases b1 <;> cases b2 <;> cases b3 <;> cases b4 <;> cases b5 <;> simp_all <;>
      decide

theorem runIrqCalls_irqLine (calls : List LineCall) (c : CPULines) (f : IntSource → Bool)
    (h : c.irqLine = orOfSources f) :
    (runIrqCalls c calls).irqLine = orOfSources (assertedAfter f calls) := by
  induction calls generalizing c f with
  | nil => exact h
  | cons call calls ih =>
    simp only [runIrqCalls, assertedAfter, List.foldl_cons] at ih ⊢
    apply ih
    cases call with
    | pullDown s => simp only [pullDownIrqLine, h, orOfSources_pull]
    | release s => simp only [releaseIrqLine, h, orOfSources_release]

theorem runNmiCalls_nmiLine (calls : List LineCall) (c : CPULines) (f : IntSource → Bool)
    (h : c.nmiLine = orOfSources f) :
    (runNmiCalls c calls).nmiLine = orOfSources (assertedAfter f calls) := by
  induction calls generalizing c f with
  | nil => exact h
  | cons call calls ih =>
    simp only [runNmiCalls, assertedAfter, List.foldl_cons] at ih ⊢
    apply ih
    cases call with
    | pullDown s =>
      simp only [pullDownNmiLine]
      split <;> simp only [h, orOfSources_pull]
    | release s => simp only [releaseNmiLine, h, orOfSources_release]

theorem assertedAfter_append (f : IntSource → Bool) (xs ys : List LineCall) :
    assertedAfter f (xs ++ ys) = assertedAfter (assertedAfter f xs) ys := by
  simp [assertedAfter, List.foldl_append]

/-- The book-keeping marks exactly the sources that were pulled down and not
released afterwards. -/
theorem assertedAfter_iff (calls : List LineCall) (s : IntSource) :
    assertedAfter (fun _ => false) calls s = true ↔ stillAsserts calls s := by
  induction calls using List.reverseRecOn with
  | nil =>
    simp only [assertedAfter, List.foldl_nil, Bool.false_eq_true, false_iff]
    rintro ⟨pre, post, h, _⟩
    simp at h
  | append_singleton calls call ih =>
    rw [assertedAfter_append]
    cases call with
    | pullDown s' =>
      simp only [assertedAfter, List.foldl_cons, List.foldl_nil]
      by_cases hs : s = s'
      · subst hs
        simp only [if_true, true_iff]
        exact ⟨calls, [], rfl, by simp⟩
      · simp only [if_neg hs]
        change assertedAfter (fun _ => false) calls s = true ↔ _
        rw [ih]
        constructor
        · rintro ⟨pre, post, h, hr⟩
          exact ⟨pre, post ++ [LineCall.pullDown s'], by simp [h], by simp [hr]⟩
        · rintro ⟨pre, post, h, hr⟩
          rcases List.eq_nil_or_concat post with hp | ⟨post', x, hp⟩
          · subst hp
            have := congrArg List.getLast? h
            simp at this
            exact absurd this.symm hs
          · subst hp
            rw [List.concat_eq_append, ← List.cons_append, ← List.append_assoc] at h
            have h' := List.append_inj_left' h rfl
            refine ⟨pre, post', h', ?_⟩
            intro hm
            exact hr (by simp [hm])
    | release s' =>
      simp only [assertedAfter, List.foldl_cons, List.foldl_nil]
      by_cases hs : s = s'
      · subst hs
        simp only [if_true, Bool.false_eq_true, false_iff]
        rintro ⟨pre, post, h, hr⟩
        rcases List.eq_nil_or_concat post with hp | ⟨post', x, hp⟩
        · subst hp
          have := congrArg List.getLast? h
          simp at this
        · subst hp
          rw [List.concat_eq_append, ← List.cons_append, ← List.append_assoc] at h
          have h' := List.append_inj_right' h rfl
          simp only [List.cons.injEq, and_true] at h'
          apply hr
          simp [← h']
      · simp only [if_neg hs]
        change assertedAfter (fun _ => false) calls s = true ↔ _
        rw [ih]
        constructor
        · rintro ⟨pre, post, h, hr⟩
          refine ⟨pre, post ++ [LineCall.release s'], by simp [h], ?_⟩
          simp only [List.mem_append, List.mem_singleton, LineCall.release.injEq, not_or]
          exact ⟨hr, hs⟩
        · rintro ⟨pre, post, h, hr⟩
          rcases List.eq_nil_or_concat post with hp | ⟨post', x, hp⟩
          · subst hp
            have := congrArg List.getLast? h
            simp at this
          · subst hp
            rw [List.concat_eq_append, ← List.cons_append, ← List.append_assoc] at h
            have h' := List.append_inj_left' h rfl
            refine ⟨pre, post', h', ?_⟩
            intro hm
            exact hr (by simp [hm])

theorem release_keeps_other (x : Nat) (s s' : IntSource) (h : s ≠ s') :
    (x &&& (0xFF ^^^ s.val)) &&& s'.val = x &&& s'.val := by
  rw [Nat.land_assoc]
  congr 1
  cases s <;> cases s' <;> first | exact absurd rfl h | rfl

/-- C7 (interrupt source mask). Starting from `irqLine = 0`, after any sequence
of `pullDownIrqLine(s)` and `releaseIrqLine(s)` calls `irqLine` is the bitwise OR
of exactly those sources that were pulled down and not released afterwards, and
the line is low (`irqLine != 0`) if and only if some source still asserts it;
releasing a source leaves the bit of every other source as it was. The same
holds for `nmiLine` with `pullDownNmiLine` and `releaseNmiLine`. -/
theorem interrupt_source_mask (c : CPULines) (calls : List LineCall) :
    (∀ s, assertedAfter (fun _ => false) calls s = true ↔ stillAsserts calls s) ∧
    (c.irqLine = 0 →
      (runIrqCalls c calls).irqLine = orOfSources (assertedAfter (fun _ => false) calls) ∧
      ((runIrqCalls c calls).irqLine ≠ 0 ↔ ∃ s, stillAsserts calls s)) ∧
    (c.nmiLine = 0 →
      (runNmiCalls c calls).nmiLine = orOfSources (assertedAfter (fun _ => false) calls) ∧
      ((runNmiCalls c calls).nmiLine ≠ 0 ↔ ∃ s, stillAsserts calls s)) ∧
    (∀ s s', s ≠ s' →
      (releaseIrqLine c s).irqLine &&& s'.val = c.irqLine &&& s'.val ∧
      (releaseNmiLine c s).nmiLine &&& s'.val = c.nmiLine &&& s'.val) := by
  refine ⟨assertedAfter_iff calls, ?_, ?_, ?_⟩
  · intro h0
    have h := runIrqCalls_irqLine calls c (fun _ => false) (by rw [h0]; rfl)
    refine ⟨h, ?_⟩
    rw [h, orOfSources_ne_zero]
    exact exists_congr (assertedAfter_iff calls)
  · intro h0
    have h := runNmiCalls_nmiLine calls c (fun _ => false) (by rw [h0]; rfl)
    refine ⟨h, ?_⟩
    rw [h, orOfSources_ne_zero]
    exact exists_congr (assertedAfter_iff calls)
  · intro s s' hne
    exact ⟨release_keeps_other _ s s' hne, release_keeps_other _ s s' hne⟩

/-- Witness for C7: the CIA and the VIC pull the IRQ line down, then the CIA
releases it; the line holds the VIC bit alone and is still low. -/
theorem interrupt_source_mask_witness :
    (runIrqCalls ⟨0, 0, 0, 0⟩
      [.pullDown .INTSRC_CIA, .pullDown .INTSRC_VIC, .release .INTSRC_CIA]).irqLine =
      orOfSources (assertedAfter (fun _ => false)
        [.pullDown .INTSRC_CIA, .pullDown .INTSRC_VIC, .release .INTSRC_CIA]) ∧
    (runIrqCalls ⟨0, 0, 0, 0⟩
      [.pullDown .INTSRC_CIA, .pullDown .INTSRC_VIC, .release .INTSRC_CIA]).irqLine = 0x02 ∧
    (releaseIrqLine ⟨0, 3, 0, 0⟩ .INTSRC_CIA).irqLine &&& IntSource.INTSRC_VIC.val =
      (3 : Nat) &&& IntSource.INTSRC_VIC.val :=
  ⟨((interrupt_source_mask ⟨0, 0, 0, 0⟩
      [.pullDown .INTSRC_CIA, .pullDown .INTSRC_VIC, .release .INTSRC_CIA]).2.1 rfl).1,
    by decide,
    ((interrupt_source_mask ⟨0, 3, 0, 0⟩ []).2.2.2 .INTSRC_CIA .INTSRC_VIC (by decide)).1⟩

/-! ### Processor port -/

theorem GET_BIT_eq_zero_iff (x nr : Nat) : GET_BIT x nr = 0 ↔ x.testBit nr = false := by
  have h := and_two_pow_ne_zero x nr
  rw [GET_BIT, Nat.shiftLeft_eq, Nat.one_mul]
  constructor
  · intro h0
    by_contra hne
    exact (h.mpr (by simpa using hne)) h0
  · intro hf
    by_contra hne
    rw [h.mp hne] at hf
    exact absurd hf (by simp)

theorem FALLING_EDGE_BIT_of_input (old new nr : Nat) (h : GET_BIT old nr = 0) :
    FALLING_EDGE_BIT old new nr = false := by
  simp only [GET_BIT] at h
  simp [FALLING_EDGE_BIT, h]

/-- What `read()` returns in bit `nr` (3, 6 or 7) while the bit is an input: the
bit is set exactly while the discharge cycle lies ahead. -/
theorem read_input_bit (p : ProcessorPort) (n : Nat) (playKey : Bool) :
    (GET_BIT p.direction 3 = 0 →
      p.read n playKey &&& 0x08 = if p.dischargeCycleBit3 > n then 0x08 else 0) ∧
    (GET_BIT p.direction 6 = 0 →
      p.read n playKey &&& 0x40 = if p.dischargeCycleBit6 > n then 0x40 else 0) ∧
    (GET_BIT p.direction 7 = 0 →
      p.read n playKey &&& 0x80 = if p.dischargeCycleBit7 > n then 0x80 else 0) := by
  refine ⟨?_, ?_, ?_⟩ <;> intro h <;> rw [GET_BIT_eq_zero_iff] at h
  · rw [show (0x08 : Nat) = 2 ^ 3 from rfl, Nat.and_two_pow]
    simp only [ProcessorPort.read, Nat.testBit_lor, Nat.testBit_land, Nat.testBit_xor, h]
    by_cases h3 : p.dischargeCycleBit3 > n <;> by_cases h6 : p.dischargeCycleBit6 > n <;>
      by_cases h7 : p.dischargeCycleBit7 > n <;> cases playKey <;>
      simp only [h3, h6, h7, if_true, if_false, Bool.false_eq_true, Bool.and_false,
        Bool.false_or] <;> decide
  · rw [show (0x40 : Nat) = 2 ^ 6 from rfl, Nat.and_two_pow]
    simp only [ProcessorPort.read, Nat.testBit_lor, Nat.testBit_land, Nat.testBit_xor, h]
    by_cases h3 : p.dischargeCycleBit3 > n <;> by_cases h6 : p.dischargeCycleBit6 > n <;>
      by_cases h7 : p.dischargeCycleBit7 > n <;> cases playKey <;>
      simp only [h3, h6, h7, if_true, if_false, Bool.false_eq_true, Bool.and_false,
        Bool.false_or] <;> decide
  · rw [show (0x80 : Nat) = 2 ^ 7 from rfl, Nat.and_two_pow]
    simp only [ProcessorPort.read, Nat.testBit_lor, Nat.testBit_land, Nat.testBit_xor, h]
    by_cases h3 : p.dischargeCycleBit3 > n <;> by_cases h6 : p.dischargeCycleBit6 > n <;>
      by_cases h7 : p.dischargeCycleBit7 > n <;> cases playKey <;>
      simp only [h3, h6, h7, if_true, if_false, Bool.false_eq_true, Bool.and_false,
        Bool.false_or] <;> decide

theorem writeDirection_fields (p : ProcessorPort) (value cycle : Nat) :
    (p.writeDirection value cycle).direction = value ∧
    (p.writeDirection value cycle).port = p.port ∧
    (p.writeDirection value cycle).dischargeCycleBit3 =
      (if FALLING_EDGE_BIT p.direction value 3 ∧ GET_BIT p.port 3 ≠ 0 then UINT64_MAX
       else if GET_BIT value 3 ≠ 0 then 0 else p.dischargeCycleBit3) ∧
    (p.writeDirection value cycle).dischargeCycleBit6 =
      (if FALLING_EDGE_BIT p.direction value 6 ∧ GET_BIT p.port 6 ≠ 0 then
        (cycle + 350000) % 2 ^ 64
       else if GET_BIT value 6 ≠ 0 then 0 else p.dischargeCycleBit6) ∧
    (p.writeDirection value cycle).dischargeCycleBit7 =
      (if FALLING_EDGE_BIT p.direction value 7 ∧ GET_BIT p.port 7 ≠ 0 then
        (cycle + 350000) % 2 ^ 64
       else if GET_BIT value 7 ≠ 0 then 0 else p.dischargeCycleBit7) := by
  unfold ProcessorPort.writeDirection
  by_cases a3 : GET_BIT value 3 ≠ 0 <;> by_cases a6 : GET_BIT value 6 ≠ 0 <;>
    by_cases a7 : GET_BIT value 7 ≠ 0 <;>
    by_cases e3 : (FALLING_EDGE_BIT p.direction value 3 = true ∧ GET_BIT p.port 3 ≠ 0) <;>
    by_cases e6 : (FALLING_EDGE_BIT p.direction value 6 = true ∧ GET_BIT p.port 6 ≠ 0) <;>
    by_cases e7 : (FALLING_EDGE_BIT p.direction value 7 = true ∧ GET_BIT p.port 7 ≠ 0) <;>
    simp [a3, a6, a7, e3, e6, e7]

theorem FALLING_EDGE_BIT_of_edge (old new nr : Nat) (h1 : GET_BIT old nr ≠ 0)
    (h2 : GET_BIT new nr = 0) : FALLING_EDGE_BIT old new nr = true := by
  simp only [GET_BIT] at h1 h2
  simp [FALLING_EDGE_BIT, h1, h2]

/-- While bit `nr` stays an input, the later accesses change neither its
direction nor its discharge cycle. -/
theorem run_keepsInput (accesses : List PortAccess) (p : ProcessorPort) :
    ((∀ a ∈ accesses, a.keepsInput 3) → GET_BIT p.direction 3 = 0 →
      GET_BIT (p.run accesses).direction 3 = 0 ∧
      (p.run accesses).dischargeCycleBit3 = p.dischargeCycleBit3) ∧
    ((∀ a ∈ accesses, a.keepsInput 6) → GET_BIT p.direction 6 = 0 →
      GET_BIT (p.run accesses).direction 6 = 0 ∧
      (p.run accesses).dischargeCycleBit6 = p.dischargeCycleBit6) ∧
    ((∀ a ∈ accesses, a.keepsInput 7) → GET_BIT p.direction 7 = 0 →
      GET_BIT (p.run accesses).direction 7 = 0 ∧
      (p.run accesses).dischargeCycleBit7 = p.dischargeCycleBit7) := by
  induction accesses generalizing p with
  | nil => exact ⟨fun _ h => ⟨h, rfl⟩, fun _ h => ⟨h, rfl⟩, fun _ h => ⟨h, rfl⟩⟩
  | cons a accesses ih =>
    simp only [ProcessorPort.run, List.foldl_cons, List.mem_cons, forall_eq_or_imp] at ih ⊢
    cases a with
    | write v =>
      have := ih (p.write v)
      simpa [ProcessorPort.write, PortAccess.keepsInput] using this
    | writeDirection v c =>
      obtain ⟨hd, -, h3, h6, h7⟩ := writeDirection_fields p v c
      obtain ⟨i3, i6, i7⟩ := ih (p.writeDirection v c)
      refine ⟨?_, ?_, ?_⟩
      · rintro ⟨hk, hrest⟩ hdir
        simp only [PortAccess.keepsInput] at hk
        have := i3 hrest (by rw [hd]; exact hk)
        rw [h3, FALLING_EDGE_BIT_of_input _ _ _ hdir] at this
        simpa [hk] using this
      · rintro ⟨hk, hrest⟩ hdir
        simp only [PortAccess.keepsInput] at hk
        have := i6 hrest (by rw [hd]; exact hk)
        rw [h6, FALLING_EDGE_BIT_of_input _ _ _ hdir] at this
        simpa [hk] using this
      · rintro ⟨hk, hrest⟩ hdir
        simp only [PortAccess.keepsInput] at hk
        have := i7 hrest (by rw [hd]; exact hk)
        rw [h7, FALLING_EDGE_BIT_of_input _ _ _ hdir] at this
        simpa [hk] using this

/-- C6 (processor-port capacitor bits), as the code has it. Let
`writeDirection` switch a bit from output to input at CPU cycle `c`, with
`c + 350000` below `2 ^ 64`, while the port register holds 1 in that bit, and let
any accesses follow that keep the bit an input. For bit 6 and for bit 7, `read()`
then returns the bit as 1 at every cycle before `c + 350000` and as 0 from
`c + 350000` on. Bit 3 has no discharge time: its discharge cycle is
`UINT64_MAX`, and `read()` returns it as 1 at every cycle below that. -/
theorem processorPort_capacitor (p : ProcessorPort) (value c : Nat)
    (accesses : List PortAccess) (n : Nat) (playKey : Bool) (hc : c + 350000 < 2 ^ 64) :
    (GET_BIT p.direction 6 ≠ 0 → GET_BIT value 6 = 0 → GET_BIT p.port 6 ≠ 0 →
      (∀ a ∈ accesses, a.keepsInput 6) →
      ((p.writeDirection value c).run accesses).read n playKey &&& 0x40 =
        if n < c + 350000 then 0x40 else 0) ∧
    (GET_BIT p.direction 7 ≠ 0 → GET_BIT value 7 = 0 → GET_BIT p.port 7 ≠ 0 →
      (∀ a ∈ accesses, a.keepsInput 7) →
      ((p.writeDirection value c).run accesses).read n playKey &&& 0x80 =
        if n < c + 350000 then 0x80 else 0) ∧
    (GET_BIT p.direction 3 ≠ 0 → GET_BIT value 3 = 0 → GET_BIT p.port 3 ≠ 0 →
      (∀ a ∈ accesses, a.keepsInput 3) → n < UINT64_MAX →
      ((p.writeDirection value c).run accesses).read n playKey &&& 0x08 = 0x08) := by
  obtain ⟨hd, -, h3, h6, h7⟩ := writeDirection_fields p value c
  obtain ⟨k3, k6, k7⟩ := run_keepsInput accesses (p.writeDirection value c)
  refine ⟨?_, ?_, ?_⟩
  · intro hdir hval hport hacc
    obtain ⟨i1, i2⟩ := k6 hacc (by rw [hd]; exact hval)
    rw [if_pos ⟨FALLING_EDGE_BIT_of_edge _ _ _ hdir hval, hport⟩, Nat.mod_eq_of_lt hc] at h6
    rw [(read_input_bit _ n playKey).2.1 i1, i2, h6]
  · intro hdir hval hport hacc
    obtain ⟨i1, i2⟩ := k7 hacc (by rw [hd]; exact hval)
    rw [if_pos ⟨FALLING_EDGE_BIT_of_edge _ _ _ hdir hval, hport⟩, Nat.mod_eq_of_lt hc] at h7
    rw [(read_input_bit _ n playKey).2.2 i1, i2, h7]
  · intro hdir hval hport hacc hn
    obtain ⟨i1, i2⟩ := k3 hacc (by rw [hd]; exact hval)
    rw [if_pos ⟨FALLING_EDGE_BIT_of_edge _ _ _ hdir hval, hport⟩] at h3
    rw [(read_input_bit _ n playKey).1 i1, i2, h3, if_pos hn]

/-- Witness for C6, the scenario of the specification: DDR = 0xFF, port = 0xFF,
then DDR = 0x00 at cycle 1000; bit 6 reads 1 at cycle 1000 + 349999 and 0 at
cycle 1000 + 350000. -/
theorem processorPort_capacitor_witness :
    ((((⟨0, 0, 0, 0, 0⟩ : ProcessorPort).writeDirection 0xFF 0).write 0xFF).writeDirection
        0x00 1000).read (1000 + 349999) false &&& 0x40 = 0x40 ∧
    ((((⟨0, 0, 0, 0, 0⟩ : ProcessorPort).writeDirection 0xFF 0).write 0xFF).writeDirection
        0x00 1000).read (1000 + 350000) false &&& 0x40 = 0 :=
  ⟨(processorPort_capacitor (((⟨0, 0, 0, 0, 0⟩ : ProcessorPort).writeDirection 0xFF 0).write 0xFF)
      0x00 1000 [] (1000 + 349999) false (by norm_num)).1 (by decide) (by decide) (by decide)
      (by simp),
   (processorPort_capacitor (((⟨0, 0, 0, 0, 0⟩ : ProcessorPort).writeDirection 0xFF 0).write 0xFF)
      0x00 1000 [] (1000 + 350000) false (by norm_num)).1 (by decide) (by decide) (by decide)
      (by simp)⟩

/-- Counterexample to C6 as stated: after DDR = 0xFF, port = 0xFF, DDR = 0x00 at
cycle 1000, bit 3 still reads 1 at cycle 1000 + 350000. -/
theorem processorPort_bit3_counterexample :
    ((((⟨0, 0, 0, 0, 0⟩ : ProcessorPort).writeDirection 0xFF 0).write 0xFF).writeDirection
        0x00 1000).read (1000 + 350000) false &&& 0x08 = 0x08 := by
  decide

/-! ### CIA: time of day -/

theorem wakeUp_tod (c : CIA) : c.wakeUp.tod = c.tod := by
  simp only [CIA.wakeUp]
  split_ifs <;> rfl

/-- C10 (TOD read latch), as the code has it. When the TOD is not frozen yet,
`peek(0x0B)` returns the hours, and the values returned afterwards by
`peek(0x0A)`, `peek(0x09)` and the next `peek(0x08)` are the minutes, seconds and
tenths that the clock held at the moment of the hours read, however the running
clock changes in between (`v1`, `v2`, `v3`); `peek(0x08)` ends the freeze, and
later reads return the live clock (`v4`). -/
theorem tod_read_latch (env : PortEnv) (c : CIA) (v1 v2 v3 v4 : TimeOfDay)
    (hfrozen : c.tod.frozen = false) :
    (c.peek env 0x0B).1 = c.tod.tod.hours &&& 0x9F ∧
    (((c.peek env 0x0B).2.setClock v1).peek env 0x0A).1 = c.tod.tod.minutes &&& 0x7F ∧
    (((((c.peek env 0x0B).2.setClock v1).peek env 0x0A).2.setClock v2).peek env 0x09).1 =
      c.tod.tod.seconds &&& 0x7F ∧
    (((((((c.peek env 0x0B).2.setClock v1).peek env 0x0A).2.setClock v2).peek env 0x09).2.setClock
      v3).peek env 0x08).1 = c.tod.tod.tenth &&& 0x0F ∧
    (((((((c.peek env 0x0B).2.setClock v1).peek env 0x0A).2.setClock v2).peek env 0x09).2.setClock
      v3).peek env 0x08).2.tod.frozen = false ∧
    (((((((((c.peek env 0x0B).2.setClock v1).peek env 0x0A).2.setClock v2).peek env 0x09).2.setClock
      v3).peek env 0x08).2.setClock v4).peek env 0x0A).1 = v4.minutes &&& 0x7F ∧
    (((((((((c.peek env 0x0B).2.setClock v1).peek env 0x0A).2.setClock v2).peek env 0x09).2.setClock
      v3).peek env 0x08).2.setClock v4).peek env 0x09).1 = v4.seconds &&& 0x7F ∧
    (((((((((c.peek env 0x0B).2.setClock v1).peek env 0x0A).2.setClock v2).peek env 0x09).2.setClock
      v3).peek env 0x08).2.setClock v4).peek env 0x08).1 = v4.tenth &&& 0x0F := by
  simp [CIA.peek, CIA.setClock, wakeUp_tod, TOD.freeze, TOD.getTodHours, TOD.getTodMinutes,
    TOD.getTodSeconds, TOD.getTodTenth, TOD.defreeze, hfrozen]

/-- Witness for C10: the hours are read at 11:30:45.3, the clock then moves on
to 11:30:45.4; the minutes read is still 0x30. -/
theorem tod_read_latch_witness :
    ((((resetCIA1 .MOS_6526 true runningTOD ⟨0, 0, 0, 0⟩ 0).peek idleEnv 0x0B).2.setClock
      ⟨0x04, 0x45, 0x30, 0x11⟩).peek idleEnv 0x0A).1 = 0x30 :=
  (tod_read_latch idleEnv (resetCIA1 .MOS_6526 true runningTOD ⟨0, 0, 0, 0⟩ 0)
    ⟨0x04, 0x45, 0x30, 0x11⟩ ⟨0, 0, 0, 0⟩ ⟨0, 0, 0, 0⟩ ⟨0, 0, 0, 0⟩ rfl).2.1

/-- Counterexample to C10 as stated: the TOD is already frozen at 00:00:00.0 by
an earlier hours read while the clock shows 11:30:45.3; after `peek(0x0B)` the
minutes read returns 0x00 and not the 0x30 of the clock. -/
theorem tod_read_latch_counterexample :
    (resetCIA1 .MOS_6526 true frozenTOD ⟨0, 0, 0, 0⟩ 0).tod.tod.minutes &&& 0x7F = 0x30 ∧
    (((resetCIA1 .MOS_6526 true frozenTOD ⟨0, 0, 0, 0⟩ 0).peek idleEnv 0x0B).2.peek idleEnv
      0x0A).1 = 0x00 := by
  decide

/-! ### CIA: auxiliary facts -/

theorem land_bit_ne_zero (x k : Nat) : x &&& (1 <<< k) ≠ 0 ↔ x.testBit k = true := by
  rw [Nat.one_shiftLeft]
  exact and_two_pow_ne_zero x k

theorem land_bit_eq_zero (x k : Nat) : x &&& (1 <<< k) = 0 ↔ x.testBit k = false := by
  have h := (land_bit_ne_zero x k).not
  simp only [ne_eq, not_not, Bool.not_eq_true] at h
  exact h

/-- A conditional between two CIA states is the state of the conditional fields. -/
theorem CIA.ite_eta (p : Prop) [Decidable p] (a b : CIA) :
    (if p then a else b) =
      { kind := if p then a.kind else b.kind
        model := if p then a.model else b.model
        emulateTimerBBug := if p then a.emulateTimerBBug else b.emulateTimerBBug
        counterA := if p then a.counterA else b.counterA
        latchA := if p then a.latchA else b.latchA
        counterB := if p then a.counterB else b.counterB
        latchB := if p then a.latchB else b.latchB
        delay := if p then a.delay else b.delay
        feed := if p then a.feed else b.feed
        CRA := if p then a.CRA else b.CRA
        CRB := if p then a.CRB else b.CRB
        icr := if p then a.icr else b.icr
        icrAck := if p then a.icrAck else b.icrAck
        imr := if p then a.imr else b.imr
        PB67TimerMode := if p then a.PB67TimerMode else b.PB67TimerMode
        PB67TimerOut := if p then a.PB67TimerOut else b.PB67TimerOut
        PB67Toggle := if p then a.PB67Toggle else b.PB67Toggle
        PRA := if p then a.PRA else b.PRA
        PRB := if p then a.PRB else b.PRB
        DDRA := if p then a.DDRA else b.DDRA
        DDRB := if p then a.DDRB else b.DDRB
        PA := if p then a.PA else b.PA
        PB := if p then a.PB else b.PB
        SDR := if p then a.SDR else b.SDR
        serClk := if p then a.serClk else b.serClk
        serCounter := if p then a.serCounter else b.serCounter
        CNT := if p then a.CNT else b.CNT
        INT := if p then a.INT else b.INT
        tiredness := if p then a.tiredness else b.tiredness
        wakeUpCycle := if p then a.wakeUpCycle else b.wakeUpCycle
        idleCounter := if p then a.idleCounter else b.idleCounter
        tod := if p then a.tod else b.tod
        cpu := if p then a.cpu else b.cpu
        cpuCycle := if p then a.cpuCycle else b.cpuCycle } := by
  split_ifs <;> rfl

theorem triggerTimerIrq_eq (c : CIA) :
    c.triggerTimerIrq = { c with delay := c.delay |||
      (if c.model = .MOS_8521 ∧ ¬ (c.delay &&& CIAReadIcr0 ≠ 0) then CIASetInt1 ||| CIASetIcr1
       else CIASetInt0 ||| CIASetIcr0) } := by
  unfold CIA.triggerTimerIrq
  cases hm : c.model
  · simp [hm, Nat.lor_assoc]
  · by_cases h : c.delay &&& CIAReadIcr0 ≠ 0
    · have h' : (c.delay ||| CIASetInt0) &&& CIAReadIcr0 ≠ 0 := by
        unfold CIAReadIcr0 at h ⊢
        rw [land_bit_ne_zero] at h ⊢
        simp [Nat.testBit_lor, h]
      simp [hm, h, h', Nat.lor_assoc]
    · have h' : ¬ ((c.delay ||| CIASetInt1) &&& CIAReadIcr0 ≠ 0) := by
        unfold CIAReadIcr0 at h ⊢
        rw [land_bit_ne_zero] at h ⊢
        simp +decide [Nat.testBit_lor, h, CIASetInt1]
      simp only [hm, h, h', if_false, Nat.lor_assoc, true_and, not_false_eq_true, if_true]

theorem pullDownInterruptLine_eq (c : CIA) :
    c.pullDownInterruptLine = { c with cpu :=
      match c.kind with
      | .CIA1 => pullDownIrqLine c.cpu .INTSRC_CIA
      | .CIA2 => pullDownNmiLine c.cpu .INTSRC_CIA } := by
  cases hk : c.kind <;> simp [CIA.pullDownInterruptLine, hk]

theorem releaseInterruptLine_eq (c : CIA) :
    c.releaseInterruptLine = { c with cpu :=
      match c.kind with
      | .CIA1 => releaseIrqLine c.cpu .INTSRC_CIA
      | .CIA2 => releaseNmiLine c.cpu .INTSRC_CIA } := by
  cases hk : c.kind <;> simp [CIA.releaseInterruptLine, hk]

theorem wakeUp_eq (c : CIA) :
    c.wakeUp = { c with
      counterA := if c.idleCounter ≠ 0 ∧ c.feed &&& CIACountA0 ≠ 0 then
        (c.counterA + 2 ^ 64 - c.idleCounter % 2 ^ 64) % 2 ^ 16 else c.counterA
      counterB := if c.idleCounter ≠ 0 ∧ c.feed &&& CIACountB0 ≠ 0 then
        (c.counterB + 2 ^ 64 - c.idleCounter % 2 ^ 64) % 2 ^ 16 else c.counterB
      idleCounter := 0
      wakeUpCycle := 0 } := by
  simp only [CIA.wakeUp]
  split_ifs <;> simp_all

/-- What the timer sections leave alone. -/
theorem timerA_frame (c : CIA) :
    c.timerA.1.emulateTimerBBug = c.emulateTimerBBug ∧ c.timerA.1.model = c.model ∧
    c.timerA.1.icr = c.icr ∧ c.timerA.1.imr = c.imr ∧ c.timerA.1.counterB = c.counterB ∧
    c.timerA.1.kind = c.kind := by
  simp only [CIA.timerA, CIA.reloadTimerA, CIA.ite_eta, ite_self, and_self]

theorem timerB_frame (c : CIA) :
    c.timerB.1.emulateTimerBBug = c.emulateTimerBBug ∧ c.timerB.1.model = c.model ∧
    c.timerB.1.icr = c.icr ∧ c.timerB.1.imr = c.imr ∧ c.timerB.1.kind = c.kind := by
  simp only [CIA.timerB, CIA.reloadTimerB, CIA.ite_eta, ite_self, and_self]

/-- An underflow of timer B clears bit 1 of `icrAck`. -/
theorem timerB_icrAck (c : CIA) (h : c.timerB.2 = true) :
    c.timerB.1.icrAck.testBit 1 = false := by
  simp only [CIA.timerB, CIA.reloadTimerB, CIA.ite_eta, ite_self] at h ⊢
  rw [if_pos h]
  simp +decide [Nat.testBit_land]

theorem serialRegister_frame (c : CIA) (tA : Bool) :
    (c.serialRegister tA).emulateTimerBBug = c.emulateTimerBBug ∧
    (c.serialRegister tA).icrAck = c.icrAck ∧ (c.serialRegister tA).icr = c.icr ∧
    (c.serialRegister tA).imr = c.imr ∧ (c.serialRegister tA).model = c.model := by
  simp only [CIA.serialRegister, CIA.ite_eta, ite_self, and_self]

theorem timerOutput_frame (c : CIA) (tA tB : Bool) :
    (c.timerOutput tA tB).emulateTimerBBug = c.emulateTimerBBug ∧
    (c.timerOutput tA tB).icrAck = c.icrAck ∧ (c.timerOutput tA tB).icr = c.icr ∧
    (c.timerOutput tA tB).imr = c.imr ∧ (c.timerOutput tA tB).model = c.model ∧
    (c.timerOutput tA tB).feed = c.feed := by
  simp only [CIA.timerOutput, CIA.ite_eta, ite_self, and_self]

/-! ### CIA: timer B and the ICR -/

theorem setTimerIcrBits_bit1 (c : CIA) (tA : Bool) (hbug : c.emulateTimerBBug = false) :
    (c.setTimerIcrBits tA true).icr.testBit 1 = true ∧
    (c.setTimerIcrBits tA true).icrAck = c.icrAck := by
  simp only [CIA.setTimerIcrBits, CIA.ite_eta, ite_self, hbug, Bool.false_eq_true, and_false,
    if_false, if_true, and_true]
  split_ifs <;> simp +decide [Nat.testBit_lor]

theorem checkTimerIrq_frame (c : CIA) (tA tB : Bool) :
    (c.checkTimerIrq tA tB).icr = c.icr ∧ (c.checkTimerIrq tA tB).icrAck = c.icrAck ∧
    (c.checkTimerIrq tA tB).feed = c.feed := by
  simp only [CIA.checkTimerIrq, triggerTimerIrq_eq, CIA.ite_eta, ite_self, and_self]

theorem checkTodIrq_bit1 (c : CIA) (h : c.icr.testBit 1 = true) :
    c.checkTodIrq.icr.testBit 1 = true ∧ c.checkTodIrq.icrAck = c.icrAck := by
  simp only [CIA.checkTodIrq, CIA.triggerTodIrq, CIA.ite_eta, ite_self, and_true]
  split_ifs <;> simp [Nat.testBit_lor, h]

theorem checkSerialIrq_bit1 (c : CIA) (h : c.icr.testBit 1 = true) :
    c.checkSerialIrq.icr.testBit 1 = true ∧ c.checkSerialIrq.icrAck = c.icrAck := by
  simp only [CIA.checkSerialIrq, CIA.triggerSerialIrq, CIA.ite_eta, ite_self, and_true]
  split_ifs <;> simp [Nat.testBit_lor, h]

theorem updateIcrAndLine_eq (c : CIA) :
    c.updateIcrAndLine =
      if c.delay &&& (CIAClearIcr1 ||| CIAAckIcr1 ||| CIASetIcr1 ||| CIASetInt1 ||| CIAClearInt0)
          ≠ 0
      then c.stepClearIcr.stepAckIcr.stepSetIcr.stepSetInt.stepClearInt else c := rfl

theorem updateIcrAndLine_bit1 (c : CIA) (h : c.icr.testBit 1 = true)
    (hack : c.icrAck.testBit 1 = false) : c.updateIcrAndLine.icr.testBit 1 = true := by
  have e1 : c.stepClearIcr.icr.testBit 1 = true ∧ c.stepClearIcr.icrAck = c.icrAck := by
    simp only [CIA.stepClearIcr, CIA.ite_eta, ite_self, and_true]
    split_ifs <;> simp +decide [Nat.testBit_land, h]
  have e2 : ∀ x : CIA, x.icr.testBit 1 = true → x.icrAck.testBit 1 = false →
      x.stepAckIcr.icr.testBit 1 = true := by
    intro x hx hxa
    simp only [CIA.stepAckIcr, CIA.ite_eta, ite_self]
    split_ifs <;> simp +decide [Nat.testBit_land, Nat.testBit_xor, hx, hxa]
  have e3 : ∀ x : CIA, x.icr.testBit 1 = true → x.stepSetIcr.icr.testBit 1 = true := by
    intro x hx
    simp only [CIA.stepSetIcr, CIA.ite_eta, ite_self]
    split_ifs <;> simp [Nat.testBit_lor, hx]
  have e4 : ∀ x : CIA, x.stepSetInt.icr = x.icr := by
    intro x
    simp only [CIA.stepSetInt, pullDownInterruptLine_eq, CIA.ite_eta, ite_self]
  have e5 : ∀ x : CIA, x.stepClearInt.icr = x.icr := by
    intro x
    simp only [CIA.stepClearInt, releaseInterruptLine_eq, CIA.ite_eta, ite_self]
  rw [updateIcrAndLine_eq]
  split_ifs
  · rw [e5, e4]
    exact e3 _ (e2 _ e1.1 (by rw [e1.2]; exact hack))
  · exact h

theorem executeOneCycle_icr (c : CIA) :
    c.executeOneCycle.icr =
      (((c.wakeUp.timerA.1.timerB.1.serialRegister c.wakeUp.timerA.2).timerOutput
        c.wakeUp.timerA.2 c.wakeUp.timerA.1.timerB.2).interruptLogic
        c.wakeUp.timerA.2 c.wakeUp.timerA.1.timerB.2).icr := by
  simp only [CIA.executeOneCycle, CIA.sleep, CIA.ite_eta, ite_self]

/-- C9 (timer B on the 8521), as the code has it. On a MOS 8521 with
`emulateTimerBBug == false`: if timer B underflows in `executeOneCycle()` then
ICR bit 1 is set at the end of that cycle, also when the ICR was read in the
preceding cycle (no assumption is made on `delay`). -/
theorem timerB_underflow_sets_icr (c : CIA) (_hm : c.model = .MOS_8521)
    (hbug : c.emulateTimerBBug = false) (h : c.timerBUnderflows = true) :
    c.executeOneCycle.icr &&& 0x02 ≠ 0 := by
  rw [show (0x02 : Nat) = 1 <<< 1 from rfl, land_bit_ne_zero, executeOneCycle_icr]
  simp only [CIA.interruptLogic]
  unfold CIA.timerBUnderflows at h
  have hw : c.wakeUp.emulateTimerBBug = false := by rw [wakeUp_eq]; exact hbug
  have hb : c.wakeUp.timerA.1.timerB.1.emulateTimerBBug = false := by
    rw [(timerB_frame _).1, (timerA_frame _).1, hw]
  have hack := timerB_icrAck _ h
  rw [h]
  generalize c.wakeUp.timerA.1.timerB.1 = b at hb hack
  generalize c.wakeUp.timerA.2 = tA
  have hs := serialRegister_frame b tA
  have ho := timerOutput_frame (b.serialRegister tA) tA true
  generalize (b.serialRegister tA).timerOutput tA true = o at ho
  have hbug' : o.emulateTimerBBug = false := by rw [ho.1, hs.1, hb]
  have hack' : o.icrAck.testBit 1 = false := by rw [ho.2.1, hs.2.1, hack]
  have h1 := setTimerIcrBits_bit1 o tA hbug'
  have h2 := checkTimerIrq_frame (o.setTimerIcrBits tA true) tA true
  generalize o.setTimerIcrBits tA true = x1 at h1 h2
  have h3 := checkTodIrq_bit1 (x1.checkTimerIrq tA true) (by rw [h2.1]; exact h1.1)
  generalize x1.checkTimerIrq tA true = x2 at h2 h3
  have h4 := checkSerialIrq_bit1 x2.checkTodIrq h3.1
  generalize x2.checkTodIrq = x3 at h3 h4
  exact updateIcrAndLine_bit1 x3.checkSerialIrq h4.1
    (by rw [h4.2, h3.2, h2.2.1, h1.2]; exact hack')

/-- Witness for C9: a MOS 8521 without the timer B bug, ICR read in the cycle
before timer B underflows. -/
theorem timerB_underflow_sets_icr_witness :
    (timerBRace .MOS_8521 false).delay &&& CIAReadIcr0 ≠ 0 ∧
    (timerBRace .MOS_8521 false).executeOneCycle.icr &&& 0x02 ≠ 0 :=
  ⟨by decide, timerB_underflow_sets_icr (timerBRace .MOS_8521 false) rfl rfl (by decide)⟩

/-- Counterexample to C9 as stated: a MOS 8521 with `emulateTimerBBug == true`
(the configuration C64_II_NTSC), ICR read in the cycle before timer B
underflows; ICR bit 1 is clear at the end of the cycle. -/
theorem timerB_bug_on_8521_counterexample :
    (timerBRace .MOS_8521 true).model = .MOS_8521 ∧
    (timerBRace .MOS_8521 true).timerBUnderflows = true ∧
    (timerBRace .MOS_8521 true).executeOneCycle.icr &&& 0x02 = 0 := by
  decide

/-! ### CIA: reading the interrupt control register -/

theorem peek_icr_eq (env : PortEnv) (c : CIA) :
    (c.peek env 0x0D) =
      (if c.delay &&& CIASetInt1 ≠ 0 ∧ c.icr &&& 0x1F ≠ 0 ∧ c.model = .MOS_8521 then
        c.icr ||| 0x80 else c.icr,
       { c.wakeUp with
          icr := if c.model = .MOS_8521 then
              (if c.delay &&& CIASetInt1 ≠ 0 ∧ c.icr &&& 0x1F ≠ 0 ∧ c.model = .MOS_8521 then
                c.icr ||| 0x80 else c.icr)
            else c.icr &&& 0x80
          icrAck := if c.model = .MOS_8521 then 0xFF else c.icrAck
          delay := if c.model = .MOS_8521 then
              (((if c.INT = 0 then c.delay ||| CIAClearInt0 else c.delay) &&&
                not64 (CIASetInt0 ||| CIASetInt1)) ||| CIAClearIcr0 ||| CIAAckIcr0) ||| CIAReadIcr0
            else
              (((if c.INT = 0 then c.delay ||| CIAClearInt0 else c.delay) &&&
                not64 (CIASetInt0 ||| CIASetInt1)) ||| CIAClearIcr0) ||| CIAReadIcr0 }) := by
  simp only [CIA.peek, wakeUp_eq, CIA.ite_eta, ite_self]
  by_cases h3 : c.model = .MOS_8521 <;> simp [h3]

/-- The read of the ICR, taken alone. On a MOS 6526, `peek(0x0D)` returns the value
of `icr` before the read, leaves bits 0..6 of `icr` cleared, removes `SetInt0`
and `SetInt1` from the pipeline, and sets `ClearIcr0` and, when the CIA holds the
interrupt line low (`INT == 0`), `ClearInt0`. On a MOS 8521 the read leaves `icr`
bits 0..4 in place, sets `icrAck = 0xFF` and sets `AckIcr0` next to `ClearIcr0`. -/
theorem peek_icr_read (env : PortEnv) (c : CIA) :
    (c.model = .MOS_6526 →
      (c.peek env 0x0D).1 = c.icr ∧
      (c.peek env 0x0D).2.icr = c.icr &&& 0x80 ∧
      (c.peek env 0x0D).2.icr &&& 0x7F = 0 ∧
      (c.peek env 0x0D).2.delay &&& CIASetInt0 = 0 ∧
      (c.peek env 0x0D).2.delay &&& CIASetInt1 = 0 ∧
      (c.peek env 0x0D).2.delay &&& CIAClearIcr0 ≠ 0 ∧
      (c.INT = 0 → (c.peek env 0x0D).2.delay &&& CIAClearInt0 ≠ 0)) ∧
    (c.model = .MOS_8521 →
      (c.peek env 0x0D).2.icr &&& 0x1F = c.icr &&& 0x1F ∧
      (c.peek env 0x0D).2.icrAck = 0xFF ∧
      (c.peek env 0x0D).2.delay &&& CIASetInt0 = 0 ∧
      (c.peek env 0x0D).2.delay &&& CIASetInt1 = 0 ∧
      (c.peek env 0x0D).2.delay &&& CIAAckIcr0 ≠ 0 ∧
      (c.peek env 0x0D).2.delay &&& CIAClearIcr0 ≠ 0 ∧
      (c.INT = 0 → (c.peek env 0x0D).2.delay &&& CIAClearInt0 ≠ 0)) := by
  rw [peek_icr_eq]
  constructor
  · intro hm
    have hm' : c.model ≠ .MOS_8521 := by rw [hm]; decide
    simp only [hm', and_false, if_false]
    refine ⟨trivial, trivial, ?_, ?_, ?_, ?_, ?_⟩
    · rw [Nat.land_assoc, show (0x80 &&& 0x7F : Nat) = 0 from rfl, Nat.and_zero]
    · unfold CIASetInt0; rw [land_bit_eq_zero]
      split_ifs <;>
        simp +decide [not64, UINT64_MAX, CIASetInt0, CIASetInt1, CIAClearIcr0, CIAReadIcr0,
          CIAClearInt0, Nat.testBit_lor, Nat.testBit_land, Nat.testBit_xor]
    · unfold CIASetInt1; rw [land_bit_eq_zero]
      split_ifs <;>
        simp +decide [not64, UINT64_MAX, CIASetInt0, CIASetInt1, CIAClearIcr0, CIAReadIcr0,
          CIAClearInt0, Nat.testBit_lor, Nat.testBit_land, Nat.testBit_xor]
    · unfold CIAClearIcr0; rw [land_bit_ne_zero]
      split_ifs <;>
        simp +decide [not64, UINT64_MAX, CIASetInt0, CIASetInt1, CIAClearIcr0, CIAReadIcr0,
          CIAClearInt0, Nat.testBit_lor, Nat.testBit_land, Nat.testBit_xor]
    · intro h0
      unfold CIAClearInt0; rw [land_bit_ne_zero]
      simp +decide [h0, not64, UINT64_MAX, CIASetInt0, CIASetInt1, CIAClearIcr0, CIAReadIcr0,
          CIAClearInt0, Nat.testBit_lor, Nat.testBit_land, Nat.testBit_xor]
  · intro hm
    simp only [hm, and_true, if_true]
    refine ⟨?_, trivial, ?_, ?_, ?_, ?_, ?_⟩
    · split_ifs
      · rw [Nat.and_distrib_right, show (0x80 &&& 0x1F : Nat) = 0 from rfl, Nat.or_zero]
      · rfl
    · unfold CIASetInt0; rw [land_bit_eq_zero]
      split_ifs <;>
        simp +decide [not64, UINT64_MAX, CIASetInt0, CIASetInt1, CIAClearIcr0, CIAReadIcr0,
          CIAClearInt0, CIAAckIcr0, Nat.testBit_lor, Nat.testBit_land, Nat.testBit_xor]
    · unfold CIASetInt1; rw [land_bit_eq_zero]
      split_ifs <;>
        simp +decide [not64, UINT64_MAX, CIASetInt0, CIASetInt1, CIAClearIcr0, CIAReadIcr0,
          CIAClearInt0, CIAAckIcr0, Nat.testBit_lor, Nat.testBit_land, Nat.testBit_xor]
    · unfold CIAAckIcr0; rw [land_bit_ne_zero]
      split_ifs <;>
        simp +decide [not64, UINT64_MAX, CIASetInt0, CIASetInt1, CIAClearIcr0, CIAReadIcr0,
          CIAClearInt0, CIAAckIcr0, Nat.testBit_lor, Nat.testBit_land, Nat.testBit_xor]
    · unfold CIAClearIcr0; rw [land_bit_ne_zero]
      split_ifs <;>
        simp +decide [not64, UINT64_MAX, CIASetInt0, CIASetInt1, CIAClearIcr0, CIAReadIcr0,
          CIAClearInt0, CIAAckIcr0, Nat.testBit_lor, Nat.testBit_land, Nat.testBit_xor]
    · intro h0
      unfold CIAClearInt0; rw [land_bit_ne_zero]
      simp +decide [h0, not64, UINT64_MAX, CIASetInt0, CIASetInt1, CIAClearIcr0, CIAReadIcr0,
          CIAClearInt0, CIAAckIcr0, Nat.testBit_lor, Nat.testBit_land, Nat.testBit_xor]

/-! ### CIA: the shift of the delay flags -/

theorem timerA_quiet (c : CIA) (h : c.timerA.2 = false) (hl : c.delay &&& CIALoadA1 = 0) :
    c.timerA.1.delay = c.delay ∧ c.timerA.1.feed = c.feed ∧ c.timerA.1.imr = c.imr ∧
    c.timerA.1.serCounter = c.serCounter ∧ c.timerA.1.counterB = c.counterB := by
  simp only [CIA.timerA, CIA.reloadTimerA, CIA.ite_eta, ite_self] at h ⊢
  simp only [h, hl, Bool.false_eq_true, if_false, ne_eq, not_true_eq_false, and_self]

theorem timerB_quiet (c : CIA) (h : c.timerB.2 = false) (hl : c.delay &&& CIALoadB1 = 0) :
    c.timerB.1.delay = c.delay ∧ c.timerB.1.feed = c.feed ∧ c.timerB.1.imr = c.imr ∧
    c.timerB.1.serCounter = c.serCounter := by
  simp only [CIA.timerB, CIA.reloadTimerB, CIA.ite_eta, ite_self] at h ⊢
  simp only [h, hl, Bool.false_eq_true, if_false, ne_eq, not_true_eq_false, and_self]

theorem serialRegister_quiet (c : CIA)
    (h : ¬ (c.serCounter = 1 ∧ c.delay &&& (CIASerClk2 ||| CIASerClk1) = CIASerClk1)) :
    (c.serialRegister false).delay = c.delay ∧ (c.serialRegister false).feed = c.feed ∧
    (c.serialRegister false).imr = c.imr := by
  simp only [CIA.serialRegister, CIA.ite_eta, ite_self, Bool.false_eq_true, false_and, if_false,
    and_true]
  split_ifs <;> simp_all

theorem timerOutput_quiet (c : CIA) :
    (c.timerOutput false false).delay = c.delay ∧ (c.timerOutput false false).feed = c.feed ∧
    (c.timerOutput false false).imr = c.imr := by
  simp only [CIA.timerOutput, CIA.ite_eta, ite_self, Bool.false_eq_true, if_false, and_self]

theorem interruptLogic_quiet (c : CIA)
    (htod : ¬ (c.delay &&& CIATODInt0 ≠ 0 ∧ c.imr &&& 0x04 ≠ 0))
    (hser : ¬ (c.delay &&& CIASerInt2 ≠ 0 ∧ c.imr &&& 0x08 ≠ 0)) :
    (c.interruptLogic false false).delay = c.delay ∧
    (c.interruptLogic false false).feed = c.feed := by
  have e1 : c.setTimerIcrBits false false = c := by
    simp only [CIA.setTimerIcrBits, Bool.false_eq_true, if_false]
  have e2 : c.checkTimerIrq false false = c := by
    simp only [CIA.checkTimerIrq, Bool.false_eq_true, false_and, or_self, if_false]
  have e3 : c.checkTodIrq.delay = c.delay ∧ c.checkTodIrq.feed = c.feed ∧
      c.checkTodIrq.imr = c.imr := by
    simp only [CIA.checkTodIrq, CIA.triggerTodIrq, CIA.ite_eta, ite_self, and_true]
    split_ifs <;> simp_all
  have e4 : ∀ x : CIA, ¬ (x.delay &&& CIASerInt2 ≠ 0 ∧ x.imr &&& 0x08 ≠ 0) →
      x.checkSerialIrq.delay = x.delay ∧ x.checkSerialIrq.feed = x.feed := by
    intro x hx
    simp only [CIA.checkSerialIrq, CIA.triggerSerialIrq, CIA.ite_eta, ite_self, and_true]
    split_ifs <;> simp_all
  have e5 : ∀ x : CIA, x.updateIcrAndLine.delay = x.delay ∧ x.updateIcrAndLine.feed = x.feed := by
    intro x
    have s1 : x.stepClearIcr.delay = x.delay ∧ x.stepClearIcr.feed = x.feed := by
      simp only [CIA.stepClearIcr, CIA.ite_eta, ite_self, and_self]
    have s2 : ∀ y : CIA, y.stepAckIcr.delay = y.delay ∧ y.stepAckIcr.feed = y.feed := by
      intro y; simp only [CIA.stepAckIcr, CIA.ite_eta, ite_self, and_self]
    have s3 : ∀ y : CIA, y.stepSetIcr.delay = y.delay ∧ y.stepSetIcr.feed = y.feed := by
      intro y; simp only [CIA.stepSetIcr, CIA.ite_eta, ite_self, and_self]
    have s4 : ∀ y : CIA, y.stepSetInt.delay = y.delay ∧ y.stepSetInt.feed = y.feed := by
      intro y
      simp only [CIA.stepSetInt, pullDownInterruptLine_eq, CIA.ite_eta, ite_self, and_self]
    have s5 : ∀ y : CIA, y.stepClearInt.delay = y.delay ∧ y.stepClearInt.feed = y.feed := by
      intro y
      simp only [CIA.stepClearInt, releaseInterruptLine_eq, CIA.ite_eta, ite_self, and_self]
    rw [updateIcrAndLine_eq]
    split_ifs
    · rw [(s5 _).1, (s4 _).1, (s3 _).1, (s2 _).1, s1.1, (s5 _).2, (s4 _).2, (s3 _).2, (s2 _).2,
        s1.2]
      exact ⟨rfl, rfl⟩
    · exact ⟨rfl, rfl⟩
  simp only [CIA.interruptLogic, e1, e2]
  have h4 := e4 c.checkTodIrq (by rw [e3.1, e3.2.2]; exact hser)
  rw [(e5 _).1, (e5 _).2, h4.1, h4.2, e3.1, e3.2.1]
  exact ⟨rfl, rfl⟩

theorem executeOneCycle_delay (c : CIA) :
    c.executeOneCycle.delay =
      (((c.beforeShift.delay <<< 1) % 2 ^ 64) &&& DelayMask) ||| c.beforeShift.feed ∧
    c.executeOneCycle.feed = c.beforeShift.feed := by
  simp only [CIA.executeOneCycle, CIA.beforeShift, CIA.sleep, CIA.ite_eta, ite_self, and_self]

/-- C4 (pipeline shift), as the code has it. One call of `executeOneCycle()`
leaves `delay` equal to `((d << 1) & DelayMask) | f`, where `d` and `f` are the
values of `delay` and `feed` at the end of the timer, serial and interrupt logic
of the cycle. In a cycle in which no timer underflows, no timer load is pending
(`LoadA1`, `LoadB1`), the serial register raises no interrupt and neither the
TOD nor the serial interrupt is triggered, these are the values from before the
cycle: `delay_new == ((delay_old << 1) & DelayMask) | feed`. -/
theorem delay_shift (c : CIA) :
    (c.executeOneCycle.delay =
        (((c.beforeShift.delay <<< 1) % 2 ^ 64) &&& DelayMask) ||| c.beforeShift.feed ∧
      c.executeOneCycle.feed = c.beforeShift.feed) ∧
    (c.timerAUnderflows = false → c.timerBUnderflows = false →
      c.delay &&& CIALoadA1 = 0 → c.delay &&& CIALoadB1 = 0 →
      ¬ (c.serCounter = 1 ∧ c.delay &&& (CIASerClk2 ||| CIASerClk1) = CIASerClk1) →
      ¬ (c.delay &&& CIATODInt0 ≠ 0 ∧ c.imr &&& 0x04 ≠ 0) →
      ¬ (c.delay &&& CIASerInt2 ≠ 0 ∧ c.imr &&& 0x08 ≠ 0) →
      c.beforeShift.delay = c.delay ∧ c.beforeShift.feed = c.feed ∧
      c.executeOneCycle.delay = (((c.delay <<< 1) % 2 ^ 64) &&& DelayMask) ||| c.feed ∧
      c.executeOneCycle.feed = c.feed) := by
  refine ⟨executeOneCycle_delay c, ?_⟩
  intro hA hB hLA hLB hser htod hsi
  have hw : c.wakeUp.delay = c.delay ∧ c.wakeUp.feed = c.feed ∧ c.wakeUp.imr = c.imr ∧
      c.wakeUp.serCounter = c.serCounter := by
    rw [wakeUp_eq]; exact ⟨rfl, rfl, rfl, rfl⟩
  unfold CIA.timerAUnderflows at hA
  unfold CIA.timerBUnderflows at hB
  have ha := timerA_quiet c.wakeUp hA (by rw [hw.1]; exact hLA)
  have hb := timerB_quiet c.wakeUp.timerA.1 hB (by rw [ha.1, hw.1]; exact hLB)
  have hbs : c.beforeShift.delay = c.delay ∧ c.beforeShift.feed = c.feed := by
    simp only [CIA.beforeShift, hA, hB]
    generalize c.wakeUp.timerA.1.timerB.1 = b at hb
    have hs := serialRegister_quiet b
      (by rw [hb.1, hb.2.2.2, ha.1, ha.2.2.2.1, hw.1, hw.2.2.2]; exact hser)
    have ho := timerOutput_quiet (b.serialRegister false)
    have hi := interruptLogic_quiet ((b.serialRegister false).timerOutput false false)
      (by rw [ho.1, ho.2.2, hs.1, hs.2.2, hb.1, hb.2.2.1, ha.1, ha.2.2.1, hw.1, hw.2.2.1]
          exact htod)
      (by rw [ho.1, ho.2.2, hs.1, hs.2.2, hb.1, hb.2.2.1, ha.1, ha.2.2.1, hw.1, hw.2.2.1]
          exact hsi)
    rw [hi.1, hi.2, ho.1, ho.2.1, hs.1, hs.2.1, hb.1, hb.2.1, ha.1, ha.2.1, hw.1, hw.2.1]
    exact ⟨rfl, rfl⟩
  have he := executeOneCycle_delay c
  rw [hbs.1, hbs.2] at he
  exact ⟨hbs.1, hbs.2, he.1, he.2⟩

/-- Witness for C4: timer A counts down from 3; nothing happens in the cycle and
`delay` is the shifted old value. -/
theorem delay_shift_witness :
    (timerARunning 3).executeOneCycle.delay =
      ((((timerARunning 3).delay <<< 1) % 2 ^ 64) &&& DelayMask) ||| (timerARunning 3).feed :=
  ((delay_shift (timerARunning 3)).2 (by decide) (by decide) (by decide) (by decide) (by decide)
    (by decide) (by decide)).2.2.1

/-- Counterexample to C4 as stated: timer A underflows (counter 1, continuous
mode); the cycle adds `LoadA1` to `delay` and the reload removes `CountA2`, so
that `delay` ends as `CountA0 | CountA1 | CountA2 | LoadA2` (1031), while
`((delay_old << 1) & DelayMask) | feed` is 15, for the old and for the new
`feed`. -/
theorem delay_shift_counterexample :
    (timerARunning 1).executeOneCycle.delay = 1031 ∧
    ((((timerARunning 1).delay <<< 1) % 2 ^ 64) &&& DelayMask) ||| (timerARunning 1).feed = 15 ∧
    ((((timerARunning 1).delay <<< 1) % 2 ^ 64) &&& DelayMask) |||
      (timerARunning 1).executeOneCycle.feed = 15 := by
  decide

/-! ### CIA: cycles in which only timer A acts -/

theorem land_of_mask (x m b : Nat) (h : x &&& m = 0) (hb : b &&& m = b) : x &&& b = 0 := by
  rw [← hb, ← Nat.land_assoc, Nat.land_comm x b, Nat.land_assoc, h, Nat.and_zero]

theorem executeOneCycle_eq (c : CIA) :
    c.executeOneCycle = c.beforeShift.shiftAndIdle c.delay c.feed := by
  have h : c.wakeUp.delay = c.delay ∧ c.wakeUp.feed = c.feed := by
    rw [wakeUp_eq]; exact ⟨rfl, rfl⟩
  rw [← h.1, ← h.2]
  rfl

theorem wakeUp_idle (c : CIA) (hi : c.idleCounter = 0) : c.wakeUp = { c with wakeUpCycle := 0 } := by
  simp [CIA.wakeUp, hi]

theorem timerB_idle (c : CIA) (hq : c.delay &&& idleMask = 0) : c.timerB = (c, false) := by
  have h3 := land_of_mask _ _ CIACountB3 hq (by decide)
  have h2 := land_of_mask _ _ CIACountB2 hq (by decide)
  have hl := land_of_mask _ _ CIALoadB1 hq (by decide)
  simp [CIA.timerB, h3, h2, hl]

theorem serialRegister_idle (c : CIA) (o : Bool) (hs : c.serCounter = 0)
    (h : o = false ∨ c.CRA &&& 0x40 = 0) : c.serialRegister o = c := by
  rcases h with h | h <;> simp [CIA.serialRegister, hs, h]

theorem timerOutput_idle (c : CIA) (hq : c.delay &&& idleMask = 0) :
    c.timerOutput false false = c := by
  have h6 := land_of_mask _ _ CIAPB6Low1 hq (by decide)
  have h7 := land_of_mask _ _ CIAPB7Low1 hq (by decide)
  simp [CIA.timerOutput, h6, h7]

theorem interruptLogic_idle (c : CIA) (hq : c.delay &&& idleMask = 0) :
    c.interruptLogic false false = c := by
  have ht := land_of_mask _ _ CIATODInt0 hq (by decide)
  have hs := land_of_mask _ _ CIASerInt2 hq (by decide)
  have hu := land_of_mask _ _
    (CIAClearIcr1 ||| CIAAckIcr1 ||| CIASetIcr1 ||| CIASetInt1 ||| CIAClearInt0) hq (by decide)
  simp [CIA.interruptLogic, CIA.setTimerIcrBits, CIA.checkTimerIrq, CIA.checkTodIrq,
    CIA.checkSerialIrq, CIA.updateIcrAndLine, ht, hs, hu]

theorem beforeShift_idle (c a : CIA) (hi : c.idleCounter = 0)
    (ha : CIA.timerA { c with wakeUpCycle := 0 } = (a, false))
    (hq : a.delay &&& idleMask = 0) (hs : a.serCounter = 0) :
    c.timerAUnderflows = false ∧ c.beforeShift = a := by
  unfold CIA.timerAUnderflows CIA.beforeShift
  rw [wakeUp_idle c hi]
  simp only [ha, timerB_idle a hq, serialRegister_idle a false hs (Or.inl rfl),
    timerOutput_idle a hq, interruptLogic_idle a hq, and_self]

theorem timerOutput_timerA (c : CIA) (hq : c.delay &&& idleMask = 0) (h2 : c.CRA &&& 0x02 = 0) :
    c.timerOutput true false = { c with PB67Toggle := c.PB67Toggle ^^^ 0x40 } := by
  have h6 := land_of_mask _ _ CIAPB6Low1 hq (by decide)
  have h7 := land_of_mask _ _ CIAPB7Low1 hq (by decide)
  simp [CIA.timerOutput, h6, h7, h2]

theorem checkTodIrq_idle (c : CIA) (h : c.delay &&& CIATODInt0 = 0) : c.checkTodIrq = c := by
  simp [CIA.checkTodIrq, h]

theorem checkSerialIrq_idle (c : CIA) (h : c.delay &&& CIASerInt2 = 0) : c.checkSerialIrq = c := by
  simp [CIA.checkSerialIrq, h]

theorem updateIcrAndLine_idle (c : CIA)
    (h : c.delay &&& (CIAClearIcr1 ||| CIAAckIcr1 ||| CIASetIcr1 ||| CIASetInt1 ||| CIAClearInt0)
      = 0) : c.updateIcrAndLine = c := by
  simp [CIA.updateIcrAndLine, h]

/-- Steps (12) to (14) when an interrupt is due on CIA 1: bit 7 of the ICR is set
and the IRQ line is pulled down. -/
theorem updateIcrAndLine_irq (c : CIA) (hk : c.kind = .CIA1)
    (h1 : c.delay &&& CIAClearIcr1 = 0) (h2 : c.delay &&& CIAAckIcr1 = 0)
    (h3 : c.delay &&& CIASetIcr1 ≠ 0) (h4 : c.delay &&& CIASetInt1 ≠ 0)
    (h5 : c.delay &&& CIAClearInt0 = 0)
    (hm : c.delay &&& (CIAClearIcr1 ||| CIAAckIcr1 ||| CIASetIcr1 ||| CIASetInt1 ||| CIAClearInt0)
      ≠ 0) :
    c.updateIcrAndLine =
      { c with icr := c.icr ||| 0x80, INT := 0, cpu := pullDownIrqLine c.cpu .INTSRC_CIA } := by
  rw [updateIcrAndLine_eq, if_pos hm]
  have e1 : c.stepClearIcr = c := by simp [CIA.stepClearIcr, h1]
  have e2 : c.stepAckIcr = c := by simp [CIA.stepAckIcr, h2]
  have e3 : c.stepSetIcr = { c with icr := c.icr ||| 0x80 } := by
    simp only [CIA.stepSetIcr, if_pos h3]
  have e4 : CIA.stepSetInt { c with icr := c.icr ||| 0x80 } =
      { c with icr := c.icr ||| 0x80, INT := 0, cpu := pullDownIrqLine c.cpu .INTSRC_CIA } := by
    have h4' : ({ c with icr := c.icr ||| 0x80 } : CIA).delay &&& CIASetInt1 ≠ 0 := h4
    simp only [CIA.stepSetInt, if_pos h4', CIA.pullDownInterruptLine, hk]
  rw [e1, e2, e3, e4]
  have h5' : ({ c with icr := c.icr ||| 0x80, INT := 0,
                       cpu := pullDownIrqLine c.cpu .INTSRC_CIA } : CIA).delay &&& CIAClearInt0 = 0 :=
    h5
  simp only [CIA.stepClearInt, h5', ne_eq, not_true_eq_false, if_false]

theorem timerB_skip (c : CIA) (h3 : c.delay &&& CIACountB3 = 0) (h2 : c.delay &&& CIACountB2 = 0)
    (hl : c.delay &&& CIALoadB1 = 0) : c.timerB = (c, false) := by
  simp [CIA.timerB, h3, h2, hl]

theorem timerOutput_skip (c : CIA) (h6 : c.delay &&& CIAPB6Low1 = 0)
    (h7 : c.delay &&& CIAPB7Low1 = 0) : c.timerOutput false false = c := by
  simp [CIA.timerOutput, h6, h7]

theorem setTimerIcrBits_none (c : CIA) : c.setTimerIcrBits false false = c := by
  simp [CIA.setTimerIcrBits]

theorem checkTimerIrq_none (c : CIA) : c.checkTimerIrq false false = c := by
  simp [CIA.checkTimerIrq]

theorem setTimerIcrBits_timerA (c : CIA) :
    c.setTimerIcrBits true false = { c with icr := c.icr ||| 0x01 } := by
  simp [CIA.setTimerIcrBits]

theorem checkTimerIrq_timerA (c : CIA) :
    c.checkTimerIrq true false = if c.imr &&& 0x01 ≠ 0 then c.triggerTimerIrq else c := by
  simp [CIA.checkTimerIrq]

/-! ### CIA: timer A in one-shot mode -/

theorem oneShot_step1 (c : CIA) (hd : c.delay = 0x103) (hf : c.feed = 0x200001)
    (hi : c.idleCounter = 0) (hs : c.serCounter = 0) :
    c.timerAUnderflows = false ∧
    c.executeOneCycle = { c with delay := 0x200207, tiredness := 0, wakeUpCycle := 0 } := by
  have ha : CIA.timerA { c with wakeUpCycle := 0 } = ({ c with wakeUpCycle := 0 }, false) := by
    simp +decide [CIA.timerA, hd, CIACountA3, CIACountA2, CIALoadA1]
  have hb := beforeShift_idle c _ hi ha (by show c.delay &&& idleMask = 0; rw [hd]; decide) hs
  have hsh : (((0x103 <<< 1) % 2 ^ 64) &&& DelayMask) ||| 0x200001 = 0x200207 := by decide
  refine ⟨hb.1, ?_⟩
  rw [executeOneCycle_eq, hb.2]
  simp only [CIA.shiftAndIdle, hd, hf, hsh]
  simp +decide

theorem oneShot_step2 (c : CIA) (hd : c.delay = 0x200207) (hf : c.feed = 0x200001)
    (hi : c.idleCounter = 0) (hs : c.serCounter = 0) (hc : c.counterA ≠ 0) :
    c.timerAUnderflows = false ∧
    c.executeOneCycle =
      { c with delay := 0x200407, counterA := c.latchA, tiredness := 0, wakeUpCycle := 0 } := by
  have ha : CIA.timerA { c with wakeUpCycle := 0 } =
      ({ c with wakeUpCycle := 0, counterA := c.latchA, delay := 0x200203 }, false) := by
    simp +decide [CIA.timerA, CIA.reloadTimerA, hd, hc, CIACountA3, CIACountA2, CIALoadA1, not64,
      UINT64_MAX]
  have hb := beforeShift_idle c _ hi ha (by show (0x200203 : Nat) &&& idleMask = 0; decide) hs
  have hsh : (((0x200203 <<< 1) % 2 ^ 64) &&& DelayMask) ||| 0x200001 = 0x200407 := by decide
  refine ⟨hb.1, ?_⟩
  rw [executeOneCycle_eq, hb.2]
  simp only [CIA.shiftAndIdle, hd, hf, hsh]
  simp +decide

theorem oneShot_step3 (c : CIA) (hd : c.delay = 0x200407) (hf : c.feed = 0x200001)
    (hi : c.idleCounter = 0) (hs : c.serCounter = 0) (hc : c.counterA ≠ 0) :
    c.timerAUnderflows = false ∧
    c.executeOneCycle = { c with delay := 0x20000F, tiredness := 0, wakeUpCycle := 0 } := by
  have ha : CIA.timerA { c with wakeUpCycle := 0 } = ({ c with wakeUpCycle := 0 }, false) := by
    simp +decide [CIA.timerA, hd, hc, CIACountA3, CIACountA2, CIALoadA1]
  have hb := beforeShift_idle c _ hi ha (by show c.delay &&& idleMask = 0; rw [hd]; decide) hs
  have hsh : (((0x200407 <<< 1) % 2 ^ 64) &&& DelayMask) ||| 0x200001 = 0x20000F := by decide
  refine ⟨hb.1, ?_⟩
  rw [executeOneCycle_eq, hb.2]
  simp only [CIA.shiftAndIdle, hd, hf, hsh]
  simp +decide

theorem oneShot_countdown (c : CIA) (j : Nat) (hd : c.delay = 0x20000F) (hf : c.feed = 0x200001)
    (hi : c.idleCounter = 0) (hs : c.serCounter = 0) (hc : c.counterA = j + 2)
    (hj : j + 2 < 2 ^ 16) :
    c.timerAUnderflows = false ∧
    ∃ t w, c.executeOneCycle = { c with counterA := j + 1, tiredness := t, wakeUpCycle := w } := by
  have h1 : (j + 2 + 65535) % 65536 = j + 1 := by omega
  have ha : CIA.timerA { c with wakeUpCycle := 0 } =
      ({ c with wakeUpCycle := 0, counterA := j + 1 }, false) := by
    simp +decide [CIA.timerA, hd, hc, h1, CIACountA3, CIACountA2, CIALoadA1]
  have hb := beforeShift_idle c _ hi ha (by show c.delay &&& idleMask = 0; rw [hd]; decide) hs
  have hsh : (((0x20000F <<< 1) % 2 ^ 64) &&& DelayMask) ||| 0x200001 = 0x20000F := by decide
  refine ⟨hb.1, ?_⟩
  rw [executeOneCycle_eq, hb.2]
  by_cases ht : (c.tiredness + 1) % 256 > 8
  · refine ⟨0, min (if j + 1 > 2 then (c.cpuCycle + (j + 1) - 1) % 2 ^ 64 else 0) UINT64_MAX, ?_⟩
    simp +decide [CIA.shiftAndIdle, CIA.sleep, hd, hf, hsh, ht, CIACountA0, CIACountB0]
  · refine ⟨(c.tiredness + 1) % 256, 0, ?_⟩
    simp +decide [CIA.shiftAndIdle, hd, hf, hsh, ht]

theorem timerA_oneShot_underflow (c : CIA) (hd : c.delay = 0x20000F) (hf : c.feed = 0x200001)
    (hc : c.counterA = 1) (hA : c.CRA = 0x19) (hB : c.CRB = 0) :
    c.timerA =
      ({ c with counterA := c.latchA, icrAck := c.icrAck &&& 0xFE, CRA := 0x18, delay := 0x200208,
                feed := 0x200000 }, true) := by
  have h1 : (0x20000F ||| 0x200001) &&& CIAOneShotA0 ≠ 0 := by decide
  have h2 : ((0x20000F &&& not64 (CIACountA2 ||| CIACountA1 ||| CIACountA0)) ||| CIALoadA1) &&&
      not64 CIACountA2 = 0x200208 := by decide
  have h3 : ((0x20000F &&& not64 (CIACountA2 ||| CIACountA1 ||| CIACountA0)) ||| CIALoadA1) &&&
      CIALoadA1 ≠ 0 := by decide
  have h4 : (0x20000F : Nat) &&& CIACountA3 ≠ 0 := by decide
  have h5 : (0x20000F : Nat) &&& CIACountA2 ≠ 0 := by decide
  have h6 : (0x200001 : Nat) &&& not64 CIACountA0 = 0x200000 := by decide
  have h7 : (1 + 65535) % 2 ^ 16 = 0 := by decide
  have h8 : (25 : Nat) &&& 0xFE = 24 := by decide
  have h9 : ¬ ((0 &&& 0x61) = 0x41 ∨ ((0 &&& 0x61) = 0x61 ∧ c.CNT = true)) := by simp
  simp only [CIA.timerA, CIA.reloadTimerA, hd, hf, hc, hA, hB, h1, h2, h3, h4, h5, h6, h7, h8, h9,
    ne_eq, not_false_eq_true, not_true_eq_false, ↓reduceIte, decide_True, decide_False,
    Bool.and_true, Bool.and_self, decide_eq_true_eq]

/-- A cycle in which timer A underflows and nothing else acts, up to the
interrupt logic. -/
theorem beforeShift_timerA (c a : CIA) (hi : c.idleCounter = 0)
    (ha : CIA.timerA { c with wakeUpCycle := 0 } = (a, true))
    (hq : a.delay &&& idleMask = 0) (hs : a.serCounter = 0) (h40 : a.CRA &&& 0x40 = 0)
    (h2 : a.CRA &&& 0x02 = 0) :
    c.timerAUnderflows = true ∧
    c.beforeShift = (CIA.checkTimerIrq
      { a with PB67Toggle := a.PB67Toggle ^^^ 0x40, icr := a.icr ||| 0x01 }
      true false).checkTodIrq.checkSerialIrq.updateIcrAndLine := by
  unfold CIA.timerAUnderflows CIA.beforeShift
  rw [wakeUp_idle c hi]
  simp only [ha]
  rw [timerB_idle a hq, serialRegister_idle a true hs (Or.inr h40), timerOutput_timerA a hq h2]
  unfold CIA.interruptLogic
  simp only [setTimerIcrBits_timerA]
  exact ⟨trivial, trivial⟩

theorem irqLogic_masked (b : CIA) (hd : b.delay = 0x200208) (hm : b.imr &&& 0x01 = 0) :
    (b.checkTimerIrq true false).checkTodIrq.checkSerialIrq.updateIcrAndLine = b := by
  rw [checkTimerIrq_timerA]
  simp only [hm, ne_eq, not_true_eq_false, if_false]
  rw [checkTodIrq_idle b (by rw [hd]; decide), checkSerialIrq_idle b (by rw [hd]; decide),
    updateIcrAndLine_idle b (by rw [hd]; decide)]

theorem irqLogic_6526 (b : CIA) (hd : b.delay = 0x200208) (hm : b.imr &&& 0x01 ≠ 0)
    (hmod : b.model = .MOS_6526) :
    (b.checkTimerIrq true false).checkTodIrq.checkSerialIrq.updateIcrAndLine =
      { b with delay := 0x40240208 } := by
  have e : b.triggerTimerIrq = { b with delay := 0x40240208 } := by
    rw [triggerTimerIrq_eq]
    simp only [hmod, reduceCtorEq, false_and, if_false, hd]
    rfl
  rw [checkTimerIrq_timerA, if_pos hm, e]
  rw [checkTodIrq_idle, checkSerialIrq_idle, updateIcrAndLine_idle]
  all_goals (dsimp only; decide)

theorem irqLogic_8521 (b : CIA) (hd : b.delay = 0x200208) (hm : b.imr &&& 0x01 ≠ 0)
    (hmod : b.model = .MOS_8521) (hk : b.kind = .CIA1) :
    (b.checkTimerIrq true false).checkTodIrq.checkSerialIrq.updateIcrAndLine =
      { b with delay := 0x80280208, icr := b.icr ||| 0x80, INT := 0,
               cpu := pullDownIrqLine b.cpu .INTSRC_CIA } := by
  have e : b.triggerTimerIrq = { b with delay := 0x80280208 } := by
    rw [triggerTimerIrq_eq]
    have hr : ¬ ((0x200208 : Nat) &&& CIAReadIcr0 ≠ 0) := by decide
    simp only [hmod, hd, hr, not_false_eq_true, and_self, if_true]
    rfl
  rw [checkTimerIrq_timerA, if_pos hm, e]
  rw [checkTodIrq_idle, checkSerialIrq_idle, updateIcrAndLine_irq]
  · exact hk
  all_goals (dsimp only; decide)

theorem oneShotStarted_fields (model : CIAModel) (bug : Bool) (tod : TOD) (cpu : CPULines)
    (cycle : Nat) (env : PortEnv) (imr N : Nat) :
    (oneShotStarted model bug tod cpu cycle env imr N).delay = 0x103 ∧
    (oneShotStarted model bug tod cpu cycle env imr N).feed = 0x200001 ∧
    (oneShotStarted model bug tod cpu cycle env imr N).idleCounter = 0 ∧
    (oneShotStarted model bug tod cpu cycle env imr N).serCounter = 0 ∧
    (oneShotStarted model bug tod cpu cycle env imr N).counterA = N ∧
    (oneShotStarted model bug tod cpu cycle env imr N).latchA = N ∧
    (oneShotStarted model bug tod cpu cycle env imr N).CRA = 0x19 ∧
    (oneShotStarted model bug tod cpu cycle env imr N).CRB = 0 ∧
    (oneShotStarted model bug tod cpu cycle env imr N).icr = 0 ∧
    (oneShotStarted model bug tod cpu cycle env imr N).imr = imr ∧
    (oneShotStarted model bug tod cpu cycle env imr N).INT = 1 ∧
    (oneShotStarted model bug tod cpu cycle env imr N).model = model ∧
    (oneShotStarted model bug tod cpu cycle env imr N).kind = .CIA1 ∧
    (oneShotStarted model bug tod cpu cycle env imr N).cpu = cpu := by
  have e1 : (0x19 : Nat) &&& 0x01 ≠ 0 := by decide
  have e2 : ¬ ((0x19 : Nat) &&& 0x02 ≠ 0) := by decide
  have e3 : (0x19 : Nat) &&& 0x08 ≠ 0 := by decide
  have e4 : (0x19 : Nat) &&& 0x10 ≠ 0 := by decide
  have e5 : ¬ ((0x19 : Nat) &&& 0x20 ≠ 0) := by decide
  have e6 : ¬ (((0x19 : Nat) ^^^ 0) &&& 0x40 ≠ 0) := by decide
  have e7 : ¬ ((0x19 : Nat) &&& 0x80 ≠ 0) := by decide
  have e8 : ¬ ((0 : Nat) &&& 0x01 ≠ 0) := by decide
  have e9 : (0 ||| CIACountA1 ||| CIACountA0 ||| CIALoadA0 : Nat) = 0x103 := by decide
  have e10 : (0 ||| CIACountA0 ||| CIAOneShotA0 : Nat) = 0x200001 := by decide
  simp only [oneShotStarted, CIA.pokeControlRegA, resetCIA1, CIA.wakeUp, CIA.updatePB, e1, e2, e3,
    e4, e5, e6, e7, e8, e9, e10, ne_eq, not_true_eq_false, not_false_eq_true, if_true, if_false,
    and_self]

theorem shiftAndIdle_frame (c : CIA) (d f : Nat) :
    (c.shiftAndIdle d f).delay = (((c.delay <<< 1) % 2 ^ 64) &&& DelayMask) ||| c.feed ∧
    (c.shiftAndIdle d f).feed = c.feed ∧ (c.shiftAndIdle d f).idleCounter = c.idleCounter ∧
    (c.shiftAndIdle d f).serCounter = c.serCounter ∧ (c.shiftAndIdle d f).kind = c.kind ∧
    (c.shiftAndIdle d f).CRA = c.CRA ∧ (c.shiftAndIdle d f).icr = c.icr ∧
    (c.shiftAndIdle d f).INT = c.INT ∧ (c.shiftAndIdle d f).cpu = c.cpu := by
  unfold CIA.shiftAndIdle CIA.sleep
  dsimp only
  split_ifs <;> exact ⟨rfl, rfl, rfl, rfl, rfl, rfl, rfl, rfl, rfl⟩

/-- The cycle in which timer A underflows in one-shot mode. -/
theorem oneShot_underflow (c : CIA) (hd : c.delay = 0x20000F) (hf : c.feed = 0x200001)
    (hi : c.idleCounter = 0) (hs : c.serCounter = 0) (hc : c.counterA = 1) (hA : c.CRA = 0x19)
    (hB : c.CRB = 0) (hk : c.kind = .CIA1) (h0 : c.icr = 0) :
    c.timerAUnderflows = true ∧
    c.executeOneCycle.CRA = 0x18 ∧ c.executeOneCycle.icr &&& 0x01 = 0x01 ∧
    c.executeOneCycle.feed = 0x200000 ∧ c.executeOneCycle.idleCounter = 0 ∧
    c.executeOneCycle.serCounter = 0 ∧ c.executeOneCycle.kind = .CIA1 ∧
    (c.imr &&& 0x01 = 0 →
      c.executeOneCycle.INT = c.INT ∧ c.executeOneCycle.cpu = c.cpu ∧
      c.executeOneCycle.delay = 0x200400) ∧
    (c.imr &&& 0x01 ≠ 0 → c.model = .MOS_6526 →
      c.executeOneCycle.INT = c.INT ∧ c.executeOneCycle.cpu = c.cpu ∧
      c.executeOneCycle.delay = 0x80280400) ∧
    (c.imr &&& 0x01 ≠ 0 → c.model = .MOS_8521 →
      c.executeOneCycle.INT = 0 ∧
      c.executeOneCycle.cpu = pullDownIrqLine c.cpu .INTSRC_CIA) := by
  have ha := timerA_oneShot_underflow { c with wakeUpCycle := 0 } hd hf hc hA hB
  have hb := beforeShift_timerA c _ hi ha (by show (0x200208 : Nat) &&& idleMask = 0; decide) hs
    (by show (0x18 : Nat) &&& 0x40 = 0; decide) (by show (0x18 : Nat) &&& 0x02 = 0; decide)
  refine ⟨hb.1, ?_⟩
  have hfr := shiftAndIdle_frame c.beforeShift c.delay c.feed
  rw [← executeOneCycle_eq] at hfr
  obtain ⟨f1, f2, f3, f4, f5, f6, f7, f8, f9⟩ := hfr
  rw [f1, f2, f3, f4, f5, f6, f7, f8, f9]
  rw [hb.2]
  by_cases hm : c.imr &&& 0x01 = 0
  · rw [irqLogic_masked]
    · simp only [h0, hk, hm, ne_eq, not_true_eq_false, false_implies, true_implies, and_true,
        true_and, hs, hi]
      decide
    · rfl
    · exact hm
  · cases hmod : c.model
    · rw [irqLogic_6526]
      · simp only [h0, hk, hm, ne_eq, not_false_eq_true, false_implies, true_implies, and_true,
          true_and, hs, hi, reduceCtorEq]
        decide
      · rfl
      · exact hm
      · rfl
    · rw [irqLogic_8521]
      · simp only [h0, hk, hm, ne_eq, not_false_eq_true, false_implies, true_implies, and_true,
          true_and, hs, hi, reduceCtorEq]
        decide
      · rfl
      · exact hm
      · rfl
      · exact hk

/-- The cycle after the underflow on a MOS 6526 with the timer A interrupt
enabled: the delayed `SetInt1` pulls the line down. -/
theorem oneShot_irq (c : CIA) (hd : c.delay = 0x80280400)
    (hi : c.idleCounter = 0) (hs : c.serCounter = 0) (hk : c.kind = .CIA1) :
    c.executeOneCycle.INT = 0 ∧ c.executeOneCycle.cpu = pullDownIrqLine c.cpu .INTSRC_CIA := by
  have ha : CIA.timerA { c with wakeUpCycle := 0 } = ({ c with wakeUpCycle := 0 }, false) := by
    simp +decide [CIA.timerA, hd, CIACountA3, CIACountA2, CIALoadA1]
  have hb : c.beforeShift =
      { c with wakeUpCycle := 0, icr := c.icr ||| 0x80, INT := 0
               cpu := pullDownIrqLine c.cpu .INTSRC_CIA } := by
    unfold CIA.beforeShift
    rw [wakeUp_idle c hi]
    simp only [ha]
    rw [timerB_skip, serialRegister_idle _ false, timerOutput_skip]
    · unfold CIA.interruptLogic
      simp only [setTimerIcrBits_none, checkTimerIrq_none]
      rw [checkTodIrq_idle, checkSerialIrq_idle, updateIcrAndLine_irq]
      all_goals first | exact hk | (dsimp only; rw [hd]; decide)
    all_goals first | exact hs | exact Or.inl rfl | (dsimp only; rw [hd]; decide)
  have hfr := shiftAndIdle_frame c.beforeShift c.delay c.feed
  rw [← executeOneCycle_eq] at hfr
  rw [hfr.2.2.2.2.2.2.2.1, hfr.2.2.2.2.2.2.2.2, hb]
  exact ⟨rfl, rfl⟩

/-- The cycle after the underflow on a MOS 6526 with the timer A interrupt
masked: the line is left alone. -/
theorem oneShot_noirq (c : CIA) (hd : c.delay = 0x200400)
    (hi : c.idleCounter = 0) (hs : c.serCounter = 0) :
    c.executeOneCycle.INT = c.INT ∧ c.executeOneCycle.cpu = c.cpu := by
  have ha : CIA.timerA { c with wakeUpCycle := 0 } = ({ c with wakeUpCycle := 0 }, false) := by
    simp +decide [CIA.timerA, hd, CIACountA3, CIACountA2, CIALoadA1]
  have hb := beforeShift_idle c _ hi ha (by show c.delay &&& idleMask = 0; rw [hd]; decide) hs
  have hfr := shiftAndIdle_frame c.beforeShift c.delay c.feed
  rw [← executeOneCycle_eq] at hfr
  rw [hfr.2.2.2.2.2.2.2.1, hfr.2.2.2.2.2.2.2.2, hb.2]
  exact ⟨rfl, rfl⟩

/-- The first three cycles after the start: the load and the count flags travel
through the pipeline; the counter is not decremented yet. -/
theorem oneShot_run3 (s : CIA) (hd : s.delay = 0x103) (hf : s.feed = 0x200001)
    (hi : s.idleCounter = 0) (hs : s.serCounter = 0) (hc : s.counterA ≠ 0)
    (hl : s.latchA ≠ 0) :
    s.timerAUnderflows = false ∧ (s.run 1).timerAUnderflows = false ∧
    (s.run 2).timerAUnderflows = false ∧ s.run 3 = s.counting s.latchA 0 0 := by
  have r1 := oneShot_step1 s hd hf hi hs
  have e1 : s.run 1 = _ := r1.2
  have r2 := oneShot_step2 (s.run 1) (by rw [e1]) (by rw [e1]; exact hf) (by rw [e1]; exact hi)
    (by rw [e1]; exact hs) (by rw [e1]; exact hc)
  have e2 : s.run 2 = _ := r2.2
  have r3 := oneShot_step3 (s.run 2) (by rw [e2]) (by rw [e2, e1]; exact hf)
    (by rw [e2, e1]; exact hi) (by rw [e2, e1]; exact hs) (by rw [e2, e1]; exact hl)
  have e3 : s.run 3 = _ := r3.2
  refine ⟨r1.1, r2.1, r3.1, ?_⟩
  rw [e3, e2, e1]
  rfl

/-- The countdown: after `3 + k` cycles the counter holds `N - k`. -/
theorem oneShot_counting (s : CIA) (N : Nat) (hd : s.delay = 0x103) (hf : s.feed = 0x200001)
    (hi : s.idleCounter = 0) (hs : s.serCounter = 0) (hc : s.counterA = N) (hl : s.latchA = N)
    (hN : N < 2 ^ 16) :
    ∀ k, k < N → ∃ t w, s.run (3 + k) = s.counting (N - k) t w := by
  intro k
  induction k with
  | zero =>
    intro h0
    refine ⟨0, 0, ?_⟩
    rw [(oneShot_run3 s hd hf hi hs (by omega) (by omega)).2.2.2, hl]
    rfl
  | succ k ih =>
    intro hk
    obtain ⟨t, w, h⟩ := ih (by omega)
    have hstep := oneShot_countdown (s.counting (N - k) t w) (N - k - 2) rfl hf hi hs
      (by show N - k = N - k - 2 + 2; omega) (by omega)
    obtain ⟨t', w', h'⟩ := hstep.2
    refine ⟨t', w', ?_⟩
    show (s.run (3 + k)).executeOneCycle = _
    rw [h, h']
    have e : N - k - 2 + 1 = N - (k + 1) := by omega
    rw [e]
    rfl

theorem peek_cra (env : PortEnv) (c : CIA) : (c.peek env 0x0E).1 = c.CRA &&& 0xEF := by
  show c.wakeUp.CRA &&& 0xEF = _
  rw [wakeUp_eq]

/-- C5 (timer A one-shot), as the code has it. On a reset CIA 1 whose timer A is
stopped and whose latch and counter hold `N` (`1 <= N < 65536`), after
`poke(0x0E, 0b00011001)` timer A underflows in the cycle `N + 3` counted in calls
of `executeOneCycle()` from the write, and in no earlier cycle: the load takes
two cycles to pass the pipeline and holds the count flag back for one. After that
cycle CRA is `0x18` (bit 0 reads 0) and ICR bit 0 is set. The CIA pulls the IRQ
line down if and only if IMR bit 0 is set: in the cycle `N + 3` on a MOS 8521, one
cycle later (`N + 4`) on a MOS 6526. -/
theorem timerA_oneShot (model : CIAModel) (bug : Bool) (tod : TOD) (cpu : CPULines)
    (cycle : Nat) (env : PortEnv) (imr N : Nat) (hN1 : 1 ≤ N) (hN2 : N < 2 ^ 16) (s : CIA)
    (hstart : s = oneShotStarted model bug tod cpu cycle env imr N) :
    (∀ k, k < N + 2 → (s.run k).timerAUnderflows = false) ∧
    (s.run (N + 2)).timerAUnderflows = true ∧
    (s.run (N + 3)).CRA &&& 0x01 = 0 ∧
    ((s.run (N + 3)).peek env 0x0E).1 &&& 0x01 = 0 ∧
    (s.run (N + 3)).icr &&& 0x01 = 0x01 ∧
    (model = .MOS_8521 →
      ((s.run (N + 3)).INT = 0 ↔ imr &&& 0x01 ≠ 0) ∧
      (s.run (N + 3)).cpu = if imr &&& 0x01 ≠ 0 then pullDownIrqLine cpu .INTSRC_CIA else cpu) ∧
    (model = .MOS_6526 →
      (s.run (N + 3)).INT = 1 ∧ (s.run (N + 3)).cpu = cpu ∧
      ((s.run (N + 4)).INT = 0 ↔ imr &&& 0x01 ≠ 0) ∧
      (s.run (N + 4)).cpu = if imr &&& 0x01 ≠ 0 then pullDownIrqLine cpu .INTSRC_CIA else cpu) := by
  obtain ⟨hd, hf, hi, hs, hc, hl, hA, hB, h0, him, hI, hmod, hk, hcpu⟩ :=
    oneShotStarted_fields model bug tod cpu cycle env imr N
  rw [← hstart] at hd hf hi hs hc hl hA hB h0 him hI hmod hk hcpu
  clear hstart
  have hstart3 := oneShot_run3 s hd hf hi hs (by omega) (by omega)
  have hcount := oneShot_counting s N hd hf hi hs hc hl hN2
  -- the state right before the underflow
  obtain ⟨t, w, hlast⟩ := hcount (N - 1) (by omega)
  have e1 : N - (N - 1) = 1 := by omega
  have e2 : 3 + (N - 1) = N + 2 := by omega
  rw [e1, e2] at hlast
  have hu := oneShot_underflow (s.counting 1 t w) rfl hf hi hs rfl hA hB hk h0
  rw [← hlast] at hu
  obtain ⟨u1, u2, u3, u4, u5, u6, u7, u8, u9, u10⟩ := hu
  have e3 : s.run (N + 3) = (s.run (N + 2)).executeOneCycle := rfl
  have e4 : s.run (N + 4) = (s.run (N + 3)).executeOneCycle := rfl
  have hm2 : (s.run (N + 2)).imr = imr := by rw [hlast]; exact him
  have hI2 : (s.run (N + 2)).INT = 1 := by rw [hlast]; exact hI
  have hc2 : (s.run (N + 2)).cpu = cpu := by rw [hlast]; exact hcpu
  have hmod2 : (s.run (N + 2)).model = model := by rw [hlast]; exact hmod
  simp only [hm2, hI2, hc2, hmod2, ← e3] at u8 u9 u10
  rw [← e3] at u2 u3 u4 u5 u6 u7
  refine ⟨?_, u1, ?_, ?_, u3, ?_, ?_⟩
  · intro k hk2
    by_cases h3 : k < 3
    · interval_cases k
      · exact hstart3.1
      · exact hstart3.2.1
      · exact hstart3.2.2.1
    · obtain ⟨t', w', hst⟩ := hcount (k - 3) (by omega)
      have e5 : 3 + (k - 3) = k := by omega
      rw [e5] at hst
      rw [hst]
      exact (oneShot_countdown (s.counting (N - (k - 3)) t' w') (N - (k - 3) - 2) rfl hf hi hs
        (by show N - (k - 3) = N - (k - 3) - 2 + 2; omega) (by omega)).1
  · rw [u2]; decide
  · rw [peek_cra, u2]; decide
  · intro hm
    by_cases himr : imr &&& 0x01 = 0
    · obtain ⟨a, b, _⟩ := u8 himr
      rw [a, b]
      exact ⟨⟨fun h => absurd h (by decide), fun h => absurd himr h⟩,
        by rw [if_neg (not_not.mpr himr)]⟩
    · obtain ⟨a, b⟩ := u10 himr hm
      rw [a, b]
      exact ⟨⟨fun _ => himr, fun _ => rfl⟩, by rw [if_pos himr]⟩
  · intro hm
    by_cases himr : imr &&& 0x01 = 0
    · obtain ⟨a, b, d⟩ := u8 himr
      have hn := oneShot_noirq (s.run (N + 3)) d u5 u6
      rw [e4, hn.1, hn.2, a, b]
      exact ⟨rfl, rfl, ⟨fun h => absurd h (by decide), fun h => absurd himr h⟩,
        by rw [if_neg (not_not.mpr himr)]⟩
    · obtain ⟨a, b, d⟩ := u9 himr hm
      have hn := oneShot_irq (s.run (N + 3)) d u5 u6 u7
      rw [e4, hn.1, hn.2, a, b]
      exact ⟨rfl, rfl, ⟨fun _ => himr, fun _ => rfl⟩, by rw [if_pos himr]⟩

/-- Witness for C5: `N = 1000` on a MOS 6526 with the timer A interrupt enabled;
the underflow is in cycle 1003. -/
theorem timerA_oneShot_witness :
    ((oneShotStarted .MOS_6526 true runningTOD ⟨0, 0, 0, 0⟩ 0 idleEnv 0x01 1000).run
      1000).timerAUnderflows = false ∧
    ((oneShotStarted .MOS_6526 true runningTOD ⟨0, 0, 0, 0⟩ 0 idleEnv 0x01 1000).run
      (1000 + 2)).timerAUnderflows = true :=
  ⟨(timerA_oneShot .MOS_6526 true runningTOD ⟨0, 0, 0, 0⟩ 0 idleEnv 0x01 1000 (by decide)
      (by decide) _ rfl).1 1000 (by decide),
    (timerA_oneShot .MOS_6526 true runningTOD ⟨0, 0, 0, 0⟩ 0 idleEnv 0x01 1000 (by decide)
      (by decide) _ rfl).2.1⟩

/-- Counterexample to C5 as stated, `N = 1`: the claim has the underflow in cycle
`N + 1 = 2`. The second cycle does not underflow; after it CRA bit 0 still reads 1
and ICR bit 0 is clear. The underflow is in cycle 4. -/
theorem timerA_oneShot_counterexample :
    ((oneShotStarted .MOS_6526 true runningTOD ⟨0, 0, 0, 0⟩ 0 idleEnv 0x01 1).run
      1).timerAUnderflows = false ∧
    ((oneShotStarted .MOS_6526 true runningTOD ⟨0, 0, 0, 0⟩ 0 idleEnv 0x01 1).run 2).CRA &&& 0x01
      = 0x01 ∧
    ((oneShotStarted .MOS_6526 true runningTOD ⟨0, 0, 0, 0⟩ 0 idleEnv 0x01 1).run 2).icr &&& 0x01
      = 0 ∧
    ((oneShotStarted .MOS_6526 true runningTOD ⟨0, 0, 0, 0⟩ 0 idleEnv 0x01 1).run
      3).timerAUnderflows = true := by
  decide





/-! ### VIC: memory source table, ultimax mode, bank switching -/

/-- C11 (VIC memory source table). After `setUltimax(true)`, `memSrc[n]` is
`M_CRTHI` exactly for `n` in {0x3, 0x7, 0xB, 0xF} and `M_RAM` for every other `n`
in 0..15; after `setUltimax(false)`, `memSrc[n]` is `M_CHAR` exactly for `n` in
{0x1, 0x9} and `M_RAM` for every other `n` in 0..15. The flag `ultimax` holds
the value passed. -/
theorem setUltimax_memSrc (v : VIC) (n : Nat) (hn : n < 16) :
    ((v.setUltimax true).memSrc n = .M_CRTHI ↔ n ∈ [0x3, 0x7, 0xB, 0xF]) ∧
    (n ∉ [0x3, 0x7, 0xB, 0xF] → (v.setUltimax true).memSrc n = .M_RAM) ∧
    ((v.setUltimax false).memSrc n = .M_CHAR ↔ n ∈ [0x1, 0x9]) ∧
    (n ∉ [0x1, 0x9] → (v.setUltimax false).memSrc n = .M_RAM) ∧
    (v.setUltimax true).ultimax = true ∧ (v.setUltimax false).ultimax = false := by
  interval_cases n <;>
    simp [VIC.setUltimax, assignMemSrc, Function.update]

/-- Witness for C11: entry 0xB of the table of a cleared VIC. -/
theorem setUltimax_memSrc_witness :
    (clearedVIC.setUltimax true).memSrc 0xB = .M_CRTHI ∧
    (clearedVIC.setUltimax false).memSrc 0xB = .M_RAM :=
  ⟨(setUltimax_memSrc clearedVIC 0xB (by decide)).1.mpr (by decide),
    (setUltimax_memSrc clearedVIC 0xB (by decide)).2.2.2.1 (by decide)⟩

/-- C12 (ultimax detection). After `setGameLine`, `setExromLine` and
`setGameAndExrom` the lines hold the values written, the flag `ultimax` of the
VIC equals `exromLine == 1 && gameLine == 0`, and `getCartridgeMode()` returns
`CRT_ULTIMAX` exactly in that case. -/
theorem ultimax_detection (p : ExpansionPort) (value game exrom : Bool) :
    ((p.setGameLine value).gameLine = value ∧ (p.setGameLine value).exromLine = p.exromLine ∧
      (p.setGameLine value).vic.ultimax =
        ((p.setGameLine value).exromLine && !(p.setGameLine value).gameLine)) ∧
    ((p.setExromLine value).exromLine = value ∧ (p.setExromLine value).gameLine = p.gameLine ∧
      (p.setExromLine value).vic.ultimax =
        ((p.setExromLine value).exromLine && !(p.setExromLine value).gameLine)) ∧
    ((p.setGameAndExrom game exrom).gameLine = game ∧
      (p.setGameAndExrom game exrom).exromLine = exrom ∧
      (p.setGameAndExrom game exrom).vic.ultimax = (exrom && !game)) ∧
    (p.getCartridgeMode = .CRT_ULTIMAX ↔ p.exromLine = true ∧ p.gameLine = false) := by
  refine ⟨⟨rfl, rfl, ?_⟩, ⟨rfl, rfl, ?_⟩, ⟨rfl, rfl, ?_⟩, ?_⟩
  · show (p.vic.setUltimax (!value && p.exromLine)).ultimax = (p.exromLine && !value)
    cases value <;> cases p.exromLine <;> rfl
  · show (p.vic.setUltimax (!p.gameLine && value)).ultimax = (value && !p.gameLine)
    cases value <;> cases p.gameLine <;> rfl
  · show (p.vic.setUltimax (!game && exrom)).ultimax = (exrom && !game)
    cases game <;> cases exrom <;> rfl
  · unfold ExpansionPort.getCartridgeMode
    cases p.exromLine <;> cases p.gameLine <;> simp

theorem updateBankAddrTo_bank : ∀ bank, bank < 4 → ((bank <<< 14) % 2 ^ 16) >>> 14 = bank := by
  decide

theorem switchTable_lt : ∀ a, a < 4 → ∀ b, b < 4 →
    (switchTablePA.getD a []).getD b 0 < 4 ∧ (switchTableDDRA.getD a []).getD b 0 < 4 := by
  decide

theorem not32_and3_lt (x : Nat) : not32 x &&& 0x03 < 4 :=
  Nat.lt_of_le_of_lt Nat.and_le_right (by decide)

/-- C13 (glue logic). With `GLUE_DISCRETE`, `switchBank(addr)` selects the bank
`(~CIA2.PA) & 3` at once and leaves `delay` alone. With the custom IC, it selects
the bank `switchTablePA[from][to]` for `addr == 0xDD00` and
`switchTableDDRA[from][to]` for `addr == 0xDD02`, where `from = bankAddr >> 14`
and `to = (~CIA2.PA) & 3`, and sets `VICUpdateBankAddr` in `delay`. The bank
address is a `uint16_t`. -/
theorem switchBank_glue (k : VICDelayFlags) (env : VICEnv) (v : VIC) (addr : Nat)
    (hb : v.bankAddr < 2 ^ 16) :
    (v.glueLogic = .GLUE_DISCRETE →
      (v.switchBank k env addr).bankAddr >>> 14 = not32 env.cia2PA &&& 0x03 ∧
      (v.switchBank k env addr).bankAddr = ((not32 env.cia2PA &&& 0x03) <<< 14) % 2 ^ 16 ∧
      (v.switchBank k env addr).delay = v.delay) ∧
    (v.glueLogic = .GLUE_CUSTOM_IC →
      (addr = 0xDD00 → (v.switchBank k env addr).bankAddr >>> 14 =
        (switchTablePA.getD (v.bankAddr >>> 14) []).getD (not32 env.cia2PA &&& 0x03) 0) ∧
      (addr = 0xDD02 → (v.switchBank k env addr).bankAddr >>> 14 =
        (switchTableDDRA.getD (v.bankAddr >>> 14) []).getD (not32 env.cia2PA &&& 0x03) 0) ∧
      (v.switchBank k env addr).delay = v.delay ||| k.VICUpdateBankAddr ∧
      (v.switchBank k env addr).delay &&& k.VICUpdateBankAddr = k.VICUpdateBankAddr) := by
  have hto := not32_and3_lt env.cia2PA
  have hfrom : v.bankAddr >>> 14 < 4 := by
    rw [Nat.shiftRight_eq_div_pow]
    omega
  have hto' : (not32 env.cia2PA &&& 0x03) % 256 = not32 env.cia2PA &&& 0x03 :=
    Nat.mod_eq_of_lt (by omega)
  have hfrom' : (v.bankAddr >>> 14) % 256 = v.bankAddr >>> 14 := Nat.mod_eq_of_lt (by omega)
  have htab := switchTable_lt _ hfrom _ hto
  have hor : ∀ x : Nat, (x ||| k.VICUpdateBankAddr) &&& k.VICUpdateBankAddr =
      k.VICUpdateBankAddr := fun x => by
    apply Nat.eq_of_testBit_eq
    intro i
    simp only [Nat.testBit_and, Nat.testBit_or]
    cases Nat.testBit x i <;> cases Nat.testBit k.VICUpdateBankAddr i <;> rfl
  constructor
  · intro hg
    have e : v.switchBank k env addr = v.updateBankAddrTo (not32 env.cia2PA &&& 0x03) := by
      unfold VIC.switchBank
      rw [if_pos hg]
      rfl
    rw [e]
    exact ⟨updateBankAddrTo_bank _ hto, rfl, rfl⟩
  · intro hg
    have hg' : ¬ v.glueLogic = .GLUE_DISCRETE := by rw [hg]; decide
    have hd : (v.switchBank k env addr).delay = v.delay ||| k.VICUpdateBankAddr := by
      unfold VIC.switchBank
      rw [if_neg hg']
      dsimp only
      split_ifs
      · simp only [VIC.updateBankAddrTo]
      · simp only [VIC.updateBankAddrTo]
      · rfl
    refine ⟨?_, ?_, hd, ?_⟩
    · intro ha
      subst ha
      have e : (v.switchBank k env 0xDD00).bankAddr =
          (((switchTablePA.getD (v.bankAddr >>> 14) []).getD (not32 env.cia2PA &&& 0x03) 0)
            <<< 14) % 2 ^ 16 := by
        unfold VIC.switchBank
        rw [if_neg hg', hto', hfrom']
        dsimp only
        rw [if_pos rfl]
        simp only [VIC.updateBankAddrTo]
      rw [e]
      exact updateBankAddrTo_bank _ htab.1
    · intro ha
      subst ha
      have e : (v.switchBank k env 0xDD02).bankAddr =
          (((switchTableDDRA.getD (v.bankAddr >>> 14) []).getD (not32 env.cia2PA &&& 0x03) 0)
            <<< 14) % 2 ^ 16 := by
        unfold VIC.switchBank
        rw [if_neg hg', hto', hfrom']
        dsimp only
        rw [if_neg (by decide), if_pos rfl]
        simp only [VIC.updateBankAddrTo]
      rw [e]
      exact updateBankAddrTo_bank _ htab.2
    · rw [hd]
      exact hor _

/-- Witness for C13: from bank 1 to bank 2 (port A reads 0xFD) the custom IC
passes through bank 3 on a write to 0xDD00; the discrete logic selects bank 2. -/
theorem switchBank_glue_witness :
    (({ clearedVIC with glueLogic := .GLUE_CUSTOM_IC, bankAddr := 0x4000 } : VIC).switchBank
      sampleVICDelayFlags (sampleVICEnv 0xFD) 0xDD00).bankAddr >>> 14 = 3 ∧
    (({ clearedVIC with bankAddr := 0x4000 } : VIC).switchBank
      sampleVICDelayFlags (sampleVICEnv 0xFD) 0xDD00).bankAddr >>> 14 = 2 :=
  ⟨((switchBank_glue sampleVICDelayFlags (sampleVICEnv 0xFD)
      { clearedVIC with glueLogic := .GLUE_CUSTOM_IC, bankAddr := 0x4000 } 0xDD00
      (by decide)).2 rfl).1 rfl,
    ((switchBank_glue sampleVICDelayFlags (sampleVICEnv 0xFD)
      { clearedVIC with bankAddr := 0x4000 } 0xDD00 (by decide)).1 rfl).1⟩

/-! ### VIC: register reads and writes -/

theorem lor_mod_land (x m : Nat) (hm : m < 256) : ((x ||| m) % 256) &&& m = m := by
  apply Nat.eq_of_testBit_eq
  intro i
  rw [Nat.testBit_and, show (256 : Nat) = 2 ^ 8 from rfl, Nat.testBit_mod_two_pow,
    Nat.testBit_or]
  by_cases hi : i < 8
  · cases x.testBit i <;> cases m.testBit i <;> simp [hi]
  · have h2 : (2 : Nat) ^ 8 ≤ 2 ^ i := Nat.pow_le_pow_right (by norm_num) (by omega)
    have : m.testBit i = false := Nat.testBit_lt_two_pow (by omega)
    simp [this]

theorem lor_mod_land_of_le (x m n : Nat) (hm : m < 256) (hn : n &&& m = n) :
    ((x ||| m) % 256) &&& n = n := by
  rw [← hn, ← Nat.land_assoc, Nat.land_comm _ n, Nat.land_assoc, lor_mod_land x m hm]

/-- C16 (VIC read-back masks). `peek` returns a value with bits 6 and 7 set at
0x16, bit 0 set at 0x18, bits 4 to 6 set at 0x19, bits 4 to 7 set at 0x1A and at
the color registers 0x20 to 0x2E, and 0xFF at the addresses 0x2F to 0x3F. -/
theorem peek_masks (k : VICDelayFlags) (v : VIC) :
    (v.peek k 0x16).1 &&& 0xC0 = 0xC0 ∧
    (v.peek k 0x18).1 &&& 0x01 = 0x01 ∧
    (v.peek k 0x19).1 &&& 0x70 = 0x70 ∧
    (v.peek k 0x1A).1 &&& 0xF0 = 0xF0 ∧
    (∀ addr, 0x20 ≤ addr → addr ≤ 0x2E → (v.peek k addr).1 &&& 0xF0 = 0xF0) ∧
    (∀ addr, 0x2F ≤ addr → addr ≤ 0x3F → (v.peek k addr).1 = 0xFF) := by
  refine ⟨lor_mod_land _ _ (by decide), lor_mod_land _ _ (by decide), ?_,
    lor_mod_land _ _ (by decide), ?_, ?_⟩
  · show (if v.irr &&& v.imr ≠ 0 then v.irr ||| 0xF0 else v.irr ||| 0x70) % 256 &&& 0x70 = 0x70
    split
    · exact lor_mod_land_of_le _ _ _ (by decide) (by decide)
    · exact lor_mod_land _ _ (by decide)
  · intro addr h1 h2
    interval_cases addr <;> exact lor_mod_land _ _ (by decide)
  · intro addr h1 h2
    interval_cases addr <;> rfl

/-- Witness for C16: the border color register and the first unused address of a
cleared VIC. -/
theorem peek_masks_witness :
    (clearedVIC.peek sampleVICDelayFlags 0x20).1 &&& 0xF0 = 0xF0 ∧
    (clearedVIC.peek sampleVICDelayFlags 0x2F).1 = 0xFF :=
  ⟨(peek_masks sampleVICDelayFlags clearedVIC).2.2.2.2.1 0x20 (by decide) (by decide),
    (peek_masks sampleVICDelayFlags clearedVIC).2.2.2.2.2 0x2F (by decide) (by decide)⟩

/-- C17 (peek purity on the VIC). For every address up to 0x3F, `spypeek` leaves
the whole state as it is and returns the value that `peek` returns. -/
theorem spypeek_pure (k : VICDelayFlags) (v : VIC) (addr : Nat) (ha : addr ≤ 0x3F) :
    (v.spypeek addr).2 = v ∧ (v.spypeek addr).1 = (v.peek k addr).1 := by
  interval_cases addr <;> exact ⟨rfl, rfl⟩

/-- Witness for C17: the sprite-sprite collision register, whose `peek` schedules
the clearing of the register. -/
theorem spypeek_pure_witness :
    (({ clearedVIC with spriteSpriteCollision := 0x03 } : VIC).spypeek 0x1E).2 =
      { clearedVIC with spriteSpriteCollision := 0x03 } ∧
    (({ clearedVIC with spriteSpriteCollision := 0x03 } : VIC).spypeek 0x1E).1 =
      (({ clearedVIC with spriteSpriteCollision := 0x03 } : VIC).peek sampleVICDelayFlags
        0x1E).1 :=
  spypeek_pure sampleVICDelayFlags { clearedVIC with spriteSpriteCollision := 0x03 } 0x1E
    (by decide)

theorem testBit_of_le_15 (x i : Nat) (hx : x ≤ 0x0F) (hi : 4 ≤ i) : x.testBit i = false := by
  have h2 : (2 : Nat) ^ 4 ≤ 2 ^ i := Nat.pow_le_pow_right (by norm_num) hi
  exact Nat.testBit_lt_two_pow (by omega)

theorem peek_irr_value (c imr : Nat) (hc : c ≤ 0x0F) :
    (((if c &&& imr ≠ 0 then c ||| 0xF0 else c ||| 0x70) % 256).testBit 7 = true ↔
      c &&& imr ≠ 0) ∧
    ((if c &&& imr ≠ 0 then c ||| 0xF0 else c ||| 0x70) % 256) &&& 0x0F = c := by
  by_cases h : c &&& imr ≠ 0
  · rw [if_pos h]
    interval_cases c <;> simp_all <;> decide
  · rw [if_neg h]
    interval_cases c <;> simp_all <;> decide

/-- C15 (VIC interrupt request register). With `irr <= 0x0F` and `imr <= 0x0F`,
the value returned by `peek(0x19)` has bit 7 set if and only if
`(irr & imr) != 0`, and its low nibble is `irr`. `poke(0x19, v)` clears the bits
of `irr` that are set in `v`, keeps the other bits of `irr`, and leaves `imr` as
it is. -/
theorem irr_peek_poke (k : VICDelayFlags) (env : VICEnv) (v : VIC) (value : Nat)
    (hirr : v.irr ≤ 0x0F) (_himr : v.imr ≤ 0x0F) :
    ((v.peek k 0x19).1.testBit 7 = true ↔ v.irr &&& v.imr ≠ 0) ∧
    (v.peek k 0x19).1 &&& 0x0F = v.irr ∧
    (∀ i, (v.poke k env 0x19 value).irr.testBit i = (v.irr.testBit i && !value.testBit i)) ∧
    (v.poke k env 0x19 value).imr = v.imr := by
  refine ⟨(peek_irr_value v.irr v.imr hirr).1, (peek_irr_value v.irr v.imr hirr).2, ?_, rfl⟩
  intro i
  show ((v.irr &&& (not32 (value % 256) &&& 0x0F)) % 256).testBit i = _
  rw [show (256 : Nat) = 2 ^ 8 from rfl, Nat.testBit_mod_two_pow, Nat.testBit_and,
    Nat.testBit_and, not32, Nat.testBit_xor, Nat.testBit_mod_two_pow,
    show (0xFFFFFFFF : Nat) = 2 ^ 32 - 1 from rfl, show (0x0F : Nat) = 2 ^ 4 - 1 from rfl,
    Nat.testBit_two_pow_sub_one, Nat.testBit_two_pow_sub_one]
  by_cases hi : i < 4
  · have h8 : i < 8 := by omega
    have h32 : i < 32 := by omega
    simp [hi, h8, h32]
  · rw [testBit_of_le_15 _ _ hirr (by omega)]
    simp

/-- Witness for C15: the raster and the light pen interrupt are pending, the
raster interrupt is enabled, and the raster interrupt is acknowledged. -/
theorem irr_peek_poke_witness :
    (({ clearedVIC with irr := 0x09, imr := 0x01 } : VIC).peek sampleVICDelayFlags
      0x19).1 &&& 0x0F = 0x09 ∧
    (({ clearedVIC with irr := 0x09, imr := 0x01 } : VIC).poke sampleVICDelayFlags
      (sampleVICEnv 0xFF) 0x19 0x01).imr = 0x01 :=
  ⟨(irr_peek_poke sampleVICDelayFlags (sampleVICEnv 0xFF)
      { clearedVIC with irr := 0x09, imr := 0x01 } 0x01 (by decide) (by decide)).2.1,
    (irr_peek_poke sampleVICDelayFlags (sampleVICEnv 0xFF)
      { clearedVIC with irr := 0x09, imr := 0x01 } 0x01 (by decide) (by decide)).2.2.2⟩

theorem lor_land_self (x f : Nat) : (x ||| f) &&& f = f := by
  apply Nat.eq_of_testBit_eq
  intro i
  rw [Nat.testBit_and, Nat.testBit_or]
  cases x.testBit i <;> cases f.testBit i <;> rfl

theorem lor_lor_land_self (x g f : Nat) : (x ||| g ||| f) &&& f = f :=
  lor_land_self (x ||| g) f

theorem poke_delayed (k : VICDelayFlags) (env : VICEnv) (v : VIC) (addr value : Nat)
    (ha : addr < 0x40) :
    (v.poke k env addr value).reg.delayed =
      if v.emulateGrayDotBug = true ∧ 0x20 ≤ addr ∧ addr ≤ 0x2E then
        { v.reg.delayed with
          colors := Function.update v.reg.delayed.colors (addr - 0x20) 0xF }
      else v.reg.delayed := by
  cases hg : v.emulateGrayDotBug <;>
    interval_cases addr <;>
    simp [VIC.poke, VIC.setCurrent, VIC.updateRegisters, hg] <;>
    split_ifs <;> rfl

theorem poke_delay (k : VICDelayFlags) (env : VICEnv) (v : VIC) (addr value : Nat)
    (hs : addr ∈ shadowRegisterAddresses) :
    (v.poke k env addr value).delay &&& k.VICUpdateRegisters = k.VICUpdateRegisters := by
  have ha : addr < 0x2F := by
    simp [shadowRegisterAddresses] at hs
    omega
  interval_cases addr <;>
    first
    | exact lor_land_self _ _
    | exact absurd hs (by decide)

theorem poke_sprX_hi (f : Nat → Nat) (value i : Nat) (hi : i < 8) :
    (List.range 8).foldl
        (fun f i => Function.update f i
          ((f i &&& 0xFF) ||| (if GET_BIT value i ≠ 0 then 0x100 else 0))) f i =
      ((f i &&& 0xFF) ||| (if GET_BIT value i ≠ 0 then 0x100 else 0)) := by
  interval_cases i <;> simp [List.range, List.range.loop, Function.update]

/-- C14 (shadow registers). For every `addr < 0x40` and every value, `poke`
leaves `reg.delayed` as it is, except that with `emulateGrayDotBug` on a write to
a color register `0x20 + i` (`i` from 0 to 14) sets `reg.delayed.colors[i]` to
0xF. The written value lands in `reg.current`: the low eight bits of a sprite X
coordinate (bit 8 is kept), the sprite Y coordinate, bit 8 of all sprite X
coordinates at 0x10 (the low eight bits are kept), the control and sprite
registers at 0x11, 0x15, 0x16, 0x17, 0x1B, 0x1C and 0x1D, and the low four bits
of the value in a color register. For every shadow register address the
`VICUpdateRegisters` bit is set in `delay` afterwards. -/
theorem poke_shadow_registers (k : VICDelayFlags) (env : VICEnv) (v : VIC) (addr value : Nat)
    (ha : addr < 0x40) :
    ((v.poke k env addr value).reg.delayed =
      if v.emulateGrayDotBug = true ∧ 0x20 ≤ addr ∧ addr ≤ 0x2E then
        { v.reg.delayed with
          colors := Function.update v.reg.delayed.colors (addr - 0x20) 0xF }
      else v.reg.delayed) ∧
    (∀ i, i < 8 → addr = 2 * i →
      (v.poke k env addr value).reg.current.sprX i =
        (v.reg.current.sprX i &&& 0x100) ||| (value % 256)) ∧
    (∀ i, i < 8 → addr = 2 * i + 1 →
      (v.poke k env addr value).reg.current.sprY i = value % 256) ∧
    (addr = 0x10 → ∀ i, i < 8 →
      (v.poke k env addr value).reg.current.sprX i =
        (v.reg.current.sprX i &&& 0xFF) |||
          (if GET_BIT (value % 256) i ≠ 0 then 0x100 else 0)) ∧
    (addr = 0x11 → (v.poke k env addr value).reg.current.ctrl1 = value % 256) ∧
    (addr = 0x15 → (v.poke k env addr value).reg.current.sprEnable = value % 256) ∧
    (addr = 0x16 → (v.poke k env addr value).reg.current.ctrl2 = value % 256) ∧
    (addr = 0x17 → (v.poke k env addr value).reg.current.sprExpandY = value % 256) ∧
    (addr = 0x1B → (v.poke k env addr value).reg.current.sprPriority = value % 256) ∧
    (addr = 0x1C → (v.poke k env addr value).reg.current.sprMC = value % 256) ∧
    (addr = 0x1D → (v.poke k env addr value).reg.current.sprExpandX = value % 256) ∧
    (∀ i, i < 15 → addr = 0x20 + i →
      (v.poke k env addr value).reg.current.colors i = (value % 256) &&& 0xF) ∧
    (addr ∈ shadowRegisterAddresses →
      (v.poke k env addr value).delay &&& k.VICUpdateRegisters = k.VICUpdateRegisters) := by
  refine ⟨poke_delayed k env v addr value ha, ?_, ?_, ?_, ?_, ?_, ?_, ?_, ?_, ?_, ?_, ?_,
    poke_delay k env v addr value⟩
  · intro i hi h
    subst h
    interval_cases i <;> simp [VIC.poke, VIC.setCurrent, VIC.updateRegisters]
  · intro i hi h
    subst h
    interval_cases i <;> simp [VIC.poke, VIC.setCurrent, VIC.updateRegisters]
  · intro h i hi
    subst h
    exact poke_sprX_hi _ _ i hi
  · intro h
    subst h
    simp only [VIC.poke, VIC.setCurrent, VIC.updateRegisters]
    split_ifs <;> rfl
  · intro h
    subst h
    rfl
  · intro h
    subst h
    rfl
  · intro h
    subst h
    rfl
  · intro h
    subst h
    rfl
  · intro h
    subst h
    rfl
  · intro h
    subst h
    rfl
  · intro i hi h
    subst h
    cases hg : v.emulateGrayDotBug <;>
      interval_cases i <;> simp [VIC.poke, VIC.setCurrent, VIC.updateRegisters, hg]

/-- Witness for C14: with the gray dot bug emulated, 0x36 is written to the color
register 0x21. -/
theorem poke_shadow_registers_witness :
    (({ clearedVIC with emulateGrayDotBug := true } : VIC).poke sampleVICDelayFlags
      (sampleVICEnv 0xFF) 0x21 0x36).reg.current.colors 1 = (0x36 % 256) &&& 0xF ∧
    (({ clearedVIC with emulateGrayDotBug := true } : VIC).poke sampleVICDelayFlags
      (sampleVICEnv 0xFF) 0x21 0x36).delay &&& sampleVICDelayFlags.VICUpdateRegisters =
        sampleVICDelayFlags.VICUpdateRegisters :=
  ⟨(poke_shadow_registers sampleVICDelayFlags (sampleVICEnv 0xFF)
      { clearedVIC with emulateGrayDotBug := true } 0x21 0x36 (by decide)).2.2.2.2.2.2.2.2.2.2.2.1
      1 (by decide) rfl,
    (poke_shadow_registers sampleVICDelayFlags (sampleVICEnv 0xFF)
      { clearedVIC with emulateGrayDotBug := true } 0x21 0x36 (by decide)).2.2.2.2.2.2.2.2.2.2.2.2
      (by decide)⟩



/-! ### CPU: status register, trace buffer and jam query -/

theorem testBit_of_lt_256 (x i : Nat) (hx : x < 256) (hi : 8 ≤ i) : x.testBit i = false := by
  have h2 : (2 : Nat) ^ 8 ≤ 2 ^ i := Nat.pow_le_pow_right (by norm_num) hi
  exact Nat.testBit_lt_two_pow (by omega)

theorem testBit_32 (i : Nat) : (32 : Nat).testBit i = decide (i = 5) := by
  rw [show (32 : Nat) = 2 ^ 5 from rfl, Nat.testBit_two_pow]
  by_cases h : i = 5
  · simp [h]
  · have : ¬ 5 = i := fun e => h e.symm
    simp [h, this]

theorem testBit_16 (i : Nat) : (16 : Nat).testBit i = decide (i = 4) := by
  rw [show (16 : Nat) = 2 ^ 4 from rfl, Nat.testBit_two_pow]
  by_cases h : i = 4
  · simp [h]
  · have : ¬ 4 = i := fun e => h e.symm
    simp [h, this]

theorem testBit_239 (i : Nat) : (239 : Nat).testBit i = (decide (i < 8) && !decide (i = 4)) := by
  by_cases h : i < 8
  · interval_cases i <;> decide
  · rw [testBit_of_lt_256 239 i (by norm_num) (by omega)]
    simp [h]

/-- C18 (status register view). For every value of `regP` (a `uint8_t`), `getP()`
has bit 5 set and agrees with `regP` on all other bits; `getPWithClearedB()` is
`getP()` with bit 4 cleared; `setPWithoutB(p)` sets every bit of `regP` other
than bit 4 to the corresponding bit of `p` and keeps bit 4. -/
theorem status_register_view (c : CPU) (p : Nat) (hP : c.regP < 256) (hp : p < 256) :
    c.getP.testBit 5 = true ∧
    (∀ i, i ≠ 5 → c.getP.testBit i = c.regP.testBit i) ∧
    c.getPWithClearedB.testBit 4 = false ∧
    (∀ i, i ≠ 4 → c.getPWithClearedB.testBit i = c.getP.testBit i) ∧
    (∀ i, i ≠ 4 → (c.setPWithoutB p).regP.testBit i = p.testBit i) ∧
    (c.setPWithoutB p).regP.testBit 4 = c.regP.testBit 4 := by
  have e256 : (256 : Nat) = 2 ^ 8 := rfl
  refine ⟨?_, ?_, ?_, ?_, ?_, ?_⟩
  · simp only [CPU.getP, e256, Nat.testBit_mod_two_pow, Nat.testBit_or, testBit_32]
    simp
  · intro i hi
    simp only [CPU.getP, e256, Nat.testBit_mod_two_pow, Nat.testBit_or, testBit_32]
    by_cases h8 : i < 8
    · simp [h8, hi]
    · rw [testBit_of_lt_256 _ i hP (by omega)]
      simp [h8]
  · simp only [CPU.getPWithClearedB, e256, Nat.testBit_mod_two_pow, Nat.testBit_and, testBit_239]
    simp
  · intro i hi
    simp only [CPU.getPWithClearedB, CPU.getP, e256, Nat.testBit_mod_two_pow, Nat.testBit_and,
      Nat.testBit_or, testBit_239, testBit_32]
    by_cases h8 : i < 8
    · simp [h8, hi]
    · simp [h8]
  · intro i hi
    simp only [CPU.setPWithoutB, e256, Nat.testBit_mod_two_pow, Nat.testBit_and,
      Nat.testBit_or, testBit_239, testBit_16]
    by_cases h8 : i < 8
    · simp [h8, hi]
    · rw [testBit_of_lt_256 _ i hp (by omega)]
      simp [h8]
  · simp only [CPU.setPWithoutB, e256, Nat.testBit_mod_two_pow, Nat.testBit_and,
      Nat.testBit_or, testBit_239, testBit_16]
    simp

/-- Witness for C18: the sample CPU and the value 0xFF. -/
theorem status_register_view_witness :
    sampleCPU.getP.testBit 5 = true ∧
    (sampleCPU.setPWithoutB 0xFF).regP.testBit 4 = sampleCPU.regP.testBit 4 :=
  ⟨(status_register_view sampleCPU 0xFF (by decide) (by decide)).1,
    (status_register_view sampleCPU 0xFF (by decide) (by decide)).2.2.2.2.2⟩

theorem recordedInstructions_eq (c : CPU) (hr : c.readPtr < 1024) (hw : c.writePtr < 1024) :
    c.recordedInstructions = (c.writePtr + 1024 - c.readPtr) % 1024 := by
  unfold CPU.recordedInstructions traceBufferSize
  split_ifs with h <;> omega

theorem recordInstruction_eq (sp : Nat → Nat) (c : CPU) (hw : c.writePtr < 1024) :
    ∃ c', c.recordInstruction sp = some c' ∧
      c'.traceBuffer = Function.update c.traceBuffer c.writePtr (c.currentInstruction sp) ∧
      c'.writePtr = (c.writePtr + 1) % 1024 ∧
      c'.readPtr = if (c.writePtr + 1) % 1024 = c.readPtr then (c.readPtr + 1) % 1024
        else c.readPtr := by
  have e1 : ((c.writePtr + 1) % 2 ^ 32) % 1024 = (c.writePtr + 1) % 1024 := by omega
  unfold CPU.recordInstruction traceBufferSize
  simp only [hw, ↓reduceIte, e1]
  by_cases h : (c.writePtr + 1) % 1024 = c.readPtr
  · have e2 : ((c.readPtr + 1) % 2 ^ 32) % 1024 = (c.readPtr + 1) % 1024 := by omega
    simp only [h, ↓reduceIte, e2]
    exact ⟨_, rfl, rfl, rfl, rfl⟩
  · simp only [h, ↓reduceIte]
    exact ⟨_, rfl, rfl, rfl, rfl⟩

theorem recordCalls_append (c : CPU) (ms : List Machine) (m : Machine) :
    c.recordCalls (ms ++ [m]) =
      (c.recordCalls ms).bind fun c => (c.proceed m.cpu).recordInstruction m.spypeek := by
  simp [CPU.recordCalls, List.foldl_append]

theorem recordedBy_append (ms : List Machine) (m : Machine) :
    recordedBy (ms ++ [m]) = recordedBy ms ++ [m.cpu.currentInstruction m.spypeek] := by
  simp [recordedBy]

theorem recordedBy_length (ms : List Machine) : (recordedBy ms).length = ms.length := by
  simp [recordedBy]

theorem recordCalls_spec (c : CPU) (ms : List Machine) :
    ∃ c', c.clearTraceBuffer.recordCalls ms = some c' ∧
      c'.writePtr = ms.length % 1024 ∧
      c'.readPtr = (ms.length - min ms.length 1023) % 1024 ∧
      ∀ i, i < ms.length → ms.length ≤ i + 1024 →
        (recordedBy ms)[i]? = some (c'.traceBuffer (i % 1024)) := by
  induction ms using List.reverseRecOn with
  | nil =>
    exact ⟨c.clearTraceBuffer, rfl, rfl, rfl, fun i hi => absurd hi (by simp)⟩
  | append_singleton ms m ih =>
    obtain ⟨c1, h1, hw, hr, ht⟩ := ih
    have hw' : (c1.proceed m.cpu).writePtr < 1024 := by
      show c1.writePtr < 1024
      omega
    obtain ⟨c2, h2, t2, w2, r2⟩ := recordInstruction_eq m.spypeek (c1.proceed m.cpu) hw'
    have hcur : (c1.proceed m.cpu).currentInstruction m.spypeek =
        m.cpu.currentInstruction m.spypeek := rfl
    have hpw : (c1.proceed m.cpu).writePtr = c1.writePtr := rfl
    have hpr : (c1.proceed m.cpu).readPtr = c1.readPtr := rfl
    have hpt : (c1.proceed m.cpu).traceBuffer = c1.traceBuffer := rfl
    rw [hcur, hpw, hpt] at t2
    rw [hpw] at w2
    rw [hpw, hpr] at r2
    refine ⟨c2, ?_, ?_, ?_, ?_⟩
    · rw [recordCalls_append, h1]
      exact h2
    · rw [w2, hw, List.length_append, List.length_singleton]
      omega
    · rw [r2, hw, hr, List.length_append, List.length_singleton]
      rcases Nat.lt_or_ge ms.length 1023 with h | h
      · rw [Nat.min_eq_left (by omega), Nat.min_eq_left (by omega)]
        split_ifs <;> omega
      · rw [Nat.min_eq_right (by omega), Nat.min_eq_right (by omega)]
        split_ifs <;> omega
    · intro i hi hn
      rw [List.length_append, List.length_singleton] at hi hn
      rw [recordedBy_append, t2, hw]
      rcases Nat.lt_or_ge i ms.length with h | h
      · have hne : i % 1024 ≠ ms.length % 1024 := by omega
        rw [Function.update_noteq hne, List.getElem?_append_left (by rw [recordedBy_length]; exact h)]
        exact ht i h (by omega)
      · have hi' : i = ms.length := by omega
        subst hi'
        rw [Function.update_same, List.getElem?_append_right (by rw [recordedBy_length]),
          recordedBy_length, Nat.sub_self]
        rfl

theorem readCalls_eq (k : Nat) :
    ∀ c : CPU, c.readPtr < 1024 → c.writePtr < 1024 → k ≤ c.recordedInstructions →
      (c.readCalls k).map Prod.fst =
        some ((List.range k).map fun j => c.traceBuffer ((c.readPtr + j) % 1024)) := by
  induction k with
  | zero => intro c _ _ _; rfl
  | succ k ih =>
    intro c hr hw hk
    have hne : c.recordedInstructions ≠ 0 := by omega
    have e1 : ((c.readPtr + 1) % 2 ^ 32) % 1024 = (c.readPtr + 1) % 1024 := by omega
    have hread : c.readRecordedInstruction =
        some (c.traceBuffer c.readPtr, { c with readPtr := (c.readPtr + 1) % 1024 }) := by
      unfold CPU.readRecordedInstruction traceBufferSize
      rw [if_pos hne, if_pos hr, e1]
    have hrec := recordedInstructions_eq c hr hw
    have hr1 : (c.readPtr + 1) % 1024 < 1024 := Nat.mod_lt _ (by norm_num)
    have hrec1 := recordedInstructions_eq { c with readPtr := (c.readPtr + 1) % 1024 } hr1 hw
    have hk' : k ≤ ({ c with readPtr := (c.readPtr + 1) % 1024 } : CPU).recordedInstructions := by
      rw [hrec1]
      show k ≤ (c.writePtr + 1024 - (c.readPtr + 1) % 1024) % 1024
      omega
    have h := ih { c with readPtr := (c.readPtr + 1) % 1024 } hr1 hw hk'
    have hlist : (List.range (k + 1)).map (fun j => c.traceBuffer ((c.readPtr + j) % 1024)) =
        c.traceBuffer c.readPtr ::
          (List.range k).map (fun j => c.traceBuffer (((c.readPtr + 1) % 1024 + j) % 1024)) := by
      rw [List.range_succ_eq_map, List.map_cons, List.map_map]
      congr 1
      · rw [Nat.add_zero, Nat.mod_eq_of_lt hr]
      · apply List.map_congr_left
        intro j _
        show c.traceBuffer ((c.readPtr + (j + 1)) % 1024) = _
        congr 1
        omega
    rw [hlist]
    unfold CPU.readCalls
    rw [hread]
    dsimp only
    cases hq : ({ c with readPtr := (c.readPtr + 1) % 1024 } : CPU).readCalls k with
    | none =>
      rw [hq] at h
      exact absurd h (by simp)
    | some q =>
      rw [hq] at h
      simp only [Option.map_some', Option.some.injEq] at h
      simp only [Option.map_some', Option.some.injEq]
      rw [← h]

theorem lastRecords_eq (ms : List Machine) (tb : Nat → RecordedInstruction)
    (ht : ∀ i, i < ms.length → ms.length ≤ i + 1024 →
      (recordedBy ms)[i]? = some (tb (i % 1024))) :
    ((List.range (min ms.length 1023)).map fun j =>
        tb (((ms.length - min ms.length 1023) % 1024 + j) % 1024)) =
      (recordedBy ms).drop (ms.length - min ms.length 1023) := by
  apply List.ext_getElem?
  intro j
  rw [List.getElem?_drop, List.getElem?_map]
  rcases Nat.lt_or_ge j (min ms.length 1023) with h | h
  · have h1 : j < ms.length := lt_of_lt_of_le h (Nat.min_le_left _ _)
    have h2 : j < 1023 := lt_of_lt_of_le h (Nat.min_le_right _ _)
    have h3 : min ms.length 1023 ≤ ms.length := Nat.min_le_left _ _
    rw [List.getElem?_range h, ht _ (by omega) (by omega)]
    simp only [Option.map_some']
    congr 2
    omega
  · have h3 : min ms.length 1023 ≤ ms.length := Nat.min_le_left _ _
    rw [List.getElem?_eq_none (by rw [List.length_range]; exact h),
      List.getElem?_eq_none (by rw [recordedBy_length]; omega)]
    rfl

theorem recordedInstructions_after (c : CPU) (ms : List Machine) :
    (c.clearTraceBuffer.recordCalls ms).map CPU.recordedInstructions =
      some (min ms.length 1023) := by
  obtain ⟨c1, h1, hw, hr, _⟩ := recordCalls_spec c ms
  rw [h1, Option.map_some', recordedInstructions_eq c1 (by omega) (by omega), hw, hr]
  rcases Nat.lt_or_ge ms.length 1023 with h | h
  · rw [Nat.min_eq_left (by omega)]
    exact congrArg some (by omega)
  · rw [Nat.min_eq_right (by omega)]
    exact congrArg some (by omega)

/-- C19 (trace buffer capacity), amended. After `clearTraceBuffer()` followed by
`n` calls of `recordInstruction()` with no reads in between, no assertion has
failed, `recordedInstructions()` equals `min(n, 1023)`, and `min(n, 1023)`
successive calls of `readRecordedInstruction()` succeed and return the last
`min(n, 1023)` recorded instructions in the order in which they were
recorded. -/
theorem trace_buffer_capacity (c : CPU) (ms : List Machine) :
    ∃ c', c.clearTraceBuffer.recordCalls ms = some c' ∧
      c'.recordedInstructions = min ms.length 1023 ∧
      (c'.readCalls (min ms.length 1023)).map Prod.fst =
        some ((recordedBy ms).drop (ms.length - min ms.length 1023)) := by
  obtain ⟨c1, h1, hw, hr, ht⟩ := recordCalls_spec c ms
  have hn : c1.recordedInstructions = min ms.length 1023 := by
    have h := recordedInstructions_after c ms
    rw [h1] at h
    exact Option.some.inj h
  refine ⟨c1, h1, hn, ?_⟩
  rw [readCalls_eq _ c1 (by omega) (by omega) (le_of_eq hn.symm), hr, lastRecords_eq ms _ ht]

/-- Counterexample to C19 as stated: after `clearTraceBuffer()` and 1024 calls
of `recordInstruction()`, `recordedInstructions()` is 1023 and not
`min(1024, 1024)`. -/
theorem trace_buffer_capacity_counterexample :
    (sampleCPU.clearTraceBuffer.recordCalls (List.replicate 1024 sampleMachine)).map
        CPU.recordedInstructions = some 1023 ∧
      (1023 : Nat) ≠ min 1024 1024 := by
  refine ⟨?_, by norm_num⟩
  have h := recordedInstructions_after sampleCPU (List.replicate 1024 sampleMachine)
  rw [List.length_replicate] at h
  exact h

/-- C20 (jam query): what the code does. For every CPU state, `isJammed()` stores
`CPU_JAMMED` in `state` and returns whether the numeric value of `CPU_JAMMED` is
nonzero, whatever the state was before the call; the state after the call is the
state before it only if the CPU was jammed already. -/
theorem isJammed_assigns (CPU_JAMMED : Nat) (c : CPU) :
    (c.isJammed CPU_JAMMED).2.state = CPU_JAMMED ∧
    (c.isJammed CPU_JAMMED).1 = decide (CPU_JAMMED ≠ 0) ∧
    ((c.isJammed CPU_JAMMED).2.state = c.state ↔ c.state = CPU_JAMMED) :=
  ⟨rfl, rfl, ⟨fun h => h.symm, fun h => h.symm⟩⟩







/-! ### Disk: GCR code of 0x8D, sector counts, bit delay -/

theorem gcrBits_0x8D :
    gcrBits 0x8D = [false, true, false, false, true, true, true, true, false, true] := by
  decide

/-- C21 (GCR encoding of 0x8D), amended. On a track that holds at least ten
bits, `encodeGcr(0x8D, t, offset)` writes the ten bits 0,1,0,0,1,1,1,1,0,1
(01001_11101) starting at `offset`: the high nibble 0x8 is encoded as the
codeword 0x09 and the low nibble 0xD as the codeword 0x1D. -/
theorem encodeGcr_0x8D (d : Disk) (t offset : Nat) (hlen : 10 ≤ d.lengthOfTrack t) :
    bin2gcr (0x8D >>> 4) = 0x09 ∧ bin2gcr (0x8D &&& 0xF) = 0x1D ∧
    encodeGcr d 0x8D t offset =
      writeBits d t offset [false, true, false, false, true, true, true, true, false, true] ∧
    ∀ i, i < 10 → readBitFromTrack (encodeGcr d 0x8D t offset) t (offset + i) =
      [0, 1, 0, 0, 1, 1, 1, 1, 0, 1].getD i 0 := by
  refine ⟨by decide, by decide, ?_, ?_⟩
  · rw [encodeGcr_eq_writeBits, gcrBits_0x8D]
  · intro i hi
    rw [encodeGcr_eq_writeBits,
      readBit_writeBits_hit d t offset i _ (by rw [gcrBits_length]; exact hlen)
        (by rw [gcrBits_length]; exact hi), gcrBits_0x8D]
    interval_cases i <;> rfl

/-- Witness for C21: the byte 0x8D written at offset 3 of track 18 of a cleared
disk. -/
theorem encodeGcr_0x8D_witness :
    10 ≤ blankDisk.lengthOfTrack 18 ∧
    ∀ i, i < 10 → readBitFromTrack (encodeGcr blankDisk 0x8D 18 3) 18 (3 + i) =
      [0, 1, 0, 0, 1, 1, 1, 1, 0, 1].getD i 0 :=
  ⟨by decide, (encodeGcr_0x8D blankDisk 18 3 (by decide)).2.2.2⟩

/-- Counterexample to C21 as stated: the fourth bit that `encodeGcr(0x8D, 18, 3)`
writes on a cleared disk is 0, where the sequence 0,1,0,1,1,0,1,1,0,1 of the claim
has 1; the codeword of the nibble 0x8 is 0x09 and not 0x0B, that of 0xD is 0x1D
and not 0x15. -/
theorem encodeGcr_0x8D_counterexample :
    readBitFromTrack (encodeGcr blankDisk 0x8D 18 3) 18 (3 + 3) = 0 ∧
    [0, 1, 0, 1, 1, 0, 1, 1, 0, 1].getD 3 0 = 1 ∧
    bin2gcr 0x8 ≠ 0x0B ∧ bin2gcr 0xD ≠ 0x15 := by
  refine ⟨?_, rfl, by decide, by decide⟩
  rw [encodeGcr_eq_writeBits,
    readBit_writeBits_hit blankDisk 18 3 3 _ (by rw [gcrBits_length]; decide)
      (by rw [gcrBits_length]; decide), gcrBits_0x8D]
  rfl

/-- C23 (D64 sector counts). The sector counts of `trackDefaults` are 21 for the
tracks 1 to 17, 19 for 18 to 24, 18 for 25 to 30 and 17 for 31 to 42; they sum
to 683 over the tracks 1 to 35, to 768 over 1 to 40 and to 802 over 1 to 42. -/
theorem trackDefaults_sectors :
    (∀ t, 1 ≤ t → t ≤ 17 → numberOfSectorsInTrack t = 21) ∧
    (∀ t, 18 ≤ t → t ≤ 24 → numberOfSectorsInTrack t = 19) ∧
    (∀ t, 25 ≤ t → t ≤ 30 → numberOfSectorsInTrack t = 18) ∧
    (∀ t, 31 ≤ t → t ≤ 42 → numberOfSectorsInTrack t = 17) ∧
    ((List.range 35).map fun i => numberOfSectorsInTrack (i + 1)).sum = 683 ∧
    ((List.range 40).map fun i => numberOfSectorsInTrack (i + 1)).sum = 768 ∧
    ((List.range 42).map fun i => numberOfSectorsInTrack (i + 1)).sum = 802 := by
  refine ⟨?_, ?_, ?_, ?_, by decide, by decide, by decide⟩
  · intro t h1 h2
    interval_cases t <;> rfl
  · intro t h1 h2
    interval_cases t <;> rfl
  · intro t h1 h2
    interval_cases t <;> rfl
  · intro t h1 h2
    interval_cases t <;> rfl

/-- Witness for C23: track 18 has 19 sectors. -/
theorem trackDefaults_sectors_witness : numberOfSectorsInTrack 18 = 19 :=
  trackDefaults_sectors.2.1 18 (by decide) (by decide)

/-- C30 (bit delay and speed zone): what the code does. `_bitDelay(ht, pos)` is
`4 * delayBetweenTwoCarryPulses[0]` for `ht <= 33`, then index 1 up to 47, index
2 up to 59 and index 3 above: on halftrack 1 it returns 40000, where the speed
zone 3 that `trackDefaults` gives track 1 stands for
`4 * delayBetweenTwoCarryPulses[3] = 32500`. Among the halftracks 1 to 84 the
value is that of the zone of `trackDefaults` on halftrack 48 only. -/
theorem bitDelay_zone :
    (∀ ht pos, Disk._bitDelay ht pos = 4 * delayBetweenTwoCarryPulses.getD
      (if ht ≤ 33 then 0 else if ht ≤ 47 then 1 else if ht ≤ 59 then 2 else 3) 0) ∧
    Disk._bitDelay 1 0 = 40000 ∧
    speedZoneOfTrackDefaults (trackOfHalftrack 1) = 3 ∧
    4 * delayBetweenTwoCarryPulses.getD (speedZoneOfTrackDefaults (trackOfHalftrack 1)) 0 =
      32500 ∧
    (List.range 85).filter (fun ht => decide (1 ≤ ht) && decide (Disk._bitDelay ht 0 =
      4 * delayBetweenTwoCarryPulses.getD (speedZoneOfTrackDefaults (trackOfHalftrack ht)) 0)) =
      [48] := by
  refine ⟨?_, by decide, by decide, by decide, by decide⟩
  intro ht pos
  unfold Disk._bitDelay
  split_ifs <;> rfl

/-! ### Drive: zone getter, head rotation -/

/-- C28 (zone getter): what the code does. `getZone()` returns `bool`: it
returns 0 for the zone 0 and 1 for every other zone, so that for the zones 2 and
3 it does not return the zone. -/
theorem getZone_bool (v : VC1541) :
    (v.getZone.toNat = if v.zone = 0 then 0 else 1) ∧
    ({ v with zone := 2 } : VC1541).getZone.toNat = 1 ∧
    ({ v with zone := 3 } : VC1541).getZone.toNat = 1 := by
  refine ⟨?_, rfl, rfl⟩
  unfold VC1541.getZone
  by_cases h : v.zone = 0 <;> simp [h]

theorem rotateDisk_offset (v : VC1541) (h : v.offset < v.disk.lengthOfHalftrack v.halftrack) :
    v.rotateDisk.offset = (v.offset + 1) % v.disk.lengthOfHalftrack v.halftrack ∧
    v.rotateDisk.halftrack = v.halftrack ∧ v.rotateDisk.disk = v.disk := by
  have e : v.rotateDisk =
      if v.offset + 1 ≥ v.disk.lengthOfHalftrack v.halftrack then { v with offset := 0 }
      else { v with offset := v.offset + 1 } := rfl
  rw [e]
  by_cases hge : v.offset + 1 ≥ v.disk.lengthOfHalftrack v.halftrack
  · rw [if_pos hge]
    have e1 : v.offset + 1 = v.disk.lengthOfHalftrack v.halftrack := by omega
    exact ⟨by rw [e1, Nat.mod_self], rfl, rfl⟩
  · rw [if_neg hge]
    have e2 : (v.offset + 1) % v.disk.lengthOfHalftrack v.halftrack = v.offset + 1 :=
      Nat.mod_eq_of_lt (by omega)
    exact ⟨e2.symm, rfl, rfl⟩

theorem rotateDiskN_offset (n : Nat) : ∀ v : VC1541,
    v.offset < v.disk.lengthOfHalftrack v.halftrack →
    (v.rotateDiskN n).offset = (v.offset + n) % v.disk.lengthOfHalftrack v.halftrack ∧
    (v.rotateDiskN n).halftrack = v.halftrack ∧ (v.rotateDiskN n).disk = v.disk := by
  induction n with
  | zero =>
    intro v h
    exact ⟨(Nat.mod_eq_of_lt h).symm, rfl, rfl⟩
  | succ n ih =>
    intro v h
    obtain ⟨h1, h2, h3⟩ := rotateDisk_offset v h
    have hlt : v.rotateDisk.offset < v.rotateDisk.disk.lengthOfHalftrack v.rotateDisk.halftrack := by
      rw [h1, h2, h3]
      exact Nat.mod_lt _ (by omega)
    obtain ⟨i1, i2, i3⟩ := ih v.rotateDisk hlt
    show (v.rotateDisk.rotateDiskN n).offset = _ ∧ (v.rotateDisk.rotateDiskN n).halftrack = _ ∧
      (v.rotateDisk.rotateDiskN n).disk = _
    rw [i1, i2, i3, h1, h2, h3]
    refine ⟨?_, rfl, rfl⟩
    rw [Nat.mod_add_mod]
    congr 1
    omega

/-- C25 (head offset wraps). If `offset < L`, where `L` is the bit length of
the current halftrack, then after `rotateDisk()` the offset is
`(offset + 1) mod L`; after any number of calls the offset is inside `[0, L)`,
and `L` consecutive calls bring the head back to the offset it started from. -/
theorem rotateDisk_wraps (v : VC1541) (n : Nat)
    (h : v.offset < v.disk.lengthOfHalftrack v.halftrack) :
    v.rotateDisk.offset = (v.offset + 1) % v.disk.lengthOfHalftrack v.halftrack ∧
    (v.rotateDiskN n).offset < v.disk.lengthOfHalftrack v.halftrack ∧
    (v.rotateDiskN (v.disk.lengthOfHalftrack v.halftrack)).offset = v.offset := by
  refine ⟨(rotateDisk_offset v h).1, ?_, ?_⟩
  · rw [(rotateDiskN_offset n v h).1]
    exact Nat.mod_lt _ (by omega)
  · rw [(rotateDiskN_offset _ v h).1, Nat.add_mod_right, Nat.mod_eq_of_lt h]

/-- Witness for C25: the head of the sample drive at the last bit of halftrack
35 of a cleared disk. -/
theorem rotateDisk_wraps_witness :
    ({ sampleDrive with offset := 63423 } : VC1541).rotateDisk.offset =
      (63423 + 1) % blankDisk.lengthOfHalftrack 35 :=
  (rotateDisk_wraps { sampleDrive with offset := 63423 } 0 (by decide)).1

/-! ### Disk and drive: writing a single bit -/

theorem readBitFromHalftrack_eq (d : Disk) (ht o : Nat) :
    readBitFromHalftrack d ht o = (d.halftrackBit ht (o % d.lengthOfHalftrack ht)).toNat := by
  unfold readBitFromHalftrack Disk.halftrackBit
  dsimp only
  have hk : (o % d.lengthOfHalftrack ht) % 8 < 8 := Nat.mod_lt _ (by norm_num)
  have h := and_two_pow_ne_zero (d.halftrackByte ht (o % d.lengthOfHalftrack ht / 8))
    (7 - o % d.lengthOfHalftrack ht % 8)
  rw [shiftRight_0x80 _ hk]
  by_cases hb : (d.halftrackByte ht (o % d.lengthOfHalftrack ht / 8)).testBit
      (7 - o % d.lengthOfHalftrack ht % 8) = true
  · rw [if_pos (h.mpr hb), hb]
    rfl
  · rw [if_neg (fun hn => hb (h.mp hn))]
    simp only [Bool.not_eq_true] at hb
    rw [hb]
    rfl

theorem writeBitToHalftrack_data (d : Disk) (ht o : Nat) (b : Bool) (j : Nat) :
    (writeBitToHalftrack d ht o b).data j =
      if j = 7928 + ht * 7928 + (o % d.lengthOfHalftrack ht) / 8 then
        (if b then d.data j ||| (0x80 >>> ((o % d.lengthOfHalftrack ht) % 8))
         else d.data j &&& (0xFF ^^^ (0x80 >>> ((o % d.lengthOfHalftrack ht) % 8))))
      else d.data j := by
  by_cases hj : j = 7928 + ht * 7928 + (o % d.lengthOfHalftrack ht) / 8
  · subst hj
    cases b <;> simp [writeBitToHalftrack]
  · cases b <;> simp [writeBitToHalftrack, Function.update_noteq hj, hj]

theorem writeBitToHalftrack_length (d : Disk) (ht o : Nat) (b : Bool) :
    (writeBitToHalftrack d ht o b).length = d.length := by
  unfold writeBitToHalftrack
  split <;> rfl

theorem testBit_setBit (x k i : Nat) (hk : k < 8) :
    (x ||| (0x80 >>> k)).testBit i = (x.testBit i || decide (i = 7 - k)) := by
  rw [shiftRight_0x80 k hk, Nat.testBit_lor, Nat.testBit_two_pow]
  by_cases h : i = 7 - k
  · simp [h]
  · have h' : ¬ 7 - k = i := fun e => h e.symm
    simp [h, h']

theorem testBit_clearBit (x k i : Nat) (hk : k < 8) (hi : i < 8) :
    (x &&& (0xFF ^^^ (0x80 >>> k))).testBit i = (x.testBit i && !decide (i = 7 - k)) := by
  rw [shiftRight_0x80 k hk, Nat.testBit_land, Nat.testBit_xor, Nat.testBit_two_pow]
  have h255 : (0xFF : Nat).testBit i = true := by interval_cases i <;> rfl
  rw [h255]
  by_cases h : i = 7 - k
  · simp [h]
  · have h' : ¬ 7 - k = i := fun e => h e.symm
    simp [h, h']

theorem halftrackBit_writeBit (d : Disk) (ht o : Nat) (b : Bool) (ht' p : Nat)
    (hcap : d.lengthOfHalftrack ht ≤ maxBitsOnTrack) (hL : 0 < d.lengthOfHalftrack ht)
    (hp : p < maxBitsOnTrack) :
    (writeBitToHalftrack d ht o b).halftrackBit ht' p =
      if ht' = ht ∧ p = o % d.lengthOfHalftrack ht then b else d.halftrackBit ht' p := by
  have hq : o % d.lengthOfHalftrack ht < d.lengthOfHalftrack ht := Nat.mod_lt _ hL
  unfold Disk.halftrackBit Disk.halftrackByte
  rw [writeBitToHalftrack_data]
  generalize o % d.lengthOfHalftrack ht = q at hq
  unfold maxBitsOnTrack at hcap hp
  have hk : q % 8 < 8 := Nat.mod_lt _ (by norm_num)
  have hk' : 7 - p % 8 < 8 := by omega
  by_cases hidx : 7928 + ht' * 7928 + p / 8 = 7928 + ht * 7928 + q / 8
  · have hht : ht' = ht := by omega
    have hbyte : p / 8 = q / 8 := by omega
    rw [if_pos hidx]
    by_cases hpq : p = q
    · rw [if_pos (show ht' = ht ∧ p = q from ⟨hht, hpq⟩)]
      subst hpq
      cases b
      · simp only [Bool.false_eq_true, if_false]
        rw [testBit_clearBit _ _ _ hk hk']
        simp
      · simp only [if_true]
        rw [testBit_setBit _ _ _ hk]
        simp
    · rw [if_neg (show ¬ (ht' = ht ∧ p = q) from fun h => hpq h.2)]
      have hbit : ¬ 7 - p % 8 = 7 - q % 8 := by omega
      cases b
      · simp only [Bool.false_eq_true, if_false]
        rw [testBit_clearBit _ _ _ hk hk']
        simp [hbit]
      · simp only [if_true]
        rw [testBit_setBit _ _ _ hk]
        simp [hbit]
  · rw [if_neg hidx, if_neg (show ¬ (ht' = ht ∧ p = q) from fun h => hidx (by rw [h.1, h.2]))]

/-- C26 (single-bit write). For every halftrack `ht` in 1..84 whose length `L`
is positive and within the capacity `maxBitsOnTrack` of a halftrack, every
offset and every bit value `b`: after `writeBitToHalftrack(ht, offset, b)`,
`readBitFromHalftrack(ht, offset)` returns `b` as 0 or 1; the bit touched is bit
`offset mod L` of that halftrack; every other bit of this halftrack and of all
other halftracks is unchanged, and so are the lengths. -/
theorem writeBitToHalftrack_single (d : Disk) (ht offset : Nat) (b : Bool)
    (_hht : isHalftrackNumber ht = true) (hL : 0 < d.lengthOfHalftrack ht)
    (hcap : d.lengthOfHalftrack ht ≤ maxBitsOnTrack) :
    readBitFromHalftrack (writeBitToHalftrack d ht offset b) ht offset = b.toNat ∧
    (writeBitToHalftrack d ht offset b).halftrackBit ht (offset % d.lengthOfHalftrack ht) = b ∧
    (∀ ht' p, p < maxBitsOnTrack → (ht' ≠ ht ∨ p ≠ offset % d.lengthOfHalftrack ht) →
      (writeBitToHalftrack d ht offset b).halftrackBit ht' p = d.halftrackBit ht' p) ∧
    (∀ o', o' % d.lengthOfHalftrack ht ≠ offset % d.lengthOfHalftrack ht →
      readBitFromHalftrack (writeBitToHalftrack d ht offset b) ht o' =
        readBitFromHalftrack d ht o') ∧
    (writeBitToHalftrack d ht offset b).length = d.length := by
  have hq : offset % d.lengthOfHalftrack ht < maxBitsOnTrack :=
    lt_of_lt_of_le (Nat.mod_lt _ hL) hcap
  have hlen : ∀ h, (writeBitToHalftrack d ht offset b).lengthOfHalftrack h =
      d.lengthOfHalftrack h := fun h => by
    unfold Disk.lengthOfHalftrack
    rw [writeBitToHalftrack_length]
  refine ⟨?_, ?_, ?_, ?_, writeBitToHalftrack_length d ht offset b⟩
  · rw [readBitFromHalftrack_eq, hlen, halftrackBit_writeBit d ht offset b ht _ hcap hL hq,
      if_pos ⟨rfl, rfl⟩]
  · rw [halftrackBit_writeBit d ht offset b ht _ hcap hL hq, if_pos ⟨rfl, rfl⟩]
  · intro ht' p hp hne
    rw [halftrackBit_writeBit d ht offset b ht' p hcap hL hp, if_neg]
    rintro ⟨h1, h2⟩
    rcases hne with h | h
    · exact h h1
    · exact h h2
  · intro o' hne
    have hq' : o' % d.lengthOfHalftrack ht < maxBitsOnTrack :=
      lt_of_lt_of_le (Nat.mod_lt _ hL) hcap
    rw [readBitFromHalftrack_eq, readBitFromHalftrack_eq, hlen,
      halftrackBit_writeBit d ht offset b ht _ hcap hL hq', if_neg]
    rintro ⟨_, h2⟩
    exact hne h2

/-- Witness for C26: a 1 bit written at offset 70000 of halftrack 35 of a
cleared disk, whose halftracks hold 63424 bits. -/
theorem writeBitToHalftrack_single_witness :
    readBitFromHalftrack (writeBitToHalftrack blankDisk 35 70000 true) 35 70000 = 1 ∧
    (writeBitToHalftrack blankDisk 35 70000 true).halftrackBit 35
      (70000 % blankDisk.lengthOfHalftrack 35) = true :=
  ⟨(writeBitToHalftrack_single blankDisk 35 70000 true (by decide) (by decide) (by decide)).1,
    (writeBitToHalftrack_single blankDisk 35 70000 true (by decide) (by decide) (by decide)).2.1⟩

/-- C24 (write protection), amended. For every drive state whose disk is write
protected, `getLightBarrier()` returns true. `writeBitToHead` does not consult
the barrier: with the head on a halftrack of positive length within the
capacity of a halftrack, it writes the bit at the head position (bit
`offset mod L` of the halftrack under the head) also on a write protected disk,
and leaves every other bit of the disk data, the lengths and the write
protection flag unchanged. -/
theorem writeBitToHead_protected (v : VC1541) (bit : Nat)
    (hwp : v.writeProtected = true)
    (hL : 0 < v.disk.lengthOfHalftrack v.halftrack)
    (hcap : v.disk.lengthOfHalftrack v.halftrack ≤ maxBitsOnTrack) :
    v.getLightBarrier = true ∧
    (v.writeBitToHead bit).readBitFromHead = (decide (bit % 256 ≠ 0)).toNat ∧
    (v.writeBitToHead bit).disk.halftrackBit v.halftrack
      (v.offset % v.disk.lengthOfHalftrack v.halftrack) = decide (bit % 256 ≠ 0) ∧
    (∀ ht' p, p < maxBitsOnTrack →
      (ht' ≠ v.halftrack ∨ p ≠ v.offset % v.disk.lengthOfHalftrack v.halftrack) →
      (v.writeBitToHead bit).disk.halftrackBit ht' p = v.disk.halftrackBit ht' p) ∧
    (v.writeBitToHead bit).disk.length = v.disk.length ∧
    (v.writeBitToHead bit).writeProtected = true := by
  have hq : v.offset % v.disk.lengthOfHalftrack v.halftrack < maxBitsOnTrack :=
    lt_of_lt_of_le (Nat.mod_lt _ hL) hcap
  have hlen : (writeBitToHalftrack v.disk v.halftrack v.offset
      (decide (bit % 256 ≠ 0))).lengthOfHalftrack v.halftrack =
      v.disk.lengthOfHalftrack v.halftrack := by
    unfold Disk.lengthOfHalftrack
    rw [writeBitToHalftrack_length]
  refine ⟨?_, ?_, ?_, ?_, writeBitToHalftrack_length _ _ _ _, hwp⟩
  · unfold VC1541.getLightBarrier
    rw [hwp, Bool.or_true]
  · show readBitFromHalftrack (writeBitToHalftrack v.disk v.halftrack v.offset _) v.halftrack
      v.offset = _
    rw [readBitFromHalftrack_eq, hlen,
      halftrackBit_writeBit v.disk v.halftrack v.offset _ v.halftrack _ hcap hL hq,
      if_pos ⟨rfl, rfl⟩]
  · show (writeBitToHalftrack v.disk v.halftrack v.offset _).halftrackBit _ _ = _
    rw [halftrackBit_writeBit v.disk v.halftrack v.offset _ v.halftrack _ hcap hL hq,
      if_pos ⟨rfl, rfl⟩]
  · intro ht' p hp hne
    show (writeBitToHalftrack v.disk v.halftrack v.offset _).halftrackBit _ _ = _
    rw [halftrackBit_writeBit v.disk v.halftrack v.offset _ ht' p hcap hL hp, if_neg]
    rintro ⟨h1, h2⟩
    rcases hne with h | h
    · exact h h1
    · exact h h2

/-- Witness for C24: a 1 bit written by the sample drive, whose disk is write
protected. -/
theorem writeBitToHead_protected_witness :
    sampleDrive.getLightBarrier = true ∧
    (sampleDrive.writeBitToHead 1).readBitFromHead = (decide (1 % 256 ≠ 0)).toNat :=
  ⟨(writeBitToHead_protected sampleDrive 1 rfl (by decide) (by decide)).1,
    (writeBitToHead_protected sampleDrive 1 rfl (by decide) (by decide)).2.1⟩

theorem blankDisk_halftrackBit_35_0 : blankDisk.halftrackBit 35 0 = false := by
  decide

theorem writeBitToHead_disk (v : VC1541) (bit : Nat) :
    (v.writeBitToHead bit).disk =
      writeBitToHalftrack v.disk v.halftrack v.offset (decide (bit % 256 ≠ 0)) := rfl

/-- Counterexample to C24 as stated: the disk of the sample drive is write
protected and the bit under the head (bit 0 of halftrack 35) is 0; after
`writeBitToHead(1)` that bit is 1. -/
theorem writeBitToHead_protected_counterexample :
    sampleDrive.writeProtected = true ∧
    sampleDrive.halftrack = 35 ∧ sampleDrive.offset = 0 ∧
    sampleDrive.disk.halftrackBit 35 0 = false ∧
    (sampleDrive.writeBitToHead 1).disk.halftrackBit 35 0 = true := by
  have hd : sampleDrive.disk = blankDisk := rfl
  have hh : sampleDrive.halftrack = 35 := rfl
  have ho : sampleDrive.offset = 0 := rfl
  refine ⟨rfl, rfl, rfl, ?_, ?_⟩
  · rw [hd]
    exact blankDisk_halftrackBit_35_0
  · rw [writeBitToHead_disk, hd, hh, ho,
      halftrackBit_writeBit blankDisk 35 0 _ 35 0 (by decide) (by decide) (by decide),
      if_pos ⟨rfl, by decide⟩]
    decide

/-! ### Drive memory -/

/-- C27 (drive memory map). A value poked to the RAM range of the first 32 KB
is read back at every address of the first 32 KB with the same low 13 bits; a
read at `addr >= 0x8000` returns `rom[addr & 0x3FFF]`; a poke to
`addr >= 0x8000` or to the unmapped range leaves the memory (RAM, ROM, and the
VIAs) as it is. Addresses are 16 bits wide, values 8 bits. -/
theorem driveMemory_map {V : Type} (io : VIAAccess V) (m : VC1541Memory V) (addr v : Nat)
    (hv : v < 256) :
    (addr < 0x8000 → addr &&& 0x1FFF < 0x0800 →
      ∀ addr2, addr2 < 0x8000 → addr2 &&& 0x1FFF = addr &&& 0x1FFF →
        ((m.poke io addr v).peek io addr2).1 = v) ∧
    (0x8000 ≤ addr → addr < 0x10000 → (m.peek io addr).1 = m.rom (addr &&& 0x3FFF)) ∧
    (0x8000 ≤ addr → addr < 0x10000 → m.poke io addr v = m) ∧
    (addr < 0x8000 → 0x0800 ≤ addr &&& 0x1FFF → addr &&& 0x1FFF < 0x1800 →
      m.poke io addr v = m) := by
  refine ⟨?_, ?_, ?_, ?_⟩
  · intro ha hram addr2 ha2 heq
    have e1 : addr % 65536 = addr := Nat.mod_eq_of_lt (by omega)
    have e2 : addr2 % 65536 = addr2 := Nat.mod_eq_of_lt (by omega)
    have e3 : v % 256 = v := Nat.mod_eq_of_lt hv
    have hp : m.poke io addr v = { m with ram := Function.update m.ram (addr &&& 0x1FFF) v } := by
      unfold VC1541Memory.poke
      simp only [e1, e3]
      rw [if_neg (by omega), if_pos hram]
    rw [hp]
    unfold VC1541Memory.peek
    dsimp only
    rw [e2, if_neg (by omega), heq, if_pos hram]
    show Function.update m.ram (addr &&& 0x1FFF) v (addr &&& 0x1FFF) = v
    simp
  · intro ha hb
    have e1 : addr % 65536 = addr := Nat.mod_eq_of_lt hb
    unfold VC1541Memory.peek
    simp only [e1]
    rw [if_pos ha]
  · intro ha hb
    have e1 : addr % 65536 = addr := Nat.mod_eq_of_lt hb
    unfold VC1541Memory.poke
    simp only [e1]
    rw [if_pos ha]
  · intro ha h1 h2
    have e1 : addr % 65536 = addr := Nat.mod_eq_of_lt (by omega)
    unfold VC1541Memory.poke
    simp only [e1]
    rw [if_neg (by omega), if_neg (by omega), if_neg (by omega), if_neg (by omega)]

/-- Witness for C27: 0x5A poked to 0x2123 is read back at 0x0123 and at
0x6123. -/
theorem driveMemory_map_witness :
    ((sampleDriveMemory.poke sampleVIAAccess 0x2123 0x5A).peek sampleVIAAccess 0x0123).1 = 0x5A ∧
    ((sampleDriveMemory.poke sampleVIAAccess 0x2123 0x5A).peek sampleVIAAccess 0x6123).1 = 0x5A :=
  ⟨(driveMemory_map sampleVIAAccess sampleDriveMemory 0x2123 0x5A (by decide)).1 (by decide)
      (by decide) 0x0123 (by decide) (by decide),
    (driveMemory_map sampleVIAAccess sampleDriveMemory 0x2123 0x5A (by decide)).1 (by decide)
      (by decide) 0x6123 (by decide) (by decide)⟩

/-! ### Disk: error codes and checksums -/

theorem ite_encodeGcr (c : Prop) [Decidable c] (d : Disk) (x y t o : Nat) :
    (if c then encodeGcr d x t o else encodeGcr d y t o) =
      encodeGcr d (if c then x else y) t o := by
  split <;> rfl

theorem ite_encodeGcr_two (c : Prop) [Decidable c] (d : Disk) (x y x' y' t o o' : Nat) :
    (if c then encodeGcr (encodeGcr d x t o) y t o'
      else encodeGcr (encodeGcr d x' t o) y' t o') =
      encodeGcr (encodeGcr d (if c then x else x') t o) (if c then y else y') t o' := by
  split <;> rfl

theorem ite_writeBitToTrackN (e : Nat) (d : Disk) (t o n : Nat) :
    (if e = 3 then writeBitToTrackN d t o false n else writeBitToTrackN d t o true n) =
      writeBitToTrackN d t o (decide (e ≠ 3)) n := by
  split <;> simp_all

set_option maxRecDepth 10000 in
theorem encodeSector_eq_withErrors (d : Disk) (a : D64File) (t s start tailGap : Nat) :
    encodeSector d a t s start tailGap =
      (writeBits d t start (sectorLayoutWithErrors a t s tailGap), 2832 + 8 * tailGap) := by
  simp only [encodeSector, ite_encodeGcr, ite_encodeGcr_two, ite_writeBitToTrackN]
  rw [encodeDataLoop t (fun i => a.readTrack t s i % 256)]
  simp only [encodeGcr_eq_writeBits, writeBitToTrackN_eq, writeGapToTrack_eq, -List.reduceReplicate]
  refine Prod.ext ?_ ?_
  · simp only
    iterate 16
      rw [writeBits_writeBits]
      rotate_left
      · simp only [List.length_append, List.length_replicate, gcrBitsOfBytes_length,
          gapBits_length, gcrBits_length, List.length_map, List.length_range]
        try omega
    refine congrArg (writeBits d t start) ?_
    simp only [sectorLayoutWithErrors, headerBytes, dataBytes, gcrBitsOfBytes_cons,
      gcrBitsOfBytes_append, gcrBitsOfBytes_nil,
      sectorData, gcrBits_mod, List.append_assoc, List.singleton_append, List.nil_append,
      List.cons_append]
  · simp only [List.length_map, List.length_range]
    omega

theorem trackInfoBit_eq (d : Disk) (t i : Nat) (ht : 1 ≤ t)
    (hcap : d.lengthOfTrack t ≤ maxBitsOnTrack) (hi : i < 2 * d.lengthOfTrack t) :
    trackInfoBit d (2 * t - 1) i = readBitFromTrack d t i := by
  have hlen : d.lengthOfHalftrack (2 * t - 1) = d.lengthOfTrack t := by
    unfold Disk.lengthOfHalftrack Disk.lengthOfTrack
    congr 1
    omega
  have hbyte : ∀ k, d.halftrackByte (2 * t - 1) k = d.trackByte t k := by
    intro k
    unfold Disk.halftrackByte Disk.trackByte
    congr 1
    omega
  unfold maxBitsOnTrack at hcap
  unfold trackInfoBit readBitFromTrack
  simp only [hlen, hbyte]
  by_cases h : d.lengthOfTrack t ≤ i ∧ i < 2 * d.lengthOfTrack t
  · have e : i % d.lengthOfTrack t = i - d.lengthOfTrack t := by
      rw [Nat.mod_eq_sub_mod h.1, Nat.mod_eq_of_lt (by omega)]
    rw [if_pos h, if_pos (by omega), e]
  · have hlt : i < d.lengthOfTrack t := by omega
    rw [if_neg h, if_pos (by omega), Nat.mod_eq_of_lt hlt]

theorem readBitFromTrack_mod_add (d : Disk) (t x y : Nat) :
    readBitFromTrack d t (x % d.lengthOfTrack t + y) = readBitFromTrack d t (x + y) := by
  unfold readBitFromTrack
  simp only [Nat.mod_add_mod]

theorem decodeGcr_of_bits (invgcr : Nat → Nat) (hinv : ∀ v, v < 16 → invgcr (bin2gcr v) = v)
    (g : Nat → Nat) (v : Nat) (hg : ∀ i, i < 10 → g i = ((gcrBits v).getD i false).toNat) :
    decodeGcr invgcr g = v % 256 := by
  have hhi : (v % 256) >>> 4 < 16 := by
    rw [Nat.shiftRight_eq_div_pow]; omega
  have hlo : (v % 256) &&& 0xF < 16 := by
    have := @Nat.and_le_right (v % 256) 0xF
    omega
  simp only [decodeGcr, decodeGcrNibble]
  rw [show (0 : Nat) + 5 = 5 from rfl, show (1 : Nat) + 5 = 6 from rfl,
    show (2 : Nat) + 5 = 7 from rfl, show (3 : Nat) + 5 = 8 from rfl,
    show (4 : Nat) + 5 = 9 from rfl,
    hg 0 (by norm_num), hg 1 (by norm_num), hg 2 (by norm_num), hg 3 (by norm_num),
    hg 4 (by norm_num), hg 5 (by norm_num), hg 6 (by norm_num), hg 7 (by norm_num),
    hg 8 (by norm_num), hg 9 (by norm_num)]
  simp only [gcrBits, codewordBits, List.cons_append, List.nil_append, List.getD_cons_zero,
    List.getD_cons_succ]
  rw [codeword_reassemble _ (bin2gcr_lt _ hhi), codeword_reassemble _ (bin2gcr_lt _ hlo),
    hinv _ hhi, hinv _ hlo]
  exact nibbles_reassemble (v % 256) (Nat.mod_lt _ (by norm_num))

theorem gcrBitsOfBytes_getD (bytes : List Nat) : ∀ m i, m < bytes.length → i < 10 →
    (gcrBitsOfBytes bytes).getD (10 * m + i) false = (gcrBits (bytes.getD m 0)).getD i false := by
  induction bytes with
  | nil => intro m i hm; simp at hm
  | cons b bs ih =>
    intro m i hm hi
    rw [gcrBitsOfBytes_cons]
    cases m with
    | zero =>
      rw [Nat.mul_zero, Nat.zero_add, List.getD_append _ _ _ _ (by rw [gcrBits_length]; exact hi)]
      rfl
    | succ m =>
      rw [List.getD_append_right _ _ _ _ (by rw [gcrBits_length]; omega), gcrBits_length,
        show 10 * (m + 1) + i - 10 = 10 * m + i from by omega,
        ih m i (by simpa using hm) hi]
      rfl

theorem headerBytes_length (a : D64File) (t s : Nat) : (headerBytes a t s).length = 8 := rfl

theorem dataBytes_length (a : D64File) (t s : Nat) : (dataBytes a t s).length = 260 := by
  simp [dataBytes, sectorData]

theorem sectorLayoutWithErrors_length (a : D64File) (t s tailGap : Nat) :
    (sectorLayoutWithErrors a t s tailGap).length = 2832 + 8 * tailGap := by
  simp only [sectorLayoutWithErrors, List.length_append, List.length_replicate,
    gcrBitsOfBytes_length, gapBits_length, headerBytes_length, dataBytes_length]

theorem sectorLayoutWithErrors_header (a : D64File) (t s tailGap j : Nat) (hj : j < 80) :
    (sectorLayoutWithErrors a t s tailGap).getD (40 + j) false =
      (gcrBitsOfBytes (headerBytes a t s)).getD j false := by
  unfold sectorLayoutWithErrors
  rw [List.append_assoc, List.append_assoc, List.append_assoc, List.append_assoc,
    List.getD_append_right _ _ _ _ (by rw [List.length_replicate]; omega), List.length_replicate,
    Nat.add_sub_cancel_left,
    List.getD_append _ _ _ _ (by rw [gcrBitsOfBytes_length, headerBytes_length]; omega)]

theorem sectorLayoutWithErrors_data (a : D64File) (t s tailGap j : Nat) (hj : j < 2600) :
    (sectorLayoutWithErrors a t s tailGap).getD (232 + j) false =
      (gcrBitsOfBytes (dataBytes a t s)).getD j false := by
  have hpre : (List.replicate 40 (decide (a.errorCode t s ≠ 0x3)) ++
      gcrBitsOfBytes (headerBytes a t s) ++ gapBits 9 ++
      List.replicate 40 (decide (a.errorCode t s ≠ 0x3))).length = 232 := by
    simp only [List.length_append, List.length_replicate, gcrBitsOfBytes_length,
      gapBits_length, headerBytes_length]
  unfold sectorLayoutWithErrors
  rw [List.getD_append _ _ _ _ (by
      rw [List.length_append, hpre, gcrBitsOfBytes_length, dataBytes_length]
      omega),
    List.getD_append_right _ _ _ _ (by rw [hpre]; omega), hpre, Nat.add_sub_cancel_left]

/-- Decoding ten entries of the analysis buffer that lie in a block of GCR
encoded bytes of the sector just written. -/
theorem decode_at (invgcr : Nat → Nat) (hinv : ∀ v, v < 16 → invgcr (bin2gcr v) = v)
    (d : Disk) (a : D64File) (t s start tailGap : Nat) (ht : 1 ≤ t)
    (hfit : 2832 + 8 * tailGap ≤ d.lengthOfTrack t)
    (hcap : d.lengthOfTrack t ≤ maxBitsOnTrack)
    (base : Nat) (bytes : List Nat)
    (hblock : ∀ j, j < 10 * bytes.length →
      (sectorLayoutWithErrors a t s tailGap).getD (base + j) false =
        (gcrBitsOfBytes bytes).getD j false)
    (hbase : base + 10 * bytes.length ≤ 2832 + 8 * tailGap)
    (k m : Nat) (hm : m < bytes.length)
    (hk : k = (start + base) % d.lengthOfTrack t + 10 * m) :
    decodeGcr invgcr
      (fun i => trackInfoBit (encodeSector d a t s start tailGap).1 (2 * t - 1) (k + i)) =
      bytes.getD m 0 % 256 := by
  apply decodeGcr_of_bits invgcr hinv
  intro i hi
  have hL : 0 < d.lengthOfTrack t := by omega
  have hmod : (start + base) % d.lengthOfTrack t < d.lengthOfTrack t := Nat.mod_lt _ hL
  have hlen' : (encodeSector d a t s start tailGap).1.lengthOfTrack t = d.lengthOfTrack t := by
    rw [encodeSector_eq_withErrors, writeBits_lengthOfTrack]
  rw [trackInfoBit_eq _ t _ ht (by rw [hlen']; exact hcap) (by rw [hlen']; omega), hk,
    Nat.add_assoc, ← hlen', readBitFromTrack_mod_add, encodeSector_eq_withErrors,
    show start + base + (10 * m + i) = start + (base + (10 * m + i)) from by omega,
    readBit_writeBits_hit d t start _ _
      (by rw [sectorLayoutWithErrors_length]; exact hfit)
      (by rw [sectorLayoutWithErrors_length]; omega),
    hblock _ (by omega), gcrBitsOfBytes_getD bytes m i hm hi]

theorem xor_lt_256 (a b : Nat) (ha : a < 256) (hb : b < 256) : a ^^^ b < 256 :=
  Nat.xor_lt_two_pow (n := 8) ha hb

theorem xor_255_ne (x : Nat) : x ^^^ 255 ≠ x := by
  intro h
  have h0 := congrArg (fun n => n.testBit 0) h
  simp only [Nat.testBit_xor] at h0
  have h255 : (255 : Nat).testBit 0 = true := rfl
  rw [h255] at h0
  cases hx : x.testBit 0 <;> rw [hx] at h0 <;> exact absurd h0 (by decide)

theorem xor_255_255 (a b c : Nat) : (a ^^^ 255) ^^^ (b ^^^ 255) ^^^ c = a ^^^ b ^^^ c := by
  apply Nat.eq_of_testBit_eq
  intro i
  simp only [Nat.testBit_xor]
  cases a.testBit i <;> cases b.testBit i <;> cases c.testBit i <;>
    cases (255 : Nat).testBit i <;> rfl

theorem foldl_xor_lt (vals : List Nat) (hv : ∀ v ∈ vals, v < 256) :
    ∀ c, c < 256 → vals.foldl (fun c b => c ^^^ b) c < 256 := by
  induction vals with
  | nil => intro c hc; exact hc
  | cons v vs ih =>
    intro c hc
    rw [List.foldl_cons]
    exact ih (fun w hw => hv w (List.mem_cons_of_mem _ hw)) _
      (xor_lt_256 c v hc (hv v (List.mem_cons_self _ _)))

theorem sectorData_lt (a : D64File) (t s : Nat) : ∀ v ∈ sectorData a t s, v < 256 := by
  intro v hv
  simp only [sectorData, List.mem_map, List.mem_range] at hv
  obtain ⟨i, _, rfl⟩ := hv
  exact Nat.mod_lt _ (by norm_num)

theorem sectorData_length (a : D64File) (t s : Nat) : (sectorData a t s).length = 256 := by
  simp [sectorData]

/-- The loop of `analyzeSectorDataBlock` over bytes that decode to `vals`. -/
theorem dataLoop_eq (invgcr : Nat → Nat) (bit : Nat → Nat) (vals : List Nat)
    (hv : ∀ v ∈ vals, v < 256) :
    ∀ (l : List Nat) (c o : Nat), l.length = vals.length → c < 256 →
      (∀ j, j < vals.length →
        decodeGcr invgcr (fun i => bit (o + 10 * j + i)) = vals.getD j 0) →
      l.foldl (fun (st : Nat × Nat) _ =>
          ((st.1 ^^^ decodeGcr invgcr (fun i => bit (st.2 + i))) % 256, st.2 + 10)) (c, o) =
        (vals.foldl (fun c b => c ^^^ b) c, o + 10 * vals.length) := by
  induction vals with
  | nil =>
    intro l c o hl _ _
    have : l = [] := List.length_eq_zero.mp hl
    subst this
    rfl
  | cons v vs ih =>
    intro l c o hl hc h
    cases l with
    | nil => simp at hl
    | cons x xs =>
      have hv0 : v < 256 := hv v (List.mem_cons_self _ _)
      have h0 := h 0 (by simp)
      simp only [Nat.mul_zero, Nat.add_zero, List.getD_cons_zero] at h0
      rw [List.foldl_cons]
      simp only [h0]
      rw [Nat.mod_eq_of_lt (xor_lt_256 c v hc hv0),
        ih (fun w hw => hv w (List.mem_cons_of_mem _ hw)) xs (c ^^^ v) (o + 10)
          (by simpa using hl) (xor_lt_256 c v hc hv0) ?_]
      · rw [List.foldl_cons, List.length_cons]
        congr 1
        omega
      · intro j hj
        have hj' := h (j + 1) (by simpa using hj)
        rw [List.getD_cons_succ] at hj'
        rw [← hj']
        congr 1
        funext i
        congr 1
        omega

theorem dataBytes_getD_succ (a : D64File) (t s j : Nat) (hj : j < 256) :
    (dataBytes a t s).getD (j + 1) 0 = (sectorData a t s).getD j 0 := by
  unfold dataBytes
  rw [List.append_assoc, List.singleton_append, List.getD_cons_succ,
    List.getD_append _ _ _ _ (by rw [sectorData_length]; exact hj)]

theorem dataBytes_getD_257 (a : D64File) (t s : Nat) :
    (dataBytes a t s).getD 257 0 =
      if a.errorCode t s = 0x5 then (sectorData a t s).foldl (fun c b => c ^^^ b) 0 ^^^ 0xFF
      else (sectorData a t s).foldl (fun c b => c ^^^ b) 0 := by
  unfold dataBytes
  rw [List.append_assoc, List.singleton_append, List.getD_cons_succ,
    List.getD_append_right _ _ _ _ (by rw [sectorData_length]), sectorData_length]
  rfl

theorem dataBytes_getD_zero (a : D64File) (t s : Nat) :
    (dataBytes a t s).getD 0 0 = if a.errorCode t s = 0x4 then 0x00 else 0x07 := rfl

theorem analyzeHeader_encoded (invgcr : Nat → Nat)
    (hinv : ∀ v, v < 16 → invgcr (bin2gcr v) = v)
    (d : Disk) (a : D64File) (t s start tailGap : Nat)
    (ht : 1 ≤ t) (ht' : t < 256) (hs : s < 256)
    (hid1 : a.diskId1 < 256) (hid2 : a.diskId2 < 256)
    (h2 : a.errorCode t s ≠ 2)
    (hfit : 2832 + 8 * tailGap ≤ d.lengthOfTrack t)
    (hcap : d.lengthOfTrack t ≤ maxBitsOnTrack) :
    analyzeSectorHeaderBlock invgcr
        (trackInfoBit (encodeSector d a t s start tailGap).1 (2 * t - 1))
        ((start + 40) % d.lengthOfTrack t) =
      some (if a.errorCode t s = 9 then [((start + 40) % d.lengthOfTrack t + 10, 10)] else []) := by
  have hdec := fun k m hm hk => decode_at invgcr hinv d a t s start tailGap ht hfit hcap 40
    (headerBytes a t s)
    (fun j hj => sectorLayoutWithErrors_header a t s tailGap j
      (by rw [headerBytes_length] at hj; omega))
    (by rw [headerBytes_length]; omega) k m hm hk
  have d0 := hdec ((start + 40) % d.lengthOfTrack t) 0 (by rw [headerBytes_length]; decide) (by omega)
  have d1 := hdec ((start + 40) % d.lengthOfTrack t + 10) 1 (by rw [headerBytes_length]; decide) (by omega)
  have d2 := hdec ((start + 40) % d.lengthOfTrack t + 10 + 10) 2 (by rw [headerBytes_length]; decide) (by omega)
  have d3 := hdec ((start + 40) % d.lengthOfTrack t + 10 + 20) 3 (by rw [headerBytes_length]; decide) (by omega)
  have d4 := hdec ((start + 40) % d.lengthOfTrack t + 10 + 30) 4 (by rw [headerBytes_length]; decide) (by omega)
  have d5 := hdec ((start + 40) % d.lengthOfTrack t + 10 + 40) 5 (by rw [headerBytes_length]; decide) (by omega)
  have hc : (a.diskId1 ^^^ a.diskId2 ^^^ t ^^^ s) < 256 :=
    xor_lt_256 _ _ (xor_lt_256 _ _ (xor_lt_256 _ _ hid1 hid2) ht') hs
  simp only [headerBytes, List.getD_cons_zero, List.getD_cons_succ, if_neg h2,
    Nat.mod_eq_of_lt hc] at d0 d1 d2 d3 d4 d5
  unfold analyzeSectorHeaderBlock
  simp only [d0, d1, d2, d3, d4, d5]
  rw [if_pos (by decide)]
  rw [Nat.mod_eq_of_lt hs, Nat.mod_eq_of_lt ht']
  by_cases hB : a.errorCode t s = 0xB
  · have h9 : a.errorCode t s ≠ 9 := by rw [hB]; decide
    simp only [if_pos hB, if_neg h9]
    rw [Nat.mod_eq_of_lt (xor_lt_256 _ _ hid1 (by norm_num)),
      Nat.mod_eq_of_lt (xor_lt_256 _ _ hid2 (by norm_num)), Nat.xor_assoc _ _ s,
      xor_255_255, ← Nat.xor_assoc, Nat.mod_eq_of_lt hc]
    simp
  · simp only [if_neg hB]
    rw [Nat.mod_eq_of_lt hid1, Nat.mod_eq_of_lt hid2, Nat.mod_eq_of_lt hc]
    by_cases h9 : a.errorCode t s = 9
    · simp only [if_pos h9]
      rw [Nat.mod_eq_of_lt (xor_lt_256 _ _ hc (by norm_num)),
        if_pos (fun h => xor_255_ne _ h.symm)]
    · simp only [if_neg h9]
      rw [Nat.mod_eq_of_lt hc]
      simp

theorem analyzeData_encoded (invgcr : Nat → Nat)
    (hinv : ∀ v, v < 16 → invgcr (bin2gcr v) = v)
    (d : Disk) (a : D64File) (t s start tailGap : Nat)
    (ht : 1 ≤ t)
    (h4 : a.errorCode t s ≠ 4)
    (hfit : 2832 + 8 * tailGap ≤ d.lengthOfTrack t)
    (hcap : d.lengthOfTrack t ≤ maxBitsOnTrack) :
    analyzeSectorDataBlock invgcr
        (trackInfoBit (encodeSector d a t s start tailGap).1 (2 * t - 1))
        ((start + 232) % d.lengthOfTrack t) =
      some (if a.errorCode t s = 5 then [((start + 232) % d.lengthOfTrack t + 2570, 10)]
        else []) := by
  have hdec := fun k m hm hk => decode_at invgcr hinv d a t s start tailGap ht hfit hcap 232
    (dataBytes a t s)
    (fun j hj => sectorLayoutWithErrors_data a t s tailGap j
      (by rw [dataBytes_length] at hj; omega))
    (by rw [dataBytes_length]; omega) k m hm hk
  have d0 := hdec ((start + 232) % d.lengthOfTrack t) 0 (by rw [dataBytes_length]; decide)
    (by omega)
  rw [dataBytes_getD_zero, if_neg h4] at d0
  have hx : (sectorData a t s).foldl (fun c b => c ^^^ b) 0 < 256 :=
    foldl_xor_lt _ (sectorData_lt a t s) 0 (by norm_num)
  have hloop := dataLoop_eq invgcr
    (trackInfoBit (encodeSector d a t s start tailGap).1 (2 * t - 1)) (sectorData a t s)
    (sectorData_lt a t s) (List.range 256) 0 ((start + 232) % d.lengthOfTrack t + 10)
    (by rw [List.length_range, sectorData_length]) (by norm_num)
    (fun j hj => by
      rw [sectorData_length] at hj
      rw [hdec _ (j + 1) (by rw [dataBytes_length]; omega) (by omega),
        dataBytes_getD_succ a t s j hj]
      exact Nat.mod_eq_of_lt (by
        by_cases hlt : j < (sectorData a t s).length
        · rw [List.getD_eq_getElem _ _ hlt]
          exact sectorData_lt a t s _ (List.getElem_mem _)
        · rw [sectorData_length] at hlt
          exact absurd hj hlt))
  rw [sectorData_length] at hloop
  have dc := hdec ((start + 232) % d.lengthOfTrack t + 10 + 10 * 256) 257
    (by rw [dataBytes_length]; decide) (by omega)
  rw [dataBytes_getD_257] at dc
  unfold analyzeSectorDataBlock
  simp only [d0]
  rw [if_pos (by decide), hloop]
  dsimp only
  rw [dc]
  by_cases h5 : a.errorCode t s = 5
  · simp only [if_pos h5]
    rw [Nat.mod_eq_of_lt (xor_lt_256 _ _ hx (by norm_num)),
      if_pos (fun h => xor_255_ne _ h.symm)]
  · simp only [if_neg h5]
    rw [Nat.mod_eq_of_lt hx]
    simp

theorem validPair_bounds (t s : Nat) (h : isValidTrackSectorPair t s = true) :
    1 ≤ t ∧ t < 256 ∧ s < 256 := by
  simp only [isValidTrackSectorPair, isTrackNumber, Bool.and_eq_true, decide_eq_true_eq] at h
  obtain ⟨⟨h1, h2⟩, h3⟩ := h
  have hn : numberOfSectorsInTrack t ≤ 21 := by
    interval_cases t <;> decide
  exact ⟨h1, by omega, by omega⟩

/-- C22 (error codes and checksum faults). For a sector written by
`encodeSector` whose block IDs are intact (error code not 2, 3 or 4), on a track
that holds the sector: `analyzeSectorHeaderBlock`, applied to the analysis
buffer of the track at the offset of the header block, passes its assertion and
logs an invalid header checksum if and only if the error code is 9 (not for the
error code 0xB); `analyzeSectorDataBlock`, applied at the offset of the data
block, passes its assertion and logs an invalid data checksum if and only if the
error code is 5. -/
theorem errorCode_checksums (invgcr : Nat → Nat)
    (hinv : ∀ v, v < 16 → invgcr (bin2gcr v) = v)
    (d : Disk) (a : D64File) (t s start tailGap : Nat)
    (hvalid : isValidTrackSectorPair t s = true)
    (hid1 : a.diskId1 < 256) (hid2 : a.diskId2 < 256)
    (herr : a.errorCode t s ∉ [2, 3, 4])
    (hfit : 2832 + 8 * tailGap ≤ d.lengthOfTrack t)
    (hcap : d.lengthOfTrack t ≤ maxBitsOnTrack) :
    analyzeSectorHeaderBlock invgcr
        (trackInfoBit (encodeSector d a t s start tailGap).1 (2 * t - 1))
        ((start + 40) % d.lengthOfTrack t) =
      some (if a.errorCode t s = 9 then [((start + 40) % d.lengthOfTrack t + 10, 10)] else []) ∧
    analyzeSectorDataBlock invgcr
        (trackInfoBit (encodeSector d a t s start tailGap).1 (2 * t - 1))
        ((start + 232) % d.lengthOfTrack t) =
      some (if a.errorCode t s = 5 then [((start + 232) % d.lengthOfTrack t + 2570, 10)]
        else []) := by
  obtain ⟨h1, h2, h3⟩ := validPair_bounds t s hvalid
  simp only [List.mem_cons, List.mem_singleton, not_or, List.mem_nil_iff, or_false] at herr
  exact ⟨analyzeHeader_encoded invgcr hinv d a t s start tailGap h1 h2 h3 hid1 hid2 herr.1 hfit hcap,
    analyzeData_encoded invgcr hinv d a t s start tailGap h1 herr.2.2 hfit hcap⟩

/-- Witness for C22: sector 0 of track 18 of the sample image with the error
code 9, written at the start of the track of a cleared disk. -/
theorem errorCode_checksums_witness :
    analyzeSectorHeaderBlock invgcrTable
        (trackInfoBit (encodeSector blankDisk (sampleD64WithError 9) 18 0 0 17).1 (2 * 18 - 1))
        ((0 + 40) % blankDisk.lengthOfTrack 18) =
      some (if (sampleD64WithError 9).errorCode 18 0 = 9 then
        [((0 + 40) % blankDisk.lengthOfTrack 18 + 10, 10)] else []) :=
  (errorCode_checksums invgcrTable (by decide) blankDisk (sampleD64WithError 9) 18 0 0 17
    (by decide) (by decide) (by decide) (by decide) (by decide) (by decide)).1

/-! ### CIA: the level bits of `feed` and the delay flags -/

theorem sub_or (x y m : Nat) (h1 : x &&& m = x) (h2 : y &&& m = y) :
    (x ||| y) &&& m = x ||| y := by
  apply Nat.eq_of_testBit_eq
  intro i
  have a := congrArg (fun n => n.testBit i) h1
  have b := congrArg (fun n => n.testBit i) h2
  simp only [Nat.testBit_and, Nat.testBit_or] at a b ⊢
  cases hx : x.testBit i <;> cases hy : y.testBit i <;> cases hm : m.testBit i <;> simp_all

theorem sub_and (x y m : Nat) (h1 : x &&& m = x) : (x &&& y) &&& m = x &&& y := by
  rw [Nat.land_assoc, Nat.land_comm y m, ← Nat.land_assoc, h1]

theorem sub_xor (x y m : Nat) (h1 : x &&& m = x) (h2 : y &&& m = y) :
    (x ^^^ y) &&& m = x ^^^ y := by
  apply Nat.eq_of_testBit_eq
  intro i
  have a := congrArg (fun n => n.testBit i) h1
  have b := congrArg (fun n => n.testBit i) h2
  simp only [Nat.testBit_and, Nat.testBit_xor] at a b ⊢
  cases hx : x.testBit i <;> cases hy : y.testBit i <;> cases hm : m.testBit i <;> simp_all

theorem wakeUp_feed (c : CIA) : c.wakeUp.feed = c.feed ∧ c.wakeUp.delay = c.delay := by
  rw [wakeUp_eq]
  exact ⟨rfl, rfl⟩

theorem timerA_feed (c : CIA) (h : c.feed &&& feedBits = c.feed) :
    c.timerA.1.feed &&& feedBits = c.timerA.1.feed := by
  simp only [CIA.timerA, CIA.reloadTimerA, CIA.ite_eta, ite_self]
  split_ifs <;> first | exact h | exact sub_and _ _ _ h

theorem timerB_feed (c : CIA) (h : c.feed &&& feedBits = c.feed) :
    c.timerB.1.feed &&& feedBits = c.timerB.1.feed := by
  simp only [CIA.timerB, CIA.reloadTimerB, CIA.ite_eta, ite_self]
  split_ifs <;> first | exact h | exact sub_and _ _ _ h

theorem serialRegister_feed (c : CIA) (tA : Bool) (h : c.feed &&& feedBits = c.feed) :
    (c.serialRegister tA).feed &&& feedBits = (c.serialRegister tA).feed := by
  have hclk : CIASerClk0 &&& feedBits = CIASerClk0 := by decide
  simp only [CIA.serialRegister, CIA.ite_eta, ite_self]
  split_ifs <;>
    first
    | exact h
    | exact sub_xor _ _ _ h hclk
    | exact sub_xor _ _ _ (sub_and _ _ _ h) hclk

theorem interruptLogic_feed (c : CIA) (tA tB : Bool) :
    (c.interruptLogic tA tB).feed = c.feed := by
  have e1 : ∀ x : CIA, (x.setTimerIcrBits tA tB).feed = x.feed := by
    intro x
    simp only [CIA.setTimerIcrBits, CIA.ite_eta, ite_self]
  have e2 : ∀ x : CIA, (x.checkTimerIrq tA tB).feed = x.feed := fun x =>
    (checkTimerIrq_frame x tA tB).2.2
  have e3 : ∀ x : CIA, x.checkTodIrq.feed = x.feed := by
    intro x
    simp only [CIA.checkTodIrq, CIA.triggerTodIrq, CIA.ite_eta, ite_self]
  have e4 : ∀ x : CIA, x.checkSerialIrq.feed = x.feed := by
    intro x
    simp only [CIA.checkSerialIrq, CIA.triggerSerialIrq, CIA.ite_eta, ite_self]
  have e5 : ∀ x : CIA, x.updateIcrAndLine.feed = x.feed := by
    intro x
    simp only [CIA.updateIcrAndLine, pullDownInterruptLine_eq, releaseInterruptLine_eq,
      CIA.ite_eta, ite_self]
  unfold CIA.interruptLogic
  simp only [e5, e4, e3, e2, e1]

theorem executeOneCycle_feed (c : CIA) (h : c.feed &&& feedBits = c.feed) :
    c.executeOneCycle.feed &&& feedBits = c.executeOneCycle.feed := by
  rw [(executeOneCycle_delay c).2]
  unfold CIA.beforeShift
  simp only [interruptLogic_feed, (timerOutput_frame _ _ _).2.2.2.2.2]
  exact serialRegister_feed _ _ (timerB_feed _ (timerA_feed _ (by rw [(wakeUp_feed c).1]; exact h)))

theorem updatePA_feed (env : PortEnv) (c : CIA) : (c.updatePA env).feed = c.feed := by
  unfold CIA.updatePA
  cases c.kind <;> rfl

theorem updatePB_feed (env : PortEnv) (c : CIA) : (c.updatePB env).feed = c.feed := by
  unfold CIA.updatePB
  cases c.kind <;> rfl

theorem peek_feed (env : PortEnv) (c : CIA) (addr : Nat) : (c.peek env addr).2.feed = c.feed := by
  unfold CIA.peek
  split <;>
    first
    | exact (wakeUp_feed c).1
    | (simp only [updatePA_feed, updatePB_feed]; exact (wakeUp_feed c).1)
    | (simp only [CIA.ite_eta, ite_self]; exact (wakeUp_feed c).1)

theorem checkForInterrupt_feed (c : CIA) : c.checkForInterrupt.feed = c.feed := by
  simp only [CIA.checkForInterrupt, CIA.todInterrupt, CIA.ite_eta, ite_self]

theorem pokeControlRegA_feed (env : PortEnv) (c : CIA) (value : Nat)
    (h : c.feed &&& feedBits = c.feed) :
    (c.pokeControlRegA env value).feed &&& feedBits = (c.pokeControlRegA env value).feed := by
  have hA : CIACountA0 &&& feedBits = CIACountA0 := by decide
  have hO : CIAOneShotA0 &&& feedBits = CIAOneShotA0 := by decide
  have hw := (wakeUp_feed c).1
  simp only [CIA.pokeControlRegA, updatePB_feed, CIA.ite_eta, ite_self, hw]
  split_ifs <;>
    first
    | exact h
    | (repeat' first
        | exact h
        | exact hA
        | exact hO
        | apply sub_and
        | apply sub_or)

theorem pokeControlRegB_feed (env : PortEnv) (c : CIA) (value : Nat)
    (h : c.feed &&& feedBits = c.feed) :
    (c.pokeControlRegB env value).feed &&& feedBits = (c.pokeControlRegB env value).feed := by
  have hB : CIACountB0 &&& feedBits = CIACountB0 := by decide
  have hO : CIAOneShotB0 &&& feedBits = CIAOneShotB0 := by decide
  simp only [CIA.pokeControlRegB, updatePB_feed, CIA.ite_eta, ite_self]
  split_ifs <;>
    first
    | exact h
    | (repeat' first
        | exact h
        | exact hB
        | exact hO
        | apply sub_and
        | apply sub_or)

theorem pokeInterruptControl_feed (c : CIA) (value : Nat) :
    (c.pokeInterruptControl value).feed = c.feed := by
  simp only [CIA.pokeInterruptControl, CIA.ite_eta, ite_self]

theorem poke_feed (env : PortEnv) (c : CIA) (addr value : Nat)
    (h : c.feed &&& feedBits = c.feed) :
    (c.poke env addr value).feed &&& feedBits = (c.poke env addr value).feed := by
  have hS : CIASerLoad0 &&& feedBits = CIASerLoad0 := by decide
  have hw : c.wakeUp.feed &&& feedBits = c.wakeUp.feed := by rw [(wakeUp_feed c).1]; exact h
  unfold CIA.poke
  dsimp only
  by_cases hE : addr = 0x0E
  · rw [if_pos hE]
    exact pokeControlRegA_feed env c _ h
  · rw [if_neg hE]
    split
    · exact (updatePA_feed env _).symm ▸ hw
    · exact (updatePB_feed env _).symm ▸ hw
    · exact (updatePA_feed env _).symm ▸ hw
    · exact (updatePB_feed env _).symm ▸ hw
    · simp only [CIA.ite_eta, ite_self]; exact hw
    · simp only [CIA.ite_eta, ite_self]; exact hw
    · simp only [CIA.ite_eta, ite_self]; exact hw
    · simp only [CIA.ite_eta, ite_self]; exact hw
    · simp only [CIA.setAlarmTenth, CIA.setTodTenth, checkForInterrupt_feed, CIA.ite_eta, ite_self]
      exact hw
    · simp only [CIA.setAlarmSeconds, CIA.setTodSeconds, checkForInterrupt_feed, CIA.ite_eta,
        ite_self]
      exact hw
    · simp only [CIA.setAlarmMinutes, CIA.setTodMinutes, checkForInterrupt_feed, CIA.ite_eta,
        ite_self]
      exact hw
    · simp only [CIA.setAlarmHours, CIA.setTodHours, checkForInterrupt_feed, CIA.ite_eta, ite_self]
      exact hw
    · exact sub_or _ _ _ hw hS
    · rw [pokeInterruptControl_feed]; exact hw
    · exact pokeControlRegB_feed env _ _ hw
    · exact hw

theorem call_feed (c : CIA) (k : CIACall) (h : c.feed &&& feedBits = c.feed) :
    (c.call k).feed &&& feedBits = (c.call k).feed := by
  cases k with
  | poke env addr value => exact poke_feed env c addr value h
  | peek env addr =>
    show (c.peek env addr).2.feed &&& feedBits = (c.peek env addr).2.feed
    rw [peek_feed]
    exact h
  | executeOneCycle => exact executeOneCycle_feed c h
  | surroundings cpu cpuCycle tod => exact h

theorem calls_feed (l : List CIACall) : ∀ c : CIA, c.feed &&& feedBits = c.feed →
    (c.calls l).feed &&& feedBits = (c.calls l).feed := by
  induction l with
  | nil => intro c h; exact h
  | cons k l ih =>
    intro c h
    exact ih (c.call k) (call_feed c k h)

theorem shift_mask (x f m n : Nat) (hmn : m &&& n = 0) (hf : f &&& n = f) :
    ((x &&& m) ||| f) &&& n = f := by
  apply Nat.eq_of_testBit_eq
  intro i
  have a := congrArg (fun k => k.testBit i) hmn
  have b := congrArg (fun k => k.testBit i) hf
  simp only [Nat.testBit_and, Nat.testBit_or, Nat.zero_testBit] at a b ⊢
  cases hx : x.testBit i <;> cases hy : f.testBit i <;> cases hm : m.testBit i <;>
    cases hn : n.testBit i <;> simp_all

theorem executeOneCycle_outside (c : CIA) (h : c.feed &&& feedBits = c.feed) :
    c.executeOneCycle.delay &&& not64 DelayMask = c.executeOneCycle.feed := by
  have hf := executeOneCycle_feed c h
  have hfn : c.executeOneCycle.feed &&& not64 DelayMask = c.executeOneCycle.feed := by
    rw [← hf, Nat.land_assoc, show feedBits &&& not64 DelayMask = feedBits from by decide]
  rw [(executeOneCycle_delay c).2] at hfn
  rw [(executeOneCycle_delay c).1, (executeOneCycle_delay c).2]
  exact shift_mask _ _ _ _ (by decide) hfn

/-- C29 (delay mask invariant), amended. In every CIA state that is reached from
a state with an empty `feed`, as it is after reset, through `poke`, `peek` and
`executeOneCycle` (and changes that other components make to the CPU lines, the
cycle counter and the clock), `feed` contains only the level bits `CountA0`,
`CountB0`, `OneShotA0`, `OneShotB0`, `SerLoad0` and `SerClk0`. At the end of
every `executeOneCycle()` the bits of `delay` outside `DelayMask` are the bits
of `feed`: `delay` has no bit set outside `DelayMask` and the six level
bits. -/
theorem feed_level_bits (c0 : CIA) (l : List CIACall) (h0 : c0.feed = 0) :
    (c0.calls l).feed &&& feedBits = (c0.calls l).feed ∧
    (c0.calls l).executeOneCycle.delay &&& not64 DelayMask =
      (c0.calls l).executeOneCycle.feed ∧
    (c0.calls l).executeOneCycle.delay &&& not64 (DelayMask ||| feedBits) = 0 := by
  have h : (c0.calls l).feed &&& feedBits = (c0.calls l).feed :=
    calls_feed l c0 (by rw [h0]; rfl)
  have ho := executeOneCycle_outside _ h
  have hf := executeOneCycle_feed _ h
  refine ⟨h, ho, ?_⟩
  rw [show not64 (DelayMask ||| feedBits) = not64 DelayMask &&& not64 feedBits from by decide,
    ← Nat.land_assoc, ho, ← hf, Nat.land_assoc,
    show feedBits &&& not64 feedBits = 0 from by decide, Nat.and_zero]

/-- Witness for C29: a CIA 1 after reset, timer A started in one-shot mode and
one cycle executed. -/
theorem feed_level_bits_witness :
    ((resetCIA1 .MOS_6526 true runningTOD ⟨0, 0, 0, 0⟩ 0).calls
      [.poke idleEnv 0x0E 0x09, .executeOneCycle]).feed &&& feedBits =
    ((resetCIA1 .MOS_6526 true runningTOD ⟨0, 0, 0, 0⟩ 0).calls
      [.poke idleEnv 0x0E 0x09, .executeOneCycle]).feed :=
  (feed_level_bits (resetCIA1 .MOS_6526 true runningTOD ⟨0, 0, 0, 0⟩ 0)
    [.poke idleEnv 0x0E 0x09, .executeOneCycle] rfl).1

/-- Counterexample to C29 as stated: on a CIA 1 after reset, `poke(0x0E, 0x01)`
starts timer A; at the end of the next `executeOneCycle()` the bit `CountA0` is
set in `delay`, and `CountA0` lies outside `DelayMask`. -/
theorem feed_level_bits_counterexample :
    ((resetCIA1 .MOS_6526 true runningTOD ⟨0, 0, 0, 0⟩ 0).calls
      [.poke idleEnv 0x0E 0x01, .executeOneCycle]).delay &&& CIACountA0 = CIACountA0 ∧
    CIACountA0 &&& DelayMask = 0 ∧
    ((resetCIA1 .MOS_6526 true runningTOD ⟨0, 0, 0, 0⟩ 0).calls
      [.poke idleEnv 0x0E 0x01, .executeOneCycle]).delay &&& not64 DelayMask ≠ 0 := by
  decide



/-! ### NMI edge registration -/

/-- C31 (NMI edge registration). `pullDownNmiLine(s)` writes 1 to the edge
detector if and only if `nmiLine` was 0 before the call: with `nmiLine == 0` the
detector holds 1 afterwards, otherwise it is left as it was. After a pull down by
a source `s1`, a pull down by a further source leaves the edge detector as it
is, and `releaseNmiLine` never changes the edge detector. -/
theorem nmi_edge_registration (c : CPULines) (s s1 : IntSource) :
    (c.nmiLine = 0 → (pullDownNmiLine c s).edgeDetector = 1) ∧
    (c.nmiLine ≠ 0 → (pullDownNmiLine c s).edgeDetector = c.edgeDetector) ∧
    (pullDownNmiLine (pullDownNmiLine c s1) s).edgeDetector =
      (pullDownNmiLine c s1).edgeDetector ∧
    (releaseNmiLine c s).edgeDetector = c.edgeDetector := by
  have hval : ∀ x : IntSource, x.val ≠ 0 := by
    intro x
    cases x <;> decide
  refine ⟨?_, ?_, ?_, rfl⟩
  · intro h
    simp [pullDownNmiLine, h]
  · intro h
    simp [pullDownNmiLine, h]
  · have hedge : ∀ (c : CPULines) (s : IntSource), c.nmiLine ≠ 0 →
        (pullDownNmiLine c s).edgeDetector = c.edgeDetector := by
      intro c s h
      simp [pullDownNmiLine, h]
    apply hedge
    intro h0
    have h1 : (pullDownNmiLine c s1).nmiLine = c.nmiLine ||| s1.val := by
      unfold pullDownNmiLine
      split_ifs <;> rfl
    rw [h1] at h0
    have h2 := lor_land_self c.nmiLine s1.val
    rw [h0, Nat.zero_and] at h2
    exact hval s1 h2.symm

/-- Witness for C31: the CIA pulls the line down while it is high. -/
theorem nmi_edge_registration_witness :
    (pullDownNmiLine ⟨0, 0, 0, 0⟩ .INTSRC_CIA).edgeDetector = 1 :=
  (nmi_edge_registration ⟨0, 0, 0, 0⟩ .INTSRC_CIA .INTSRC_CIA).1 rfl

/-! ### Emulator thread -/

/-- C32 (thread state machine). In the state-change step of `Thread::main`, a
pending request for one of the six transitions among `EXEC_OFF`, `EXEC_PAUSED`
and `EXEC_RUNNING` sets `state` to `newState` after exactly the matching
component calls, and the loop goes on; `powerOff` is applied to a running
emulator only after `pause`. A request for `EXEC_HALTED` from any other state
calls `halt`, sets `state` to `EXEC_HALTED` and ends the loop. -/
theorem thread_state_machine :
    Thread.stateChange .EXEC_OFF .EXEC_PAUSED = ⟨[.powerOn], .EXEC_PAUSED, false, false⟩ ∧
    Thread.stateChange .EXEC_OFF .EXEC_RUNNING =
      ⟨[.powerOn, .run], .EXEC_RUNNING, false, false⟩ ∧
    Thread.stateChange .EXEC_PAUSED .EXEC_OFF = ⟨[.powerOff], .EXEC_OFF, false, false⟩ ∧
    Thread.stateChange .EXEC_PAUSED .EXEC_RUNNING = ⟨[.run], .EXEC_RUNNING, false, false⟩ ∧
    Thread.stateChange .EXEC_RUNNING .EXEC_OFF =
      ⟨[.pause, .powerOff], .EXEC_OFF, false, false⟩ ∧
    Thread.stateChange .EXEC_RUNNING .EXEC_PAUSED = ⟨[.pause], .EXEC_PAUSED, false, false⟩ ∧
    (∀ s new, .powerOff ∈ (Thread.stateChange s new).calls → s = .EXEC_RUNNING →
      (Thread.stateChange s new).calls = [.pause, .powerOff]) ∧
    (∀ s, s ≠ .EXEC_HALTED →
      Thread.stateChange s .EXEC_HALTED = ⟨[.halt], .EXEC_HALTED, true, false⟩) := by
  refine ⟨rfl, rfl, rfl, rfl, rfl, rfl, ?_, ?_⟩
  · intro s new h hs
    subst hs
    cases new <;> first | rfl | exact absurd h (by decide)
  · intro s hs
    cases s <;> first | rfl | exact absurd rfl hs

/-- Witness for C32: a halt request reaches a running emulator. -/
theorem thread_state_machine_witness :
    Thread.stateChange .EXEC_RUNNING .EXEC_HALTED = ⟨[.halt], .EXEC_HALTED, true, false⟩ :=
  thread_state_machine.2.2.2.2.2.2.2 .EXEC_RUNNING (by decide)

/-- C40 (termination of `Thread::wakeUp`): what the code does. In the mode
`Periodic` a call returns at once. In the mode `Pulsed` the function calls
itself without changing anything: no amount of fuel makes the call return. -/
theorem wakeUp_recursion (fuel : Nat) :
    Thread.wakeUp .Periodic (fuel + 1) = some () ∧ Thread.wakeUp .Pulsed fuel = none := by
  refine ⟨rfl, ?_⟩
  induction fuel with
  | zero => rfl
  | succ n ih =>
    show (if SyncMode.Pulsed = SyncMode.Pulsed then Thread.wakeUp .Pulsed n else some ()) = none
    rw [if_pos rfl]
    exact ih

/-! ### Logical sector numbers -/

/-- C37 (cumulative sector numbering): what the code has. `firstSectorNr` of
track 1 is 0, and the entry of track `t + 1` is that of track `t` plus the number
of sectors of track `t` for every `t` from 1 to 41 except 9 and 10: the entry of
track 10 is 289, where `168 + 21 = 189` is due, and the entry of track 11 is
210. -/
theorem firstSectorNr_table :
    firstSectorNr 1 = 0 ∧
    (List.range 42).filter (fun t => decide (1 ≤ t) &&
      decide (firstSectorNr (t + 1) ≠ firstSectorNr t + numberOfSectorsInTrack t)) = [9, 10] ∧
    firstSectorNr 9 = 168 ∧ numberOfSectorsInTrack 9 = 21 ∧ firstSectorNr 10 = 289 ∧
    firstSectorNr 11 = 210 := by
  decide

/-! ### GeoRAM -/

theorem land_0x3F (p : Nat) : p &&& 0x3F = p % 64 :=
  Nat.and_pow_two_sub_one_eq_mod p 6

theorem geoRam_offset_eq (g : GeoRAM) (addr n : Nat) (hn : 1 ≤ n) (hn' : n ≤ 256)
    (hcap : g.ramCapacity = n * 16384) (hb : g.bank < 256) (ha : addr < 256) :
    g.offset addr = (g.bank % n) * 16384 + (g.page % 64) * 256 + addr := by
  have h1 : (g.bank * 16384) % 2 ^ 32 = g.bank * 16384 := Nat.mod_eq_of_lt (by omega)
  have h2 : (g.bank * 16384) % (n * 16384) = (g.bank % n) * 16384 :=
    Nat.mul_mod_mul_right _ _ _
  have h3 : g.bank % n < n := Nat.mod_lt _ (by omega)
  have h4 : (g.bank % n) * 16384 ≤ 255 * 16384 := Nat.mul_le_mul_right _ (by omega)
  unfold GeoRAM.offset
  simp only [h1, hcap, h2, land_0x3F, Nat.mod_eq_of_lt ha]
  exact Nat.mod_eq_of_lt (by omega)

theorem attachGeoRam_capacity (capacity bytes : Nat) (h : attachGeoRamCartridge capacity = some bytes) :
    ∃ n, 1 ≤ n ∧ n ≤ 256 ∧ bytes = n * 16384 ∧ n = bytes / 16384 := by
  unfold attachGeoRamCartridge at h
  split_ifs at h with hc
  simp only [List.mem_cons, List.mem_singleton, List.mem_nil_iff, or_false] at hc
  have hb : bytes = capacity * 1024 % 2 ^ 32 := (Option.some.inj h).symm
  rcases hc with rfl | rfl | rfl | rfl | rfl | rfl | rfl
  · exact ⟨4, by decide, by decide, by rw [hb]; norm_num, by rw [hb]; norm_num⟩
  · exact ⟨8, by decide, by decide, by rw [hb]; norm_num, by rw [hb]; norm_num⟩
  · exact ⟨16, by decide, by decide, by rw [hb]; norm_num, by rw [hb]; norm_num⟩
  · exact ⟨32, by decide, by decide, by rw [hb]; norm_num, by rw [hb]; norm_num⟩
  · exact ⟨64, by decide, by decide, by rw [hb]; norm_num, by rw [hb]; norm_num⟩
  · exact ⟨128, by decide, by decide, by rw [hb]; norm_num, by rw [hb]; norm_num⟩
  · exact ⟨256, by decide, by decide, by rw [hb]; norm_num, by rw [hb]; norm_num⟩

/-- C38 (GeoRAM window addressing). For every capacity that
`attachGeoRamCartridge` accepts and all register values and addresses in 0..255,
`offset(addr)` is smaller than the RAM capacity, and two settings yield the same
offset if and only if they agree in the bank modulo `capacity / 16384`, in the
page modulo 64 and in the address. -/
theorem geoRam_offset (capacity bytes : Nat) (bank page addr bank' page' addr' : Nat)
    (hcap : attachGeoRamCartridge capacity = some bytes)
    (hb : bank < 256) (_hp : page < 256) (ha : addr < 256)
    (hb' : bank' < 256) (_hp' : page' < 256) (ha' : addr' < 256) :
    GeoRAM.offset ⟨bank, page, bytes⟩ addr < bytes ∧
    (GeoRAM.offset ⟨bank, page, bytes⟩ addr = GeoRAM.offset ⟨bank', page', bytes⟩ addr' ↔
      bank % (bytes / 16384) = bank' % (bytes / 16384) ∧ page % 64 = page' % 64 ∧
        addr = addr') := by
  obtain ⟨n, hn1, hn2, hbytes, hdiv⟩ := attachGeoRam_capacity capacity bytes hcap
  rw [← hdiv]
  rw [geoRam_offset_eq ⟨bank, page, bytes⟩ addr n hn1 hn2 hbytes hb ha,
    geoRam_offset_eq ⟨bank', page', bytes⟩ addr' n hn1 hn2 hbytes hb' ha']
  have h3 : bank % n < n := Nat.mod_lt _ (by omega)
  have h3' : bank' % n < n := Nat.mod_lt _ (by omega)
  have h4 : (bank % n) * 16384 + 16384 ≤ n * 16384 := by
    have : (bank % n + 1) * 16384 ≤ n * 16384 := Nat.mul_le_mul_right _ h3
    omega
  show bank % n * 16384 + page % 64 * 256 + addr < bytes ∧
    (bank % n * 16384 + page % 64 * 256 + addr = bank' % n * 16384 + page' % 64 * 256 + addr' ↔ _)
  constructor
  · omega
  · constructor
    · intro h
      omega
    · rintro ⟨e1, e2, e3⟩
      rw [e1, e2, e3]

/-- Witness for C38: a GeoRAM of 512 KB (32 banks). -/
theorem geoRam_offset_witness :
    GeoRAM.offset ⟨33, 65, 524288⟩ 7 < 524288 ∧
    (GeoRAM.offset ⟨33, 65, 524288⟩ 7 = GeoRAM.offset ⟨1, 1, 524288⟩ 7 ↔
      33 % (524288 / 16384) = 1 % (524288 / 16384) ∧ 65 % 64 = 1 % 64 ∧ 7 = 7) :=
  geoRam_offset 512 524288 33 65 7 1 1 7 (by decide) (by decide) (by decide) (by decide)
    (by decide) (by decide) (by decide)

/-! ### Sleeping CIAs -/

theorem sleep_wakeUpCycle (c : CIA) :
    c.sleep.wakeUpCycle =
      min (if ¬ (c.feed &&& CIACountA0 ≠ 0) then UINT64_MAX
            else if c.counterA > 2 then (c.cpuCycle + c.counterA - 1) % 2 ^ 64 else 0)
          (if ¬ (c.feed &&& CIACountB0 ≠ 0) then UINT64_MAX
            else if c.counterB > 2 then (c.cpuCycle + c.counterB - 1) % 2 ^ 64 else 0) :=
  rfl

theorem wakeUp_counterA (c : CIA) :
    c.wakeUp.counterA =
      if c.idleCounter ≠ 0 ∧ c.feed &&& CIACountA0 ≠ 0 then
        (c.counterA + 2 ^ 64 - c.idleCounter % 2 ^ 64) % 2 ^ 16
      else c.counterA := by
  unfold CIA.wakeUp
  by_cases h0 : c.idleCounter ≠ 0 <;> by_cases hA : c.feed &&& CIACountA0 ≠ 0 <;>
    by_cases hB : c.feed &&& CIACountB0 ≠ 0 <;> simp [h0, hA, hB]

theorem wakeUp_counterB (c : CIA) :
    c.wakeUp.counterB =
      if c.idleCounter ≠ 0 ∧ c.feed &&& CIACountB0 ≠ 0 then
        (c.counterB + 2 ^ 64 - c.idleCounter % 2 ^ 64) % 2 ^ 16
      else c.counterB := by
  unfold CIA.wakeUp
  by_cases h0 : c.idleCounter ≠ 0 <;> by_cases hA : c.feed &&& CIACountA0 ≠ 0 <;>
    by_cases hB : c.feed &&& CIACountB0 ≠ 0 <;> simp [h0, hA, hB]

theorem wakeUp_sub (n k : Nat) (hn : n < 2 ^ 16) (hk : k ≤ n) :
    (n + 2 ^ 64 - k % 2 ^ 64) % 2 ^ 16 = n - k := by
  have e : k % 2 ^ 64 = k := Nat.mod_eq_of_lt (by omega)
  rw [e]
  omega

/-- C35 (sleeping never skips an underflow). `CIA::sleep()` is called from
`executeOneCycle()` only, so that it is entered at a CPU cycle `c >= 1`. If it is
entered with timer A running, then either `counterA <= 2` and `wakeUpCycle` is 0,
or `wakeUpCycle <= c + counterA - 1`; for every number `k` of skipped cycles with
`k <= wakeUpCycle - c` (a difference of integers), `CIA::wakeUp()` with
`idleCounter = k` meets its assertion `counterA >= idleCounter`, decrements
`counterA` by exactly `k`, and leaves `counterA >= 1`. The same holds for timer B,
and the counter of a stopped timer is left as it is by `wakeUp()`. The counters
are 16-bit values. -/
theorem sleep_wakeUp_counter (c : CIA) (k : Nat)
    (hA : c.counterA < 2 ^ 16) (hB : c.counterB < 2 ^ 16) (hc : 1 ≤ c.cpuCycle)
    (hk : (k : Int) ≤ (c.sleep.wakeUpCycle : Int) - (c.cpuCycle : Int)) :
    (c.feed &&& CIACountA0 ≠ 0 →
      ((c.counterA ≤ 2 ∧ c.sleep.wakeUpCycle = 0) ∨
        c.sleep.wakeUpCycle ≤ c.cpuCycle + c.counterA - 1) ∧
      (c.asleep k).counterA ≥ (c.asleep k).idleCounter ∧
      (c.asleep k).wakeUp.counterA = c.counterA - k ∧
      1 ≤ (c.asleep k).wakeUp.counterA) ∧
    (c.feed &&& CIACountB0 ≠ 0 →
      ((c.counterB ≤ 2 ∧ c.sleep.wakeUpCycle = 0) ∨
        c.sleep.wakeUpCycle ≤ c.cpuCycle + c.counterB - 1) ∧
      (c.asleep k).counterB ≥ (c.asleep k).idleCounter ∧
      (c.asleep k).wakeUp.counterB = c.counterB - k ∧
      1 ≤ (c.asleep k).wakeUp.counterB) ∧
    (c.feed &&& CIACountA0 = 0 → c.wakeUp.counterA = c.counterA) ∧
    (c.feed &&& CIACountB0 = 0 → c.wakeUp.counterB = c.counterB) := by
  have hw := sleep_wakeUpCycle c
  have ea : (c.asleep k).counterA = c.counterA := rfl
  have eb : (c.asleep k).counterB = c.counterB := rfl
  have ei : (c.asleep k).idleCounter = k := rfl
  have ef : (c.asleep k).feed = c.feed := rfl
  refine ⟨?_, ?_, ?_, ?_⟩
  · intro hf
    rw [if_neg (not_not.mpr hf)] at hw
    have hle : c.sleep.wakeUpCycle ≤
        (if c.counterA > 2 then (c.cpuCycle + c.counterA - 1) % 2 ^ 64 else 0) := by
      rw [hw]
      exact Nat.min_le_left _ _
    have hmod : (c.cpuCycle + c.counterA - 1) % 2 ^ 64 ≤ c.cpuCycle + c.counterA - 1 :=
      Nat.mod_le _ _
    have hkA : k + 1 ≤ c.counterA := by
      by_cases h2 : c.counterA > 2
      · rw [if_pos h2] at hle
        omega
      · rw [if_neg h2] at hle
        omega
    have hkA' : k ≤ c.counterA := by omega
    have hdec : (c.asleep k).wakeUp.counterA = c.counterA - k := by
      rw [wakeUp_counterA, ea, ei, ef]
      by_cases h0 : k ≠ 0
      · rw [if_pos ⟨h0, hf⟩]
        exact wakeUp_sub _ _ hA hkA'
      · rw [if_neg (fun h => h0 h.1)]
        omega
    refine ⟨?_, ?_, hdec, ?_⟩
    · by_cases h2 : c.counterA > 2
      · right
        rw [if_pos h2] at hle
        omega
      · left
        rw [if_neg h2] at hle
        omega
    · rw [ea, ei]
      exact hkA'
    · rw [hdec]
      omega
  · intro hf
    rw [if_neg (not_not.mpr hf)] at hw
    have hle : c.sleep.wakeUpCycle ≤
        (if c.counterB > 2 then (c.cpuCycle + c.counterB - 1) % 2 ^ 64 else 0) := by
      rw [hw]
      exact Nat.min_le_right _ _
    have hmod : (c.cpuCycle + c.counterB - 1) % 2 ^ 64 ≤ c.cpuCycle + c.counterB - 1 :=
      Nat.mod_le _ _
    have hkB : k + 1 ≤ c.counterB := by
      by_cases h2 : c.counterB > 2
      · rw [if_pos h2] at hle
        omega
      · rw [if_neg h2] at hle
        omega
    have hkB' : k ≤ c.counterB := by omega
    have hdec : (c.asleep k).wakeUp.counterB = c.counterB - k := by
      rw [wakeUp_counterB, eb, ei, ef]
      by_cases h0 : k ≠ 0
      · rw [if_pos ⟨h0, hf⟩]
        exact wakeUp_sub _ _ hB hkB'
      · rw [if_neg (fun h => h0 h.1)]
        omega
    refine ⟨?_, ?_, hdec, ?_⟩
    · by_cases h2 : c.counterB > 2
      · right
        rw [if_pos h2] at hle
        omega
      · left
        rw [if_neg h2] at hle
        omega
    · rw [eb, ei]
      exact hkB'
    · rw [hdec]
      omega
  · intro hf
    rw [wakeUp_counterA, if_neg (fun h => h.2 hf)]
  · intro hf
    rw [wakeUp_counterB, if_neg (fun h => h.2 hf)]

/-- Witness for C35: timer A runs with counter 100 at cycle 20 while timer B is
stopped; the CIA sleeps until cycle 119, and a wake-up after 99 skipped cycles
leaves the counter at 1. -/
theorem sleep_wakeUp_counter_witness :
    ({ timerARunning 100 with cpuCycle := 20 } : CIA).sleep.wakeUpCycle = 119 ∧
    (({ timerARunning 100 with cpuCycle := 20 } : CIA).asleep 99).wakeUp.counterA = 100 - 99 ∧
    1 ≤ (({ timerARunning 100 with cpuCycle := 20 } : CIA).asleep 99).wakeUp.counterA :=
  ⟨by decide,
    ((sleep_wakeUp_counter { timerARunning 100 with cpuCycle := 20 } 99 (by decide) (by decide)
      (by decide) (by decide)).1 (by decide)).2.2.1,
    ((sleep_wakeUp_counter { timerARunning 100 with cpuCycle := 20 } 99 (by decide) (by decide)
      (by decide) (by decide)).1 (by decide)).2.2.2⟩

/-! ### VIC-II: the two memory access functions -/

theorem setUltimax_bankAddr (v : VIC) (value : Bool) :
    (v.setUltimax value).bankAddr = v.bankAddr ∧ (v.setUltimax value).ultimax = value := by
  cases value <;> exact ⟨rfl, rfl⟩

theorem memSrc_ultimax (v : VIC) (n : Nat) (hn : n < 16) :
    (v.setUltimax true).memSrc n =
      if n = 0xF ∨ n = 0xB ∨ n = 0x7 ∨ n = 0x3 then .M_CRTHI else .M_RAM := by
  interval_cases n <;> simp [VIC.setUltimax, assignMemSrc, Function.update]

theorem memSrc_standard (v : VIC) (n : Nat) (hn : n < 16) :
    (v.setUltimax false).memSrc n = if n = 1 ∨ n = 9 then .M_CHAR else .M_RAM := by
  interval_cases n <;> simp [VIC.setUltimax, assignMemSrc, Function.update]

/-- C36 (table-driven and switch-driven VIC memory access agree). For either
ultimax setting established by `VIC::setUltimax`, every address and every bank
address, in particular for every 14-bit address and every bank address that is a
multiple of 0x4000, `VIC::memAccess(addr)` and `VIC::memSpyAccess(addr)` select
the same source (RAM, character ROM or cartridge high ROM) and the same location
in it. -/
theorem memAccess_memSpyAccess (v : VIC) (value : Bool) (addr : Nat) :
    ((v.setUltimax value).memAccess addr).1 = (v.setUltimax value).memSpyAccess addr := by
  have hlt : ((v.bankAddr ||| addr) % 2 ^ 16) >>> 12 < 16 := by
    rw [Nat.shiftRight_eq_div_pow]
    have := Nat.mod_lt (v.bankAddr ||| addr) (show 0 < 2 ^ 16 by decide)
    omega
  have hcomm : (addr ||| v.bankAddr) = (v.bankAddr ||| addr) := Nat.lor_comm _ _
  obtain ⟨hb, hu⟩ := setUltimax_bankAddr v value
  unfold VIC.memAccess VIC.memSpyAccess VIC.isCharRomAddr
  simp only [hb, hu, hcomm]
  generalize hn : ((v.bankAddr ||| addr) % 2 ^ 16) >>> 12 = n at hlt ⊢
  cases value
  · rw [memSrc_standard v n hlt]
    interval_cases n <;> simp
  · rw [memSrc_ultimax v n hlt]
    interval_cases n <;> simp

/-! ### VIC-II: the raster interrupt enable bit in the debugger interface -/

/-- C39 (raster interrupt enable bit): what the code does. For every state,
`setRasterInterruptEnable(b)` writes bit 1 of `imr` and leaves bit 0 as it is: it
yields the same state as `setIrqOnSpriteBackgroundCollision(b)`. The field
`rasterIrqEnabled` of `getInfo()` reports bit 1 of `imr` and always equals
`backgroundCollisionIrqEnabled`. After `imr = 1` (raster interrupt enabled by
POKE $D01A,$01) `rasterIrqEnabled` is false, and `setRasterInterruptEnable(true)`
turns `imr = 0` into `imr = 2`. -/
theorem rasterIrq_bit (v : VIC) (b : Bool) :
    v.setRasterInterruptEnable b = v.setIrqOnSpriteBackgroundCollision b ∧
    (v.setRasterInterruptEnable b).imr.testBit 0 = v.imr.testBit 0 ∧
    (v.setRasterInterruptEnable b).imr.testBit 1 = b ∧
    v.getInfo.rasterIrqEnabled = v.imr.testBit 1 ∧
    v.getInfo.rasterIrqEnabled = v.getInfo.backgroundCollisionIrqEnabled ∧
    ({ clearedVIC with imr := 1 }).getInfo.rasterIrqEnabled = false ∧
    (({ clearedVIC with imr := 0 }).setRasterInterruptEnable true).imr = 2 := by
  have h1 : (1 <<< 1 : Nat) = 2 ^ 1 := rfl
  have hget : v.getInfo.rasterIrqEnabled = v.imr.testBit 1 := by
    show decide (GET_BIT v.imr 1 ≠ 0) = v.imr.testBit 1
    unfold GET_BIT
    rw [h1]
    cases hb : v.imr.testBit 1
    · exact decide_eq_false (fun h => by
        rw [and_two_pow_ne_zero] at h
        rw [hb] at h
        exact Bool.noConfusion h)
    · exact decide_eq_true ((and_two_pow_ne_zero _ _).mpr hb)
  refine ⟨rfl, ?_, ?_, hget, rfl, by decide, by decide⟩
  · show (WRITE_BIT v.imr 1 b).testBit 0 = v.imr.testBit 0
    unfold WRITE_BIT
    cases b
    · simp only [Bool.false_eq_true, if_false, Nat.testBit_and]
      have : (0xFF ^^^ 1 <<< 1 : Nat).testBit 0 = true := by decide
      rw [this, Bool.and_true]
    · simp only [if_true, Nat.testBit_or]
      have : (1 <<< 1 : Nat).testBit 0 = false := by decide
      rw [this, Bool.or_false]
  · show (WRITE_BIT v.imr 1 b).testBit 1 = b
    unfold WRITE_BIT
    cases b
    · simp only [Bool.false_eq_true, if_false, Nat.testBit_and]
      have : (0xFF ^^^ 1 <<< 1 : Nat).testBit 1 = false := by decide
      rw [this, Bool.and_false]
    · simp only [if_true, Nat.testBit_or]
      have : (1 <<< 1 : Nat).testBit 1 = true := by decide
      rw [this, Bool.or_true]

/-! ### Runs of equal bits in GCR data -/

theorem encodeGcrBytes_fold (t : Nat) (values : List Nat) (d : Disk) (o : Nat) :
    values.foldl (fun (st : Disk × Nat) v => (encodeGcr st.1 v t st.2, st.2 + 10)) (d, o) =
      (writeBits d t o (gcrBitsOfBytes values), o + 10 * values.length) := by
  induction values generalizing d o with
  | nil => rfl
  | cons v vs ih =>
    rw [List.foldl_cons, ih, gcrBitsOfBytes_cons, encodeGcr_eq_writeBits,
      writeBits_writeBits _ _ _ _ _ _ (by rw [gcrBits_length])]
    refine Prod.ext rfl ?_
    show o + 10 + 10 * vs.length = o + 10 * (vs.length + 1)
    omega

theorem encodeGcrBytes_eq (d : Disk) (values : List Nat) (t offset : Nat) :
    encodeGcrBytes d values t offset = writeBits d t offset (gcrBitsOfBytes values) := by
  unfold encodeGcrBytes
  rw [encodeGcrBytes_fold]

set_option maxRecDepth 100000 in
theorem codewords_runs : ∀ a, a < 16 → ∀ b, b < 16 →
    (∃ i, i < 5 ∧ (codewordBits (bin2gcr a) ++ codewordBits (bin2gcr b)).getD i false = false) ∧
    (∃ i, i < 5 ∧
      (codewordBits (bin2gcr a) ++ codewordBits (bin2gcr b)).getD (5 + i) false = false) ∧
    (∀ r, r < 8 → ∃ j, j < 3 ∧
      (codewordBits (bin2gcr a) ++ codewordBits (bin2gcr b)).getD (r + j) false = true) ∧
    (∃ j, j < 2 ∧
      (codewordBits (bin2gcr a) ++ codewordBits (bin2gcr b)).getD (8 + j) false = true) ∧
    (∃ j, j < 2 ∧
      (codewordBits (bin2gcr a) ++ codewordBits (bin2gcr b)).getD j false = true) := by
  decide

theorem gcrBits_runs (v : Nat) :
    (∃ i, i < 5 ∧ (gcrBits v).getD i false = false) ∧
    (∃ i, i < 5 ∧ (gcrBits v).getD (5 + i) false = false) ∧
    (∀ r, r < 8 → ∃ j, j < 3 ∧ (gcrBits v).getD (r + j) false = true) ∧
    (∃ j, j < 2 ∧ (gcrBits v).getD (8 + j) false = true) ∧
    (∃ j, j < 2 ∧ (gcrBits v).getD j false = true) := by
  have h1 : (v % 256) >>> 4 < 16 := by
    rw [Nat.shiftRight_eq_div_pow]
    have := Nat.mod_lt v (show 0 < 256 by decide)
    omega
  have h2 : (v % 256) &&& 0xF < 16 := Nat.lt_of_le_of_lt Nat.and_le_right (by decide)
  exact codewords_runs _ h1 _ h2

theorem getElem?_of_getD {l : List Bool} {i : Nat} {b : Bool} (hi : i < l.length)
    (h : l.getD i false = b) : l[i]? = some b := by
  rw [List.getD_eq_getElem?_getD, List.getElem?_eq_getElem hi] at h
  rw [List.getElem?_eq_getElem hi]
  exact congrArg some h

theorem gcrBitsOfBytes_bit (bytes : List Nat) (m i : Nat) (b : Bool) (hm : m < bytes.length)
    (hi : i < 10) (h : (gcrBits (bytes.getD m 0)).getD i false = b) :
    (gcrBitsOfBytes bytes)[10 * m + i]? = some b := by
  apply getElem?_of_getD
  · rw [gcrBitsOfBytes_length]
    omega
  · rw [gcrBitsOfBytes_getD bytes m i hm hi]
    exact h

/-- C34 (no false SYNC in GCR data). For every sequence of bytes,
`Disk::encodeGcr(values, length, t, offset)` writes the bit stream
`gcrBitsOfBytes values` from `offset` on, and this stream contains no run of more
than 8 consecutive 1-bits and no run of more than 2 consecutive 0-bits: every
window of 9 bits holds a 0-bit and every window of 3 bits holds a 1-bit, so ten
consecutive 1-bits never occur in it. -/
theorem gcr_no_false_sync (d : Disk) (values : List Nat) (t offset : Nat) :
    encodeGcrBytes d values t offset = writeBits d t offset (gcrBitsOfBytes values) ∧
    (gcrBitsOfBytes values).length = 10 * values.length ∧
    (∀ p, p + 9 ≤ (gcrBitsOfBytes values).length →
      ∃ j, j < 9 ∧ (gcrBitsOfBytes values)[p + j]? = some false) ∧
    (∀ p, p + 3 ≤ (gcrBitsOfBytes values).length →
      ∃ j, j < 3 ∧ (gcrBitsOfBytes values)[p + j]? = some true) := by
  refine ⟨encodeGcrBytes_eq d values t offset, gcrBitsOfBytes_length values, ?_, ?_⟩
  · intro p hp
    rw [gcrBitsOfBytes_length] at hp
    have hpm : 10 * (p / 10) + p % 10 = p := Nat.div_add_mod p 10
    have hr : p % 10 < 10 := Nat.mod_lt _ (by decide)
    by_cases h0 : p % 10 = 0
    · obtain ⟨i, hi, hb⟩ := (gcrBits_runs (values.getD (p / 10) 0)).1
      refine ⟨i, by omega, ?_⟩
      have := gcrBitsOfBytes_bit values (p / 10) i false (by omega) (by omega) hb
      rw [show p + i = 10 * (p / 10) + i by omega]
      exact this
    · by_cases h5 : p % 10 ≤ 5
      · obtain ⟨i, hi, hb⟩ := (gcrBits_runs (values.getD (p / 10) 0)).2.1
        refine ⟨5 + i - p % 10, by omega, ?_⟩
        have := gcrBitsOfBytes_bit values (p / 10) (5 + i) false (by omega) (by omega) hb
        rw [show p + (5 + i - p % 10) = 10 * (p / 10) + (5 + i) by omega]
        exact this
      · obtain ⟨i, hi, hb⟩ := (gcrBits_runs (values.getD (p / 10 + 1) 0)).1
        refine ⟨10 - p % 10 + i, by omega, ?_⟩
        have := gcrBitsOfBytes_bit values (p / 10 + 1) i false (by omega) (by omega) hb
        rw [show p + (10 - p % 10 + i) = 10 * (p / 10 + 1) + i by omega]
        exact this
  · intro p hp
    rw [gcrBitsOfBytes_length] at hp
    have hpm : 10 * (p / 10) + p % 10 = p := Nat.div_add_mod p 10
    have hr : p % 10 < 10 := Nat.mod_lt _ (by decide)
    by_cases h7 : p % 10 < 8
    · obtain ⟨j, hj, hb⟩ := (gcrBits_runs (values.getD (p / 10) 0)).2.2.1 (p % 10) h7
      refine ⟨j, hj, ?_⟩
      have := gcrBitsOfBytes_bit values (p / 10) (p % 10 + j) true (by omega) (by omega) hb
      rw [show p + j = 10 * (p / 10) + (p % 10 + j) by omega]
      exact this
    · by_cases h8 : p % 10 = 8
      · obtain ⟨j, hj, hb⟩ := (gcrBits_runs (values.getD (p / 10) 0)).2.2.2.1
        refine ⟨j, by omega, ?_⟩
        have := gcrBitsOfBytes_bit values (p / 10) (8 + j) true (by omega) (by omega) hb
        rw [show p + j = 10 * (p / 10) + (8 + j) by omega]
        exact this
      · obtain ⟨j, hj, hb⟩ := (gcrBits_runs (values.getD (p / 10 + 1) 0)).2.2.2.2
        refine ⟨1 + j, by omega, ?_⟩
        have := gcrBitsOfBytes_bit values (p / 10 + 1) j true (by omega) (by omega) hb
        rw [show p + (1 + j) = 10 * (p / 10 + 1) + j by omega]
        exact this

/-- Witness for C34: the bytes 0xFF, 0x7F give the codewords 10101, 10101,
10111, 10101; the window of 9 bits from position 10 on holds a 0-bit. -/
theorem gcr_no_false_sync_witness :
    ∃ j, j < 9 ∧ (gcrBitsOfBytes [0xFF, 0x7F])[10 + j]? = some false :=
  (gcr_no_false_sync blankDisk [0xFF, 0x7F] 1 0).2.2.1 10 (by decide)

/-! ### Encoding a track -/

theorem encodeTrack_fold (a : D64File) (t tailGap : Nat) (ss : List Nat) (d : Disk)
    (o tot : Nat) :
    ss.foldl
      (fun (st : Disk × Nat × Nat) s =>
        (writeBits st.1 t st.2.1 (sectorLayoutWithErrors a t s tailGap),
          st.2.1 + (2832 + 8 * tailGap), st.2.2 + (2832 + 8 * tailGap)))
      (d, o, tot) =
      (writeBits d t o ((ss.map (fun s => sectorLayoutWithErrors a t s tailGap)).flatten),
        o + ss.length * (2832 + 8 * tailGap), tot + ss.length * (2832 + 8 * tailGap)) := by
  induction ss generalizing d o tot with
  | nil =>
    refine Prod.ext rfl (Prod.ext ?_ ?_)
    · show o = o + 0 * (2832 + 8 * tailGap)
      omega
    · show tot = tot + 0 * (2832 + 8 * tailGap)
      omega
  | cons s ss ih =>
    rw [List.foldl_cons, ih, writeBits_writeBits _ _ _ _ _ _
      (by rw [sectorLayoutWithErrors_length])]
    refine Prod.ext rfl (Prod.ext ?_ ?_)
    · show o + (2832 + 8 * tailGap) + ss.length * (2832 + 8 * tailGap) =
        o + (ss.length + 1) * (2832 + 8 * tailGap)
      rw [Nat.add_mul, Nat.one_mul]
      omega
    · show tot + (2832 + 8 * tailGap) + ss.length * (2832 + 8 * tailGap) =
        tot + (ss.length + 1) * (2832 + 8 * tailGap)
      rw [Nat.add_mul, Nat.one_mul]
      omega

theorem encodeTrack_eq (d : Disk) (a : D64File) (t tailGap start : Nat) :
    encodeTrack d a t tailGap start =
      (writeBits d t start (trackLayout a t tailGap),
        numberOfSectorsInTrack t * (2832 + 8 * tailGap)) := by
  unfold encodeTrack trackLayout
  simp only [encodeSector_eq_withErrors]
  rw [encodeTrack_fold]
  simp only [List.length_range, Nat.zero_add]

theorem flatten_range_length (f : Nat → List Bool) (len : Nat) (hlen : ∀ s, (f s).length = len)
    (n : Nat) : (((List.range n).map f).flatten).length = n * len := by
  induction n with
  | zero => simp
  | succ n ih =>
    rw [List.range_succ, List.map_append, List.flatten_append, List.length_append, ih]
    simp only [List.map_cons, List.map_nil, List.flatten_cons, List.flatten_nil,
      List.append_nil, hlen]
    rw [Nat.add_mul, Nat.one_mul]

theorem flatten_range_getD (f : Nat → List Bool) (len : Nat) (hlen : ∀ s, (f s).length = len)
    (n s i : Nat) (hs : s < n) (hi : i < len) :
    (((List.range n).map f).flatten).getD (s * len + i) false = (f s).getD i false := by
  induction n with
  | zero => omega
  | succ n ih =>
    rw [List.range_succ, List.map_append, List.flatten_append]
    have hl := flatten_range_length f len hlen n
    by_cases hsn : s < n
    · have hlt : s * len + i < n * len := by
        have : (s + 1) * len ≤ n * len := Nat.mul_le_mul_right _ hsn
        rw [Nat.add_mul, Nat.one_mul] at this
        omega
      rw [List.getD_append _ _ _ _ (by rw [hl]; exact hlt)]
      exact ih hsn
    · have hsn' : s = n := by omega
      subst hsn'
      rw [List.getD_append_right _ _ _ _ (by rw [hl]; omega), hl,
        show s * len + i - s * len = i by omega]
      simp

theorem trackLayout_length (a : D64File) (t tailGap : Nat) :
    (trackLayout a t tailGap).length = numberOfSectorsInTrack t * (2832 + 8 * tailGap) :=
  flatten_range_length _ _ (fun s => sectorLayoutWithErrors_length a t s tailGap) _

theorem assignTrackLengths_fold (n : Nat) (d : Disk) (j : Nat) :
    ((List.range n).foldl
      (fun (d : Disk) i =>
        { d with length :=
            Function.update d.length (1 + (i + 1)) (trackLengthOfZone (speedZoneOfHalftrack (i + 1))) })
      d).length j =
      if 2 ≤ j ∧ j ≤ n + 1 then trackLengthOfZone (speedZoneOfHalftrack (j - 1)) else d.length j := by
  induction n with
  | zero =>
    rw [if_neg (by omega)]
    rfl
  | succ n ih =>
    rw [List.range_succ, List.foldl_append]
    simp only [List.foldl_cons, List.foldl_nil]
    by_cases hj : j = 1 + (n + 1)
    · subst hj
      rw [Function.update_same, if_pos (by omega), show 1 + (n + 1) - 1 = n + 1 by omega]
    · rw [Function.update_noteq hj, ih]
      by_cases h : 2 ≤ j ∧ j ≤ n + 1
      · rw [if_pos h, if_pos (by omega)]
      · rw [if_neg h, if_neg (by omega)]

theorem assignTrackLengths_lengthOfHalftrack (d : Disk) (ht : Nat) (h1 : 1 ≤ ht) (h2 : ht ≤ 84) :
    (assignTrackLengths d).lengthOfHalftrack ht = trackLengthOfZone (speedZoneOfHalftrack ht) := by
  unfold assignTrackLengths Disk.lengthOfHalftrack
  rw [assignTrackLengths_fold, if_pos (by omega)]
  rw [show 1 + ht - 1 = ht by omega]

theorem assignTrackLengths_lengthOfTrack (d : Disk) (t : Nat) (h1 : 1 ≤ t) (h2 : t ≤ 42) :
    (assignTrackLengths d).lengthOfTrack t = trackLengthOfZone (speedZoneOfTrack t) := by
  have h := assignTrackLengths_lengthOfHalftrack d (2 * t - 1) (by omega) (by omega)
  have e : (assignTrackLengths d).lengthOfTrack t =
      (assignTrackLengths d).lengthOfHalftrack (2 * t - 1) := by
    unfold Disk.lengthOfTrack Disk.lengthOfHalftrack
    rw [show 1 + (2 * t - 1) = 2 * t by omega]
  rw [e, h]
  unfold speedZoneOfHalftrack trackOfHalftrack
  rw [show (2 * t - 1 + 1) / 2 = t by omega]

theorem track_fits (t : Nat) (h1 : 1 ≤ t) (h2 : t ≤ 42) :
    numberOfSectorsInTrack t * (2832 + 8 * tailGapOfZone (speedZoneOfTrack t)) ≤
      trackLengthOfZone (speedZoneOfTrack t) ∧
    0 < numberOfSectorsInTrack t * (2832 + 8 * tailGapOfZone (speedZoneOfTrack t)) := by
  interval_cases t <;> decide

theorem encodeTrack_lengthOfTrack (d : Disk) (a : D64File) (t tailGap start t' : Nat) :
    (encodeTrack d a t tailGap start).1.lengthOfTrack t' = d.lengthOfTrack t' := by
  rw [encodeTrack_eq]
  exact writeBits_lengthOfTrack _ _ _ _ _

/-- C33 (encoded tracks fit). For every track `t` in 1..42, `Disk::encodeTrack`
with the tail gap of the speed zone of `t` (`tailGap = {9, 12, 17, 8}`) writes
`sectors(t) * (2832 + 8 * tailGap[zone(t)])` bits, which is not more than the
track length that `Disk::encodeArchive` assigns (6250*8, 6667*8, 7143*8, 7693*8
bits for the zones 0..3) and that `encodeTrack` leaves as it is. Hence, for any
start position, the writes wrap around the end of the track at most once, no two
of them hit the same bit, and after the call every bit of every sector of the
track is read back as it was written: no sector overwrites a bit of another. -/
theorem encodeTrack_fits (d : Disk) (a : D64File) (t start : Nat) (h1 : 1 ≤ t) (h2 : t ≤ 42)
    (hL : d.lengthOfTrack t = trackLengthOfZone (speedZoneOfTrack t)) :
    (∀ d0, (assignTrackLengths d0).lengthOfTrack t = trackLengthOfZone (speedZoneOfTrack t)) ∧
    (encodeTrack d a t (tailGapOfZone (speedZoneOfTrack t)) start).2 =
      numberOfSectorsInTrack t * (2832 + 8 * tailGapOfZone (speedZoneOfTrack t)) ∧
    (encodeTrack d a t (tailGapOfZone (speedZoneOfTrack t)) start).1.lengthOfTrack t =
      d.lengthOfTrack t ∧
    numberOfSectorsInTrack t * (2832 + 8 * tailGapOfZone (speedZoneOfTrack t)) ≤
      d.lengthOfTrack t ∧
    (∀ i, i < numberOfSectorsInTrack t * (2832 + 8 * tailGapOfZone (speedZoneOfTrack t)) →
      (start % d.lengthOfTrack t + i) / d.lengthOfTrack t ≤ 1) ∧
    (∀ i j, i < numberOfSectorsInTrack t * (2832 + 8 * tailGapOfZone (speedZoneOfTrack t)) →
      j < numberOfSectorsInTrack t * (2832 + 8 * tailGapOfZone (speedZoneOfTrack t)) →
      i ≠ j → (start + i) % d.lengthOfTrack t ≠ (start + j) % d.lengthOfTrack t) ∧
    (∀ s i, s < numberOfSectorsInTrack t → i < 2832 + 8 * tailGapOfZone (speedZoneOfTrack t) →
      readBitFromTrack (encodeTrack d a t (tailGapOfZone (speedZoneOfTrack t)) start).1 t
          (start + s * (2832 + 8 * tailGapOfZone (speedZoneOfTrack t)) + i) =
        ((sectorLayoutWithErrors a t s (tailGapOfZone (speedZoneOfTrack t))).getD i false).toNat) := by
  obtain ⟨hfit, hpos⟩ := track_fits t h1 h2
  rw [← hL] at hfit
  generalize hg : tailGapOfZone (speedZoneOfTrack t) = g at hfit hpos ⊢
  generalize hLen : d.lengthOfTrack t = L at hfit ⊢
  refine ⟨fun d0 => assignTrackLengths_lengthOfTrack d0 t h1 h2, ?_, ?_, hfit, ?_, ?_, ?_⟩
  · rw [encodeTrack_eq]
  · rw [encodeTrack_lengthOfTrack, hLen]
  · intro i hi
    have hs : start % L < L := Nat.mod_lt _ (by omega)
    have : (start % L + i) / L < 2 := Nat.div_lt_of_lt_mul (by omega)
    omega
  · intro i j hi hj hij
    exact add_mod_ne_add_mod start i j L hij (by omega) (by omega)
  · intro s i hs hi
    rw [encodeTrack_eq]
    have hlen := trackLayout_length a t g
    have hk : s * (2832 + 8 * g) + i < (trackLayout a t g).length := by
      rw [hlen]
      have : (s + 1) * (2832 + 8 * g) ≤ numberOfSectorsInTrack t * (2832 + 8 * g) :=
        Nat.mul_le_mul_right _ hs
      rw [Nat.add_mul, Nat.one_mul] at this
      omega
    have hread := readBit_writeBits_hit d t start (s * (2832 + 8 * g) + i) (trackLayout a t g)
      (by rw [hlen, hLen]; exact hfit) hk
    rw [Nat.add_assoc]
    show readBitFromTrack (writeBits d t start (trackLayout a t g)) t
      (start + (s * (2832 + 8 * g) + i)) = _
    rw [hread]
    unfold trackLayout
    rw [flatten_range_getD _ _ (fun s => sectorLayoutWithErrors_length a t s g) _ s i hs hi]

/-- Witness for C33: track 18 (19 sectors, zone 2, tail gap 17) of a blank disk
with the assigned track lengths, encoded from position 40000 on. -/
theorem encodeTrack_fits_witness :
    (encodeTrack (assignTrackLengths blankDisk) sampleD64 18
      (tailGapOfZone (speedZoneOfTrack 18)) 40000).2 =
      numberOfSectorsInTrack 18 * (2832 + 8 * tailGapOfZone (speedZoneOfTrack 18)) ∧
    numberOfSectorsInTrack 18 * (2832 + 8 * tailGapOfZone (speedZoneOfTrack 18)) ≤
      (assignTrackLengths blankDisk).lengthOfTrack 18 :=
  ⟨(encodeTrack_fits (assignTrackLengths blankDisk) sampleD64 18 40000 (by decide) (by decide)
      (assignTrackLengths_lengthOfTrack blankDisk 18 (by decide) (by decide))).2.1,
    (encodeTrack_fits (assignTrackLengths blankDisk) sampleD64 18 40000 (by decide) (by decide)
      (assignTrackLengths_lengthOfTrack blankDisk 18 (by decide) (by decide))).2.2.2.1⟩



/-! ### The disk after `encodeArchive` -/

theorem clearDisk_fold_data (n : Nat) (d : Disk) (j : Nat) :
    ((List.range n).foldl (fun d i => clearHalftrack d (i + 1)) d).data j =
      if 15856 ≤ j ∧ j < 15856 + n * 7928 then 0x55 else d.data j := by
  induction n with
  | zero =>
    rw [if_neg (by omega)]
    rfl
  | succ n ih =>
    rw [List.range_succ, List.foldl_append]
    simp only [List.foldl_cons, List.foldl_nil]
    show (if 7928 + (n + 1) * 7928 ≤ j ∧ j < 7928 + (n + 1) * 7928 + 7928 then 0x55
      else ((List.range n).foldl (fun d i => clearHalftrack d (i + 1)) d).data j) = _
    rw [ih]
    by_cases h1 : 7928 + (n + 1) * 7928 ≤ j ∧ j < 7928 + (n + 1) * 7928 + 7928
    · rw [if_pos h1, if_pos (by omega)]
    · rw [if_neg h1]
      by_cases h2 : 15856 ≤ j ∧ j < 15856 + n * 7928
      · rw [if_pos h2, if_pos (by omega)]
      · rw [if_neg h2, if_neg (by omega)]

theorem clearDisk_data (d : Disk) (j : Nat) :
    (clearDisk d).data j = if 15856 ≤ j ∧ j < 15856 + 84 * 7928 then 0x55 else d.data j :=
  clearDisk_fold_data 84 d j

theorem assignTrackLengths_fold_data (n : Nat) (d : Disk) :
    ((List.range n).foldl
      (fun (d : Disk) i =>
        { d with length :=
            Function.update d.length (1 + (i + 1)) (trackLengthOfZone (speedZoneOfHalftrack (i + 1))) })
      d).data = d.data := by
  induction n with
  | zero => rfl
  | succ n ih =>
    rw [List.range_succ, List.foldl_append]
    simp only [List.foldl_cons, List.foldl_nil]
    exact ih

theorem assignTrackLengths_data (d : Disk) : (assignTrackLengths d).data = d.data :=
  assignTrackLengths_fold_data 84 d

theorem writeBitToTrack_data_frame (d : Disk) (t o : Nat) (b : Bool) (j : Nat)
    (hL : 0 < d.lengthOfTrack t) (hcap : d.lengthOfTrack t ≤ maxBitsOnTrack)
    (hj : ¬ (t * 15856 ≤ j ∧ j < t * 15856 + 7928)) :
    (writeBitToTrack d t o b).data j = d.data j := by
  have hlt : o % d.lengthOfTrack t < d.lengthOfTrack t := Nat.mod_lt _ hL
  have hcap' : d.lengthOfTrack t ≤ 7928 * 8 := hcap
  have hne : j ≠ t * 15856 + o % d.lengthOfTrack t / 8 := by omega
  unfold writeBitToTrack
  cases b <;> simp [Function.update_noteq hne]

theorem writeBits_data_frame (d : Disk) (t o : Nat) (bs : List Bool) (j : Nat)
    (hL : 0 < d.lengthOfTrack t) (hcap : d.lengthOfTrack t ≤ maxBitsOnTrack)
    (hj : ¬ (t * 15856 ≤ j ∧ j < t * 15856 + 7928)) :
    (writeBits d t o bs).data j = d.data j := by
  induction bs generalizing d o with
  | nil => rfl
  | cons b bs ih =>
    simp only [writeBits]
    rw [ih _ _ (by rw [writeBitToTrack_lengthOfTrack]; exact hL)
      (by rw [writeBitToTrack_lengthOfTrack]; exact hcap),
      writeBitToTrack_data_frame d t o b j hL hcap hj]

/-- Reading a bit of a track looks at the length of the track and at the first
7928 bytes of its data only. -/
theorem readBitFromTrack_congr (d d' : Disk) (t x : Nat)
    (hlen : d'.lengthOfTrack t = d.lengthOfTrack t)
    (hL : 0 < d.lengthOfTrack t) (hcap : d.lengthOfTrack t ≤ maxBitsOnTrack)
    (hdata : ∀ j, j < 7928 → d'.data (t * 15856 + j) = d.data (t * 15856 + j)) :
    readBitFromTrack d' t x = readBitFromTrack d t x := by
  have hlt : x % d.lengthOfTrack t < d.lengthOfTrack t := Nat.mod_lt _ hL
  have hcap' : d.lengthOfTrack t ≤ 7928 * 8 := hcap
  unfold readBitFromTrack Disk.trackByte
  simp only [hlen]
  rw [hdata _ (by omega)]

theorem land_0x55 (k : Nat) (hk : k < 8) : (0x55 &&& (0x80 >>> k) ≠ 0) ↔ k % 2 = 1 := by
  interval_cases k <;> decide

/-- A bit of a track whose bytes are all 0x55: the bits at odd positions are
set. -/
theorem readBitFromTrack_cleared (d : Disk) (t x : Nat)
    (hL : 0 < d.lengthOfTrack t) (hcap : d.lengthOfTrack t ≤ maxBitsOnTrack)
    (heven : d.lengthOfTrack t % 2 = 0)
    (hdata : ∀ j, j < 7928 → d.data (t * 15856 + j) = 0x55) :
    readBitFromTrack d t x = if x % 2 = 1 then 1 else 0 := by
  have hlt : x % d.lengthOfTrack t < d.lengthOfTrack t := Nat.mod_lt _ hL
  have hcap' : d.lengthOfTrack t ≤ 7928 * 8 := hcap
  have hpar : x % d.lengthOfTrack t % 8 % 2 = x % 2 := by
    have := Nat.mod_mod_of_dvd x (Nat.dvd_of_mod_eq_zero heven)
    omega
  unfold readBitFromTrack Disk.trackByte
  simp only
  rw [hdata _ (by omega)]
  by_cases h : x % 2 = 1
  · rw [if_pos h, if_pos ((land_0x55 _ (Nat.mod_lt _ (by decide))).mpr (by omega))]
  · rw [if_neg h, if_neg (fun hh => h (by
      have := (land_0x55 _ (Nat.mod_lt _ (by decide))).mp hh
      omega))]

theorem writeBitToTrack_congr (d d' : Disk) (t o : Nat) (b : Bool)
    (hlen : d'.lengthOfTrack t = d.lengthOfTrack t)
    (hdata : ∀ j, j < 7928 → d'.data (t * 15856 + j) = d.data (t * 15856 + j)) :
    ∀ j, j < 7928 →
      (writeBitToTrack d' t o b).data (t * 15856 + j) =
        (writeBitToTrack d t o b).data (t * 15856 + j) := by
  intro j hj
  have h1 := trackByte_writeBit d t o j b
  have h2 := trackByte_writeBit d' t o j b
  unfold Disk.trackByte at h1 h2
  rw [h1, h2, hlen, hdata j hj]

theorem writeBits_congr (t : Nat) (bs : List Bool) : ∀ (d d' : Disk) (o : Nat),
    d'.lengthOfTrack t = d.lengthOfTrack t →
    (∀ j, j < 7928 → d'.data (t * 15856 + j) = d.data (t * 15856 + j)) →
    ∀ j, j < 7928 →
      (writeBits d' t o bs).data (t * 15856 + j) = (writeBits d t o bs).data (t * 15856 + j) := by
  induction bs with
  | nil => intro d d' o _ hdata; exact hdata
  | cons b bs ih =>
    intro d d' o hlen hdata
    simp only [writeBits]
    exact ih _ _ _ (by rw [writeBitToTrack_lengthOfTrack, writeBitToTrack_lengthOfTrack, hlen])
      (writeBitToTrack_congr d d' t o b hlen hdata)

theorem track_params (t : Nat) (h1 : 1 ≤ t) (h2 : t ≤ 42) :
    0 < trackLengthOfZone (speedZoneOfTrack t) ∧
    trackLengthOfZone (speedZoneOfTrack t) ≤ maxBitsOnTrack ∧
    trackLengthOfZone (speedZoneOfTrack t) % 2 = 0 ∧
    50000 ≤ trackLengthOfZone (speedZoneOfTrack t) ∧
    17 ≤ numberOfSectorsInTrack t ∧ numberOfSectorsInTrack t ≤ 21 ∧
    8 ≤ tailGapOfZone (speedZoneOfTrack t) ∧ tailGapOfZone (speedZoneOfTrack t) ≤ 17 := by
  interval_cases t <;> decide

theorem encodeArchive_eq (d : Disk) (a : D64File) (alignTracks : Bool) (stagger : Nat → Nat) :
    encodeArchive d a alignTracks stagger =
      (List.range a.numberOfTracks).foldl
        (fun (d : Disk) i =>
          writeBits d (i + 1) (startOfTrack alignTracks stagger (i + 1))
            (trackLayout a (i + 1) (tailGapOfZone (speedZoneOfTrack (i + 1)))))
        (assignTrackLengths (clearDisk d)) := by
  unfold encodeArchive
  simp only [encodeTrack_eq]
  rfl

/-- The disk after the first `n` tracks were encoded: the lengths are the
assigned ones, the bytes outside the tracks 1 to `n` are those of the cleared
disk, and each of the tracks 1 to `n` holds what its encoding on the cleared disk
gives. -/
theorem encodeTracks_inv (d : Disk) (a : D64File) (alignTracks : Bool) (stagger : Nat → Nat)
    (n : Nat) (hn : n ≤ 42) :
    ((List.range n).foldl
        (fun (d : Disk) i =>
          writeBits d (i + 1) (startOfTrack alignTracks stagger (i + 1))
            (trackLayout a (i + 1) (tailGapOfZone (speedZoneOfTrack (i + 1)))))
        (assignTrackLengths (clearDisk d))).length = (assignTrackLengths (clearDisk d)).length ∧
    (∀ j, (∀ t, 1 ≤ t → t ≤ n → ¬ (t * 15856 ≤ j ∧ j < t * 15856 + 7928)) →
      ((List.range n).foldl
        (fun (d : Disk) i =>
          writeBits d (i + 1) (startOfTrack alignTracks stagger (i + 1))
            (trackLayout a (i + 1) (tailGapOfZone (speedZoneOfTrack (i + 1)))))
        (assignTrackLengths (clearDisk d))).data j = (assignTrackLengths (clearDisk d)).data j) ∧
    (∀ t, 1 ≤ t → t ≤ n → ∀ j, j < 7928 →
      ((List.range n).foldl
        (fun (d : Disk) i =>
          writeBits d (i + 1) (startOfTrack alignTracks stagger (i + 1))
            (trackLayout a (i + 1) (tailGapOfZone (speedZoneOfTrack (i + 1)))))
        (assignTrackLengths (clearDisk d))).data (t * 15856 + j) =
        (encodedTrack d a alignTracks stagger t).data (t * 15856 + j)) := by
  induction n with
  | zero =>
    rw [List.range_zero, List.foldl_nil]
    refine ⟨Eq.refl _, fun _ _ => Eq.refl _, ?_⟩
    intro t h1 h2
    omega
  | succ n ih =>
    obtain ⟨ih1, ih2, ih3⟩ := ih (by omega)
    rw [List.range_succ, List.foldl_append]
    simp only [List.foldl_cons, List.foldl_nil]
    generalize hD : (List.range n).foldl
        (fun (d : Disk) i =>
          writeBits d (i + 1) (startOfTrack alignTracks stagger (i + 1))
            (trackLayout a (i + 1) (tailGapOfZone (speedZoneOfTrack (i + 1)))))
        (assignTrackLengths (clearDisk d)) = D at ih1 ih2 ih3 ⊢
    obtain ⟨hp1, hp2, _⟩ := track_params (n + 1) (by omega) hn
    have hlenD : D.lengthOfTrack (n + 1) = trackLengthOfZone (speedZoneOfTrack (n + 1)) := by
      unfold Disk.lengthOfTrack
      rw [ih1]
      exact assignTrackLengths_lengthOfTrack (clearDisk d) (n + 1) (by omega) hn
    refine ⟨?_, ?_, ?_⟩
    · rw [writeBits_length, ih1]
    · intro j hj
      rw [writeBits_data_frame D _ _ _ j (by rw [hlenD]; exact hp1) (by rw [hlenD]; exact hp2)
        (hj (n + 1) (by omega) (by omega))]
      exact ih2 j (fun t h1 h2 => hj t h1 (by omega))
    · intro t h1 h2 j hj
      by_cases ht : t = n + 1
      · subst ht
        unfold encodedTrack
        apply writeBits_congr
        · unfold Disk.lengthOfTrack
          rw [ih1]
        · intro j' hj'
          exact ih2 _ (fun t' h1' h2' => by omega)
        · exact hj
      · rw [writeBits_data_frame D _ _ _ _ (by rw [hlenD]; exact hp1) (by rw [hlenD]; exact hp2)
          (by omega)]
        exact ih3 t h1 (by omega) j hj

/-! ### The bits of an encoded sector -/

theorem gapBits_getD (n m : Nat) (hm : m < 8 * n) :
    (gapBits n).getD m false = decide (m % 2 = 1) := by
  induction n with
  | zero => omega
  | succ n ih =>
    rw [gapBits_succ]
    by_cases h : m < 8 * n
    · rw [List.getD_append _ _ _ _ (by rw [gapBits_length]; exact h)]
      exact ih h
    · rw [List.getD_append_right _ _ _ _ (by rw [gapBits_length]; omega), gapBits_length]
      have h8 : m - 8 * n < 8 := by omega
      have hpar : m % 2 = (m - 8 * n) % 2 := by omega
      rw [hpar]
      generalize m - 8 * n = q at h8
      interval_cases q <;> rfl

theorem layout_head_length (a : D64File) (t s : Nat) :
    (List.replicate 40 (decide (a.errorCode t s ≠ 0x3)) ++
      gcrBitsOfBytes (headerBytes a t s)).length = 120 := by
  simp only [List.length_append, List.length_replicate, gcrBitsOfBytes_length,
    headerBytes_length]

theorem layout_sync1 (a : D64File) (t s tailGap r : Nat) (hr : r < 40) :
    (sectorLayoutWithErrors a t s tailGap).getD r false = decide (a.errorCode t s ≠ 0x3) := by
  unfold sectorLayoutWithErrors
  rw [List.append_assoc, List.append_assoc, List.append_assoc, List.append_assoc,
    List.getD_append _ _ _ _ (by rw [List.length_replicate]; exact hr),
    List.getD_eq_getElem _ _ (by rw [List.length_replicate]; exact hr), List.getElem_replicate]

theorem layout_gap (a : D64File) (t s tailGap m : Nat) (hm : m < 72) :
    (sectorLayoutWithErrors a t s tailGap).getD (120 + m) false = decide (m % 2 = 1) := by
  have hpre := layout_head_length a t s
  unfold sectorLayoutWithErrors
  rw [List.append_assoc _ _ (gapBits tailGap), List.append_assoc _ _ (_ ++ gapBits tailGap),
    List.getD_append _ _ _ _ (by
      rw [List.length_append, hpre, gapBits_length]
      omega),
    List.getD_append_right _ _ _ _ (by rw [hpre]; omega), hpre, Nat.add_sub_cancel_left]
  exact gapBits_getD 9 m (by omega)

theorem layout_sync2 (a : D64File) (t s tailGap m : Nat) (hm : m < 40) :
    (sectorLayoutWithErrors a t s tailGap).getD (192 + m) false =
      decide (a.errorCode t s ≠ 0x3) := by
  have hpre : (List.replicate 40 (decide (a.errorCode t s ≠ 0x3)) ++
      gcrBitsOfBytes (headerBytes a t s) ++ gapBits 9).length = 192 := by
    simp only [List.length_append, List.length_replicate, gcrBitsOfBytes_length,
      gapBits_length, headerBytes_length]
  unfold sectorLayoutWithErrors
  rw [List.append_assoc _ (gcrBitsOfBytes (dataBytes a t s)),
    List.getD_append _ _ _ _ (by
      rw [List.length_append, hpre, List.length_replicate]
      omega),
    List.getD_append_right _ _ _ _ (by rw [hpre]; omega), hpre, Nat.add_sub_cancel_left,
    List.getD_eq_getElem _ _ (by rw [List.length_replicate]; exact hm), List.getElem_replicate]

theorem layout_tail (a : D64File) (t s tailGap m : Nat) (hm : m < 8 * tailGap) :
    (sectorLayoutWithErrors a t s tailGap).getD (2832 + m) false = decide (m % 2 = 1) := by
  have hpre : (List.replicate 40 (decide (a.errorCode t s ≠ 0x3)) ++
      gcrBitsOfBytes (headerBytes a t s) ++ gapBits 9 ++
      List.replicate 40 (decide (a.errorCode t s ≠ 0x3)) ++
      gcrBitsOfBytes (dataBytes a t s)).length = 2832 := by
    simp only [List.length_append, List.length_replicate, gcrBitsOfBytes_length,
      gapBits_length, headerBytes_length, dataBytes_length]
  unfold sectorLayoutWithErrors
  rw [List.getD_append_right _ _ _ _ (by rw [hpre]; omega), hpre, Nat.add_sub_cancel_left]
  exact gapBits_getD tailGap m hm

/-- GCR data holds a 0 bit in every window of nine bits. -/
theorem gcrBitsOfBytes_nine (values : List Nat) (p : Nat) (hp : p + 9 ≤ 10 * values.length) :
    ∃ j, j < 9 ∧ (gcrBitsOfBytes values).getD (p + j) false = false := by
  have hpm : 10 * (p / 10) + p % 10 = p := Nat.div_add_mod p 10
  have hr : p % 10 < 10 := Nat.mod_lt _ (by decide)
  by_cases h0 : p % 10 = 0
  · obtain ⟨i, hi, hb⟩ := (gcrBits_runs (values.getD (p / 10) 0)).1
    refine ⟨i, by omega, ?_⟩
    rw [show p + i = 10 * (p / 10) + i by omega,
      gcrBitsOfBytes_getD values (p / 10) i (by omega) (by omega)]
    exact hb
  · by_cases h5 : p % 10 ≤ 5
    · obtain ⟨i, hi, hb⟩ := (gcrBits_runs (values.getD (p / 10) 0)).2.1
      refine ⟨5 + i - p % 10, by omega, ?_⟩
      rw [show p + (5 + i - p % 10) = 10 * (p / 10) + (5 + i) by omega,
        gcrBitsOfBytes_getD values (p / 10) (5 + i) (by omega) (by omega)]
      exact hb
    · obtain ⟨i, hi, hb⟩ := (gcrBits_runs (values.getD (p / 10 + 1) 0)).1
      refine ⟨10 - p % 10 + i, by omega, ?_⟩
      rw [show p + (10 - p % 10 + i) = 10 * (p / 10 + 1) + i by omega,
        gcrBitsOfBytes_getD values (p / 10 + 1) i (by omega) (by omega)]
      exact hb

theorem headerBytes_noError (a : D64File) (t s : Nat)
    (herr : a.errorCode t s ∉ [2, 3, 4, 5, 9, 0xB]) :
    headerBytes a t s =
      [0x08, (a.diskId1 ^^^ a.diskId2 ^^^ t ^^^ s) % 256, s, t, a.diskId2, a.diskId1, 0x0F, 0x0F] := by
  simp only [List.mem_cons, List.mem_singleton, List.mem_nil_iff, or_false, not_or] at herr
  obtain ⟨h2, _, _, _, h9, hB⟩ := herr
  simp only [headerBytes, if_neg h2, if_neg h9, if_neg hB]

theorem dataBytes_getD_259 (a : D64File) (t s : Nat) : (dataBytes a t s).getD 259 0 = 0 := by
  unfold dataBytes
  rw [List.append_assoc, List.singleton_append, List.getD_cons_succ,
    List.getD_append_right _ _ _ _ (by rw [sectorData_length]; decide), sectorData_length]
  rfl

/-- The bits around the two block starts of a sector without error code. -/
theorem layout_facts (a : D64File) (t s tailGap : Nat)
    (herr : a.errorCode t s ∉ [2, 3, 4, 5, 9, 0xB]) :
    (∀ r, r < 40 → (sectorLayoutWithErrors a t s tailGap).getD r false = true) ∧
    (sectorLayoutWithErrors a t s tailGap).getD 40 false = false ∧
    (sectorLayoutWithErrors a t s tailGap).getD 118 false = false ∧
    (∀ m, m < 40 → (sectorLayoutWithErrors a t s tailGap).getD (192 + m) false = true) ∧
    (sectorLayoutWithErrors a t s tailGap).getD 232 false = false ∧
    (sectorLayoutWithErrors a t s tailGap).getD 2831 false = false := by
  have h3 : decide (a.errorCode t s ≠ 0x3) = true := by
    simp only [List.mem_cons, List.mem_singleton, List.mem_nil_iff, or_false, not_or] at herr
    exact decide_eq_true herr.2.1
  have h4 : a.errorCode t s ≠ 0x4 := by
    simp only [List.mem_cons, List.mem_singleton, List.mem_nil_iff, or_false, not_or] at herr
    exact herr.2.2.1
  refine ⟨?_, ?_, ?_, ?_, ?_, ?_⟩
  · intro r hr
    rw [layout_sync1 a t s tailGap r hr, h3]
  · rw [show (40 : Nat) = 40 + 0 from rfl, sectorLayoutWithErrors_header a t s tailGap 0 (by decide),
      show (0 : Nat) = 10 * 0 + 0 from rfl,
      gcrBitsOfBytes_getD _ 0 0 (by rw [headerBytes_length]; decide) (by decide),
      headerBytes_noError a t s herr]
    show (gcrBits 0x08).getD 0 false = false
    decide
  · rw [show (118 : Nat) = 40 + 78 from rfl,
      sectorLayoutWithErrors_header a t s tailGap 78 (by decide),
      show (78 : Nat) = 10 * 7 + 8 from rfl,
      gcrBitsOfBytes_getD _ 7 8 (by rw [headerBytes_length]; decide) (by decide),
      headerBytes_noError a t s herr]
    show (gcrBits 0x0F).getD 8 false = false
    decide
  · intro m hm
    rw [layout_sync2 a t s tailGap m hm, h3]
  · rw [show (232 : Nat) = 232 + 0 from rfl, sectorLayoutWithErrors_data a t s tailGap 0 (by decide),
      show (0 : Nat) = 10 * 0 + 0 from rfl,
      gcrBitsOfBytes_getD _ 0 0 (by rw [dataBytes_length]; decide) (by decide),
      dataBytes_getD_zero, if_neg h4]
    decide
  · rw [show (2831 : Nat) = 232 + 2599 from rfl,
      sectorLayoutWithErrors_data a t s tailGap 2599 (by decide),
      show (2599 : Nat) = 10 * 259 + 9 from rfl,
      gcrBitsOfBytes_getD _ 259 9 (by rw [dataBytes_length]; decide) (by decide),
      dataBytes_getD_259]
    decide

/-- In a sector without error code, a 0 bit that follows nine 1 bits is the first
bit of the header block or of the data block. -/
theorem sector_pattern (a : D64File) (t s tailGap : Nat)
    (herr : a.errorCode t s ∉ [2, 3, 4, 5, 9, 0xB]) (hg : 1 ≤ tailGap)
    (r : Nat) (hr : r < 2832 + 8 * tailGap)
    (h0 : (sectorLayoutWithErrors a t s tailGap).getD r false = false)
    (hw : ∀ j, 1 ≤ j → j ≤ 9 → j ≤ r →
      (sectorLayoutWithErrors a t s tailGap).getD (r - j) false = true) :
    r = 40 ∨ r = 232 := by
  obtain ⟨f1, f40, f118, f4, f232, f2831⟩ := layout_facts a t s tailGap herr
  have contra : ∀ {x : Nat}, (sectorLayoutWithErrors a t s tailGap).getD x false = false →
      (sectorLayoutWithErrors a t s tailGap).getD x false = true → False := by
    intro x ha hb
    rw [ha] at hb
    exact Bool.noConfusion hb
  by_cases c1 : r < 40
  · exact absurd (f1 r c1) (by rw [h0]; decide)
  by_cases c2 : r = 40
  · exact Or.inl c2
  by_cases c3 : r < 120
  · -- inside the header block
    exfalso
    by_cases c : r - 40 ≤ 9
    · have := hw (r - 40) (by omega) c (by omega)
      rw [show r - (r - 40) = 40 by omega] at this
      exact contra f40 this
    · obtain ⟨j, hj, hb⟩ := gcrBitsOfBytes_nine (headerBytes a t s) (r - 40 - 9)
        (by rw [headerBytes_length]; omega)
      have := hw (9 - j) (by omega) (by omega) (by omega)
      rw [show r - (9 - j) = 40 + (r - 40 - 9 + j) by omega,
        sectorLayoutWithErrors_header a t s tailGap _ (by omega), hb] at this
      exact Bool.noConfusion this
  by_cases c4 : r < 192
  · -- inside the header gap
    exfalso
    by_cases c : r = 120
    · have := hw 2 (by decide) (by decide) (by omega)
      rw [c] at this
      exact contra f118 this
    · have hr0 := h0
      rw [show r = 120 + (r - 120) by omega, layout_gap a t s tailGap _ (by omega)] at hr0
      have hpar : ¬ ((r - 120) % 2 = 1) := of_decide_eq_false hr0
      have := hw 2 (by decide) (by decide) (by omega)
      rw [show r - 2 = 120 + (r - 122) by omega, layout_gap a t s tailGap _ (by omega)] at this
      have := of_decide_eq_true this
      omega
  by_cases c5 : r < 232
  · exfalso
    have := f4 (r - 192) (by omega)
    rw [show 192 + (r - 192) = r by omega] at this
    exact contra h0 this
  by_cases c6 : r = 232
  · exact Or.inr c6
  by_cases c7 : r < 2832
  · -- inside the data block
    exfalso
    by_cases c : r - 232 ≤ 9
    · have := hw (r - 232) (by omega) c (by omega)
      rw [show r - (r - 232) = 232 by omega] at this
      exact contra f232 this
    · obtain ⟨j, hj, hb⟩ := gcrBitsOfBytes_nine (dataBytes a t s) (r - 232 - 9)
        (by rw [dataBytes_length]; omega)
      have := hw (9 - j) (by omega) (by omega) (by omega)
      rw [show r - (9 - j) = 232 + (r - 232 - 9 + j) by omega,
        sectorLayoutWithErrors_data a t s tailGap _ (by omega), hb] at this
      exact Bool.noConfusion this
  · -- inside the tail gap
    exfalso
    by_cases c : r = 2832
    · have := hw 1 (by decide) (by decide) (by omega)
      rw [c] at this
      exact contra f2831 this
    · have hr0 := h0
      rw [show r = 2832 + (r - 2832) by omega, layout_tail a t s tailGap _ (by omega)] at hr0
      have hpar : ¬ ((r - 2832) % 2 = 1) := of_decide_eq_false hr0
      have := hw 2 (by decide) (by decide) (by omega)
      rw [show r - 2 = 2832 + (r - 2834) by omega, layout_tail a t s tailGap _ (by omega)] at this
      have := of_decide_eq_true this
      omega

/-! ### The sector loop of `analyzeHalftrack` on an encoded track -/

theorem mul_succ_le (s s' c : Nat) (h : s < s') : s * c + c ≤ s' * c := by
  have := Nat.mul_le_mul_right c (Nat.succ_le_of_lt h)
  rw [Nat.succ_mul] at this
  exact this

theorem headerIteration_bound (L n secLen σ s : Nat) (hσ : σ < n) (hs : s < n)
    (hfit : n * secLen ≤ L) : headerIteration L secLen σ s + secLen ≤ L := by
  have h1 := mul_succ_le s n secLen hs
  have h2 := mul_succ_le σ n secLen hσ
  unfold headerIteration
  split_ifs with h
  · have h3 := Nat.mul_le_mul_right secLen h
    omega
  · have h3 := mul_succ_le s σ secLen (by omega)
    omega

theorem headerIteration_spacing (L n secLen σ s s' : Nat) (hσ : σ < n) (hs : s < n)
    (hs' : s' < n) (hfit : n * secLen ≤ L) (hne : s ≠ s') :
    headerIteration L secLen σ s + secLen ≤ headerIteration L secLen σ s' ∨
    headerIteration L secLen σ s' + secLen ≤ headerIteration L secLen σ s := by
  have h1 := mul_succ_le s n secLen hs
  have h2 := mul_succ_le σ n secLen hσ
  have h3 := mul_succ_le s' n secLen hs'
  unfold headerIteration
  rcases Nat.lt_or_gt_of_ne hne with hlt | hlt
  · have h4 := mul_succ_le s s' secLen hlt
    split_ifs with ha hb hb
    · have h5 := Nat.mul_le_mul_right secLen ha
      omega
    · omega
    · have h5 := mul_succ_le s σ secLen (by omega)
      omega
    · have h5 := mul_succ_le s σ secLen (by omega)
      have h6 := mul_succ_le s' σ secLen (by omega)
      omega
  · have h4 := mul_succ_le s' s secLen hlt
    split_ifs with ha hb hb
    · have h5 := Nat.mul_le_mul_right secLen hb
      omega
    · have h5 := mul_succ_le s' σ secLen (by omega)
      omega
    · omega
    · have h5 := mul_succ_le s σ secLen (by omega)
      have h6 := mul_succ_le s' σ secLen (by omega)
      omega

theorem sectorLoopState_succ (invgcr : Nat → Nat) (hbs dbs : Nat) (bit sync : Nat → Nat)
    (h0 m : Nat) :
    sectorLoopState invgcr hbs dbs bit sync h0 (m + 1) =
      sectorStep invgcr hbs dbs bit sync (sectorLoopState invgcr hbs dbs bit sync h0 m) (h0 + m) := by
  unfold sectorLoopState
  rw [List.range_succ, List.foldl_append]
  rfl

theorem sectorStep_header (invgcr : Nat → Nat) (hbs dbs : Nat) (bit sync : Nat → Nat)
    (st : SectorLoop) (i s : Nat) (hd : st.done = false) (h8 : sync i = 8)
    (hdec : decodeGcr invgcr (fun j => bit (i + 20 + j)) = s) (hs : s ≤ 20)
    (hend : (st.info s).headerEnd = 0) :
    sectorStep invgcr hbs dbs bit sync st i =
      { st with
        sector := s
        info := Function.update st.info s
          { st.info s with headerBegin := i, headerEnd := i + hbs } } := by
  unfold sectorStep
  rw [if_neg (by rw [hd]; decide), if_pos h8]
  simp only [hdec]
  rw [if_pos (by unfold isSectorNumber; exact decide_eq_true hs), if_neg (by rw [hend]; decide)]

theorem sectorStep_data (invgcr : Nat → Nat) (hbs dbs : Nat) (bit sync : Nat → Nat)
    (st : SectorLoop) (i : Nat) (hd : st.done = false) (h8 : sync i ≠ 8) (h7 : sync i = 7)
    (hs : st.sector ≤ 20) :
    sectorStep invgcr hbs dbs bit sync st i =
      { st with
        info := Function.update st.info st.sector
          { st.info st.sector with dataBegin := i, dataEnd := i + dbs } } := by
  unfold sectorStep
  rw [if_neg (by rw [hd]; decide), if_neg h8, if_pos h7,
    if_pos (by unfold isSectorNumber; exact decide_eq_true hs)]

theorem sectorStep_none (invgcr : Nat → Nat) (hbs dbs : Nat) (bit sync : Nat → Nat)
    (st : SectorLoop) (i : Nat) (hd : st.done = false) (h8 : sync i ≠ 8) (h7 : sync i ≠ 7) :
    sectorStep invgcr hbs dbs bit sync st i = st := by
  unfold sectorStep
  rw [if_neg (by rw [hd]; decide), if_neg h8, if_neg h7]

/-- The sector loop on a track whose SYNC marks are those of `n` encoded sectors:
after `m` iterations the loop has not been left, the blocks met so far are
entered in `sectorInfo`, and `sector` is the sector of the last header block as
long as its data block is ahead. -/
theorem sectorLoop_inv (invgcr : Nat → Nat) (hbs dbs : Nat) (bit sync : Nat → Nat)
    (L n secLen σ h0 : Nat)
    (hn : n ≤ 21) (hσ : σ < n) (hfit : n * secLen ≤ L) (hsec : 192 < secLen)
    (hA1 : ∀ s, s < n → sync (h0 + headerIteration L secLen σ s) = 8 ∧
      decodeGcr invgcr (fun j => bit (h0 + headerIteration L secLen σ s + 20 + j)) = s)
    (hA2 : ∀ s, s < n → sync (h0 + (headerIteration L secLen σ s + 192)) = 7)
    (hA3 : ∀ j, j < L → (∀ s, s < n → j ≠ headerIteration L secLen σ s) → sync (h0 + j) ≠ 8)
    (hA4 : ∀ j, j < L → (∀ s, s < n → j ≠ headerIteration L secLen σ s + 192) →
      sync (h0 + j) ≠ 7) :
    ∀ m, m ≤ L →
      (sectorLoopState invgcr hbs dbs bit sync h0 m).done = false ∧
      (∀ s, ((sectorLoopState invgcr hbs dbs bit sync h0 m).info s).headerBegin =
        if s < n ∧ headerIteration L secLen σ s < m then h0 + headerIteration L secLen σ s
        else 0) ∧
      (∀ s, ((sectorLoopState invgcr hbs dbs bit sync h0 m).info s).headerEnd =
        if s < n ∧ headerIteration L secLen σ s < m then h0 + headerIteration L secLen σ s + hbs
        else 0) ∧
      (∀ s, ((sectorLoopState invgcr hbs dbs bit sync h0 m).info s).dataBegin =
        if s < n ∧ headerIteration L secLen σ s + 192 < m then
          h0 + (headerIteration L secLen σ s + 192)
        else 0) ∧
      (∀ s, ((sectorLoopState invgcr hbs dbs bit sync h0 m).info s).dataEnd =
        if s < n ∧ headerIteration L secLen σ s + 192 < m then
          h0 + (headerIteration L secLen σ s + 192) + dbs
        else 0) ∧
      (∀ s, s < n → headerIteration L secLen σ s < m → m ≤ headerIteration L secLen σ s + 192 →
        (sectorLoopState invgcr hbs dbs bit sync h0 m).sector = s) := by
  intro m
  induction m with
  | zero =>
    intro _
    refine ⟨rfl, ?_, ?_, ?_, ?_, ?_⟩
    · intro s; rw [if_neg (by omega)]; rfl
    · intro s; rw [if_neg (by omega)]; rfl
    · intro s; rw [if_neg (by omega)]; rfl
    · intro s; rw [if_neg (by omega)]; rfl
    · intro s _ h; omega
  | succ m ih =>
    intro hm
    obtain ⟨hd, hhb, hhe, hdb, hde, hsv⟩ := ih (by omega)
    rw [sectorLoopState_succ]
    generalize sectorLoopState invgcr hbs dbs bit sync h0 m = st at hd hhb hhe hdb hde hsv ⊢
    have hsp := fun s s' (hs : s < n) (hs' : s' < n) (hne : s ≠ s') =>
      headerIteration_spacing L n secLen σ s s' hσ hs hs' hfit hne
    by_cases hH : ∃ s, s < n ∧ m = headerIteration L secLen σ s
    · -- a header block
      obtain ⟨s, hs, hms⟩ := hH
      obtain ⟨h8, hdec⟩ := hA1 s hs
      rw [← hms] at h8 hdec
      have hend : (st.info s).headerEnd = 0 := by rw [hhe s, if_neg (by omega)]
      rw [sectorStep_header invgcr hbs dbs bit sync st (h0 + m) s hd h8 hdec (by omega) hend]
      refine ⟨hd, ?_, ?_, ?_, ?_, ?_⟩
      · intro s'
        show (Function.update st.info s _ s').headerBegin = _
        rw [Function.update_apply]
        by_cases e : s' = s
        · subst e
          rw [if_pos rfl, if_pos ⟨hs, by omega⟩, ← hms]
        · rw [if_neg e, hhb s']
          by_cases hs' : s' < n
          · have := hsp s' s hs' hs e
            by_cases c : headerIteration L secLen σ s' < m
            · rw [if_pos ⟨hs', c⟩, if_pos ⟨hs', by omega⟩]
            · rw [if_neg (fun h => c h.2), if_neg (fun h => by omega)]
          · rw [if_neg (fun h => hs' h.1), if_neg (fun h => hs' h.1)]
      · intro s'
        show (Function.update st.info s _ s').headerEnd = _
        rw [Function.update_apply]
        by_cases e : s' = s
        · subst e
          rw [if_pos rfl, if_pos ⟨hs, by omega⟩, ← hms]
        · rw [if_neg e, hhe s']
          by_cases hs' : s' < n
          · have := hsp s' s hs' hs e
            by_cases c : headerIteration L secLen σ s' < m
            · rw [if_pos ⟨hs', c⟩, if_pos ⟨hs', by omega⟩]
            · rw [if_neg (fun h => c h.2), if_neg (fun h => by omega)]
          · rw [if_neg (fun h => hs' h.1), if_neg (fun h => hs' h.1)]
      · intro s'
        show (Function.update st.info s _ s').dataBegin = _
        rw [Function.update_apply]
        by_cases e : s' = s
        · subst e
          rw [if_pos rfl]
          show (st.info s').dataBegin = _
          rw [hdb s', if_neg (fun h => by omega), if_neg (fun h => by omega)]
        · rw [if_neg e, hdb s']
          by_cases hs' : s' < n
          · have := hsp s' s hs' hs e
            by_cases c : headerIteration L secLen σ s' + 192 < m
            · rw [if_pos ⟨hs', c⟩, if_pos ⟨hs', by omega⟩]
            · rw [if_neg (fun h => c h.2), if_neg (fun h => by omega)]
          · rw [if_neg (fun h => hs' h.1), if_neg (fun h => hs' h.1)]
      · intro s'
        show (Function.update st.info s _ s').dataEnd = _
        rw [Function.update_apply]
        by_cases e : s' = s
        · subst e
          rw [if_pos rfl]
          show (st.info s').dataEnd = _
          rw [hde s', if_neg (fun h => by omega), if_neg (fun h => by omega)]
        · rw [if_neg e, hde s']
          by_cases hs' : s' < n
          · have := hsp s' s hs' hs e
            by_cases c : headerIteration L secLen σ s' + 192 < m
            · rw [if_pos ⟨hs', c⟩, if_pos ⟨hs', by omega⟩]
            · rw [if_neg (fun h => c h.2), if_neg (fun h => by omega)]
          · rw [if_neg (fun h => hs' h.1), if_neg (fun h => hs' h.1)]
      · intro s' hs' h1 h2
        show s = s'
        by_cases e : s' = s
        · exact e.symm
        · have := hsp s' s hs' hs e
          omega
    · by_cases hD : ∃ s, s < n ∧ m = headerIteration L secLen σ s + 192
      · -- a data block
        obtain ⟨s, hs, hms⟩ := hD
        have h8 : sync (h0 + m) ≠ 8 := hA3 m (by omega) (fun s' hs' e => hH ⟨s', hs', e⟩)
        have h7 := hA2 s hs
        rw [← hms] at h7
        have hsec' : st.sector = s := hsv s hs (by omega) (by omega)
        rw [sectorStep_data invgcr hbs dbs bit sync st (h0 + m) hd h8 h7 (by omega), hsec']
        refine ⟨hd, ?_, ?_, ?_, ?_, ?_⟩
        · intro s'
          show (Function.update st.info s _ s').headerBegin = _
          rw [Function.update_apply]
          by_cases e : s' = s
          · subst e
            rw [if_pos rfl]
            show (st.info s').headerBegin = _
            rw [hhb s', if_pos ⟨hs, by omega⟩, if_pos ⟨hs, by omega⟩]
          · rw [if_neg e, hhb s']
            by_cases hs' : s' < n
            · have := hsp s' s hs' hs e
              by_cases c : headerIteration L secLen σ s' < m
              · rw [if_pos ⟨hs', c⟩, if_pos ⟨hs', by omega⟩]
              · rw [if_neg (fun h => c h.2), if_neg (fun h => by omega)]
            · rw [if_neg (fun h => hs' h.1), if_neg (fun h => hs' h.1)]
        · intro s'
          show (Function.update st.info s _ s').headerEnd = _
          rw [Function.update_apply]
          by_cases e : s' = s
          · subst e
            rw [if_pos rfl]
            show (st.info s').headerEnd = _
            rw [hhe s', if_pos ⟨hs, by omega⟩, if_pos ⟨hs, by omega⟩]
          · rw [if_neg e, hhe s']
            by_cases hs' : s' < n
            · have := hsp s' s hs' hs e
              by_cases c : headerIteration L secLen σ s' < m
              · rw [if_pos ⟨hs', c⟩, if_pos ⟨hs', by omega⟩]
              · rw [if_neg (fun h => c h.2), if_neg (fun h => by omega)]
            · rw [if_neg (fun h => hs' h.1), if_neg (fun h => hs' h.1)]
        · intro s'
          show (Function.update st.info s _ s').dataBegin = _
          rw [Function.update_apply]
          by_cases e : s' = s
          · subst e
            rw [if_pos rfl, if_pos ⟨hs, by omega⟩, ← hms]
          · rw [if_neg e, hdb s']
            by_cases hs' : s' < n
            · have := hsp s' s hs' hs e
              by_cases c : headerIteration L secLen σ s' + 192 < m
              · rw [if_pos ⟨hs', c⟩, if_pos ⟨hs', by omega⟩]
              · rw [if_neg (fun h => c h.2), if_neg (fun h => by omega)]
            · rw [if_neg (fun h => hs' h.1), if_neg (fun h => hs' h.1)]
        · intro s'
          show (Function.update st.info s _ s').dataEnd = _
          rw [Function.update_apply]
          by_cases e : s' = s
          · subst e
            rw [if_pos rfl, if_pos ⟨hs, by omega⟩, ← hms]
          · rw [if_neg e, hde s']
            by_cases hs' : s' < n
            · have := hsp s' s hs' hs e
              by_cases c : headerIteration L secLen σ s' + 192 < m
              · rw [if_pos ⟨hs', c⟩, if_pos ⟨hs', by omega⟩]
              · rw [if_neg (fun h => c h.2), if_neg (fun h => by omega)]
            · rw [if_neg (fun h => hs' h.1), if_neg (fun h => hs' h.1)]
        · intro s' hs' h1 h2
          show s = s'
          by_cases e : s' = s
          · exact e.symm
          · have := hsp s' s hs' hs e
            omega
      · -- no block starts here
        have h8 : sync (h0 + m) ≠ 8 := hA3 m (by omega) (fun s' hs' e => hH ⟨s', hs', e⟩)
        have h7 : sync (h0 + m) ≠ 7 := hA4 m (by omega) (fun s' hs' e => hD ⟨s', hs', e⟩)
        rw [sectorStep_none invgcr hbs dbs bit sync st (h0 + m) hd h8 h7]
        have hnh : ∀ s', s' < n → headerIteration L secLen σ s' ≠ m :=
          fun s' hs' e => hH ⟨s', hs', e.symm⟩
        have hnd : ∀ s', s' < n → headerIteration L secLen σ s' + 192 ≠ m :=
          fun s' hs' e => hD ⟨s', hs', e.symm⟩
        refine ⟨hd, ?_, ?_, ?_, ?_, ?_⟩
        · intro s'
          rw [hhb s']
          by_cases hs' : s' < n
          · have := hnh s' hs'
            by_cases c : headerIteration L secLen σ s' < m
            · rw [if_pos ⟨hs', c⟩, if_pos ⟨hs', by omega⟩]
            · rw [if_neg (fun h => c h.2), if_neg (fun h => by omega)]
          · rw [if_neg (fun h => hs' h.1), if_neg (fun h => hs' h.1)]
        · intro s'
          rw [hhe s']
          by_cases hs' : s' < n
          · have := hnh s' hs'
            by_cases c : headerIteration L secLen σ s' < m
            · rw [if_pos ⟨hs', c⟩, if_pos ⟨hs', by omega⟩]
            · rw [if_neg (fun h => c h.2), if_neg (fun h => by omega)]
          · rw [if_neg (fun h => hs' h.1), if_neg (fun h => hs' h.1)]
        · intro s'
          rw [hdb s']
          by_cases hs' : s' < n
          · have := hnd s' hs'
            by_cases c : headerIteration L secLen σ s' + 192 < m
            · rw [if_pos ⟨hs', c⟩, if_pos ⟨hs', by omega⟩]
            · rw [if_neg (fun h => c h.2), if_neg (fun h => by omega)]
          · rw [if_neg (fun h => hs' h.1), if_neg (fun h => hs' h.1)]
        · intro s'
          rw [hde s']
          by_cases hs' : s' < n
          · have := hnd s' hs'
            by_cases c : headerIteration L secLen σ s' + 192 < m
            · rw [if_pos ⟨hs', c⟩, if_pos ⟨hs', by omega⟩]
            · rw [if_neg (fun h => c h.2), if_neg (fun h => by omega)]
          · rw [if_neg (fun h => hs' h.1), if_neg (fun h => hs' h.1)]
        · intro s' hs' h1 h2
          have := hnh s' hs'
          exact hsv s' hs' (by omega) (by omega)

/-! ### The SYNC scan of `analyzeHalftrack` -/

/-- The counter `noOfOnes` before iteration `N` is at least `m` exactly when the
`m` entries before `N` are all nonzero. -/
theorem scanSync_ones (invgcr : Nat → Nat) (bit : Nat → Nat) :
    ∀ N m, m ≤ (scanSync invgcr bit N).2 ↔ (m ≤ N ∧ ∀ j, 1 ≤ j → j ≤ m → bit (N - j) ≠ 0) := by
  intro N
  induction N with
  | zero =>
    intro m
    show m ≤ 0 ↔ _
    constructor
    · intro h
      exact ⟨h, fun j h1 h2 => by omega⟩
    · intro h
      exact h.1
  | succ N ih =>
    intro m
    show m ≤ (if bit N ≠ 0 then (scanSync invgcr bit N).2 + 1 else 0) ↔ _
    by_cases hb : bit N ≠ 0
    · rw [if_pos hb]
      constructor
      · intro h
        by_cases hm : m = 0
        · subst hm
          exact ⟨by omega, fun j h1 h2 => by omega⟩
        · have := (ih (m - 1)).mp (by omega)
          refine ⟨by omega, ?_⟩
          intro j h1 h2
          by_cases hj : j = 1
          · subst hj
            exact hb
          · have := this.2 (j - 1) (by omega) (by omega)
            rw [show N - (j - 1) = N + 1 - j by omega] at this
            exact this
      · intro h
        by_cases hm : m = 0
        · omega
        · have : m - 1 ≤ (scanSync invgcr bit N).2 := by
            apply (ih (m - 1)).mpr
            refine ⟨by omega, ?_⟩
            intro j h1 h2
            have := h.2 (j + 1) (by omega) (by omega)
            rw [show N + 1 - (j + 1) = N - j by omega] at this
            exact this
          omega
    · rw [if_neg hb]
      constructor
      · intro h
        have hm : m = 0 := by omega
        subst hm
        exact ⟨by omega, fun j h1 h2 => by omega⟩
      · intro h
        by_cases hm : m = 0
        · omega
        · exact absurd (h.2 1 (by omega) (by omega)) hb

/-- The array `sync` after `N` iterations of the scan. -/
theorem scanSync_sync (invgcr : Nat → Nat) (bit : Nat → Nat) :
    ∀ N i, (scanSync invgcr bit N).1 i =
      if i < N ∧ bit i = 0 ∧ 10 ≤ (scanSync invgcr bit i).2 then
        decodeGcr invgcr (fun j => bit (i + j))
      else 0 := by
  intro N
  induction N with
  | zero =>
    intro i
    rw [if_neg (by omega)]
    rfl
  | succ N ih =>
    intro i
    show (if bit N = 0 ∧ (scanSync invgcr bit N).2 ≥ 10 then
        Function.update (scanSync invgcr bit N).1 N (decodeGcr invgcr (fun j => bit (N + j)))
      else (scanSync invgcr bit N).1) i = _
    by_cases hi : i = N
    · subst hi
      by_cases hc : bit i = 0 ∧ (scanSync invgcr bit i).2 ≥ 10
      · rw [if_pos hc, Function.update_same, if_pos ⟨by omega, hc.1, hc.2⟩]
      · rw [if_neg hc, ih, if_neg (by omega), if_neg (fun h => hc ⟨h.2.1, h.2.2⟩)]
    · have : (if bit N = 0 ∧ (scanSync invgcr bit N).2 ≥ 10 then
          Function.update (scanSync invgcr bit N).1 N (decodeGcr invgcr (fun j => bit (N + j)))
        else (scanSync invgcr bit N).1) i = (scanSync invgcr bit N).1 i := by
        split_ifs
        · exact Function.update_noteq hi _ _
        · rfl
      rw [this, ih]
      by_cases hc : i < N ∧ bit i = 0 ∧ 10 ≤ (scanSync invgcr bit i).2
      · rw [if_pos hc, if_pos ⟨by omega, hc.2⟩]
      · rw [if_neg hc, if_neg (fun h => hc ⟨by omega, h.2⟩)]

/-- The entry `sync[i]` after the scan: the byte decoded at `i` when `i` is below
the bound, holds a 0 and follows ten nonzero entries, and 0 otherwise. -/
theorem scanSync_entry (invgcr : Nat → Nat) (bit : Nat → Nat) (N i : Nat) :
    (scanSync invgcr bit N).1 i =
      if i < N ∧ bit i = 0 ∧ 10 ≤ i ∧ (∀ j, 1 ≤ j → j ≤ 10 → bit (i - j) ≠ 0) then
        decodeGcr invgcr (fun j => bit (i + j))
      else 0 := by
  rw [scanSync_sync]
  by_cases hc : i < N ∧ bit i = 0 ∧ 10 ≤ (scanSync invgcr bit i).2
  · rw [if_pos hc, if_pos ⟨hc.1, hc.2.1, (scanSync_ones invgcr bit i 10).mp hc.2.2⟩]
  · rw [if_neg hc, if_neg (fun h => hc ⟨h.1, h.2.1, (scanSync_ones invgcr bit i 10).mpr h.2.2⟩)]

/-- The loop that looks up the first header block stops at the first offset
whose entry is 0x08. -/
theorem lookupHeader_spec (sync : Nat → Nat) : ∀ fuel i,
    i ≤ lookupHeader sync fuel i ∧ lookupHeader sync fuel i ≤ i + fuel ∧
    (∀ j, i ≤ j → j < lookupHeader sync fuel i → sync j ≠ 8) ∧
    (lookupHeader sync fuel i < i + fuel → sync (lookupHeader sync fuel i) = 8) := by
  intro fuel
  induction fuel with
  | zero =>
    intro i
    exact ⟨Nat.le_refl _, Nat.le_refl _, fun j h1 h2 => by
      have : lookupHeader sync 0 i = i := rfl
      omega, fun h => by
      have : lookupHeader sync 0 i = i := rfl
      omega⟩
  | succ fuel ih =>
    intro i
    have e : lookupHeader sync (fuel + 1) i =
        if sync i = 8 then i else lookupHeader sync fuel (i + 1) := rfl
    rw [e]
    by_cases h : sync i = 8
    · rw [if_pos h]
      exact ⟨Nat.le_refl _, by omega, fun j h1 h2 => by omega, fun _ => h⟩
    · rw [if_neg h]
      obtain ⟨h1, h2, h3, h4⟩ := ih (i + 1)
      refine ⟨by omega, by omega, ?_, fun hh => h4 (by omega)⟩
      intro j hj1 hj2
      by_cases hj : j = i
      · rw [hj]
        exact h
      · exact h3 j (by omega) hj2

/-! ### The bits of an encoded track -/

theorem rotIndex_lt (L start i : Nat) (hL : 0 < L) : rotIndex L start i < L :=
  Nat.mod_lt _ hL

theorem rotIndex_add (L start i y : Nat) (h : rotIndex L start i + y < L) :
    rotIndex L start (i + y) = rotIndex L start i + y := by
  unfold rotIndex at h ⊢
  rw [show i + y + (L - start % L) = i + (L - start % L) + y by omega, ← Nat.mod_add_mod,
    Nat.mod_eq_of_lt h]

theorem rotIndex_add_len (L start i : Nat) : rotIndex L start (i + L) = rotIndex L start i := by
  unfold rotIndex
  rw [show i + L + (L - start % L) = i + (L - start % L) + L by omega, Nat.add_mod_right]

theorem rotIndex_sub (L start i j : Nat) (hL : 0 < L) (hj : j ≤ i)
    (hr : j ≤ rotIndex L start i) : rotIndex L start (i - j) = rotIndex L start i - j := by
  have h1 : rotIndex L start (i - j) < L := rotIndex_lt L start _ hL
  have h2 : rotIndex L start i < L := rotIndex_lt L start _ hL
  by_cases h : rotIndex L start (i - j) + j < L
  · have := rotIndex_add L start (i - j) j h
    rw [show i - j + j = i by omega] at this
    omega
  · exfalso
    have e : rotIndex L start i = (rotIndex L start (i - j) + j) % L := by
      have : rotIndex L start (i - j + j) = (rotIndex L start (i - j) + j) % L := by
        unfold rotIndex
        rw [show i - j + j + (L - start % L) = i - j + (L - start % L) + j by omega,
          ← Nat.mod_add_mod]
      rw [show i - j + j = i by omega] at this
      exact this
    have e2 : (rotIndex L start (i - j) + j) % L = rotIndex L start (i - j) + j - L := by
      rw [Nat.mod_eq_sub_mod (by omega), Nat.mod_eq_of_lt (by omega)]
    omega

theorem start_add_rotIndex (L start i : Nat) (hL : 0 < L) :
    (start + rotIndex L start i) % L = i % L := by
  have hs : start % L < L := Nat.mod_lt _ hL
  unfold rotIndex
  rw [Nat.add_mod_mod, ← Nat.mod_add_mod,
    show start % L + (i + (L - start % L)) = i + L by omega, Nat.add_mod_right]

theorem readBitFromTrack_of_mod (d : Disk) (t x y : Nat)
    (h : x % d.lengthOfTrack t = y % d.lengthOfTrack t) :
    readBitFromTrack d t x = readBitFromTrack d t y := by
  unfold readBitFromTrack
  simp only [h]

theorem readBitFromTrack_rot (d : Disk) (t start i : Nat) (hL : 0 < d.lengthOfTrack t) :
    readBitFromTrack d t i =
      readBitFromTrack d t (start + rotIndex (d.lengthOfTrack t) start i) :=
  readBitFromTrack_of_mod d t _ _ (start_add_rotIndex _ start i hL).symm

theorem readBitFromTrack_le_one (d : Disk) (t x : Nat) : readBitFromTrack d t x ≤ 1 := by
  unfold readBitFromTrack
  simp only
  split_ifs <;> omega

theorem encodedTrack_lengthOfTrack (d : Disk) (a : D64File) (al : Bool) (stg : Nat → Nat)
    (t : Nat) (h1 : 1 ≤ t) (h2 : t ≤ 42) :
    (encodedTrack d a al stg t).lengthOfTrack t = trackLen t := by
  unfold encodedTrack trackLen
  rw [writeBits_lengthOfTrack, assignTrackLengths_lengthOfTrack _ t h1 h2]

theorem encodedTrack_lengthOfHalftrack (d : Disk) (a : D64File) (al : Bool) (stg : Nat → Nat)
    (t : Nat) (h1 : 1 ≤ t) (h2 : t ≤ 42) :
    (encodedTrack d a al stg t).lengthOfHalftrack (2 * t - 1) = trackLen t := by
  have := encodedTrack_lengthOfTrack d a al stg t h1 h2
  unfold Disk.lengthOfTrack at this
  unfold Disk.lengthOfHalftrack
  rw [show 1 + (2 * t - 1) = 2 * t by omega]
  exact this

theorem track_params' (t : Nat) (h1 : 1 ≤ t) (h2 : t ≤ 42) :
    0 < trackLen t ∧ trackLen t ≤ maxBitsOnTrack ∧ trackLen t % 2 = 0 ∧ 50000 ≤ trackLen t ∧
    17 ≤ numberOfSectorsInTrack t ∧ numberOfSectorsInTrack t ≤ 21 ∧
    2896 ≤ sectorBits t ∧ sectorBits t ≤ 2968 ∧ sectorBits t % 2 = 0 ∧
    numberOfSectorsInTrack t * sectorBits t ≤ trackLen t := by
  unfold trackLen sectorBits
  interval_cases t <;> decide

/-- Bit `r` of sector `s` is read back from the encoded track. -/
theorem encodedTrack_layout (d : Disk) (a : D64File) (al : Bool) (stg : Nat → Nat)
    (t : Nat) (h1 : 1 ≤ t) (h2 : t ≤ 42) (s r : Nat) (hs : s < numberOfSectorsInTrack t)
    (hr : r < sectorBits t) :
    readBitFromTrack (encodedTrack d a al stg t) t (startOfTrack al stg t + (s * sectorBits t + r)) =
      ((sectorLayoutWithErrors a t s (tailGapOfZone (speedZoneOfTrack t))).getD r false).toNat := by
  obtain ⟨_, _, _, _, _, _, _, _, _, hfit⟩ := track_params' t h1 h2
  have hlen := trackLayout_length a t (tailGapOfZone (speedZoneOfTrack t))
  have hL := assignTrackLengths_lengthOfTrack (clearDisk d) t h1 h2
  have hk : s * sectorBits t + r < (trackLayout a t (tailGapOfZone (speedZoneOfTrack t))).length := by
    rw [hlen]
    have := mul_succ_le s (numberOfSectorsInTrack t) (sectorBits t) hs
    unfold sectorBits at this hr ⊢
    omega
  unfold encodedTrack
  rw [readBit_writeBits_hit _ t _ _ _ (by rw [hlen, hL]; exact hfit) hk]
  unfold trackLayout sectorBits
  rw [flatten_range_getD _ _ (fun s => sectorLayoutWithErrors_length a t s _) _ s r hs hr]

/-- A position of the encoded track behind the last sector holds the bit of the
cleared track: the bits at odd positions are set. -/
theorem encodedTrack_unused (d : Disk) (a : D64File) (al : Bool) (stg : Nat → Nat)
    (t : Nat) (h1 : 1 ≤ t) (h2 : t ≤ 42) (k : Nat)
    (hk : numberOfSectorsInTrack t * sectorBits t ≤ k) (hk' : k < trackLen t) :
    readBitFromTrack (encodedTrack d a al stg t) t (startOfTrack al stg t + k) =
      if (startOfTrack al stg t + k) % 2 = 1 then 1 else 0 := by
  obtain ⟨hp1, hp2, hp3, _, _, _, _, _, _, hfit⟩ := track_params' t h1 h2
  have hlen := trackLayout_length a t (tailGapOfZone (speedZoneOfTrack t))
  have hL : (assignTrackLengths (clearDisk d)).lengthOfTrack t = trackLen t :=
    assignTrackLengths_lengthOfTrack (clearDisk d) t h1 h2
  unfold encodedTrack
  rw [readBit_writeBits_miss]
  · apply readBitFromTrack_cleared
    · rw [hL]; exact hp1
    · rw [hL]; exact hp2
    · rw [hL]; exact hp3
    · intro j hj
      rw [assignTrackLengths_data, clearDisk_data, if_pos (by omega)]
  · intro i hi
    rw [hlen] at hi
    rw [hL]
    exact add_mod_ne_add_mod _ i k _ (by unfold sectorBits at hk; omega)
      (by unfold sectorBits at hfit; omega) hk'

theorem toNat_eq_zero (b : Bool) (h : b.toNat = 0) : b = false := by
  cases b
  · rfl
  · exact absurd h (by decide)

theorem toNat_eq_one (b : Bool) (h : b.toNat = 1) : b = true := by
  cases b
  · exact absurd h (by decide)
  · rfl

/-- The bits around the block starts of the sectors of an encoded track. -/
theorem track_blocks (d : Disk) (a : D64File) (al : Bool) (stg : Nat → Nat)
    (t : Nat) (h1 : 1 ≤ t) (h2 : t ≤ 42) (herr : ∀ s, s < numberOfSectorsInTrack t → a.errorCode t s ∉ [2, 3, 4, 5, 9, 0xB])
    (s : Nat) (hs : s < numberOfSectorsInTrack t) :
    readBitFromTrack (encodedTrack d a al stg t) t
      (startOfTrack al stg t + (s * sectorBits t + 40)) = 0 ∧
    readBitFromTrack (encodedTrack d a al stg t) t
      (startOfTrack al stg t + (s * sectorBits t + 232)) = 0 ∧
    (∀ j, 1 ≤ j → j ≤ 40 → readBitFromTrack (encodedTrack d a al stg t) t
      (startOfTrack al stg t + (s * sectorBits t + 40 - j)) = 1) ∧
    (∀ j, 1 ≤ j → j ≤ 40 → readBitFromTrack (encodedTrack d a al stg t) t
      (startOfTrack al stg t + (s * sectorBits t + 232 - j)) = 1) := by
  obtain ⟨_, _, _, _, _, _, hsec, _, _, _⟩ := track_params' t h1 h2
  obtain ⟨f1, f40, _, f4, f232, _⟩ :=
    layout_facts a t s (tailGapOfZone (speedZoneOfTrack t)) (herr s hs)
  refine ⟨?_, ?_, ?_, ?_⟩
  · rw [encodedTrack_layout d a al stg t h1 h2 s 40 hs (by omega), f40]
    rfl
  · rw [encodedTrack_layout d a al stg t h1 h2 s 232 hs (by omega), f232]
    rfl
  · intro j hj1 hj2
    rw [show s * sectorBits t + 40 - j = s * sectorBits t + (40 - j) by omega,
      encodedTrack_layout d a al stg t h1 h2 s (40 - j) hs (by omega), f1 _ (by omega)]
    rfl
  · intro j hj1 hj2
    rw [show s * sectorBits t + 232 - j = s * sectorBits t + (192 + (40 - j)) by omega,
      encodedTrack_layout d a al stg t h1 h2 s _ hs (by omega), f4 _ (by omega)]
    rfl

/-- On an encoded track, a 0 bit that follows nine 1 bits is the first bit of the
header block or of the data block of a sector. -/
theorem track_pattern (d : Disk) (a : D64File) (al : Bool) (stg : Nat → Nat)
    (t : Nat) (h1 : 1 ≤ t) (h2 : t ≤ 42) (herr : ∀ s, s < numberOfSectorsInTrack t → a.errorCode t s ∉ [2, 3, 4, 5, 9, 0xB])
    (k : Nat) (hk : k < trackLen t)
    (h0 : readBitFromTrack (encodedTrack d a al stg t) t (startOfTrack al stg t + k) = 0)
    (hw : ∀ j, 1 ≤ j → j ≤ 9 → j ≤ k →
      readBitFromTrack (encodedTrack d a al stg t) t (startOfTrack al stg t + (k - j)) = 1) :
    ∃ s, s < numberOfSectorsInTrack t ∧
      (k = s * sectorBits t + 40 ∨ k = s * sectorBits t + 232) := by
  obtain ⟨_, _, _, _, hn17, _, hsec, hsec', hsec2, hfit⟩ := track_params' t h1 h2
  have hsecdef : sectorBits t = 2832 + 8 * tailGapOfZone (speedZoneOfTrack t) := rfl
  by_cases hk' : k < numberOfSectorsInTrack t * sectorBits t
  · -- inside a sector
    have hsl : k / sectorBits t < numberOfSectorsInTrack t :=
      Nat.div_lt_of_lt_mul (by rw [Nat.mul_comm]; exact hk')
    have hr : k % sectorBits t < sectorBits t := Nat.mod_lt _ (by omega)
    have hkd : k / sectorBits t * sectorBits t + k % sectorBits t = k := Nat.div_add_mod' k _
    generalize k / sectorBits t = s at hsl hkd
    generalize k % sectorBits t = r at hr hkd
    subst hkd
    rw [encodedTrack_layout d a al stg t h1 h2 s r hsl hr] at h0
    have hp := sector_pattern a t s (tailGapOfZone (speedZoneOfTrack t)) (herr s hsl) (by omega) r
      (by rw [← hsecdef]; exact hr) (toNat_eq_zero _ h0) (by
        intro j hj1 hj2 hj3
        have := hw j hj1 hj2 (by omega)
        rw [show s * sectorBits t + r - j = s * sectorBits t + (r - j) by omega,
          encodedTrack_layout d a al stg t h1 h2 s (r - j) hsl (by omega)] at this
        exact toNat_eq_one _ this)
    refine ⟨s, hsl, ?_⟩
    rcases hp with hp | hp
    · left; rw [hp]
    · right; rw [hp]
  · -- behind the last sector
    exfalso
    have hn1 : numberOfSectorsInTrack t - 1 < numberOfSectorsInTrack t := by omega
    have hmul : (numberOfSectorsInTrack t - 1) * sectorBits t + sectorBits t =
        numberOfSectorsInTrack t * sectorBits t := by
      rw [← Nat.succ_mul]
      congr 1
      omega
    have htail : readBitFromTrack (encodedTrack d a al stg t) t
        (startOfTrack al stg t + (numberOfSectorsInTrack t * sectorBits t - 2)) = 0 := by
      rw [show numberOfSectorsInTrack t * sectorBits t - 2 =
          (numberOfSectorsInTrack t - 1) * sectorBits t + (sectorBits t - 2) by omega,
        encodedTrack_layout d a al stg t h1 h2 _ _ hn1 (by omega),
        show sectorBits t - 2 = 2832 + (8 * tailGapOfZone (speedZoneOfTrack t) - 2) by omega,
        layout_tail a t _ _ _ (by omega)]
      have : ¬ ((8 * tailGapOfZone (speedZoneOfTrack t) - 2) % 2 = 1) := by omega
      rw [decide_eq_false this]
      rfl
    have hge : 49232 ≤ numberOfSectorsInTrack t * sectorBits t := by
      have := Nat.mul_le_mul hn17 hsec
      omega
    by_cases c1 : k = numberOfSectorsInTrack t * sectorBits t
    · have := hw 2 (by decide) (by decide) (by omega)
      rw [c1, htail] at this
      exact absurd this (by decide)
    by_cases c2 : k = numberOfSectorsInTrack t * sectorBits t + 1
    · have := hw 3 (by decide) (by decide) (by omega)
      rw [c2, show numberOfSectorsInTrack t * sectorBits t + 1 - 3 =
        numberOfSectorsInTrack t * sectorBits t - 2 by omega, htail] at this
      exact absurd this (by decide)
    · rw [encodedTrack_unused d a al stg t h1 h2 k (by omega) hk] at h0
      have := hw 2 (by decide) (by decide) (by omega)
      rw [encodedTrack_unused d a al stg t h1 h2 (k - 2) (by omega) (by omega)] at this
      split_ifs at h0 this with p q
      omega

/-! ### The SYNC marks of an encoded track -/

theorem trackBuffer_eq (d : Disk) (a : D64File) (al : Bool) (stg : Nat → Nat)
    (t : Nat) (h1 : 1 ≤ t) (h2 : t ≤ 42) (i : Nat) (hi : i < 2 * trackLen t) :
    trackBuffer d a al stg t i =
      readBitFromTrack (encodedTrack d a al stg t) t
        (startOfTrack al stg t + rotIndex (trackLen t) (startOfTrack al stg t) i) := by
  obtain ⟨hp1, hp2, _⟩ := track_params' t h1 h2
  have hL := encodedTrack_lengthOfTrack d a al stg t h1 h2
  unfold trackBuffer
  rw [trackInfoBit_eq _ t i h1 (by rw [hL]; exact hp2) (by rw [hL]; exact hi),
    readBitFromTrack_rot _ t (startOfTrack al stg t) i (by rw [hL]; exact hp1), hL]

theorem trackBuffer_sector (d : Disk) (a : D64File) (al : Bool) (stg : Nat → Nat)
    (t : Nat) (h1 : 1 ≤ t) (h2 : t ≤ 42) (s : Nat) (hs : s < numberOfSectorsInTrack t)
    (i : Nat) (hi : i < 2 * trackLen t) (r : Nat) (hr : r < sectorBits t)
    (hrot : rotIndex (trackLen t) (startOfTrack al stg t) i = s * sectorBits t + r) :
    trackBuffer d a al stg t i =
      ((sectorLayoutWithErrors a t s (tailGapOfZone (speedZoneOfTrack t))).getD r false).toNat := by
  rw [trackBuffer_eq d a al stg t h1 h2 i hi, hrot, encodedTrack_layout d a al stg t h1 h2 s r hs hr]

/-- Decoding ten entries of the buffer that hold the GCR code of `v` in
sector `s`. -/
theorem decode_block (invgcr : Nat → Nat) (hinv : ∀ v, v < 16 → invgcr (bin2gcr v) = v)
    (d : Disk) (a : D64File) (al : Bool) (stg : Nat → Nat)
    (t : Nat) (h1 : 1 ≤ t) (h2 : t ≤ 42) (s : Nat) (hs : s < numberOfSectorsInTrack t)
    (i : Nat) (hi : i + 10 ≤ 2 * trackLen t) (r : Nat) (hr : r + 10 ≤ sectorBits t)
    (hrot : rotIndex (trackLen t) (startOfTrack al stg t) i = s * sectorBits t + r)
    (v : Nat)
    (hv : ∀ j, j < 10 →
      (sectorLayoutWithErrors a t s (tailGapOfZone (speedZoneOfTrack t))).getD (r + j) false =
        (gcrBits v).getD j false) :
    decodeGcr invgcr (fun j => trackBuffer d a al stg t (i + j)) = v % 256 := by
  obtain ⟨_, _, _, _, _, _, _, _, _, hfit⟩ := track_params' t h1 h2
  have hm := mul_succ_le s (numberOfSectorsInTrack t) (sectorBits t) hs
  apply decodeGcr_of_bits invgcr hinv
  intro j hj
  rw [trackBuffer_sector d a al stg t h1 h2 s hs (i + j) (by omega) (r + j) (by omega)
    (by rw [rotIndex_add _ _ _ _ (by rw [hrot]; omega), hrot]; omega), hv j hj]

theorem layout_header_byte (a : D64File) (t s tailGap m j : Nat) (hm : m < 8) (hj : j < 10) :
    (sectorLayoutWithErrors a t s tailGap).getD (40 + 10 * m + j) false =
      (gcrBits ((headerBytes a t s).getD m 0)).getD j false := by
  rw [Nat.add_assoc, sectorLayoutWithErrors_header a t s tailGap _ (by omega),
    gcrBitsOfBytes_getD _ m j (by rw [headerBytes_length]; exact hm) hj]

theorem layout_data_byte (a : D64File) (t s tailGap m j : Nat) (hm : m < 260) (hj : j < 10) :
    (sectorLayoutWithErrors a t s tailGap).getD (232 + 10 * m + j) false =
      (gcrBits ((dataBytes a t s).getD m 0)).getD j false := by
  rw [Nat.add_assoc, sectorLayoutWithErrors_data a t s tailGap _ (by omega),
    gcrBitsOfBytes_getD _ m j (by rw [dataBytes_length]; exact hm) hj]

/-- The entry of `sync` at the first bit of a header block is 0x08. -/
theorem trackSync_header (invgcr : Nat → Nat) (hinv : ∀ v, v < 16 → invgcr (bin2gcr v) = v)
    (d : Disk) (a : D64File) (al : Bool) (stg : Nat → Nat)
    (t : Nat) (h1 : 1 ≤ t) (h2 : t ≤ 42) (herr : ∀ s, s < numberOfSectorsInTrack t → a.errorCode t s ∉ [2, 3, 4, 5, 9, 0xB])
    (s : Nat) (hs : s < numberOfSectorsInTrack t)
    (i : Nat) (hi : i < 2 * trackLen t - 10) (hi' : 10 ≤ i)
    (hrot : rotIndex (trackLen t) (startOfTrack al stg t) i = s * sectorBits t + 40) :
    trackSync invgcr d a al stg t i = 8 ∧
    decodeGcr invgcr (fun j => trackBuffer d a al stg t (i + j)) = 8 := by
  obtain ⟨hp1, _, _, _, _, _, hsec, _, _, hfit⟩ := track_params' t h1 h2
  obtain ⟨b1, _, b3, _⟩ := track_blocks d a al stg t h1 h2 herr s hs
  have hdec : decodeGcr invgcr (fun j => trackBuffer d a al stg t (i + j)) = 8 := by
    have := decode_block invgcr hinv d a al stg t h1 h2 s hs i (by omega) 40 (by omega) hrot 8
      (by
        intro j hj
        have := layout_header_byte a t s (tailGapOfZone (speedZoneOfTrack t)) 0 j (by decide) hj
        rw [headerBytes_noError a t s (herr s hs)] at this
        exact this)
    exact this
  refine ⟨?_, hdec⟩
  unfold trackSync
  rw [scanSync_entry, if_pos, hdec]
  refine ⟨hi, ?_, hi', ?_⟩
  · rw [trackBuffer_eq d a al stg t h1 h2 i (by omega), hrot, b1]
  · intro j hj1 hj2
    rw [trackBuffer_eq d a al stg t h1 h2 (i - j) (by omega),
      rotIndex_sub _ _ _ _ hp1 (by omega) (by rw [hrot]; omega), hrot, b3 j hj1 (by omega)]
    decide

/-- The entry of `sync` at the first bit of a data block is 0x07. -/
theorem trackSync_data (invgcr : Nat → Nat) (hinv : ∀ v, v < 16 → invgcr (bin2gcr v) = v)
    (d : Disk) (a : D64File) (al : Bool) (stg : Nat → Nat)
    (t : Nat) (h1 : 1 ≤ t) (h2 : t ≤ 42) (herr : ∀ s, s < numberOfSectorsInTrack t → a.errorCode t s ∉ [2, 3, 4, 5, 9, 0xB])
    (s : Nat) (hs : s < numberOfSectorsInTrack t)
    (i : Nat) (hi : i < 2 * trackLen t - 10) (hi' : 10 ≤ i)
    (hrot : rotIndex (trackLen t) (startOfTrack al stg t) i = s * sectorBits t + 232) :
    trackSync invgcr d a al stg t i = 7 ∧
    decodeGcr invgcr (fun j => trackBuffer d a al stg t (i + j)) = 7 := by
  obtain ⟨hp1, _, _, _, _, _, hsec, _, _, hfit⟩ := track_params' t h1 h2
  obtain ⟨_, b2, _, b4⟩ := track_blocks d a al stg t h1 h2 herr s hs
  have h4 : a.errorCode t s ≠ 0x4 := by
    have := herr s hs
    simp only [List.mem_cons, List.mem_singleton, List.mem_nil_iff, or_false, not_or] at this
    exact this.2.2.1
  have hdec : decodeGcr invgcr (fun j => trackBuffer d a al stg t (i + j)) = 7 := by
    have := decode_block invgcr hinv d a al stg t h1 h2 s hs i (by omega) 232 (by omega) hrot 7
      (by
        intro j hj
        have := layout_data_byte a t s (tailGapOfZone (speedZoneOfTrack t)) 0 j (by decide) hj
        rw [dataBytes_getD_zero, if_neg h4] at this
        exact this)
    exact this
  refine ⟨?_, hdec⟩
  unfold trackSync
  rw [scanSync_entry, if_pos, hdec]
  refine ⟨hi, ?_, hi', ?_⟩
  · rw [trackBuffer_eq d a al stg t h1 h2 i (by omega), hrot, b2]
  · intro j hj1 hj2
    rw [trackBuffer_eq d a al stg t h1 h2 (i - j) (by omega),
      rotIndex_sub _ _ _ _ hp1 (by omega) (by rw [hrot]; omega), hrot, b4 j hj1 (by omega)]
    decide

/-- A nonzero entry of `sync` sits at the first bit of a header block or of a
data block. -/
theorem trackSync_block (invgcr : Nat → Nat)
    (d : Disk) (a : D64File) (al : Bool) (stg : Nat → Nat)
    (t : Nat) (h1 : 1 ≤ t) (h2 : t ≤ 42) (herr : ∀ s, s < numberOfSectorsInTrack t → a.errorCode t s ∉ [2, 3, 4, 5, 9, 0xB])
    (i : Nat) (hne : trackSync invgcr d a al stg t i ≠ 0) :
    i < 2 * trackLen t - 10 ∧ 10 ≤ i ∧
    ∃ s, s < numberOfSectorsInTrack t ∧
      (rotIndex (trackLen t) (startOfTrack al stg t) i = s * sectorBits t + 40 ∨
       rotIndex (trackLen t) (startOfTrack al stg t) i = s * sectorBits t + 232) := by
  obtain ⟨hp1, _, _, _, _, _, hsec, _, _, hfit⟩ := track_params' t h1 h2
  unfold trackSync at hne
  rw [scanSync_entry] at hne
  by_cases hc : i < 2 * trackLen t - 10 ∧ trackBuffer d a al stg t i = 0 ∧ 10 ≤ i ∧
      ∀ j, 1 ≤ j → j ≤ 10 → trackBuffer d a al stg t (i - j) ≠ 0
  · obtain ⟨c1, c2, c3, c4⟩ := hc
    refine ⟨c1, c3, ?_⟩
    apply track_pattern d a al stg t h1 h2 herr _ (rotIndex_lt _ _ _ hp1)
    · rw [← trackBuffer_eq d a al stg t h1 h2 i (by omega)]
      exact c2
    · intro j hj1 hj2 hj3
      have := c4 j hj1 (by omega)
      rw [trackBuffer_eq d a al stg t h1 h2 (i - j) (by omega),
        rotIndex_sub _ _ _ _ hp1 (by omega) hj3] at this
      have hle := readBitFromTrack_le_one (encodedTrack d a al stg t) t
        (startOfTrack al stg t + (rotIndex (trackLen t) (startOfTrack al stg t) i - j))
      omega
  · rw [if_neg hc] at hne
    exact absurd rfl hne

/-! ### The header block that is found first -/

theorem rotIndex_add_mod (L start i y : Nat) :
    rotIndex L start (i + y) = (rotIndex L start i + y) % L := by
  unfold rotIndex
  rw [show i + y + (L - start % L) = i + (L - start % L) + y by omega, ← Nat.mod_add_mod]

theorem rotIndex_inj (L start i j j' : Nat) (hj : j < L) (hj' : j' < L)
    (h : rotIndex L start (i + j) = rotIndex L start (i + j')) : j = j' := by
  by_contra hne
  rw [rotIndex_add_mod, rotIndex_add_mod] at h
  exact add_mod_ne_add_mod _ j j' L hne hj hj' h

/-- Some header block starts at an offset between 10 and the length of the
track. -/
theorem header_exists (L secLen start : Nat) (hL : 0 < L) (h1 : 10 ≤ secLen)
    (h2 : 2 * secLen + 40 ≤ L) :
    ∃ i s, 10 ≤ i ∧ i < L ∧ s < 2 ∧ rotIndex L start i = s * secLen + 40 := by
  have hs : start % L < L := Nat.mod_lt _ hL
  by_cases c : 40 + start % L < L
  · refine ⟨40 + start % L, 0, by omega, c, by decide, ?_⟩
    unfold rotIndex
    rw [show 40 + start % L + (L - start % L) = 40 + L by omega, Nat.add_mod_right,
      Nat.mod_eq_of_lt (by omega)]
    omega
  · refine ⟨secLen + 40 + start % L - L, 1, by omega, by omega, by decide, ?_⟩
    unfold rotIndex
    rw [show secLen + 40 + start % L - L + (L - start % L) = secLen + 40 by omega,
      Nat.mod_eq_of_lt (by omega)]
    omega

/-- The loop that looks up the first header block of an encoded track stops at
the first bit of the header block of a sector `σ`. -/
theorem trackStartOffset_spec (invgcr : Nat → Nat)
    (hinv : ∀ v, v < 16 → invgcr (bin2gcr v) = v)
    (d : Disk) (a : D64File) (al : Bool) (stg : Nat → Nat)
    (t : Nat) (h1 : 1 ≤ t) (h2 : t ≤ 42) (herr : ∀ s, s < numberOfSectorsInTrack t → a.errorCode t s ∉ [2, 3, 4, 5, 9, 0xB]) :
    10 ≤ trackStartOffset invgcr d a al stg t ∧
    trackStartOffset invgcr d a al stg t < trackLen t ∧
    firstSector invgcr d a al stg t < numberOfSectorsInTrack t ∧
    rotIndex (trackLen t) (startOfTrack al stg t) (trackStartOffset invgcr d a al stg t) =
      firstSector invgcr d a al stg t * sectorBits t + 40 := by
  obtain ⟨hp1, _, _, hp4, hn17, _, hsec, hsec', _, hfit⟩ := track_params' t h1 h2
  obtain ⟨l1, l2, l3, l4⟩ := lookupHeader_spec (trackSync invgcr d a al stg t) (trackLen t) 0
  have hlt : trackStartOffset invgcr d a al stg t < trackLen t := by
    by_contra hge
    obtain ⟨i, s, hi1, hi2, hs, hrot⟩ := header_exists (trackLen t) (sectorBits t)
      (startOfTrack al stg t) hp1 (by omega) (by omega)
    have := (trackSync_header invgcr hinv d a al stg t h1 h2 herr s (by omega) i (by omega) hi1
      hrot).1
    exact l3 i (by omega) (by
      unfold trackStartOffset findStartOffset at hge
      omega) this
  have h8 : trackSync invgcr d a al stg t (trackStartOffset invgcr d a al stg t) = 8 :=
    l4 (by
      unfold trackStartOffset findStartOffset at hlt
      omega)
  obtain ⟨b1, b2, s, hs, hrot⟩ := trackSync_block invgcr d a al stg t h1 h2 herr
    (trackStartOffset invgcr d a al stg t) (by rw [h8]; decide)
  have hrot' : rotIndex (trackLen t) (startOfTrack al stg t)
      (trackStartOffset invgcr d a al stg t) = s * sectorBits t + 40 := by
    rcases hrot with hrot | hrot
    · exact hrot
    · have := (trackSync_data invgcr hinv d a al stg t h1 h2 herr s hs _ b1 b2 hrot).1
      rw [h8] at this
      exact absurd this (by decide)
  have hfs : firstSector invgcr d a al stg t = s := by
    unfold firstSector
    rw [hrot', Nat.add_sub_cancel, Nat.mul_div_cancel _ (by omega)]
  rw [hfs]
  exact ⟨b2, hlt, hs, hrot'⟩

/-- The iteration of the sector loop that starts at the first bit of the header
block of sector `s`. -/
theorem rotIndex_headerIteration (L n secLen start h0 σ s : Nat) (hσ : σ < n) (hs : s < n)
    (hfit : n * secLen ≤ L) (hsec : 40 < secLen)
    (hrot : rotIndex L start h0 = σ * secLen + 40) :
    rotIndex L start (h0 + headerIteration L secLen σ s) = s * secLen + 40 := by
  have m1 := mul_succ_le s n secLen hs
  have m2 := mul_succ_le σ n secLen hσ
  rw [rotIndex_add_mod, hrot]
  unfold headerIteration
  split_ifs with h
  · have m3 := Nat.mul_le_mul_right secLen h
    rw [show σ * secLen + 40 + (s * secLen - σ * secLen) = s * secLen + 40 by omega,
      Nat.mod_eq_of_lt (by omega)]
  · have m3 := mul_succ_le s σ secLen (by omega)
    rw [show σ * secLen + 40 + (L - (σ * secLen - s * secLen)) = s * secLen + 40 + L by omega,
      Nat.add_mod_right, Nat.mod_eq_of_lt (by omega)]

theorem rotIndex_dataIteration (L n secLen start h0 σ s : Nat) (hσ : σ < n) (hs : s < n)
    (hfit : n * secLen ≤ L) (hsec : 232 < secLen)
    (hrot : rotIndex L start h0 = σ * secLen + 40) (y : Nat) (hy : 40 + y < secLen) :
    rotIndex L start (h0 + headerIteration L secLen σ s + y) = s * secLen + 40 + y := by
  have m1 := mul_succ_le s n secLen hs
  have hk := rotIndex_headerIteration L n secLen start h0 σ s hσ hs hfit (by omega) hrot
  rw [rotIndex_add _ _ _ _ (by rw [hk]; omega), hk]

/-! ### `analyzeTrack` on an encoded track -/

theorem analyzeSectorHeaderBlock_isSome (invgcr : Nat → Nat) (bit : Nat → Nat) (offset : Nat)
    (h : decodeGcr invgcr (fun i => bit (offset + i)) = 0x08) :
    (analyzeSectorHeaderBlock invgcr bit offset).isSome = true := by
  unfold analyzeSectorHeaderBlock
  rw [if_pos h]
  simp only
  split_ifs <;> rfl

theorem analyzeSectorDataBlock_isSome (invgcr : Nat → Nat) (bit : Nat → Nat) (offset : Nat)
    (h : decodeGcr invgcr (fun i => bit (offset + i)) = 0x07) :
    (analyzeSectorDataBlock invgcr bit offset).isSome = true := by
  unfold analyzeSectorDataBlock
  rw [if_pos h]
  simp only
  split_ifs <;> rfl

/-- The facts about `sync` that the sector loop relies on, for an encoded
track. -/
theorem trackSync_events (invgcr : Nat → Nat) (hinv : ∀ v, v < 16 → invgcr (bin2gcr v) = v)
    (d : Disk) (a : D64File) (al : Bool) (stg : Nat → Nat)
    (t : Nat) (h1 : 1 ≤ t) (h2 : t ≤ 42) (herr : ∀ s, s < numberOfSectorsInTrack t → a.errorCode t s ∉ [2, 3, 4, 5, 9, 0xB]) :
    (∀ s, s < numberOfSectorsInTrack t →
      trackSync invgcr d a al stg t (trackStartOffset invgcr d a al stg t +
        headerIteration (trackLen t) (sectorBits t) (firstSector invgcr d a al stg t) s) = 8 ∧
      decodeGcr invgcr (fun j => trackBuffer d a al stg t (trackStartOffset invgcr d a al stg t +
        headerIteration (trackLen t) (sectorBits t) (firstSector invgcr d a al stg t) s + j)) = 8 ∧
      decodeGcr invgcr (fun j => trackBuffer d a al stg t (trackStartOffset invgcr d a al stg t +
        headerIteration (trackLen t) (sectorBits t) (firstSector invgcr d a al stg t) s +
          20 + j)) = s) ∧
    (∀ s, s < numberOfSectorsInTrack t →
      trackSync invgcr d a al stg t (trackStartOffset invgcr d a al stg t +
        (headerIteration (trackLen t) (sectorBits t) (firstSector invgcr d a al stg t) s + 192)) =
          7 ∧
      decodeGcr invgcr (fun j => trackBuffer d a al stg t (trackStartOffset invgcr d a al stg t +
        (headerIteration (trackLen t) (sectorBits t) (firstSector invgcr d a al stg t) s + 192) +
          j)) = 7) ∧
    (∀ j, j < trackLen t →
      (∀ s, s < numberOfSectorsInTrack t →
        j ≠ headerIteration (trackLen t) (sectorBits t) (firstSector invgcr d a al stg t) s) →
      trackSync invgcr d a al stg t (trackStartOffset invgcr d a al stg t + j) ≠ 8) ∧
    (∀ j, j < trackLen t →
      (∀ s, s < numberOfSectorsInTrack t →
        j ≠ headerIteration (trackLen t) (sectorBits t) (firstSector invgcr d a al stg t) s + 192) →
      trackSync invgcr d a al stg t (trackStartOffset invgcr d a al stg t + j) ≠ 7) := by
  obtain ⟨hp1, _, _, hp4, hn17, hn21, hsec, hsec', _, hfit⟩ := track_params' t h1 h2
  obtain ⟨s1, s2, s3, s4⟩ := trackStartOffset_spec invgcr hinv d a al stg t h1 h2 herr
  generalize trackStartOffset invgcr d a al stg t = h0 at s1 s2 s4 ⊢
  generalize firstSector invgcr d a al stg t = σ at s3 s4 ⊢
  have hJ := fun s (hs : s < numberOfSectorsInTrack t) =>
    headerIteration_bound (trackLen t) (numberOfSectorsInTrack t) (sectorBits t) σ s s3 hs hfit
  have hrh := fun s (hs : s < numberOfSectorsInTrack t) =>
    rotIndex_headerIteration (trackLen t) (numberOfSectorsInTrack t) (sectorBits t)
      (startOfTrack al stg t) h0 σ s s3 hs hfit (by omega) s4
  have hrd := fun s (hs : s < numberOfSectorsInTrack t) (y : Nat) (hy : 40 + y < sectorBits t) =>
    rotIndex_dataIteration (trackLen t) (numberOfSectorsInTrack t) (sectorBits t)
      (startOfTrack al stg t) h0 σ s s3 hs hfit (by omega) s4 y hy
  refine ⟨?_, ?_, ?_, ?_⟩
  · intro s hs
    have hb := hJ s hs
    obtain ⟨e1, e2⟩ := trackSync_header invgcr hinv d a al stg t h1 h2 herr s hs
      (h0 + headerIteration (trackLen t) (sectorBits t) σ s) (by omega) (by omega) (hrh s hs)
    refine ⟨e1, e2, ?_⟩
    have := decode_block invgcr hinv d a al stg t h1 h2 s hs
      (h0 + headerIteration (trackLen t) (sectorBits t) σ s + 20) (by omega) 60 (by omega)
      (by rw [hrd s hs 20 (by omega)]) s
      (by
        intro j hj
        have := layout_header_byte a t s (tailGapOfZone (speedZoneOfTrack t)) 2 j (by decide) hj
        rw [headerBytes_noError a t s (herr s hs)] at this
        exact this)
    rw [this]
    exact Nat.mod_eq_of_lt (by omega)
  · intro s hs
    have hb := hJ s hs
    have := trackSync_data invgcr hinv d a al stg t h1 h2 herr s hs
      (h0 + (headerIteration (trackLen t) (sectorBits t) σ s + 192)) (by omega) (by omega)
      (by rw [← Nat.add_assoc, hrd s hs 192 (by omega)])
    exact this
  · intro j hj hne h8
    obtain ⟨b1, b2, s, hs, hrot⟩ := trackSync_block invgcr d a al stg t h1 h2 herr (h0 + j)
      (by rw [h8]; decide)
    rcases hrot with hrot | hrot
    · have hb := hJ s hs
      exact hne s hs (rotIndex_inj _ _ h0 j _ hj (by omega) (by rw [hrot, hrh s hs]))
    · have := (trackSync_data invgcr hinv d a al stg t h1 h2 herr s hs _ b1 b2 hrot).1
      rw [h8] at this
      exact absurd this (by decide)
  · intro j hj hne h7
    obtain ⟨b1, b2, s, hs, hrot⟩ := trackSync_block invgcr d a al stg t h1 h2 herr (h0 + j)
      (by rw [h7]; decide)
    rcases hrot with hrot | hrot
    · have := (trackSync_header invgcr hinv d a al stg t h1 h2 herr s hs _ b1 b2 hrot).1
      rw [h7] at this
      exact absurd this (by decide)
    · have hb := hJ s hs
      exact hne s hs (rotIndex_inj _ _ h0 j _ hj (by omega) (by
        rw [hrot, ← Nat.add_assoc, hrd s hs 192 (by omega)]))

theorem analyzeTrack_eq (invgcr : Nat → Nat) (hbs dbs : Nat)
    (d : Disk) (a : D64File) (al : Bool) (stg : Nat → Nat) (t : Nat) (h1 : 1 ≤ t) (h2 : t ≤ 42) :
    analyzeTrack invgcr hbs dbs (encodedTrack d a al stg t) t =
      if trackStartOffset invgcr d a al stg t = trackLen t then some (fun _ => ⟨0, 0, 0, 0⟩)
      else if checkSectorBlocks invgcr (trackBuffer d a al stg t)
          (sectorLoopState invgcr hbs dbs (trackBuffer d a al stg t)
            (trackSync invgcr d a al stg t) (trackStartOffset invgcr d a al stg t)
            (trackLen t)).info t then
        some (sectorLoopState invgcr hbs dbs (trackBuffer d a al stg t)
            (trackSync invgcr d a al stg t) (trackStartOffset invgcr d a al stg t)
            (trackLen t)).info
      else none := by
  obtain ⟨hp1, hp2, _, hp4, _⟩ := track_params' t h1 h2
  have hcap : trackLen t ≤ 7928 * 8 := hp2
  have hN : (2 * trackLen t + 2 ^ 32 - 10) % 2 ^ 32 = 2 * trackLen t - 10 := by omega
  have ht : (2 * t - 1 + 1) / 2 = t := by omega
  unfold analyzeTrack analyzeHalftrack
  simp only [encodedTrack_lengthOfHalftrack d a al stg t h1 h2, hN, ht]
  rfl

/-- `analyzeTrack(t)` on an encoded track finds the data block of every sector
of the track, and no other sector. -/
theorem analyzeTrack_encoded (invgcr : Nat → Nat) (hinv : ∀ v, v < 16 → invgcr (bin2gcr v) = v)
    (hbs dbs : Nat)
    (d : Disk) (a : D64File) (al : Bool) (stg : Nat → Nat)
    (t : Nat) (h1 : 1 ≤ t) (h2 : t ≤ 42) (herr : ∀ s, s < numberOfSectorsInTrack t → a.errorCode t s ∉ [2, 3, 4, 5, 9, 0xB]) :
    ∃ info, analyzeTrack invgcr hbs dbs (encodedTrack d a al stg t) t = some info ∧
      (∀ s, s < numberOfSectorsInTrack t →
        (info s).dataBegin = dataBeginOf invgcr d a al stg t s ∧
        (info s).dataEnd = dataBeginOf invgcr d a al stg t s + dbs) ∧
      (∀ s, numberOfSectorsInTrack t ≤ s → (info s).dataBegin = 0 ∧ (info s).dataEnd = 0) := by
  obtain ⟨hp1, _, _, hp4, hn17, hn21, hsec, hsec', _, hfit⟩ := track_params' t h1 h2
  obtain ⟨s1, s2, s3, s4⟩ := trackStartOffset_spec invgcr hinv d a al stg t h1 h2 herr
  obtain ⟨e1, e2, e3, e4⟩ := trackSync_events invgcr hinv d a al stg t h1 h2 herr
  obtain ⟨_, ihb, ihe, idb, ide, _⟩ := sectorLoop_inv invgcr hbs dbs (trackBuffer d a al stg t)
    (trackSync invgcr d a al stg t) (trackLen t) (numberOfSectorsInTrack t) (sectorBits t)
    (firstSector invgcr d a al stg t) (trackStartOffset invgcr d a al stg t) hn21 s3 hfit
    (by omega) (fun s hs => ⟨(e1 s hs).1, (e1 s hs).2.2⟩) (fun s hs => (e2 s hs).1) e3 e4
    (trackLen t) (Nat.le_refl _)
  have hJ := fun s (hs : s < numberOfSectorsInTrack t) =>
    headerIteration_bound (trackLen t) (numberOfSectorsInTrack t) (sectorBits t)
      (firstSector invgcr d a al stg t) s s3 hs hfit
  refine ⟨(sectorLoopState invgcr hbs dbs (trackBuffer d a al stg t)
    (trackSync invgcr d a al stg t) (trackStartOffset invgcr d a al stg t) (trackLen t)).info,
    ?_, ?_, ?_⟩
  · rw [analyzeTrack_eq invgcr hbs dbs d a al stg t h1 h2, if_neg (by omega), if_pos]
    unfold checkSectorBlocks
    rw [List.all_eq_true]
    intro s hs
    rw [List.mem_range] at hs
    have hb := hJ s hs
    have hx := analyzeSectorHeaderBlock_isSome invgcr (trackBuffer d a al stg t) _ (e1 s hs).2.1
    have hy := analyzeSectorDataBlock_isSome invgcr (trackBuffer d a al stg t) _ (e2 s hs).2
    simp only
    rw [ihb s, if_pos ⟨hs, by omega⟩, idb s, if_pos ⟨hs, by omega⟩, hx, hy]
    simp
  · intro s hs
    have hb := hJ s hs
    rw [idb s, if_pos ⟨hs, by omega⟩, ide s, if_pos ⟨hs, by omega⟩]
    exact ⟨rfl, rfl⟩
  · intro s hs
    rw [idb s, if_neg (fun h => by omega), ide s, if_neg (fun h => by omega)]
    exact ⟨rfl, rfl⟩

theorem sectorData_getD (a : D64File) (t s i : Nat) (hi : i < 256) :
    (sectorData a t s).getD i 0 = a.readTrack t s i % 256 := by
  unfold sectorData
  rw [List.getD_eq_getElem _ _ (by simp; exact hi)]
  simp

/-- `decodeSector` at the data block of sector `s` of an encoded track yields
the 256 bytes of the sector. -/
theorem decodeSector_encoded (invgcr : Nat → Nat)
    (hinv : ∀ v, v < 16 → invgcr (bin2gcr v) = v)
    (d : Disk) (a : D64File) (al : Bool) (stg : Nat → Nat)
    (t : Nat) (h1 : 1 ≤ t) (h2 : t ≤ 42) (herr : ∀ s, s < numberOfSectorsInTrack t → a.errorCode t s ∉ [2, 3, 4, 5, 9, 0xB])
    (s : Nat) (hs : s < numberOfSectorsInTrack t) :
    decodeSector invgcr (trackBuffer d a al stg t) (dataBeginOf invgcr d a al stg t s) =
      some (sectorData a t s) := by
  obtain ⟨hp1, _, _, hp4, hn17, hn21, hsec, hsec', _, hfit⟩ := track_params' t h1 h2
  obtain ⟨s1, s2, s3, s4⟩ := trackStartOffset_spec invgcr hinv d a al stg t h1 h2 herr
  obtain ⟨_, e2, _, _⟩ := trackSync_events invgcr hinv d a al stg t h1 h2 herr
  have hb := headerIteration_bound (trackLen t) (numberOfSectorsInTrack t) (sectorBits t)
      (firstSector invgcr d a al stg t) s s3 hs hfit
  have hrd := fun (y : Nat) (hy : 40 + y < sectorBits t) =>
    rotIndex_dataIteration (trackLen t) (numberOfSectorsInTrack t) (sectorBits t)
      (startOfTrack al stg t) (trackStartOffset invgcr d a al stg t)
      (firstSector invgcr d a al stg t) s s3 hs hfit (by omega) s4 y hy
  have h7 : decodeGcr invgcr
      (fun j => trackBuffer d a al stg t (dataBeginOf invgcr d a al stg t s + j)) = 0x07 :=
    (e2 s hs).2
  unfold decodeSector
  rw [if_pos h7]
  refine congrArg some ?_
  unfold sectorData
  apply List.map_congr_left
  intro i hi
  rw [List.mem_range] at hi
  have := decode_block invgcr hinv d a al stg t h1 h2 s hs
    (dataBeginOf invgcr d a al stg t s + 10 + 10 * i) (by unfold dataBeginOf; omega)
    (232 + 10 * (i + 1)) (by omega)
    (by
      unfold dataBeginOf
      rw [show trackStartOffset invgcr d a al stg t +
          (headerIteration (trackLen t) (sectorBits t) (firstSector invgcr d a al stg t) s + 192) +
            10 + 10 * i =
          trackStartOffset invgcr d a al stg t +
            headerIteration (trackLen t) (sectorBits t) (firstSector invgcr d a al stg t) s +
              (192 + 10 + 10 * i) by omega, hrd _ (by omega)]
      omega)
    ((dataBytes a t s).getD (i + 1) 0)
    (fun j hj => layout_data_byte a t s _ (i + 1) j (by omega) hj)
  rw [this, dataBytes_getD_succ a t s i hi, sectorData_getD a t s i hi, Nat.mod_mod]

/-! ### Decoding an encoded track -/

theorem trackBytes_succ (a : D64File) (t n : Nat) :
    trackBytes a t (n + 1) = trackBytes a t n ++ sectorData a t n := by
  unfold trackBytes
  rw [List.range_succ, List.map_append, List.flatten_append]
  simp

/-- `decodeTrack(t, dest)` on an encoded track returns 256 bytes per sector and
writes the bytes of the sectors of the track in their order. -/
theorem decodeTrack_encoded (invgcr : Nat → Nat) (hinv : ∀ v, v < 16 → invgcr (bin2gcr v) = v)
    (hbs dbs : Nat) (hdbs : 0 < dbs)
    (d : Disk) (a : D64File) (al : Bool) (stg : Nat → Nat)
    (t : Nat) (h1 : 1 ≤ t) (h2 : t ≤ 42)
    (herr : ∀ s, s < numberOfSectorsInTrack t → a.errorCode t s ∉ [2, 3, 4, 5, 9, 0xB]) :
    decodeTrack invgcr hbs dbs (encodedTrack d a al stg t) t =
      some (256 * numberOfSectorsInTrack t, trackBytes a t (numberOfSectorsInTrack t)) := by
  obtain ⟨_, _, _, _, _, hn21, _⟩ := track_params' t h1 h2
  obtain ⟨info, hinfo, hin, hout⟩ := analyzeTrack_encoded invgcr hinv hbs dbs d a al stg t h1 h2 herr
  have hfold : ∀ m, m ≤ 21 →
      (List.range m).foldl
        (decodeTrackStep invgcr (trackInfoBit (encodedTrack d a al stg t) (2 * t - 1)) info)
        (some (0, [])) =
      some (256 * min m (numberOfSectorsInTrack t),
        trackBytes a t (min m (numberOfSectorsInTrack t))) := by
    intro m
    induction m with
    | zero =>
      intro _
      rw [Nat.zero_min]
      rfl
    | succ m ih =>
      intro hm
      rw [List.range_succ, List.foldl_append, ih (by omega)]
      simp only [List.foldl_cons, List.foldl_nil, decodeTrackStep]
      by_cases c : m < numberOfSectorsInTrack t
      · obtain ⟨hb, he⟩ := hin m c
        have hdec := decodeSector_encoded invgcr hinv d a al stg t h1 h2 herr m c
        unfold trackBuffer at hdec
        rw [if_pos (by rw [hb, he]; omega), hb, hdec]
        simp only
        rw [Nat.min_eq_left (by omega), Nat.min_eq_left (by omega), trackBytes_succ]
        refine congrArg some (Prod.ext ?_ rfl)
        show 256 * m + 256 = 256 * (m + 1)
        omega
      · obtain ⟨hb, he⟩ := hout m (by omega)
        rw [if_neg (by rw [hb, he]; exact fun h => h rfl),
          Nat.min_eq_right (by omega), Nat.min_eq_right (by omega)]
  unfold decodeTrack
  rw [hinfo]
  simp only
  rw [hfold 21 (Nat.le_refl _), Nat.min_eq_right hn21]

/-- `decodeTrack(t, dest)` looks at the length of halftrack `2 * t - 1` and at the
buffer `trackInfo.bit` only. -/
theorem decodeTrack_congr (invgcr : Nat → Nat) (hbs dbs : Nat) (d d' : Disk) (t : Nat)
    (hlen : d'.lengthOfHalftrack (2 * t - 1) = d.lengthOfHalftrack (2 * t - 1))
    (hbit : trackInfoBit d' (2 * t - 1) = trackInfoBit d (2 * t - 1)) :
    decodeTrack invgcr hbs dbs d' t = decodeTrack invgcr hbs dbs d t := by
  unfold decodeTrack analyzeTrack analyzeHalftrack
  rw [hlen, hbit]

theorem trackInfoBit_congr (d d' : Disk) (t : Nat) (h1 : 1 ≤ t)
    (hlen : d'.lengthOfHalftrack (2 * t - 1) = d.lengthOfHalftrack (2 * t - 1))
    (hdata : ∀ j, j < 7928 → d'.data (t * 15856 + j) = d.data (t * 15856 + j)) :
    trackInfoBit d' (2 * t - 1) = trackInfoBit d (2 * t - 1) := by
  have hb : ∀ k, k < 7928 → d'.halftrackByte (2 * t - 1) k = d.halftrackByte (2 * t - 1) k := by
    intro k hk
    unfold Disk.halftrackByte
    rw [show 7928 + (2 * t - 1) * 7928 + k = t * 15856 + k by omega]
    exact hdata k hk
  funext i
  unfold trackInfoBit
  simp only [hlen]
  have e : ∀ j, (if j < 7928 * 8 then
        (if d'.halftrackByte (2 * t - 1) (j / 8) &&& (0x80 >>> (j % 8)) ≠ 0 then 1 else 0)
      else 0) =
      (if j < 7928 * 8 then
        (if d.halftrackByte (2 * t - 1) (j / 8) &&& (0x80 >>> (j % 8)) ≠ 0 then 1 else 0)
      else 0) := by
    intro j
    by_cases hj : j < 7928 * 8
    · rw [if_pos hj, if_pos hj, hb _ (by omega)]
    · rw [if_neg hj, if_neg hj]
  rw [e, e]

/-! ### Decoding an encoded disk -/

theorem encodeArchive_inv (d : Disk) (a : D64File) (al : Bool) (stg : Nat → Nat)
    (hN : a.numberOfTracks ≤ 42) :
    (encodeArchive d a al stg).length = (assignTrackLengths (clearDisk d)).length ∧
    (∀ j, (∀ t, 1 ≤ t → t ≤ a.numberOfTracks → ¬ (t * 15856 ≤ j ∧ j < t * 15856 + 7928)) →
      (encodeArchive d a al stg).data j = (assignTrackLengths (clearDisk d)).data j) ∧
    (∀ t, 1 ≤ t → t ≤ a.numberOfTracks → ∀ j, j < 7928 →
      (encodeArchive d a al stg).data (t * 15856 + j) =
        (encodedTrack d a al stg t).data (t * 15856 + j)) := by
  rw [encodeArchive_eq]
  exact encodeTracks_inv d a al stg a.numberOfTracks hN

/-- The tracks of the image decode on the encoded disk as they do when encoded
alone. -/
theorem decodeTrack_encodeArchive (invgcr : Nat → Nat) (hbs dbs : Nat)
    (d : Disk) (a : D64File) (al : Bool) (stg : Nat → Nat) (hN : a.numberOfTracks ≤ 42)
    (t : Nat) (h1 : 1 ≤ t) (h2 : t ≤ a.numberOfTracks) :
    decodeTrack invgcr hbs dbs (encodeArchive d a al stg) t =
      decodeTrack invgcr hbs dbs (encodedTrack d a al stg t) t := by
  obtain ⟨i1, _, i3⟩ := encodeArchive_inv d a al stg hN
  have hlen : (encodeArchive d a al stg).lengthOfHalftrack (2 * t - 1) =
      (encodedTrack d a al stg t).lengthOfHalftrack (2 * t - 1) := by
    unfold Disk.lengthOfHalftrack encodedTrack
    rw [i1, writeBits_length]
  exact decodeTrack_congr invgcr hbs dbs _ _ t hlen
    (trackInfoBit_congr _ _ t h1 hlen (i3 t h1 h2))

/-- The tracks of the image are not empty on the encoded disk. -/
theorem trackIsEmpty_encoded (d : Disk) (a : D64File) (al : Bool) (stg : Nat → Nat)
    (hN : a.numberOfTracks ≤ 42) (t : Nat) (h1 : 1 ≤ t) (h2 : t ≤ a.numberOfTracks)
    (herr : ∀ s, s < numberOfSectorsInTrack t → a.errorCode t s ∉ [2, 3, 4, 5, 9, 0xB]) :
    trackIsEmpty (encodeArchive d a al stg) t = false := by
  obtain ⟨hp1, hp2, hp3, _, hn17, _, hsec, _⟩ := track_params' t h1 (by omega)
  obtain ⟨_, _, i3⟩ := encodeArchive_inv d a al stg hN
  have hL := encodedTrack_lengthOfTrack d a al stg t h1 (by omega)
  cases hE : trackIsEmpty (encodeArchive d a al stg) t
  · rfl
  · exfalso
    unfold trackIsEmpty halftrackIsEmpty at hE
    rw [List.all_eq_true] at hE
    have hdata : ∀ j, j < 7928 → (encodedTrack d a al stg t).data (t * 15856 + j) = 0x55 := by
      intro j hj
      have := hE j (List.mem_range.mpr hj)
      unfold Disk.halftrackByte at this
      rw [show 7928 + (2 * t - 1) * 7928 + j = t * 15856 + j by omega, i3 t h1 h2 j hj] at this
      exact of_decide_eq_true this
    have hc := fun x => readBitFromTrack_cleared (encodedTrack d a al stg t) t x
      (by rw [hL]; exact hp1) (by rw [hL]; exact hp2) (by rw [hL]; exact hp3) hdata
    obtain ⟨_, _, b3, _⟩ := track_blocks d a al stg t h1 (by omega) herr 0 (by omega)
    have e0 := b3 40 (by decide) (by decide)
    have e1 := b3 39 (by decide) (by decide)
    rw [Nat.zero_mul, hc] at e0 e1
    split_ifs at e0 e1 with p q
    omega

/-- The tracks behind the last track of the image are empty on the encoded
disk. -/
theorem trackIsEmpty_unused (d : Disk) (a : D64File) (al : Bool) (stg : Nat → Nat)
    (hN : a.numberOfTracks ≤ 42) (t : Nat) (h1 : a.numberOfTracks < t) (h2 : t ≤ 42) :
    trackIsEmpty (encodeArchive d a al stg) t = true := by
  obtain ⟨_, i2, _⟩ := encodeArchive_inv d a al stg hN
  unfold trackIsEmpty halftrackIsEmpty
  rw [List.all_eq_true]
  intro j hj
  rw [List.mem_range] at hj
  unfold Disk.halftrackByte
  rw [i2 _ (fun t' h1' h2' => by omega), assignTrackLengths_data, clearDisk_data,
    if_pos (by omega)]
  rfl

theorem highestNonemptyTrack_encoded (d : Disk) (a : D64File) (al : Bool) (stg : Nat → Nat)
    (hN1 : 1 ≤ a.numberOfTracks) (hN : a.numberOfTracks ≤ 42)
    (herr : ∀ t s, 1 ≤ t → t ≤ a.numberOfTracks → s < numberOfSectorsInTrack t →
      a.errorCode t s ∉ [2, 3, 4, 5, 9, 0xB]) :
    ∀ k, a.numberOfTracks + k ≤ 42 →
      highestNonemptyTrack (encodeArchive d a al stg) (a.numberOfTracks + k) = a.numberOfTracks := by
  intro k
  induction k with
  | zero =>
    intro _
    have hne := trackIsEmpty_encoded d a al stg hN a.numberOfTracks hN1 (Nat.le_refl _)
      (fun s hs => herr _ s hN1 (Nat.le_refl _) hs)
    rw [Nat.add_zero]
    generalize hn : a.numberOfTracks = n at hne hN1
    cases n with
    | zero => omega
    | succ n =>
      show (if trackIsEmpty (encodeArchive d a al stg) (n + 1) then
        highestNonemptyTrack (encodeArchive d a al stg) n else n + 1) = n + 1
      rw [hne]
      rfl
  | succ k ih =>
    intro hk
    have he := trackIsEmpty_unused d a al stg hN (a.numberOfTracks + k + 1) (by omega) (by omega)
    show (if trackIsEmpty (encodeArchive d a al stg) (a.numberOfTracks + k + 1) then
      highestNonemptyTrack (encodeArchive d a al stg) (a.numberOfTracks + k)
      else a.numberOfTracks + k + 1) = a.numberOfTracks
    rw [he, if_pos rfl]
    exact ih (by omega)

/-- `decodeDisk(dest, numTracks)` on the encoded disk, for the number of tracks
of the image. -/
theorem decodeDiskTracks_encoded (invgcr : Nat → Nat)
    (hinv : ∀ v, v < 16 → invgcr (bin2gcr v) = v) (hbs dbs : Nat) (hdbs : 0 < dbs)
    (d : Disk) (a : D64File) (al : Bool) (stg : Nat → Nat) (hN : a.numberOfTracks ≤ 42)
    (herr : ∀ t s, 1 ≤ t → t ≤ a.numberOfTracks → s < numberOfSectorsInTrack t →
      a.errorCode t s ∉ [2, 3, 4, 5, 9, 0xB]) :
    decodeDiskTracks invgcr hbs dbs (encodeArchive d a al stg) a.numberOfTracks =
      some (256 * imageSectors a, imageBytes a) := by
  have hfold : ∀ m, m ≤ a.numberOfTracks →
      (List.range m).foldl (decodeDiskStep invgcr hbs dbs (encodeArchive d a al stg))
        (some ⟨0, [], false⟩) =
      some ⟨256 * ((List.range m).map (fun i => numberOfSectorsInTrack (i + 1))).sum,
        ((List.range m).map (fun i =>
          ((List.range (numberOfSectorsInTrack (i + 1))).map
            (fun s => sectorData a (i + 1) s)).flatten)).flatten, false⟩ := by
    intro m
    induction m with
    | zero =>
      intro _
      rfl
    | succ m ih =>
      intro hm
      rw [List.range_succ, List.foldl_append, ih (by omega)]
      simp only [List.foldl_cons, List.foldl_nil, decodeDiskStep]
      have hne := trackIsEmpty_encoded d a al stg hN (m + 1) (by omega) hm
        (fun s hs => herr _ s (by omega) hm hs)
      have hdec := decodeTrack_encoded invgcr hinv hbs dbs hdbs d a al stg (m + 1) (by omega)
        (by omega) (fun s hs => herr _ s (by omega) hm hs)
      rw [hne, decodeTrack_encodeArchive invgcr hbs dbs d a al stg hN (m + 1) (by omega) hm, hdec]
      simp only [Bool.false_eq_true, if_false, List.map_append, List.map_cons, List.map_nil,
        List.sum_append, List.sum_cons, List.sum_nil, List.flatten_append, List.flatten_cons,
        List.flatten_nil, List.append_nil, Nat.add_zero, Nat.mul_add]
      rfl
  unfold decodeDiskTracks
  rw [hfold _ (Nat.le_refl _)]
  rfl

/-- C2 (D64 round trip). For every D64 image with 35, 40 or 42 tracks in which no
sector carries one of the error codes 2, 3, 4, 5, 9, 0xB, for either value of
`alignTracks` (and any start positions of the aligned tracks) and any disk
before the call, `Disk::encodeArchive(d64, alignTracks)` followed by
`Disk::decodeDisk(dest)` returns 256 times the number of sectors of the image
and fills `dest` with exactly the sector bytes of the image in track/sector
order; no assertion of the analysis or of the decoder fails. -/
theorem d64_round_trip (invgcr : Nat → Nat) (hinv : ∀ v, v < 16 → invgcr (bin2gcr v) = v)
    (headerBlockSize dataBlockSize : Nat) (hdbs : 0 < dataBlockSize)
    (d : Disk) (a : D64File) (alignTracks : Bool) (stagger : Nat → Nat)
    (hN : a.numberOfTracks = 35 ∨ a.numberOfTracks = 40 ∨ a.numberOfTracks = 42)
    (herr : ∀ t s, 1 ≤ t → t ≤ a.numberOfTracks → s < numberOfSectorsInTrack t →
      a.errorCode t s ∉ [2, 3, 4, 5, 9, 0xB]) :
    decodeDisk invgcr headerBlockSize dataBlockSize (encodeArchive d a alignTracks stagger) =
      some (256 * imageSectors a, imageBytes a) := by
  have hN42 : a.numberOfTracks ≤ 42 := by omega
  have hdec := decodeDiskTracks_encoded invgcr hinv headerBlockSize dataBlockSize hdbs d a
    alignTracks stagger hN42 herr
  have hhigh := highestNonemptyTrack_encoded d a alignTracks stagger (by omega) hN42 herr
    (42 - a.numberOfTracks) (by omega)
  rw [show a.numberOfTracks + (42 - a.numberOfTracks) = 42 by omega] at hhigh
  unfold decodeDisk
  simp only [hhigh]
  rcases hN with h | h | h
  · rw [if_pos (by omega), ← h]
    exact hdec
  · rw [if_neg (by omega), if_pos (by omega), ← h]
    exact hdec
  · rw [if_neg (by omega), if_neg (by omega), ← h]
    exact hdec

/-- Witness for C2: the sample image with 35 tracks, encoded with aligned tracks
on a blank disk. -/
theorem d64_round_trip_witness :
    decodeDisk invgcrTable 80 2600 (encodeArchive blankDisk sampleD64 true (fun t => 1000 * t)) =
      some (256 * imageSectors sampleD64, imageBytes sampleD64) :=
  d64_round_trip invgcrTable (by decide) 80 2600 (by decide) blankDisk sampleD64 true
    (fun t => 1000 * t) (Or.inl rfl)
    (fun _ _ _ _ _ => show (1 : Nat) ∉ [2, 3, 4, 5, 9, 0xB] from by decide)

/-! ### CIA: the cycles after a read of the interrupt control register -/

theorem beforeShift_eq_update (c : CIA) : c.beforeShift = c.beforeUpdate.updateIcrAndLine := rfl

theorem land_keep_and (d m b : Nat) (h : m &&& b = b) : (d &&& m) &&& b = d &&& b := by
  rw [Nat.land_assoc, h]

theorem ite_land (p : Prop) [Decidable p] (a b m : Nat) :
    (if p then a else b) &&& m = if p then a &&& m else b &&& m := by
  split_ifs <;> rfl

theorem land_keep_or (d x b : Nat) (h : x &&& b = 0) : (d ||| x) &&& b = d &&& b := by
  rw [Nat.and_distrib_right, h, Nat.or_zero]

theorem timerA_late (c : CIA) (k : Nat) (hk : k ∈ [19, 20, 23, 25, 26, 28, 29]) :
    c.timerA.1.delay &&& 1 <<< k = c.delay &&& 1 <<< k := by
  simp only [List.mem_cons, List.mem_singleton, List.not_mem_nil, or_false] at hk
  simp only [CIA.timerA, CIA.reloadTimerA, CIA.ite_eta, ite_self]
  rcases hk with rfl | rfl | rfl | rfl | rfl | rfl | rfl <;>
    simp (disch := decide) only [ite_land, land_keep_or, land_keep_and, ite_self]

theorem timerA_fields (c : CIA) :
    c.timerA.1.INT = c.INT ∧ c.timerA.1.cpu = c.cpu ∧
    c.timerA.1.icrAck = if c.timerA.2 = true then c.icrAck &&& 0xFE else c.icrAck := by
  simp only [CIA.timerA, CIA.reloadTimerA, CIA.ite_eta, ite_self, true_and]

theorem timerB_late (c : CIA) (k : Nat) (hk : k ∈ [19, 20, 23, 25, 26, 28, 29]) :
    c.timerB.1.delay &&& 1 <<< k = c.delay &&& 1 <<< k := by
  simp only [List.mem_cons, List.mem_singleton, List.not_mem_nil, or_false] at hk
  simp only [CIA.timerB, CIA.reloadTimerB, CIA.ite_eta, ite_self]
  rcases hk with rfl | rfl | rfl | rfl | rfl | rfl | rfl <;>
    simp (disch := decide) only [ite_land, land_keep_or, land_keep_and, ite_self]

theorem timerB_fields (c : CIA) :
    c.timerB.1.INT = c.INT ∧ c.timerB.1.cpu = c.cpu ∧
    c.timerB.1.icrAck = if c.timerB.2 = true then c.icrAck &&& 0xFD else c.icrAck := by
  simp only [CIA.timerB, CIA.reloadTimerB, CIA.ite_eta, ite_self, true_and]

theorem serialRegister_late (c : CIA) (tA : Bool) (k : Nat)
    (hk : k ∈ [19, 20, 23, 25, 26, 28, 29]) :
    (c.serialRegister tA).delay &&& 1 <<< k = c.delay &&& 1 <<< k := by
  simp only [List.mem_cons, List.mem_singleton, List.not_mem_nil, or_false] at hk
  simp only [CIA.serialRegister, CIA.ite_eta, ite_self]
  rcases hk with rfl | rfl | rfl | rfl | rfl | rfl | rfl <;>
    simp (disch := decide) only [ite_land, land_keep_or, land_keep_and, ite_self]

theorem serialRegister_fields (c : CIA) (tA : Bool) :
    (c.serialRegister tA).INT = c.INT ∧ (c.serialRegister tA).cpu = c.cpu ∧
    (c.serialRegister tA).kind = c.kind := by
  simp only [CIA.serialRegister, CIA.ite_eta, ite_self, and_self]

theorem timerOutput_late (c : CIA) (tA tB : Bool) (k : Nat)
    (hk : k ∈ [19, 20, 23, 25, 26, 28, 29]) :
    (c.timerOutput tA tB).delay &&& 1 <<< k = c.delay &&& 1 <<< k := by
  simp only [List.mem_cons, List.mem_singleton, List.not_mem_nil, or_false] at hk
  simp only [CIA.timerOutput, CIA.ite_eta, ite_self]
  rcases hk with rfl | rfl | rfl | rfl | rfl | rfl | rfl <;>
    simp (disch := decide) only [ite_land, land_keep_or, land_keep_and, ite_self]

theorem timerOutput_fields (c : CIA) (tA tB : Bool) :
    (c.timerOutput tA tB).INT = c.INT ∧ (c.timerOutput tA tB).cpu = c.cpu ∧
    (c.timerOutput tA tB).kind = c.kind := by
  simp only [CIA.timerOutput, CIA.ite_eta, ite_self, and_self]

theorem setTimerIcrBits_fields (c : CIA) (tA tB : Bool) :
    (c.setTimerIcrBits tA tB).INT = c.INT ∧ (c.setTimerIcrBits tA tB).cpu = c.cpu ∧
    (c.setTimerIcrBits tA tB).kind = c.kind ∧ (c.setTimerIcrBits tA tB).model = c.model ∧
    (c.setTimerIcrBits tA tB).icrAck = c.icrAck ∧ (c.setTimerIcrBits tA tB).delay = c.delay := by
  simp only [CIA.setTimerIcrBits, CIA.ite_eta, ite_self, and_self]

theorem checkTimerIrq_late (c : CIA) (tA tB : Bool) (k : Nat)
    (hk : k ∈ [20, 23, 25, 26, 28, 29]) :
    (c.checkTimerIrq tA tB).delay &&& 1 <<< k = c.delay &&& 1 <<< k := by
  simp only [List.mem_cons, List.mem_singleton, List.not_mem_nil, or_false] at hk
  simp only [CIA.checkTimerIrq, triggerTimerIrq_eq, CIA.ite_eta, ite_self]
  rcases hk with rfl | rfl | rfl | rfl | rfl | rfl <;> split_ifs <;>
    simp (disch := decide) only [land_keep_or, land_keep_and]

/-- After a read of the ICR (`ReadIcr0` is up), and on a MOS 6526 always, a timer
interrupt enters the pipeline at `SetInt0`: `SetInt1` is left as it is. -/
theorem checkTimerIrq_setInt1 (c : CIA) (tA tB : Bool)
    (h : c.model = .MOS_6526 ∨ c.delay &&& CIAReadIcr0 ≠ 0) :
    (c.checkTimerIrq tA tB).delay &&& CIASetInt1 = c.delay &&& CIASetInt1 := by
  simp only [CIA.checkTimerIrq, triggerTimerIrq_eq, CIA.ite_eta, ite_self]
  have hc : ¬ (c.model = .MOS_8521 ∧ ¬ (c.delay &&& CIAReadIcr0 ≠ 0)) := by
    rintro ⟨h1, h2⟩
    rcases h with h | h
    · rw [h] at h1; exact absurd h1 (by decide)
    · exact h2 h
  rw [if_neg hc]
  split_ifs
  · exact land_keep_or _ _ _ (by decide)
  · rfl

theorem checkTimerIrq_fields (c : CIA) (tA tB : Bool) :
    (c.checkTimerIrq tA tB).INT = c.INT ∧ (c.checkTimerIrq tA tB).cpu = c.cpu ∧
    (c.checkTimerIrq tA tB).kind = c.kind ∧ (c.checkTimerIrq tA tB).model = c.model := by
  simp only [CIA.checkTimerIrq, triggerTimerIrq_eq, CIA.ite_eta, ite_self, and_self]

theorem checkTodIrq_late (c : CIA) (k : Nat) (hk : k ∈ [19, 20, 23, 25, 26, 28, 29]) :
    c.checkTodIrq.delay &&& 1 <<< k = c.delay &&& 1 <<< k := by
  simp only [List.mem_cons, List.mem_singleton, List.not_mem_nil, or_false] at hk
  simp only [CIA.checkTodIrq, CIA.triggerTodIrq, CIA.ite_eta, ite_self]
  rcases hk with rfl | rfl | rfl | rfl | rfl | rfl | rfl <;> split_ifs <;>
    simp (disch := decide) only [land_keep_or, land_keep_and]

theorem checkTodIrq_fields (c : CIA) :
    c.checkTodIrq.INT = c.INT ∧ c.checkTodIrq.cpu = c.cpu ∧ c.checkTodIrq.kind = c.kind ∧
    c.checkTodIrq.model = c.model ∧ c.checkTodIrq.icrAck = c.icrAck := by
  simp only [CIA.checkTodIrq, CIA.triggerTodIrq, CIA.ite_eta, ite_self, and_self]

theorem checkSerialIrq_late (c : CIA) (k : Nat) (hk : k ∈ [19, 20, 23, 25, 26, 28, 29]) :
    c.checkSerialIrq.delay &&& 1 <<< k = c.delay &&& 1 <<< k := by
  simp only [List.mem_cons, List.mem_singleton, List.not_mem_nil, or_false] at hk
  simp only [CIA.checkSerialIrq, CIA.triggerSerialIrq, CIA.ite_eta, ite_self]
  rcases hk with rfl | rfl | rfl | rfl | rfl | rfl | rfl <;> split_ifs <;>
    simp (disch := decide) only [land_keep_or, land_keep_and]

theorem checkSerialIrq_fields (c : CIA) :
    c.checkSerialIrq.INT = c.INT ∧ c.checkSerialIrq.cpu = c.cpu ∧
    c.checkSerialIrq.kind = c.kind ∧ c.checkSerialIrq.model = c.model ∧
    c.checkSerialIrq.icrAck = c.icrAck := by
  simp only [CIA.checkSerialIrq, CIA.triggerSerialIrq, CIA.ite_eta, ite_self, and_self]

theorem wakeUp_fields (c : CIA) :
    c.wakeUp.delay = c.delay ∧ c.wakeUp.INT = c.INT ∧ c.wakeUp.cpu = c.cpu ∧
    c.wakeUp.kind = c.kind ∧ c.wakeUp.model = c.model ∧ c.wakeUp.icrAck = c.icrAck := by
  rw [wakeUp_eq]
  exact ⟨rfl, rfl, rfl, rfl, rfl, rfl⟩

/-- What the sections of a cycle before steps (12) to (14) leave alone: the
interrupt line, and the flags of the delayed clear, acknowledge and release. -/
theorem beforeUpdate_frame (c : CIA) :
    c.beforeUpdate.INT = c.INT ∧ c.beforeUpdate.cpu = c.cpu ∧ c.beforeUpdate.kind = c.kind ∧
    c.beforeUpdate.model = c.model ∧
    (∀ k ∈ [20, 23, 25, 26, 28, 29], c.beforeUpdate.delay &&& 1 <<< k = c.delay &&& 1 <<< k) ∧
    c.beforeUpdate.icrAck =
      (if c.timerBUnderflows = true then
        (if c.timerAUnderflows = true then c.icrAck &&& 0xFE else c.icrAck) &&& 0xFD
       else (if c.timerAUnderflows = true then c.icrAck &&& 0xFE else c.icrAck)) := by
  unfold CIA.beforeUpdate CIA.timerAUnderflows CIA.timerBUnderflows
  dsimp only
  have hw := wakeUp_fields c
  generalize c.wakeUp = w at hw
  have hfa := timerA_frame w
  have hga := timerA_fields w
  have hla := timerA_late w
  generalize w.timerA.2 = tA at hga ⊢
  generalize w.timerA.1 = a at hfa hga hla ⊢
  have hfb := timerB_frame a
  have hgb := timerB_fields a
  have hlb := timerB_late a
  generalize a.timerB.2 = tB at hgb ⊢
  generalize a.timerB.1 = b at hfb hgb hlb ⊢
  have hfs := serialRegister_frame b tA
  have hgs := serialRegister_fields b tA
  have hls := serialRegister_late b tA
  generalize b.serialRegister tA = s at hfs hgs hls
  have hfo := timerOutput_frame s tA tB
  have hgo := timerOutput_fields s tA tB
  have hlo := timerOutput_late s tA tB
  generalize s.timerOutput tA tB = o at hfo hgo hlo
  have hgi := setTimerIcrBits_fields o tA tB
  generalize o.setTimerIcrBits tA tB = i at hgi
  have hft := checkTimerIrq_frame i tA tB
  have hgt := checkTimerIrq_fields i tA tB
  have hlt := checkTimerIrq_late i tA tB
  generalize i.checkTimerIrq tA tB = t at hft hgt hlt
  have hgd := checkTodIrq_fields t
  have hld := checkTodIrq_late t
  generalize t.checkTodIrq = d at hgd hld
  have hge := checkSerialIrq_fields d
  have hle := checkSerialIrq_late d
  generalize d.checkSerialIrq = e at hge hle
  have sub : ∀ k ∈ [20, 23, 25, 26, 28, 29], k ∈ [19, 20, 23, 25, 26, 28, 29] := by decide
  refine ⟨?_, ?_, ?_, ?_, ?_, ?_⟩
  · rw [hge.1, hgd.1, hgt.1, hgi.1, hgo.1, hgs.1, hgb.1, hga.1, hw.2.1]
  · rw [hge.2.1, hgd.2.1, hgt.2.1, hgi.2.1, hgo.2.1, hgs.2.1, hgb.2.1, hga.2.1, hw.2.2.1]
  · rw [hge.2.2.1, hgd.2.2.1, hgt.2.2.1, hgi.2.2.1, hgo.2.2, hgs.2.2, hfb.2.2.2.2, hfa.2.2.2.2.2,
      hw.2.2.2.1]
  · rw [hge.2.2.2.1, hgd.2.2.2.1, hgt.2.2.2, hgi.2.2.2.1, hfo.2.2.2.2.1, hfs.2.2.2.2, hfb.2.1,
      hfa.2.1, hw.2.2.2.2.1]
  · intro k hk
    rw [hle k (sub k hk), hld k (sub k hk), hlt k hk, hgi.2.2.2.2.2, hlo k (sub k hk),
      hls k (sub k hk), hlb k (sub k hk), hla k (sub k hk), hw.1]
  · rw [hge.2.2.2.2, hgd.2.2.2.2, hft.2.1, hgi.2.2.2.2.1, hfo.2.1, hfs.2.1, hgb.2.2, hga.2.2,
      hw.2.2.2.2.2]

/-- In the cycle after a read of the ICR, and on a MOS 6526 always, nothing puts
`SetInt1` into the pipeline before step (14). -/
theorem beforeUpdate_setInt1 (c : CIA) (h : c.model = .MOS_6526 ∨ c.delay &&& CIAReadIcr0 ≠ 0) :
    c.beforeUpdate.delay &&& CIASetInt1 = c.delay &&& CIASetInt1 := by
  unfold CIA.beforeUpdate
  dsimp only
  have hw := wakeUp_fields c
  rw [← hw.1, ← hw.2.2.2.2.1] at h
  rw [← hw.1]
  generalize c.wakeUp = w at h ⊢
  have hfa := timerA_frame w
  have hla := timerA_late w
  generalize w.timerA.2 = tA
  generalize w.timerA.1 = a at hfa hla
  have hfb := timerB_frame a
  have hlb := timerB_late a
  generalize a.timerB.2 = tB
  generalize a.timerB.1 = b at hfb hlb
  have hfs := serialRegister_frame b tA
  have hls := serialRegister_late b tA
  generalize b.serialRegister tA = s at hfs hls
  have hfo := timerOutput_frame s tA tB
  have hlo := timerOutput_late s tA tB
  generalize s.timerOutput tA tB = o at hfo hlo
  have hgi := setTimerIcrBits_fields o tA tB
  generalize o.setTimerIcrBits tA tB = i at hgi
  have hi : i.model = .MOS_6526 ∨ i.delay &&& CIAReadIcr0 ≠ 0 := by
    rw [hgi.2.2.2.1, hfo.2.2.2.2.1, hfs.2.2.2.2, hfb.2.1, hfa.2.1, hgi.2.2.2.2.2]
    show w.model = _ ∨ o.delay &&& 1 <<< 23 ≠ 0
    rw [hlo 23 (by decide), hls 23 (by decide), hlb 23 (by decide), hla 23 (by decide)]
    exact h
  have hlt := checkTimerIrq_setInt1 i tA tB hi
  generalize i.checkTimerIrq tA tB = t at hlt
  have hld := checkTodIrq_late t
  generalize t.checkTodIrq = d at hld
  have hle := checkSerialIrq_late d
  generalize d.checkSerialIrq = e at hle
  show e.delay &&& 1 <<< 19 = w.delay &&& 1 <<< 19
  rw [hle 19 (by decide), hld 19 (by decide)]
  show t.delay &&& CIASetInt1 = _
  rw [hlt, hgi.2.2.2.2.2]
  show o.delay &&& 1 <<< 19 = _
  rw [hlo 19 (by decide), hls 19 (by decide), hlb 19 (by decide), hla 19 (by decide)]

theorem updateIcrAndLine_fields (c : CIA) :
    c.updateIcrAndLine.delay = c.delay ∧ c.updateIcrAndLine.icrAck = c.icrAck ∧
    c.updateIcrAndLine.kind = c.kind ∧ c.updateIcrAndLine.model = c.model := by
  simp only [updateIcrAndLine_eq, CIA.stepClearIcr, CIA.stepAckIcr, CIA.stepSetIcr, CIA.stepSetInt,
    CIA.stepClearInt, pullDownInterruptLine_eq, releaseInterruptLine_eq, CIA.ite_eta, ite_self,
    and_self]

/-- Step (14) with `ClearInt0` up and `SetInt1` down: the line is released. -/
theorem updateIcrAndLine_release (c : CIA) (h19 : c.delay &&& CIASetInt1 = 0)
    (h20 : c.delay &&& CIAClearInt0 ≠ 0) :
    c.updateIcrAndLine.INT = 1 ∧
    (c.kind = .CIA1 → c.updateIcrAndLine.cpu = releaseIrqLine c.cpu .INTSRC_CIA) ∧
    (c.kind = .CIA2 → c.updateIcrAndLine.cpu = releaseNmiLine c.cpu .INTSRC_CIA) := by
  have hm : c.delay &&& (CIAClearIcr1 ||| CIAAckIcr1 ||| CIASetIcr1 ||| CIASetInt1 |||
      CIAClearInt0) ≠ 0 := fun h => h20 (land_of_mask _ _ _ h (by decide))
  rw [updateIcrAndLine_eq, if_pos hm]
  have e : c.stepClearIcr.stepAckIcr.stepSetIcr.delay = c.delay ∧
      c.stepClearIcr.stepAckIcr.stepSetIcr.cpu = c.cpu ∧
      c.stepClearIcr.stepAckIcr.stepSetIcr.kind = c.kind := by
    simp only [CIA.stepClearIcr, CIA.stepAckIcr, CIA.stepSetIcr, CIA.ite_eta, ite_self, and_self]
  generalize c.stepClearIcr.stepAckIcr.stepSetIcr = x at e
  have e2 : x.stepSetInt = x := by
    unfold CIA.stepSetInt
    rw [e.1, if_neg (not_not.mpr h19)]
  rw [e2]
  unfold CIA.stepClearInt
  rw [e.1, if_pos h20, releaseInterruptLine_eq]
  refine ⟨rfl, ?_, ?_⟩
  · intro hk
    show (match x.kind with
      | .CIA1 => releaseIrqLine x.cpu .INTSRC_CIA
      | .CIA2 => releaseNmiLine x.cpu .INTSRC_CIA) = _
    rw [e.2.2, hk, e.2.1]
  · intro hk
    show (match x.kind with
      | .CIA1 => releaseIrqLine x.cpu .INTSRC_CIA
      | .CIA2 => releaseNmiLine x.cpu .INTSRC_CIA) = _
    rw [e.2.2, hk, e.2.1]

/-- Steps (12) and (13) with `ClearIcr1` up: bit 7 of `icr` is cleared, the
acknowledged bits are cleared if `AckIcr1` is up, and bit 7 is set again if
`SetIcr1` is up. -/
theorem updateIcrAndLine_clear (c : CIA) (h26 : c.delay &&& CIAClearIcr1 ≠ 0) :
    c.updateIcrAndLine.icr =
      (if c.delay &&& CIASetIcr1 ≠ 0 then
        (if c.delay &&& CIAAckIcr1 ≠ 0 then (c.icr &&& 0x7F) &&& (0xFF ^^^ c.icrAck)
          else c.icr &&& 0x7F) ||| 0x80
       else
        (if c.delay &&& CIAAckIcr1 ≠ 0 then (c.icr &&& 0x7F) &&& (0xFF ^^^ c.icrAck)
          else c.icr &&& 0x7F)) := by
  have hm : c.delay &&& (CIAClearIcr1 ||| CIAAckIcr1 ||| CIASetIcr1 ||| CIASetInt1 |||
      CIAClearInt0) ≠ 0 := fun h => h26 (land_of_mask _ _ _ h (by decide))
  rw [updateIcrAndLine_eq, if_pos hm]
  simp only [CIA.stepClearIcr, CIA.stepAckIcr, CIA.stepSetIcr, CIA.stepSetInt,
    CIA.stepClearInt, pullDownInterruptLine_eq, releaseInterruptLine_eq, CIA.ite_eta, ite_self,
    h26, if_true, ne_eq, not_false_eq_true]

theorem shiftAndIdle_icrAck (c : CIA) (d f : Nat) :
    (c.shiftAndIdle d f).icrAck = c.icrAck ∧ (c.shiftAndIdle d f).model = c.model := by
  unfold CIA.shiftAndIdle CIA.sleep
  dsimp only
  split_ifs <;> exact ⟨rfl, rfl⟩

/-- The shift at the end of a cycle moves `ClearIcr0` to `ClearIcr1` and `AckIcr0`
to `AckIcr1`. -/
theorem shift_late (d f k : Nat) (hk : k = 25 ∨ k = 28) (h : d &&& 1 <<< k ≠ 0) :
    ((((d <<< 1) % 2 ^ 64) &&& DelayMask) ||| f) &&& 1 <<< (k + 1) ≠ 0 := by
  rw [land_bit_ne_zero] at h ⊢
  have h1 : DelayMask.testBit 26 = true := by decide
  have h2 : DelayMask.testBit 29 = true := by decide
  rcases hk with rfl | rfl
  · simp only [Nat.testBit_lor, Nat.testBit_land, Nat.testBit_mod_two_pow, Nat.testBit_shiftLeft,
      Nat.add_sub_cancel, h, h1]
    simp
  · simp only [Nat.testBit_lor, Nat.testBit_land, Nat.testBit_mod_two_pow, Nat.testBit_shiftLeft,
      Nat.add_sub_cancel, h, h2]
    simp

theorem land_cleared (x m b : Nat) (hb : m &&& b = 0) : (x &&& m) &&& b = 0 := by
  rw [Nat.land_assoc, hb, Nat.and_zero]

/-- The value of `icrAck` two cycles after it was set to 0xFF: an underflow of
timer A clears bit 0, an underflow of timer B clears bit 1. -/
theorem icrAck_bits (a1 b1 a2 b2 : Bool) (k : Nat)
    (hk : k = (if b2 = true then (if a2 = true then
        (if b1 = true then (if a1 = true then 0xFF &&& 0xFE else 0xFF) &&& 0xFD
          else (if a1 = true then 0xFF &&& 0xFE else 0xFF)) &&& 0xFE
        else (if b1 = true then (if a1 = true then 0xFF &&& 0xFE else 0xFF) &&& 0xFD
          else (if a1 = true then 0xFF &&& 0xFE else 0xFF))) &&& 0xFD
      else (if a2 = true then
        (if b1 = true then (if a1 = true then 0xFF &&& 0xFE else 0xFF) &&& 0xFD
          else (if a1 = true then 0xFF &&& 0xFE else 0xFF)) &&& 0xFE
        else (if b1 = true then (if a1 = true then 0xFF &&& 0xFE else 0xFF) &&& 0xFD
          else (if a1 = true then 0xFF &&& 0xFE else 0xFF))))) :
    (0xFF ^^^ k) &&& 0x7C = 0 ∧
    (a1 = false → a2 = false → (0xFF ^^^ k) &&& 0x01 = 0) ∧
    (b1 = false → b2 = false → (0xFF ^^^ k) &&& 0x02 = 0) := by
  subst hk
  cases a1 <;> cases b1 <;> cases a2 <;> cases b2 <;> decide

/-- What `peek(0x0D)` leaves alone, and the flag `ReadIcr0` it sets. -/
theorem peek_icr_frame (env : PortEnv) (c : CIA) :
    (c.peek env 0x0D).2.INT = c.INT ∧ (c.peek env 0x0D).2.cpu = c.cpu ∧
    (c.peek env 0x0D).2.kind = c.kind ∧ (c.peek env 0x0D).2.model = c.model ∧
    (c.peek env 0x0D).2.delay &&& CIAReadIcr0 ≠ 0 := by
  rw [peek_icr_eq, wakeUp_eq]
  refine ⟨rfl, rfl, rfl, rfl, ?_⟩
  have h : CIAReadIcr0 ≠ 0 := by decide
  show (if c.model = .MOS_8521 then _ else _) &&& CIAReadIcr0 ≠ 0
  split_ifs <;> rw [lor_land_self] <;> exact h

/-- The cycle after a read of the ICR: the line is released if `ClearInt0` is up,
and the flags of the delayed clear and acknowledge move on. -/
theorem cycle_after_read (p : CIA) (h19 : p.delay &&& CIASetInt1 = 0)
    (h23 : p.delay &&& CIAReadIcr0 ≠ 0) :
    (p.delay &&& CIAClearInt0 ≠ 0 →
      p.executeOneCycle.INT = 1 ∧
      (p.kind = .CIA1 → p.executeOneCycle.cpu = releaseIrqLine p.cpu .INTSRC_CIA) ∧
      (p.kind = .CIA2 → p.executeOneCycle.cpu = releaseNmiLine p.cpu .INTSRC_CIA)) ∧
    (p.delay &&& CIAClearIcr0 ≠ 0 → p.executeOneCycle.delay &&& CIAClearIcr1 ≠ 0) ∧
    (p.delay &&& CIAAckIcr0 ≠ 0 → p.executeOneCycle.delay &&& CIAAckIcr1 ≠ 0) ∧
    p.executeOneCycle.icrAck =
      (if p.timerBUnderflows = true then
        (if p.timerAUnderflows = true then p.icrAck &&& 0xFE else p.icrAck) &&& 0xFD
       else (if p.timerAUnderflows = true then p.icrAck &&& 0xFE else p.icrAck)) := by
  have hf := beforeUpdate_frame p
  have hs := beforeUpdate_setInt1 p (Or.inr h23)
  have hu := updateIcrAndLine_fields p.beforeUpdate
  have hsh := shiftAndIdle_frame p.beforeShift p.delay p.feed
  have hsa := shiftAndIdle_icrAck p.beforeShift p.delay p.feed
  rw [← executeOneCycle_eq] at hsh hsa
  refine ⟨?_, ?_, ?_, ?_⟩
  · intro h20
    have hr := updateIcrAndLine_release p.beforeUpdate (by rw [hs]; exact h19)
      (by
        show p.beforeUpdate.delay &&& 1 <<< 20 ≠ 0
        rw [hf.2.2.2.2.1 20 (by decide)]
        exact h20)
    rw [← beforeShift_eq_update, hf.2.2.1, hf.2.1] at hr
    rw [hsh.2.2.2.2.2.2.2.1, hsh.2.2.2.2.2.2.2.2]
    exact hr
  · intro h25
    rw [hsh.1]
    refine shift_late _ _ 25 (Or.inl rfl) ?_
    rw [beforeShift_eq_update, hu.1, hf.2.2.2.2.1 25 (by decide)]
    exact h25
  · intro h28
    rw [hsh.1]
    refine shift_late _ _ 28 (Or.inr rfl) ?_
    rw [beforeShift_eq_update, hu.1, hf.2.2.2.2.1 28 (by decide)]
    exact h28
  · rw [hsa.1, beforeShift_eq_update, hu.2.1, hf.2.2.2.2.2]

/-- The cycle in which `ClearIcr1` is up: bit 7 of `icr` ends cleared unless
`SetIcr1` is up in that cycle, and with `AckIcr1` up the bits that `icrAck` holds
end cleared. -/
theorem cycle_of_clear (q : CIA) (h26 : q.delay &&& CIAClearIcr1 ≠ 0) :
    (q.executeOneCycle.icr &&& 0x80 = 0 ↔ q.beforeShift.delay &&& CIASetIcr1 = 0) ∧
    (q.delay &&& CIAAckIcr1 ≠ 0 → ∀ b, b &&& 0x80 = 0 →
      (0xFF ^^^ (if q.timerBUnderflows = true then
        (if q.timerAUnderflows = true then q.icrAck &&& 0xFE else q.icrAck) &&& 0xFD
       else (if q.timerAUnderflows = true then q.icrAck &&& 0xFE else q.icrAck))) &&& b = 0 →
      q.executeOneCycle.icr &&& b = 0) := by
  have hf := beforeUpdate_frame q
  have hu := updateIcrAndLine_fields q.beforeUpdate
  have hsh := shiftAndIdle_frame q.beforeShift q.delay q.feed
  rw [← executeOneCycle_eq] at hsh
  have hc := updateIcrAndLine_clear q.beforeUpdate
    (by
      show q.beforeUpdate.delay &&& 1 <<< 26 ≠ 0
      rw [hf.2.2.2.2.1 26 (by decide)]
      exact h26)
  rw [← beforeShift_eq_update] at hc hu
  rw [← hu.1] at hc
  rw [hsh.2.2.2.2.2.2.1, hc]
  constructor
  · by_cases hS : q.beforeShift.delay &&& CIASetIcr1 ≠ 0
    · rw [if_pos hS, lor_land_self]
      exact ⟨fun h => absurd h (by decide), fun h => absurd h hS⟩
    · rw [if_neg hS]
      refine ⟨fun _ => not_not.mp hS, fun _ => ?_⟩
      split_ifs
      · rw [Nat.land_comm (q.beforeUpdate.icr &&& 0x7F)]
        exact land_cleared _ _ _ (land_cleared _ _ _ (by decide))
      · exact land_cleared _ _ _ (by decide)
  · intro h29 b hb hk
    have h29' : q.beforeShift.delay &&& CIAAckIcr1 ≠ 0 := by
      rw [hu.1]
      show q.beforeUpdate.delay &&& 1 <<< 29 ≠ 0
      rw [hf.2.2.2.2.1 29 (by decide)]
      exact h29
    rw [if_pos h29', hf.2.2.2.2.2]
    have hX := land_cleared (q.beforeUpdate.icr &&& 0x7F) _ b hk
    by_cases hS : q.beforeShift.delay &&& CIASetIcr1 ≠ 0
    · rw [if_pos hS, Nat.and_distrib_right, hX, Nat.land_comm 0x80 b, hb, Nat.or_zero]
    · rw [if_neg hS]
      exact hX

/-- C8 (interrupt acknowledge). On a MOS 6526, `peek(0x0D)` returns the value of
`icr` before the read, leaves bits 0..6 of `icr` cleared, removes `SetInt0` and
`SetInt1` from the pipeline, and schedules `ClearIcr0` and, when the CIA holds
the interrupt line low (`INT == 0`), `ClearInt0`. In the following cycles of
`executeOneCycle()` the schedule is carried out: the first cycle sets `INT = 1`
and releases the interrupt line of the CPU (the IRQ line for CIA 1, the NMI line
for CIA 2) and moves `ClearIcr0` to `ClearIcr1`; the second cycle clears bit 7
of `icr`, which ends that cycle set only if `SetIcr1` is up in it (a new
interrupt). On a MOS 8521 the read leaves `icr` bits 0..4 in place, sets
`icrAck = 0xFF` and schedules `AckIcr0` next to `ClearIcr0`; the line is released
in the first cycle as on the 6526, `AckIcr0` moves to `AckIcr1`, and the second
cycle clears bit 7 as on the 6526 and, by the acknowledge step, bits 2..6 of
`icr`, bit 0 unless timer A underflowed in one of the two cycles, and bit 1
unless timer B did. -/
theorem peek_icr (env : PortEnv) (c : CIA) :
    (c.model = .MOS_6526 →
      (c.peek env 0x0D).1 = c.icr ∧
      (c.peek env 0x0D).2.icr = c.icr &&& 0x80 ∧
      (c.peek env 0x0D).2.icr &&& 0x7F = 0 ∧
      (c.peek env 0x0D).2.delay &&& CIASetInt0 = 0 ∧
      (c.peek env 0x0D).2.delay &&& CIASetInt1 = 0 ∧
      (c.peek env 0x0D).2.delay &&& CIAClearIcr0 ≠ 0 ∧
      (c.INT = 0 → (c.peek env 0x0D).2.delay &&& CIAClearInt0 ≠ 0) ∧
      (c.INT = 0 →
        (c.peek env 0x0D).2.executeOneCycle.INT = 1 ∧
        (c.kind = .CIA1 →
          (c.peek env 0x0D).2.executeOneCycle.cpu = releaseIrqLine c.cpu .INTSRC_CIA) ∧
        (c.kind = .CIA2 →
          (c.peek env 0x0D).2.executeOneCycle.cpu = releaseNmiLine c.cpu .INTSRC_CIA)) ∧
      (c.peek env 0x0D).2.executeOneCycle.delay &&& CIAClearIcr1 ≠ 0 ∧
      ((c.peek env 0x0D).2.executeOneCycle.executeOneCycle.icr &&& 0x80 = 0 ↔
        (c.peek env 0x0D).2.executeOneCycle.beforeShift.delay &&& CIASetIcr1 = 0)) ∧
    (c.model = .MOS_8521 →
      (c.peek env 0x0D).2.icr &&& 0x1F = c.icr &&& 0x1F ∧
      (c.peek env 0x0D).2.icrAck = 0xFF ∧
      (c.peek env 0x0D).2.delay &&& CIASetInt0 = 0 ∧
      (c.peek env 0x0D).2.delay &&& CIASetInt1 = 0 ∧
      (c.peek env 0x0D).2.delay &&& CIAAckIcr0 ≠ 0 ∧
      (c.peek env 0x0D).2.delay &&& CIAClearIcr0 ≠ 0 ∧
      (c.INT = 0 → (c.peek env 0x0D).2.delay &&& CIAClearInt0 ≠ 0) ∧
      (c.INT = 0 →
        (c.peek env 0x0D).2.executeOneCycle.INT = 1 ∧
        (c.kind = .CIA1 →
          (c.peek env 0x0D).2.executeOneCycle.cpu = releaseIrqLine c.cpu .INTSRC_CIA) ∧
        (c.kind = .CIA2 →
          (c.peek env 0x0D).2.executeOneCycle.cpu = releaseNmiLine c.cpu .INTSRC_CIA)) ∧
      (c.peek env 0x0D).2.executeOneCycle.delay &&& CIAClearIcr1 ≠ 0 ∧
      (c.peek env 0x0D).2.executeOneCycle.delay &&& CIAAckIcr1 ≠ 0 ∧
      ((c.peek env 0x0D).2.executeOneCycle.executeOneCycle.icr &&& 0x80 = 0 ↔
        (c.peek env 0x0D).2.executeOneCycle.beforeShift.delay &&& CIASetIcr1 = 0) ∧
      (c.peek env 0x0D).2.executeOneCycle.executeOneCycle.icr &&& 0x7C = 0 ∧
      ((c.peek env 0x0D).2.timerAUnderflows = false →
        (c.peek env 0x0D).2.executeOneCycle.timerAUnderflows = false →
        (c.peek env 0x0D).2.executeOneCycle.executeOneCycle.icr &&& 0x01 = 0) ∧
      ((c.peek env 0x0D).2.timerBUnderflows = false →
        (c.peek env 0x0D).2.executeOneCycle.timerBUnderflows = false →
        (c.peek env 0x0D).2.executeOneCycle.executeOneCycle.icr &&& 0x02 = 0)) := by
  have hfr := peek_icr_frame env c
  have hrel : ∀ (h19 : (c.peek env 0x0D).2.delay &&& CIASetInt1 = 0)
      (h20 : c.INT = 0 → (c.peek env 0x0D).2.delay &&& CIAClearInt0 ≠ 0), c.INT = 0 →
      (c.peek env 0x0D).2.executeOneCycle.INT = 1 ∧
      (c.kind = .CIA1 →
        (c.peek env 0x0D).2.executeOneCycle.cpu = releaseIrqLine c.cpu .INTSRC_CIA) ∧
      (c.kind = .CIA2 →
        (c.peek env 0x0D).2.executeOneCycle.cpu = releaseNmiLine c.cpu .INTSRC_CIA) := by
    intro h19 h20 h0
    have h := (cycle_after_read _ h19 hfr.2.2.2.2).1 (h20 h0)
    rw [hfr.2.1, hfr.2.2.1] at h
    exact h
  constructor
  · intro hm
    obtain ⟨o1, o2, o3, o4, o5, o6, o7⟩ := (peek_icr_read env c).1 hm
    have h1 := cycle_after_read _ o5 hfr.2.2.2.2
    have h2 := cycle_of_clear _ (h1.2.1 o6)
    exact ⟨o1, o2, o3, o4, o5, o6, o7, hrel o5 o7, h1.2.1 o6, h2.1⟩
  · intro hm
    obtain ⟨o1, o2, o3, o4, o5, o6, o7⟩ := (peek_icr_read env c).2 hm
    have h1 := cycle_after_read _ o4 hfr.2.2.2.2
    have h2 := cycle_of_clear _ (h1.2.1 o6)
    have h3 := h2.2 (h1.2.2.1 o5)
    rw [h1.2.2.2, o2] at h3
    have hk := icrAck_bits (c.peek env 0x0D).2.timerAUnderflows
      (c.peek env 0x0D).2.timerBUnderflows
      (c.peek env 0x0D).2.executeOneCycle.timerAUnderflows
      (c.peek env 0x0D).2.executeOneCycle.timerBUnderflows _ rfl
    exact ⟨o1, o2, o3, o4, o5, o6, o7, hrel o4 o7, h1.2.1 o6, h1.2.2.1 o5, h2.1,
      h3 0x7C (by decide) hk.1,
      fun ha1 ha2 => h3 0x01 (by decide) (hk.2.1 ha1 ha2),
      fun hb1 hb2 => h3 0x02 (by decide) (hk.2.2 hb1 hb2)⟩

/-- Witness for C8: a pending timer A interrupt (`icr = 0x81`, line low) is read
on both models; one cycle later the line is released, two cycles later `icr` is
clear. The last part reads the same interrupt on a CIA 2, which holds the NMI
line low. -/
theorem peek_icr_witness :
    (((icrPending .MOS_6526).peek idleEnv 0x0D).1 = 0x81 ∧
      ((icrPending .MOS_6526).peek idleEnv 0x0D).2.icr = 0x80 ∧
      ((icrPending .MOS_6526).peek idleEnv 0x0D).2.delay &&& CIAClearInt0 ≠ 0 ∧
      ((icrPending .MOS_6526).peek idleEnv 0x0D).2.executeOneCycle.INT = 1 ∧
      ((icrPending .MOS_6526).peek idleEnv 0x0D).2.executeOneCycle.cpu =
        releaseIrqLine (icrPending .MOS_6526).cpu .INTSRC_CIA ∧
      ((icrPending .MOS_6526).peek idleEnv 0x0D).2.executeOneCycle.executeOneCycle.icr &&& 0x80
        = 0) ∧
    (((icrPending .MOS_8521).peek idleEnv 0x0D).2.icr &&& 0x1F = 0x01 ∧
      ((icrPending .MOS_8521).peek idleEnv 0x0D).2.icrAck = 0xFF ∧
      ((icrPending .MOS_8521).peek idleEnv 0x0D).2.delay &&& CIAAckIcr0 ≠ 0 ∧
      ((icrPending .MOS_8521).peek idleEnv 0x0D).2.executeOneCycle.INT = 1 ∧
      ((icrPending .MOS_8521).peek idleEnv 0x0D).2.executeOneCycle.cpu =
        releaseIrqLine (icrPending .MOS_8521).cpu .INTSRC_CIA ∧
      ((icrPending .MOS_8521).peek idleEnv 0x0D).2.executeOneCycle.executeOneCycle.icr &&& 0x80
        = 0 ∧
      ((icrPending .MOS_8521).peek idleEnv 0x0D).2.executeOneCycle.executeOneCycle.icr &&& 0x7C
        = 0 ∧
      ((icrPending .MOS_8521).peek idleEnv 0x0D).2.executeOneCycle.executeOneCycle.icr &&& 0x01
        = 0 ∧
      ((icrPending .MOS_8521).peek idleEnv 0x0D).2.executeOneCycle.executeOneCycle.icr &&& 0x02
        = 0) ∧
    (CIA.peek idleEnv { icrPending .MOS_6526 with kind := .CIA2, cpu := ⟨0x01, 0, 1, 0⟩ }
      0x0D).2.executeOneCycle.cpu = releaseNmiLine ⟨0x01, 0, 1, 0⟩ .INTSRC_CIA :=
  ⟨⟨((peek_icr idleEnv (icrPending .MOS_6526)).1 rfl).1,
      ((peek_icr idleEnv (icrPending .MOS_6526)).1 rfl).2.1,
      ((peek_icr idleEnv (icrPending .MOS_6526)).1 rfl).2.2.2.2.2.2.1 rfl,
      (((peek_icr idleEnv (icrPending .MOS_6526)).1 rfl).2.2.2.2.2.2.2.1 rfl).1,
      (((peek_icr idleEnv (icrPending .MOS_6526)).1 rfl).2.2.2.2.2.2.2.1 rfl).2.1 rfl,
      ((peek_icr idleEnv (icrPending .MOS_6526)).1 rfl).2.2.2.2.2.2.2.2.2.mpr
        (by decide)⟩,
    ⟨((peek_icr idleEnv (icrPending .MOS_8521)).2 rfl).1,
      ((peek_icr idleEnv (icrPending .MOS_8521)).2 rfl).2.1,
      ((peek_icr idleEnv (icrPending .MOS_8521)).2 rfl).2.2.2.2.1,
      (((peek_icr idleEnv (icrPending .MOS_8521)).2 rfl).2.2.2.2.2.2.2.1 rfl).1,
      (((peek_icr idleEnv (icrPending .MOS_8521)).2 rfl).2.2.2.2.2.2.2.1 rfl).2.1 rfl,
      ((peek_icr idleEnv (icrPending .MOS_8521)).2 rfl).2.2.2.2.2.2.2.2.2.2.1.mpr
        (by decide),
      ((peek_icr idleEnv (icrPending .MOS_8521)).2 rfl).2.2.2.2.2.2.2.2.2.2.2.1,
      ((peek_icr idleEnv (icrPending .MOS_8521)).2 rfl).2.2.2.2.2.2.2.2.2.2.2.2.1
        (by decide) (by decide),
      ((peek_icr idleEnv (icrPending .MOS_8521)).2 rfl).2.2.2.2.2.2.2.2.2.2.2.2.2
        (by decide) (by decide)⟩,
    (((peek_icr idleEnv
      { icrPending .MOS_6526 with kind := .CIA2, cpu := ⟨0x01, 0, 1, 0⟩ }).1
      rfl).2.2.2.2.2.2.2.1 rfl).2.2 rfl⟩

end VirtualC64
